import Mathlib

/-!
Dose volume histogram logic of SlicerRT.

A shallow embedding of the computational parts of
`DoseVolumeHistogram/Logic/vtkSlicerDoseVolumeHistogramModuleLogic.cxx`.

Conventions of the embedding:

* a C++ `double` is a rational number (`ℚ`); the definitions compute with exact
  arithmetic, and where the rounding of an intermediate result can change a
  comparison or a count the function is given a second time with a rounding
  after every operation (`ComputeDMetric.rounded`, `ComputeDvh.rounded`, with
  `roundDouble` for the rounding of binary64);
* the DVH array (`vtkDoubleArray` with three components per tuple) is a list of
  pairs `(dose, volume percent)`; the third component is the constant `0` and
  is never read by the logic;
* a read outside of an array has no defined result in C++ and is `none` here.
-/

namespace SlicerRT

/-! ## Data model -/

/-- One tuple of the DVH array: component 0 (dose abscissa) and component 1
(cumulative volume percent). -/
abbrev DvhTuple := ℚ × ℚ

/-- Contents of the `vtkDoubleArray` held by a DVH array node. -/
abbrev DvhArray := List DvhTuple

/-- Number of tuples, `vtkDoubleArray::GetNumberOfTuples`. -/
def GetNumberOfTuples (doubleArray : DvhArray) : ℕ := doubleArray.length

/-- Component read `vtkDoubleArray::GetComponent(i, j)` for `j = 0, 1`; `none`
when the tuple index lies outside of the array. -/
def GetComponent (doubleArray : DvhArray) (i : ℕ) (j : ℕ) : Option ℚ :=
  match doubleArray.get? i with
  | none => none
  | some t => if j = 0 then some t.1 else some t.2

/-- What a metric query hands back: the value it returns (or writes to its
table row) and the message given to `vtkErrorMacro`, if there was one. -/
structure MetricReturn (α : Type) where
  value : α
  error : Option String
  deriving DecidableEq, Repr

/-- Result of a computation that reports failure by an error message. -/
inductive Outcome (α : Type) where
  /-- success: the empty message is returned and the output holds `result` -/
  | ok (result : α)
  /-- the non-empty error message `message` is returned -/
  | error (message : String)
  /-- the C++ behaviour is not defined (division by zero, negative array size,
  write outside of an array) -/
  | undefined
  deriving DecidableEq, Repr

/-! ## Masked statistics (`vtkImageAccumulate` with a stencil)

The VTK filter is seen through the multiset of dose values of the voxels that
lie inside the structure stencil (`structureStat` below). -/

/-- Start value of the running minimum in `vtkImageAccumulate`. -/
def VTK_DOUBLE_MAX : ℚ := 10 ^ 299

/-- Start value of the running maximum in `vtkImageAccumulate`. -/
def VTK_DOUBLE_MIN : ℚ := -(10 ^ 299)

/-- Number of voxels inside the stencil, `vtkImageAccumulate::GetVoxelCount`. -/
def GetVoxelCount (structureStat : List ℚ) : ℕ := structureStat.length

/-- Minimum over the stencil, `vtkImageAccumulate::GetMin()[0]`. -/
def GetMin (structureStat : List ℚ) : ℚ :=
  structureStat.foldl (fun m v => if v < m then v else m) VTK_DOUBLE_MAX

/-- Maximum over the stencil, `vtkImageAccumulate::GetMax()[0]`. -/
def GetMax (structureStat : List ℚ) : ℚ :=
  structureStat.foldl (fun m v => if v > m then v else m) VTK_DOUBLE_MIN

/-- Bin index that `vtkImageAccumulate` computes for a voxel value,
`vtkMath::Floor((v - origin) / spacing)`. With a zero spacing the quotient is
infinite or not a number and its conversion to `int` depends on the platform:
`floorOfDivisionByZero` gives that result as a function of the numerator. -/
def binIndex (floorOfDivisionByZero : ℚ → ℤ) (origin spacing v : ℚ) : ℤ :=
  if spacing = 0 then floorOfDivisionByZero (v - origin) else ⌊(v - origin) / spacing⌋

/-- Histogram read `GetOutput()->GetScalarComponentAsDouble(k,0,0,0)` after an
update with component extent `(0, extentMax, 0,0, 0,0)`, component origin
`(origin,0,0)` and component spacing `(spacing,1,1)`: the number of voxels in
the stencil whose bin index is `k`; a voxel whose index is outside of the
extent is not counted, and a read outside of the extent gives 0. -/
def GetScalarComponentAsDouble (floorOfDivisionByZero : ℚ → ℤ) (structureStat : List ℚ)
    (extentMax : ℤ) (origin spacing : ℚ) (k : ℤ) : ℕ :=
  if 0 ≤ k ∧ k ≤ extentMax then
    structureStat.countP (fun v => decide (binIndex floorOfDivisionByZero origin spacing v = k))
  else 0

/-! ## Curve construction (`ComputeDvh` for one structure) -/

/-- Members of `vtkSlicerDoseVolumeHistogramModuleLogic` that steer the binning. -/
structure Logic where
  StartValue : ℚ
  StepSize : ℚ
  NumberOfSamplesForNonDoseVolumes : ℤ
  deriving DecidableEq, Repr

/-- Values set by the constructor of the logic. -/
def Logic.New : Logic :=
  { StartValue := 1 / 10, StepSize := 2 / 10, NumberOfSamplesForNonDoseVolumes := 100 }

/-- The loop `for (int sampleIndex=0; sampleIndex<numSamples; ++sampleIndex)` of
`ComputeDvh`, with `remaining` iterations to go: emits the tuple of the current
sample, then adds the content of its bin to `voxelBelowDose`. -/
def ComputeDvh.sampleLoop (voxelsInBin : ℤ → ℕ) (startValue stepSize : ℚ) (totalVoxels : ℕ) :
    (remaining : ℕ) → (sampleIndex : ℕ) → (voxelBelowDose : ℕ) → DvhArray
  | 0, _, _ => []
  | remaining + 1, sampleIndex, voxelBelowDose =>
    (startValue + sampleIndex * stepSize,
        (1 - (voxelBelowDose : ℚ) / (totalVoxels : ℚ)) * 100)
      :: ComputeDvh.sampleLoop voxelsInBin startValue stepSize totalVoxels remaining
          (sampleIndex + 1) (voxelBelowDose + voxelsInBin sampleIndex)

/-- The variable `startValue` of `ComputeDvh`: the configured start value for
a dose volume, the minimum over the structure otherwise. -/
def ComputeDvh.startValue (self : Logic) (structureStat : List ℚ) (isDoseVolume : Bool) : ℚ :=
  if isDoseVolume then self.StartValue else GetMin structureStat

/-- The variable `numSamples` of `ComputeDvh`:
`(int)ceil((maxDoseGy-startValue)/stepSize) + 1` for a dose volume, the
configured number of samples otherwise. The quotient is the exact one here;
`ComputeDvh.rounded.numSamples` takes the ceiling of the rounded quotient. -/
def ComputeDvh.numSamples (self : Logic) (isDoseVolume : Bool) (maxDoseGy : ℚ) : ℤ :=
  if isDoseVolume then ⌈(maxDoseGy - self.StartValue) / self.StepSize⌉ + 1
  else self.NumberOfSamplesForNonDoseVolumes

/-- The variable `stepSize` of `ComputeDvh`: the configured step size for a dose
volume, `(rangeMax - rangeMin) / (double)(numSamples-1)` otherwise. -/
def ComputeDvh.stepSize (self : Logic) (structureStat : List ℚ) (isDoseVolume : Bool) : ℚ :=
  if isDoseVolume then self.StepSize
  else (GetMax structureStat - GetMin structureStat)
    / ((self.NumberOfSamplesForNonDoseVolumes - 1 : ℤ) : ℚ)

/-- Embedding of the per-structure overload
`ComputeDvh(segmentLabelmap, oversampledDoseVolume, segmentID, maxDoseGy)`, from
the statistics of the stenciled dose volume on: the overlap check, the choice of
the binning, and the filling of the DVH array. `structureStat` holds the dose of
every voxel inside the stencil, `isDoseVolume` is `DoseVolumeContainsDose()`.
The bookkeeping of scene nodes and of the metrics table is not part of this
function. -/
def ComputeDvh (self : Logic) (floorOfDivisionByZero : ℚ → ℤ) (structureStat : List ℚ)
    (isDoseVolume : Bool) (maxDoseGy : ℚ) : Outcome DvhArray :=
  if GetVoxelCount structureStat < 1 then
    .error "Dose volume and the structure do not overlap"
  else
    let rangeMin := GetMin structureStat
    if isDoseVolume ∧ rangeMin < 0 then
      .error "The dose volume contains negative dose values"
    else if (isDoseVolume ∧ self.StepSize = 0)
        ∨ (¬ isDoseVolume ∧ self.NumberOfSamplesForNonDoseVolumes - 1 = 0) then
      -- the divisor of the sample count, respectively of the step size, is zero
      .undefined
    else
      let startValue := ComputeDvh.startValue self structureStat isDoseVolume
      let stepSize := ComputeDvh.stepSize self structureStat isDoseVolume
      let numSamples := ComputeDvh.numSamples self isDoseVolume maxDoseGy
      -- number of voxels with smaller dose than at the start value
      let voxelBelowDose : ℕ :=
        GetScalarComponentAsDouble floorOfDivisionByZero structureStat 1 0 startValue 0
      let insertPointAtOrigin : Bool := if startValue < 0 then false else true
      if numSamples < 0 then
        -- `SetNumberOfTuples` with a negative count, or a write to a missing tuple
        .undefined
      else
        let totalVoxels := GetVoxelCount structureStat
        let origin : DvhArray := if insertPointAtOrigin then [(0, 100)] else []
        let doubleArray : DvhArray := origin ++
          ComputeDvh.sampleLoop
            (GetScalarComponentAsDouble floorOfDivisionByZero structureStat (numSamples - 1)
              startValue stepSize)
            startValue stepSize totalVoxels numSamples.toNat 0 voxelBelowDose
        -- set the start of the first bin to 0 for a dose volume with negative start value
        if isDoseVolume ∧ ¬ insertPointAtOrigin then
          match doubleArray with
          | [] => .undefined
          | first :: rest => .ok ((0, first.2) :: rest)
        else
          .ok doubleArray

/-- The tuples that the sample loop of `ComputeDvh` writes for its inputs. -/
def ComputeDvh.samples (self : Logic) (floorOfDivisionByZero : ℚ → ℤ) (structureStat : List ℚ)
    (isDoseVolume : Bool) (maxDoseGy : ℚ) : DvhArray :=
  ComputeDvh.sampleLoop
    (GetScalarComponentAsDouble floorOfDivisionByZero structureStat
      (ComputeDvh.numSamples self isDoseVolume maxDoseGy - 1)
      (ComputeDvh.startValue self structureStat isDoseVolume)
      (ComputeDvh.stepSize self structureStat isDoseVolume))
    (ComputeDvh.startValue self structureStat isDoseVolume)
    (ComputeDvh.stepSize self structureStat isDoseVolume)
    (GetVoxelCount structureStat)
    (ComputeDvh.numSamples self isDoseVolume maxDoseGy).toNat 0
    (GetScalarComponentAsDouble floorOfDivisionByZero structureStat 1 0
      (ComputeDvh.startValue self structureStat isDoseVolume) 0)

/-! ## D metric (`ComputeDMetric`) -/

/-- The scan `for (int i=0; i<GetNumberOfTuples()-1; ++i)` of `ComputeDMetric`,
started at index `i` with `remaining` iterations to go. The result is the
final `doseForVolume` (initialised to `0.0`, assigned at the first bracketing
interval, where the loop breaks). -/
def ComputeDMetric.scan (doubleArray : DvhArray) (volumeSize structureVolume : ℚ) :
    (remaining : ℕ) → (i : ℕ) → Option ℚ
  | 0, _ => some 0
  | remaining + 1, i => do
    let volumePrevious := (← GetComponent doubleArray i 1) / 100 * structureVolume
    let volumeNext := (← GetComponent doubleArray (i + 1) 1) / 100 * structureVolume
    if volumePrevious > volumeSize ∧ volumeSize ≥ volumeNext then
      let dosePrevious ← GetComponent doubleArray i 0
      let doseNext ← GetComponent doubleArray (i + 1) 0
      let doseEstimated := dosePrevious
        + (doseNext - dosePrevious) * (volumeSize - volumePrevious) / (volumeNext - volumePrevious)
      pure doseEstimated
    else
      ComputeDMetric.scan doubleArray volumeSize structureVolume remaining (i + 1)

/-- Embedding of `vtkSlicerDoseVolumeHistogramModuleLogic::ComputeDMetric`. The
array node pointer may be null (`none`). The volumes are compared as exact
numbers here; `ComputeDMetric.rounded` compares them as the function computes
them, with a rounding after every operation. -/
def ComputeDMetric (dvhArrayNode : Option DvhArray) (volume structureVolume : ℚ)
    (isPercent : Bool) : Option (MetricReturn ℚ) :=
  match dvhArrayNode with
  | none => some ⟨0, some "ComputeDMetric: Invalid DVH array node!"⟩
  | some doubleArray =>
    if isPercent ∧ structureVolume = 0 then
      some ⟨0, some "ComputeDMetric: Invalid structure volume!"⟩
    else do
      let volumeSize := if isPercent then volume * structureVolume / 100 else volume
      let firstPercent ← GetComponent doubleArray 0 1
      if volumeSize ≥ firstPercent / 100 * structureVolume then
        pure ⟨0, none⟩
      else do
        -- the array is not empty here, so `GetNumberOfTuples()-1` is a valid index
        let last := GetNumberOfTuples doubleArray - 1
        let lastPercent ← GetComponent doubleArray last 1
        if volumeSize < lastPercent / 100 * structureVolume then do
          let lastDose ← GetComponent doubleArray last 0
          pure ⟨lastDose, none⟩
        else do
          let doseForVolume ←
            ComputeDMetric.scan doubleArray volumeSize structureVolume last 0
          pure ⟨doseForVolume, none⟩

/-- Body of the loop over the DVH nodes in `ComputeDMetrics`, for one node: the
D metrics written to the table row of the structure (cc thresholds first, then
percent thresholds). With a structure volume of 0 the node is skipped with an
error. -/
def ComputeDMetrics.forDvhNode (doubleArray : DvhArray) (structureVolume : ℚ)
    (volumeValuesCc volumeValuesPercent : List ℚ) : Option (MetricReturn (List ℚ)) :=
  if structureVolume = 0 then
    some ⟨[], some "ComputeDMetrics: Failed to get structure volume for structure"⟩
  else do
    let forCc ← volumeValuesCc.mapM
      (fun v => ComputeDMetric (some doubleArray) v structureVolume false)
    let forPercent ← volumeValuesPercent.mapM
      (fun v => ComputeDMetric (some doubleArray) v structureVolume true)
    pure ⟨(forCc ++ forPercent).map MetricReturn.value, none⟩

/-! ## V metric (`ComputeVMetrics`)

`vtkPiecewiseFunction` is seen through its list of nodes `(X, Y)`, kept sorted
by `X`. Every node made here has midpoint 0.5 and sharpness 0, for which
`GetValue` is the linear interpolation between the two neighbouring nodes. -/

/-- Nodes of a `vtkPiecewiseFunction`. -/
abbrev PiecewiseFunction := List (ℚ × ℚ)

/-- Sorting of the nodes by `X`, `vtkPiecewiseFunction::SortAndUpdateRange`. -/
def SortAndUpdateRange (nodes : PiecewiseFunction) : PiecewiseFunction :=
  nodes.insertionSort (fun a b => a.1 ≤ b.1)

/-- Model of `vtkPiecewiseFunction::BuildFunctionFromTable(xStart, xEnd, size, table)`:
`size` nodes at uniform distance between `xStart` and `xEnd`, carrying the
entries of `table`. -/
def BuildFunctionFromTable (xStart xEnd : ℚ) (size : ℕ) (table : List ℚ) : PiecewiseFunction :=
  let inc : ℚ := if size > 1 then (xEnd - xStart) / ((size : ℚ) - 1) else 0
  SortAndUpdateRange
    ((List.range size).zipWith (fun (i : ℕ) (y : ℚ) => (xStart + inc * (i : ℚ), y)) table)

/-- Model of `vtkPiecewiseFunction::AddPoint(x, y)`: a node already at `x` is
removed, the new node is added and the nodes are sorted again. -/
def AddPoint (nodes : PiecewiseFunction) (x y : ℚ) : PiecewiseFunction :=
  SortAndUpdateRange (nodes.eraseP (fun node => decide (node.1 = x)) ++ [(x, y)])

/-- Evaluation to the right of node `previous`: the remaining nodes are passed
while `x` is beyond them. -/
def GetValue.after : (previous : ℚ × ℚ) → PiecewiseFunction → ℚ → ℚ
  | previous, [], _ => previous.2
  | previous, node :: rest, x =>
    if x > node.1 then GetValue.after node rest x
    else previous.2 + (x - previous.1) / (node.1 - previous.1) * (node.2 - previous.2)

/-- Model of `vtkPiecewiseFunction::GetValue(x)` with clamping switched on:
the value of the first node at or before the first node, the value of the last
node beyond the last node, linear interpolation in between. -/
def GetValue : PiecewiseFunction → ℚ → ℚ
  | [], _ => 0
  | node :: rest, x => if x > node.1 then GetValue.after node rest x else node.2

/-- Body of the loop over the DVH nodes in `ComputeVMetrics`, for one node: the
V metrics written to the table row of the structure, for every dose value the
volume in cc (when shown) followed by the volume in percent (when shown). With
a structure volume of 0 the node is skipped with an error. -/
def ComputeVMetrics.forDvhNode (doubleArray : DvhArray) (structureVolume : ℚ)
    (doseValues : List ℚ) (showVMetricsCc showVMetricsPercent : Bool) :
    Option (MetricReturn (List ℚ)) :=
  if structureVolume = 0 then
    some ⟨[], some "ComputeVMetrics: Failed to get structure volume for structure"⟩
  else do
    -- the table starts from the second point
    let dvhArrayDouble : List ℚ := (doubleArray.drop 1).map Prod.snd
    let xStart ← GetComponent doubleArray 1 0
    let xEnd ← GetComponent doubleArray (GetNumberOfTuples doubleArray - 1) 0
    let interpolator :=
      BuildFunctionFromTable xStart xEnd (GetNumberOfTuples doubleArray - 1) dvhArrayDouble
    -- add first point
    let x0 ← GetComponent doubleArray 0 0
    let y0 ← GetComponent doubleArray 0 1
    let interpolator := AddPoint interpolator x0 y0
    let entries := doseValues.map (fun d =>
      let volumePercentEstimated := GetValue interpolator d
      (if showVMetricsCc then [volumePercentEstimated * structureVolume / 100] else [])
        ++ (if showVMetricsPercent then [volumePercentEstimated] else []))
    pure ⟨entries.flatten, none⟩

/-! ## Vocabulary of the metric claims -/

/-- Dose abscissa of sample `k` of a curve. -/
def doseAt (doubleArray : DvhArray) (k : ℕ) : ℚ := (doubleArray.getD k (0, 0)).1

/-- Cumulative volume percent of sample `k` of a curve. -/
def percentAt (doubleArray : DvhArray) (k : ℕ) : ℚ := (doubleArray.getD k (0, 0)).2

/-- Cumulative volume of sample `k` in cc: `percent(k) / 100 * structureVolume`. -/
def volumeAt (doubleArray : DvhArray) (structureVolume : ℚ) (k : ℕ) : ℚ :=
  percentAt doubleArray k / 100 * structureVolume

/-- The requested volume in cc: a percent threshold is converted with the volume
of the structure, a cc threshold is taken as it is. -/
def requestedVolumeCc (volume structureVolume : ℚ) (isPercent : Bool) : ℚ :=
  if isPercent then volume * structureVolume / 100 else volume

/-- Sample pair `(i, i+1)` brackets the target volume. -/
def Brackets (doubleArray : DvhArray) (structureVolume target : ℚ) (i : ℕ) : Prop :=
  volumeAt doubleArray structureVolume i > target ∧
    target ≥ volumeAt doubleArray structureVolume (i + 1)

/-- Linear interpolation of the dose over the sample pair `(i, i+1)`. -/
def interpolatedDose (doubleArray : DvhArray) (structureVolume target : ℚ) (i : ℕ) : ℚ :=
  doseAt doubleArray i + (doseAt doubleArray (i + 1) - doseAt doubleArray i)
    * (target - volumeAt doubleArray structureVolume i)
    / (volumeAt doubleArray structureVolume (i + 1) - volumeAt doubleArray structureVolume i)

/-- Number of tuples ahead of the sampled bins: the origin anchor is inserted
unless the start value is negative. -/
def anchorCount (startValue : ℚ) : ℕ := if startValue < 0 then 0 else 1

/-- A sample platform behaviour for the index of a zero bin spacing: every such
conversion yields the least `int`. -/
def leastIntOnDivisionByZero : ℚ → ℤ := fun _ => -2147483648

/-! ## Scenario of the uniform dose -/

/-- The dose of the 500 masked voxels of the scenario: 5.0 in every voxel. -/
def uniformDoseStat : List ℚ := List.replicate 500 5

/-- Volume of the structure of the scenario: 500 voxels of 1 mm spacing,
`voxelCount * cubicMMPerVoxel * ccPerCubicMM`. -/
def uniformDoseVolumeCc : ℚ := 500 * (1 * 1 * 1) * (1 / 1000)

/-- The curve of the scenario: the origin anchor, then 26 samples at the
abscissae 0.1, 0.3, .., 5.1, with 100 percent up to 4.9 and 0 percent at 5.1. -/
def uniformDoseCurve : DvhArray :=
  (0, 100) :: (List.range 26).map
    (fun (k : ℕ) => ((1 / 10 : ℚ) + (k : ℚ) * (2 / 10), if k < 25 then (100 : ℚ) else 0))

/-! ## Vocabulary of the V metric claims -/

/-- The abscissae of a curve are uniformly spaced from sample 1 onward. -/
def UniformFromSecond (doubleArray : DvhArray) : Prop :=
  ∃ step : ℚ, ∀ k : ℕ, k + 1 < doubleArray.length →
    doseAt doubleArray (k + 1) = doseAt doubleArray 1 + (k : ℚ) * step

/-- Value at dose `d` of the straight line through the samples `i` and `i+1`. -/
def linearBetween (doubleArray : DvhArray) (i : ℕ) (d : ℚ) : ℚ :=
  percentAt doubleArray i
    + (d - doseAt doubleArray i) / (doseAt doubleArray (i + 1) - doseAt doubleArray i)
      * (percentAt doubleArray (i + 1) - percentAt doubleArray i)

/-- The value `v` is the piecewise linear interpolation through all samples of
the curve at dose `d`, clamped to the percent of the first sample below the
first abscissa and to the percent of the last sample above the last abscissa. -/
def IsClampedInterpolation (doubleArray : DvhArray) (d v : ℚ) : Prop :=
  (d ≤ doseAt doubleArray 0 → v = percentAt doubleArray 0)
  ∧ (doseAt doubleArray (doubleArray.length - 1) ≤ d →
      v = percentAt doubleArray (doubleArray.length - 1))
  ∧ ∀ i, i + 1 < doubleArray.length → doseAt doubleArray i ≤ d →
      d ≤ doseAt doubleArray (i + 1) → v = linearBetween doubleArray i d

/-! ## Scene bookkeeping of `ComputeDvh` (metrics table, DVH array nodes, batch)

The pointer checks at the head of both overloads (scene, parameter node,
segmentation node, dose volume node, image arguments) are taken to pass. -/

/-- Mean over the stencil, `vtkImageAccumulate::GetMean()[0]`: the sum of the
voxel values over the voxel count. -/
def GetMean (structureStat : List ℚ) : ℚ :=
  structureStat.sum / (GetVoxelCount structureStat : ℚ)

/-- Row of the metrics table, restricted to the columns that `ComputeDvh` fills
(`vtkMRMLDoseVolumeHistogramNode::MetricColumn...`); a cell of a blank row
holds nothing. -/
structure MetricsTableRow where
  MetricColumnStructure : Option String
  MetricColumnDoseVolume : Option String
  MetricColumnVolumeCc : Option ℚ
  MetricColumnMeanDose : Option ℚ
  MetricColumnMinDose : Option ℚ
  MetricColumnMaxDose : Option ℚ
  deriving DecidableEq, Repr

/-- The row that `vtkTable::InsertNextBlankRow` appends. -/
def InsertNextBlankRow : MetricsTableRow :=
  { MetricColumnStructure := none, MetricColumnDoseVolume := none, MetricColumnVolumeCc := none,
    MetricColumnMeanDose := none, MetricColumnMinDose := none, MetricColumnMaxDose := none }

/-- DVH array node (`vtkMRMLDoubleArrayNode`), restricted to the attribute
`DVH_TABLE_ROW_ATTRIBUTE_NAME` (the text of an `int`, absent on a node that was
not created by `ComputeDvh`), the attribute `DVH_SEGMENT_ID_ATTRIBUTE_NAME` and
the array itself. The node name, the other attributes and the node references
of the array node are left out. -/
structure DoubleArrayNode where
  tableRow : Option ℤ
  segmentID : Option String
  doubleArray : DvhArray
  deriving DecidableEq, Repr

/-- The part of the MRML scene that `ComputeDvh` works on: the rows of the
table of the metrics table node, and the node references of the metrics table
node to DVH array nodes, by reference role. -/
structure Scene where
  metricsTable : List MetricsTableRow
  nodeReferences : List (String × DoubleArrayNode)
  deriving DecidableEq, Repr

/-- Look-up `metricsTableNode->GetNodeReference(role)`. -/
def Scene.GetNodeReference (scene : Scene) (role : String) : Option DoubleArrayNode :=
  scene.nodeReferences.lookup role

/-- Write through the pointer of the array node that is referenced by `role`. -/
def Scene.updateArrayNode (scene : Scene) (role : String) (arrayNode : DoubleArrayNode) : Scene :=
  { scene with
    nodeReferences := scene.nodeReferences.map
      (fun entry => if entry.1 = role then (role, arrayNode) else entry) }

/-- The image arguments `segmentLabelmap` and `oversampledDoseVolume` of the
per-structure overload, seen through what the function reads of them:
`structureStencil->GetExtent(stencilExtent)` (entries 0 to 5),
`segmentLabelmap->GetSpacing()`, and the dose of every voxel of the oversampled
dose volume that lies inside the stencil. -/
structure StenciledDose where
  stencilExtent : ℤ × ℤ × ℤ × ℤ × ℤ × ℤ
  segmentLabelmapSpacing : ℚ × ℚ × ℚ
  structureStat : List ℚ
  deriving DecidableEq, Repr

/-- Embedding of the per-structure overload
`ComputeDvh(segmentLabelmap, oversampledDoseVolume, segmentID, maxDoseGy)` with
its effect on the scene. The result pairs the returned `std::string` (empty on
success) with the scene at the return; `none` stands for C++ behaviour that is
not defined (`SetValue` outside of the table, or an undefined curve
construction). `AssembleDvhNodeReference` is the method of the parameter node
that names the reference role of a segment, `doseVolumeName` is
`doseVolumeNode->GetName()`, `isDoseVolume` is `DoseVolumeContainsDose()`. The
curve is built by `ComputeDvh`, whose overlap check cannot fail a second time. -/
def ComputeDvh.inScene (self : Logic) (floorOfDivisionByZero : ℚ → ℤ)
    (AssembleDvhNodeReference : String → String) (doseVolumeName : String) (isDoseVolume : Bool)
    (scene : Scene) (images : StenciledDose) (segmentID segmentName : String) (maxDoseGy : ℚ) :
    Option (String × Scene) :=
  let stencilExtent := images.stencilExtent
  if stencilExtent.2.1 - stencilExtent.1 ≤ 0
      ∨ stencilExtent.2.2.2.1 - stencilExtent.2.2.1 ≤ 0
      ∨ stencilExtent.2.2.2.2.2 - stencilExtent.2.2.2.2.1 ≤ 0 then
    some ("Invalid stenciled dose volume", scene)
  -- report error if there are no voxels in the stenciled dose volume
  else if GetVoxelCount images.structureStat < 1 then
    some ("Dose volume and the structure do not overlap", scene)
  else
    let metricsTable := scene.metricsTable
    -- get DVH array node for the inputs; if found, it gets overwritten
    let structureDvhNodeRef := AssembleDvhNodeReference segmentID
    let located : Option (Scene × DoubleArrayNode × ℤ) :=
      match scene.GetNodeReference structureDvhNodeRef with
      | none =>
        let tableRow : ℤ := (metricsTable.length : ℤ)
        let arrayNode : DoubleArrayNode :=
          { tableRow := some tableRow, segmentID := none, doubleArray := [] }
        some ({ metricsTable := metricsTable ++ [InsertNextBlankRow],
                nodeReferences := scene.nodeReferences ++ [(structureDvhNodeRef, arrayNode)] },
              arrayNode, tableRow)
      | some arrayNode =>
        match arrayNode.tableRow with
        | some tableRow => some (scene, arrayNode, tableRow)
        | none => none
    match located with
    | none => some ("Failed to find metrics table row for structure " ++ segmentName, scene)
    | some (scene, arrayNode, tableRow) =>
      let arrayNode : DoubleArrayNode := { arrayNode with segmentID := some segmentID }
      let scene := scene.updateArrayNode structureDvhNodeRef arrayNode
      -- get spacing and voxel volume
      let cubicMMPerVoxel := images.segmentLabelmapSpacing.1 * images.segmentLabelmapSpacing.2.1
        * images.segmentLabelmapSpacing.2.2
      let ccPerCubicMM : ℚ := 1 / 1000
      let volumeCc := (GetVoxelCount images.structureStat : ℚ) * cubicMMPerVoxel * ccPerCubicMM
      if tableRow < 0 ∨ (scene.metricsTable.length : ℤ) ≤ tableRow then
        -- `SetValue` on a row that the table does not have
        none
      else
        -- set default column values
        let scene : Scene :=
          { scene with
            metricsTable := scene.metricsTable.set tableRow.toNat
              { MetricColumnStructure := some segmentName,
                MetricColumnDoseVolume := some doseVolumeName,
                MetricColumnVolumeCc := some volumeCc,
                MetricColumnMeanDose := some (GetMean images.structureStat),
                MetricColumnMinDose := some (GetMin images.structureStat),
                MetricColumnMaxDose := some (GetMax images.structureStat) } }
        -- create DVH plot values
        match ComputeDvh self floorOfDivisionByZero images.structureStat isDoseVolume
            maxDoseGy with
        | .undefined => none
        | .error errorMessage => some (errorMessage, scene)
        | .ok doubleArray =>
          some ("", scene.updateArrayNode structureDvhNodeRef
            { arrayNode with doubleArray := doubleArray })

/-- The step of the segment loop of the batch `ComputeDvh()` that fails before
the per-structure overload is called. -/
inductive GeometryFailure where
  /-- the segment of the copy has no binary labelmap representation -/
  | binaryLabelmap
  /-- `ApplyParentTransformToOrientedImageData` fails on the labelmap -/
  | parentTransform
  /-- resampling of the labelmap to the oversampled dose volume fails -/
  | resampleLabelmap
  /-- resampling of the dose volume to the labelmap geometry fails -/
  | resampleDoseVolume
  deriving DecidableEq, Repr

/-- Error message that the segment loop returns for a failing geometry step. -/
def GeometryFailure.errorMessage : GeometryFailure → String
  | .binaryLabelmap => "Failed to get binary labelmap for segments"
  | .parentTransform => "Failed to apply parent transformation to segment!"
  | .resampleLabelmap => "Failed to resample segment binary labelmap"
  | .resampleDoseVolume => "Failed to resample dose volume"

/-- One entry of the segment map of the segmentation copy: the segment ID, the
segment name, and the outcome of the geometry steps of the loop body (binary
labelmap, parent transform, resampling, padding), which is either the failing
step or the images handed to the per-structure overload. -/
structure SelectedSegment where
  segmentID : String
  segmentName : String
  images : GeometryFailure ⊕ StenciledDose
  deriving DecidableEq, Repr

/-- The loop `for (... segmentIt = segmentMap.begin(); ...)` of the batch
`ComputeDvh()` over the entries of the segment map, in the order of the map.
A non-empty message of a step is returned at once, with the scene as that step
left it. -/
def ComputeDvh.segmentLoop (self : Logic) (floorOfDivisionByZero : ℚ → ℤ)
    (AssembleDvhNodeReference : String → String) (doseVolumeName : String) (isDoseVolume : Bool)
    (maxDose : ℚ) : Scene → List SelectedSegment → Option (String × Scene)
  | scene, [] => some ("", scene)
  | scene, segment :: rest =>
    match segment.images with
    | .inl failure => some (failure.errorMessage, scene)
    | .inr images =>
      -- calculate DVH for current segment
      match ComputeDvh.inScene self floorOfDivisionByZero AssembleDvhNodeReference doseVolumeName
          isDoseVolume scene images segment.segmentID segment.segmentName maxDose with
      | none => none
      | some (errorMessage, scene) =>
        if errorMessage ≠ "" then some (errorMessage, scene)
        else ComputeDvh.segmentLoop self floorOfDivisionByZero AssembleDvhNodeReference
          doseVolumeName isDoseVolume maxDose scene rest

/-- Embedding of the batch overload `ComputeDvh()` from the maximum dose on:
`doseVolumeScalars` holds the voxel values of the dose volume, whose maximum
steers the number of bins, `segments` the segment map of the segmentation copy.
The steps before the segment loop (copy of the segments, conversion to binary
labelmaps, resampling of the dose volume) are taken to succeed. -/
def ComputeDvh.batch (self : Logic) (floorOfDivisionByZero : ℚ → ℤ)
    (AssembleDvhNodeReference : String → String) (doseVolumeName : String) (isDoseVolume : Bool)
    (scene : Scene) (doseVolumeScalars : List ℚ) (segments : List SelectedSegment) :
    Option (String × Scene) :=
  let maxDose := GetMax doseVolumeScalars
  ComputeDvh.segmentLoop self floorOfDivisionByZero AssembleDvhNodeReference doseVolumeName
    isDoseVolume maxDose scene segments

/-- A segment whose labelmap covers no voxel of a 10 x 10 x 10 dose grid. -/
def segmentWithoutOverlap : SelectedSegment :=
  { segmentID := "A", segmentName := "A",
    images := .inr { stencilExtent := (0, 9, 0, 9, 0, 9), segmentLabelmapSpacing := (1, 1, 1),
                     structureStat := [] } }

/-- A segment whose labelmap covers two voxels, of dose 1 and 2, of the same
dose grid. -/
def segmentOfTwoVoxels : SelectedSegment :=
  { segmentID := "B", segmentName := "B",
    images := .inr { stencilExtent := (0, 9, 0, 9, 0, 9), segmentLabelmapSpacing := (1, 1, 1),
                     structureStat := [1, 2] } }

/-! ## Text of the DVH table (`ExportDvhToCsv`, `ReadCsvToDoubleArrayNode`)

A `std::string` is a list of characters, a file is the text it holds; `size_t`
values are natural numbers below `2 ^ 64` with wrapping arithmetic. The
stream insertion and extraction of a `double` are `formatFixed` and
`extractDouble`. -/

/-- Contents of a `std::string`. -/
abbrev Text := List Char

/-- The constant `DVH_ARRAY_NODE_NAME_POSTFIX`. -/
def DVH_ARRAY_NODE_NAME_POSTFIX : Text := "_DvhArray".toList

/-- The constant `DVH_CSV_HEADER_VOLUME_FIELD_MIDDLE`. -/
def DVH_CSV_HEADER_VOLUME_FIELD_MIDDLE : Text := " Value (% of ".toList

/-- The constant `DVH_CSV_HEADER_VOLUME_FIELD_END`. -/
def DVH_CSV_HEADER_VOLUME_FIELD_END : Text := " cc)".toList

/-- The value `std::string::npos`, the largest `size_t`. -/
def npos : ℕ := 2 ^ 64 - 1

/-- Sum of two `size_t` values. -/
def sizeAdd (a b : ℕ) : ℕ := (a + b) % 2 ^ 64

/-- Difference of two `size_t` values, which wraps below zero. -/
def sizeSub (a b : ℕ) : ℕ := (a + (2 ^ 64 - b % 2 ^ 64)) % 2 ^ 64

/-- Search `std::string::find(pattern)` seen from offset `i` of the searched
text: the position of the first occurrence, `npos` when there is none. -/
def findFrom (pattern : Text) : Text → ℕ → ℕ
  | [], i => if pattern = [] then i else npos
  | c :: rest, i => if pattern.isPrefixOf (c :: rest) then i else findFrom pattern rest (i + 1)

/-- Search `s.find(pattern)`. -/
def find (s pattern : Text) : ℕ := findFrom pattern s 0

/-- What leaves a function other than its return value. -/
inductive ReadFailure where
  /-- an exception `std::out_of_range` is thrown -/
  | out_of_range
  /-- memory is read that was never written, or outside of a vector -/
  | indeterminate
  deriving DecidableEq, Repr

/-- Part `s.substr(pos, count)` of a text; throws when `pos` exceeds the size. -/
def substr (s : Text) (pos count : ℕ) : Except ReadFailure Text :=
  if pos > s.length then .error .out_of_range else .ok ((s.drop pos).take count)

/-- Checked element access `v.at(i)` of a `std::vector`. -/
def vectorAt {α : Type} (v : List α) (i : ℕ) : Except ReadFailure α :=
  match v.get? i with
  | some a => .ok a
  | none => .error .out_of_range

/-- Decimal digit character of a number below ten. -/
def digitChar (d : ℕ) : Char := Char.ofNat (48 + d)

/-- Value of a decimal digit character. -/
def digitValue (c : Char) : ℕ := c.toNat - 48

/-- Test for a decimal digit character. -/
def isDigit (c : Char) : Bool := decide (48 ≤ c.toNat ∧ c.toNat ≤ 57)

/-- Test for a character of a number in fixed format: sign, period or digit. -/
def isNumberChar (c : Char) : Bool := c = '-' || c = '.' || isDigit c

/-- Test `std::isspace` in the classic locale. -/
def isSpace (c : Char) : Bool := decide (c.toNat = 32 ∨ (9 ≤ c.toNat ∧ c.toNat ≤ 13))

/-- Decimal digits of a natural number, most significant first, with `fuel`
bounding the number of digits. -/
def natDigitsAux : ℕ → ℕ → Text
  | 0, _ => []
  | fuel + 1, n =>
    if n < 10 then [digitChar n] else natDigitsAux fuel (n / 10) ++ [digitChar (n % 10)]

/-- Decimal digits of a natural number, most significant first. -/
def natDigits (n : ℕ) : Text := natDigitsAux (n + 1) n

/-- The last `width` decimal digits of a natural number, most significant first. -/
def fractionDigits : ℕ → ℕ → Text
  | 0, _ => []
  | width + 1, n => digitChar (n / 10 ^ width % 10) :: fractionDigits width n

/-- Rounding to the nearest integer, a tie going to the even neighbour. -/
def roundHalfEven (q : ℚ) : ℤ :=
  if q - ⌊q⌋ < 1 / 2 then ⌊q⌋
  else if 1 / 2 < q - ⌊q⌋ then ⌊q⌋ + 1
  else if ⌊q⌋ % 2 = 0 then ⌊q⌋ else ⌊q⌋ + 1

/-- The number of `10 ^ (-precision)` units that the text of `x` in fixed
format shows (without the sign). -/
def scaledFixed (precision : ℕ) (x : ℚ) : ℕ := (roundHalfEven (|x| * 10 ^ precision)).toNat

/-- Text of `stream << std::fixed << std::setprecision(precision) << x`: sign,
integer digits, and for a positive precision the decimal point and `precision`
fraction digits. -/
def formatFixed (precision : ℕ) (x : ℚ) : Text :=
  (if x < 0 then ['-'] else [])
    ++ natDigits (scaledFixed precision x / 10 ^ precision)
    ++ (if precision = 0 then []
        else '.' :: fractionDigits precision (scaledFixed precision x % 10 ^ precision))

/-- The number that the text `formatFixed precision x` denotes. -/
def roundTo (precision : ℕ) (x : ℚ) : ℚ :=
  (if x < 0 then -1 else 1) * ((scaledFixed precision x : ℕ) : ℚ) / 10 ^ precision

/-- Number denoted by a sequence of decimal digit characters. -/
def digitsValue (digits : Text) : ℕ := digits.foldl (fun acc c => acc * 10 + digitValue c) 0

/-- Sign in front of a number: whether it is a minus, and the text after it. -/
def extractDouble.signed : Text → Bool × Text
  | [] => (false, [])
  | c :: rest =>
    if c = '-' then (true, rest) else if c = '+' then (false, rest) else (false, c :: rest)

/-- Fraction part of a number: the digits after a decimal point, if the text
starts with one, and the text after them. -/
def extractDouble.fraction : Text → Text × Text
  | [] => ([], [])
  | c :: rest =>
    if c = '.' then (rest.takeWhile isDigit, rest.dropWhile isDigit) else ([], c :: rest)

/-- Exponent part of a number: `some 0` when the text does not start with an
exponent marker, the signed exponent when digits follow the marker, `none`
when the marker stands without digits. -/
def extractDouble.exponent : Text → Option ℤ
  | [] => some 0
  | c :: rest =>
    if c = 'e' ∨ c = 'E' then
      if (extractDouble.signed rest).2.takeWhile isDigit = [] then none
      else if (extractDouble.signed rest).1 then
        some (-((digitsValue ((extractDouble.signed rest).2.takeWhile isDigit) : ℕ) : ℤ))
      else some ((digitsValue ((extractDouble.signed rest).2.takeWhile isDigit) : ℕ) : ℤ)
    else some 0

/-- The parts of the number at the start of a text, as `ss >> doubleValue`
takes them: white space is skipped, then an optional sign, digits, an optional
decimal point with digits, and an optional exponent are taken; what follows is
left in the stream. The result holds whether the sign is a minus, the number
that the digits denote without the decimal point, the number of digits behind
the decimal point, and the exponent; it is `none` when the extraction fails. -/
def extractDouble.scan (s : Text) : Option (Bool × ℕ × ℕ × ℤ) :=
  let signed := extractDouble.signed (s.dropWhile isSpace)
  let integerDigits := signed.2.takeWhile isDigit
  let fraction := extractDouble.fraction (signed.2.dropWhile isDigit)
  if integerDigits = [] ∧ fraction.1 = [] then none
  else
    match extractDouble.exponent fraction.2 with
    | none => none
    | some exponent =>
      some (signed.1, digitsValue (integerDigits ++ fraction.1), fraction.1.length, exponent)

/-- The number with the given sign, digits, number of decimals and exponent. -/
def extractDouble.value (parts : Bool × ℕ × ℕ × ℤ) : ℚ :=
  if parts.1 then -((parts.2.1 : ℚ) / 10 ^ parts.2.2.1 * 10 ^ parts.2.2.2)
  else (parts.2.1 : ℚ) / 10 ^ parts.2.2.1 * 10 ^ parts.2.2.2

/-- Number read by `ss >> doubleValue` from a stream that holds `s`; `none`
when the extraction fails for want of a number. The number is the exact value
of the numeral; a numeral beyond the range of `double`, for which the stream
stores the largest double and sets `failbit`, is told apart by
`extractDouble.checked`. -/
def extractDouble (s : Text) : Option ℚ := (extractDouble.scan s).map extractDouble.value

/-- Cut of a text at a separator character: the fields that are followed by a
separator, in order, and the text after the last separator. Repeating
`pos = s.find(sep)`, `s.substr(0, pos)`, `s = s.substr(pos + 1)` while a
separator is found visits these fields and ends with this rest. -/
def splitLine (sep : Char) : Text → List Text × Text
  | [] => ([], [])
  | c :: rest =>
    if c = sep then ([] :: (splitLine sep rest).1, (splitLine sep rest).2)
    else
      match (splitLine sep rest).1 with
      | [] => ([], c :: (splitLine sep rest).2)
      | field :: fields => ((c :: field) :: fields, (splitLine sep rest).2)

/-! ### Export -/

/-- What `ExportDvhToCsv` reads for one DVH array node: the structure name and
the volume in the metrics table row of the node, and the array of the node. -/
structure ExportedStructure where
  structureName : Text
  volume : ℚ
  doubleArray : DvhArray
  deriving DecidableEq, Repr

/-- The delimiter `(comma ? "," : "\t")`. -/
def ExportDvhToCsv.delimiter (comma : Bool) : Text := if comma then [','] else ['\t']

/-- The variable `maxNumberOfValues` of `ExportDvhToCsv`. -/
def ExportDvhToCsv.maxNumberOfValues (dvhArrayNodes : List ExportedStructure) : ℤ :=
  dvhArrayNodes.foldl
    (fun m dvhArrayNode =>
      if (GetNumberOfTuples dvhArrayNode.doubleArray : ℤ) > m
      then (GetNumberOfTuples dvhArrayNode.doubleArray : ℤ) else m)
    (-1)

/-- Header field of a structure that names the dose column. -/
def ExportDvhToCsv.doseField (doseUnitName : Text) (dvhArrayNode : ExportedStructure) : Text :=
  dvhArrayNode.structureName ++ " Dose (".toList ++ doseUnitName ++ ")".toList

/-- Header field of a structure that names the volume column and holds the
total volume with three decimals. -/
def ExportDvhToCsv.volumeField (dvhArrayNode : ExportedStructure) : Text :=
  dvhArrayNode.structureName ++ DVH_CSV_HEADER_VOLUME_FIELD_MIDDLE
    ++ formatFixed 3 dvhArrayNode.volume ++ DVH_CSV_HEADER_VOLUME_FIELD_END

/-- Header line of `ExportDvhToCsv`, without the line end. -/
def ExportDvhToCsv.header (doseUnitName : Text) (dvhArrayNodes : List ExportedStructure)
    (comma : Bool) : Text :=
  (dvhArrayNodes.map (fun dvhArrayNode =>
    ExportDvhToCsv.doseField doseUnitName dvhArrayNode ++ ExportDvhToCsv.delimiter comma
      ++ ExportDvhToCsv.volumeField dvhArrayNode ++ ExportDvhToCsv.delimiter comma)).flatten

/-- A value cell of `ExportDvhToCsv`: six decimals, and for the tabulator
delimiter the first period replaced by a comma. -/
def ExportDvhToCsv.cell (comma : Bool) (x : ℚ) : Text :=
  if comma then formatFixed 6 x
  else
    let periodPosition := find (formatFixed 6 x) ['.']
    if periodPosition ≠ npos then
      (formatFixed 6 x).take periodPosition ++ [','] ++ (formatFixed 6 x).drop (periodPosition + 1)
    else formatFixed 6 x

/-- The cell of a structure in line `row` of the values, for the dose
(`component = 0`) or the volume percent: empty when the array has no such row. -/
def ExportDvhToCsv.valueCell (comma : Bool) (row : ℕ) (component : ℕ)
    (dvhArrayNode : ExportedStructure) : Text :=
  match dvhArrayNode.doubleArray.get? row with
  | some tuple => ExportDvhToCsv.cell comma (if component = 0 then tuple.1 else tuple.2)
  | none => []

/-- Line `row` of the values of `ExportDvhToCsv`, without the line end. -/
def ExportDvhToCsv.valueLine (dvhArrayNodes : List ExportedStructure) (comma : Bool) (row : ℕ) :
    Text :=
  (dvhArrayNodes.map (fun dvhArrayNode =>
    ExportDvhToCsv.valueCell comma row 0 dvhArrayNode ++ ExportDvhToCsv.delimiter comma
      ++ ExportDvhToCsv.valueCell comma row 1 dvhArrayNode
      ++ ExportDvhToCsv.delimiter comma)).flatten

/-- Embedding of `ExportDvhToCsv`: the text written to the file. The dose unit
name is a pointer that may be null (`none`); streaming a null pointer is not
defined, which makes the result `none` when there is a node to write. The
checks of the scene and of the output file are taken to pass. -/
def ExportDvhToCsv (doseUnitName : Option Text) (dvhArrayNodes : List ExportedStructure)
    (comma : Bool) : Option Text :=
  match doseUnitName, dvhArrayNodes with
  | none, _ :: _ => none
  | none, [] => some ['\n']
  | some unitName, _ =>
    some (ExportDvhToCsv.header unitName dvhArrayNodes comma ++ ['\n']
      ++ ((List.range (ExportDvhToCsv.maxNumberOfValues dvhArrayNodes).toNat).map
          (fun (row : ℕ) => ExportDvhToCsv.valueLine dvhArrayNodes comma row ++ ['\n'])).flatten)

/-! ### Import -/

/-- The lines that the loop `while (dvhStream.getline(line, 16384, '\n'))` hands
to its body: the lines of the file in order, up to the first line that does not
fit into the buffer. -/
def getlines (file : Text) : List Text :=
  ((splitLine '\n' file).1
      ++ (if (splitLine '\n' file).2 = [] then [] else [(splitLine '\n' file).2])).takeWhile
    (fun line => decide (line.length < 16384))

/-- Name and total volume that `ReadCsvToDoubleArrayNode` takes from a header
field that holds a volume, with `middlePosition` the position found for the
marker `DVH_CSV_HEADER_VOLUME_FIELD_MIDDLE`. `failedExtraction` is the value of
the variable `doubleValue` after an extraction that fails. -/
def ReadCsvToDoubleArrayNode.volumeField (failedExtraction : ℚ) (field : Text)
    (middlePosition : ℕ) : Except ReadFailure (Text × ℚ) := do
  -- get the structure's name
  let structureName ← substr field 0
    (sizeSub middlePosition DVH_ARRAY_NODE_NAME_POSTFIX.length)
  -- get the structure's total volume
  let structureVolumeString ← substr field
    (sizeAdd middlePosition DVH_CSV_HEADER_VOLUME_FIELD_MIDDLE.length)
    (sizeSub (sizeSub (sizeSub field.length middlePosition)
      DVH_CSV_HEADER_VOLUME_FIELD_MIDDLE.length) DVH_CSV_HEADER_VOLUME_FIELD_END.length)
  let volumeCCs := (extractDouble structureVolumeString).getD failedExtraction
  pure (structureName, volumeCCs)

/-- The vectors `structureNames` and `structureVolumeCCs` of
`ReadCsvToDoubleArrayNode`, with the counter `fieldCount`. -/
structure HeaderState where
  fieldCount : ℕ
  structureNames : List Text
  structureVolumeCCs : List ℚ
  deriving DecidableEq, Repr

/-- The loop over the fields of the first line that are followed by a
separator: every second field, counted from the second one, gives a name and a
volume. -/
def ReadCsvToDoubleArrayNode.headerLoop (failedExtraction : ℚ) :
    List Text → HeaderState → Except ReadFailure HeaderState
  | [], state => pure state
  | field :: rest, state =>
    if state.fieldCount % 2 = 1 then do
      let entry ← ReadCsvToDoubleArrayNode.volumeField failedExtraction field
        (find field DVH_CSV_HEADER_VOLUME_FIELD_MIDDLE)
      ReadCsvToDoubleArrayNode.headerLoop failedExtraction rest
        { fieldCount := state.fieldCount + 1,
          structureNames := state.structureNames ++ [entry.1],
          structureVolumeCCs := state.structureVolumeCCs ++ [entry.2] }
    else
      ReadCsvToDoubleArrayNode.headerLoop failedExtraction rest
        { state with fieldCount := state.fieldCount + 1 }

/-- Handling of the first line by `ReadCsvToDoubleArrayNode`: the loop over the
fields that are followed by a separator, then the last field, which counts when
it is not empty and holds the volume marker. -/
def ReadCsvToDoubleArrayNode.header (failedExtraction : ℚ) (line : Text) :
    Except ReadFailure HeaderState := do
  let state ← ReadCsvToDoubleArrayNode.headerLoop failedExtraction (splitLine ',' line).1
    { fieldCount := 0, structureNames := [], structureVolumeCCs := [] }
  let lineStr := (splitLine ',' line).2
  if lineStr ≠ [] ∧ find lineStr DVH_CSV_HEADER_VOLUME_FIELD_MIDDLE ≠ npos then do
    let entry ← ReadCsvToDoubleArrayNode.volumeField failedExtraction lineStr
      (find lineStr DVH_CSV_HEADER_VOLUME_FIELD_MIDDLE)
    pure { fieldCount := state.fieldCount + 1,
           structureNames := state.structureNames ++ [entry.1],
           structureVolumeCCs := state.structureVolumeCCs ++ [entry.2] }
  else pure state

/-- Call `doubleArray->InsertTuple(i, tuple)`: the tuple `i` is overwritten or
appended; an insertion further behind leaves tuples that were never written. -/
def InsertTuple (doubleArray : DvhArray) (i : ℕ) (tuple : DvhTuple) :
    Except ReadFailure DvhArray :=
  if i < doubleArray.length then .ok (doubleArray.set i tuple)
  else if i = doubleArray.length then .ok (doubleArray ++ [tuple])
  else .error .indeterminate

/-- The statement `currentDvh.at(structureNumber)->InsertTuple(lineNumber, tuple)`. -/
def ReadCsvToDoubleArrayNode.insert (currentDvh : List DvhArray) (structureNumber lineNumber : ℕ)
    (tuple : DvhTuple) : Except ReadFailure (List DvhArray) := do
  let doubleArray ← vectorAt currentDvh structureNumber
  let doubleArray ← InsertTuple doubleArray lineNumber tuple
  pure (currentDvh.set structureNumber doubleArray)

/-- The loop `while (commaPosition != std::string::npos)` over a line of values,
on the fields of the line that are followed by a separator and the text
`lineStr` after the last separator. One pass takes a dose field and the field
after it, which is `lineStr` when no separator follows; the tuple is inserted
when one of the two numbers is not zero and `commaPosition > 0`, that is, when
the second field is not empty or has no separator after it. -/
def ReadCsvToDoubleArrayNode.valueLoop (failedExtraction : ℚ) (lineNumber : ℕ) (lineStr : Text) :
    List Text → (structureNumber : ℕ) → List DvhArray → Except ReadFailure (List DvhArray)
  | [], _, currentDvh => pure currentDvh
  | [doseField], structureNumber, currentDvh =>
    let doseGy := (extractDouble doseField).getD failedExtraction
    let volumePercent := (extractDouble lineStr).getD failedExtraction
    if doseGy ≠ 0 ∨ volumePercent ≠ 0 then
      ReadCsvToDoubleArrayNode.insert currentDvh structureNumber lineNumber
        (doseGy, volumePercent)
    else pure currentDvh
  | doseField :: volumeField :: rest, structureNumber, currentDvh =>
    let doseGy := (extractDouble doseField).getD failedExtraction
    let volumePercent := (extractDouble volumeField).getD failedExtraction
    if (doseGy ≠ 0 ∨ volumePercent ≠ 0) ∧ volumeField.length > 0 then do
      let currentDvh ← ReadCsvToDoubleArrayNode.insert currentDvh structureNumber lineNumber
        (doseGy, volumePercent)
      ReadCsvToDoubleArrayNode.valueLoop failedExtraction lineNumber lineStr rest
        (structureNumber + 1) currentDvh
    else
      ReadCsvToDoubleArrayNode.valueLoop failedExtraction lineNumber lineStr rest
        (structureNumber + 1) currentDvh

/-- The lines of values, read in order with the counter `lineNumber`. -/
def ReadCsvToDoubleArrayNode.valueLines (failedExtraction : ℚ) :
    List Text → (lineNumber : ℕ) → List DvhArray → Except ReadFailure (List DvhArray)
  | [], _, currentDvh => pure currentDvh
  | line :: rest, lineNumber, currentDvh => do
    let currentDvh ← ReadCsvToDoubleArrayNode.valueLoop failedExtraction lineNumber
      (splitLine ',' line).2 (splitLine ',' line).1 0 currentDvh
    ReadCsvToDoubleArrayNode.valueLines failedExtraction rest (lineNumber + 1) currentDvh

/-- A node of the collection that `ReadCsvToDoubleArrayNode` returns: its array,
the entry of the vector `structureVolumeCCs` that is written to the total
volume attribute (the text of the attribute is
`ImportedNode.totalVolumeAttribute`), the segment ID attribute and the node
name. -/
structure ImportedNode where
  doubleArray : DvhArray
  structureVolumeCC : ℚ
  segmentID : Text
  Name : Text
  deriving DecidableEq, Repr

/-- The loop that wraps the arrays into nodes, from index `structureIndex` on. -/
def ReadCsvToDoubleArrayNode.nodes (state : HeaderState) :
    List DvhArray → (structureIndex : ℕ) → Except ReadFailure (List ImportedNode)
  | [], _ => pure []
  | doubleArray :: rest, structureIndex => do
    let structureVolumeCC ← match state.structureVolumeCCs.get? structureIndex with
      | some volumeCC => Except.ok volumeCC
      | none => Except.error ReadFailure.indeterminate
    let structureName ← vectorAt state.structureNames structureIndex
    let others ← ReadCsvToDoubleArrayNode.nodes state rest (structureIndex + 1)
    pure ({ doubleArray := doubleArray, structureVolumeCC := structureVolumeCC,
            segmentID := structureName,
            Name := structureName ++ DVH_ARRAY_NODE_NAME_POSTFIX } :: others)

/-- Embedding of `ReadCsvToDoubleArrayNode` on the text of the file: the first
line gives the names, the volumes and the number of arrays, every later line a
tuple for each array. The separator is the comma. -/
def ReadCsvToDoubleArrayNode (failedExtraction : ℚ) (file : Text) :
    Except ReadFailure (List ImportedNode) :=
  match getlines file with
  | [] => pure []
  | firstLine :: valueLines => do
    let state ← ReadCsvToDoubleArrayNode.header failedExtraction firstLine
    let currentDvh : List DvhArray := List.replicate (state.fieldCount / 2) []
    let currentDvh ← ReadCsvToDoubleArrayNode.valueLines failedExtraction valueLines 0 currentDvh
    ReadCsvToDoubleArrayNode.nodes state currentDvh 0

/-- Tuple that reading back the text of a tuple with six decimals gives. -/
def roundTuple (tuple : DvhTuple) : DvhTuple := (roundTo 6 tuple.1, roundTo 6 tuple.2)

/-- Test `doseGy != 0.0 || volumePercent != 0.0` of the reader on the numbers
that the text of a tuple with six decimals denotes. -/
def ReadCsvToDoubleArrayNode.inserts (tuple : DvhTuple) : Bool :=
  decide (roundTo 6 tuple.1 ≠ 0 ∨ roundTo 6 tuple.2 ≠ 0)

/-- The node that `ReadCsvToDoubleArrayNode` makes of a structure written by
`ExportDvhToCsv` with the comma delimiter, when no tuple that passes the test
of the reader follows one that fails it: the array holds the tuples that pass
the test, the name is cut out of the volume field of the header in front of the
position `middlePosition - DVH_ARRAY_NODE_NAME_POSTFIX.size()`. -/
def ReadCsvToDoubleArrayNode.ofExported (failedExtraction : ℚ)
    (dvhArrayNode : ExportedStructure) : ImportedNode :=
  let field := ExportDvhToCsv.volumeField dvhArrayNode
  let middlePosition := find field DVH_CSV_HEADER_VOLUME_FIELD_MIDDLE
  let structureName := field.take (sizeSub middlePosition DVH_ARRAY_NODE_NAME_POSTFIX.length)
  { doubleArray :=
      (dvhArrayNode.doubleArray.filter ReadCsvToDoubleArrayNode.inserts).map roundTuple,
    structureVolumeCC := (extractDouble
      ((field.drop (sizeAdd middlePosition DVH_CSV_HEADER_VOLUME_FIELD_MIDDLE.length)).take
        (sizeSub (sizeSub (sizeSub field.length middlePosition)
          DVH_CSV_HEADER_VOLUME_FIELD_MIDDLE.length)
          DVH_CSV_HEADER_VOLUME_FIELD_END.length))).getD failedExtraction,
    segmentID := structureName,
    Name := structureName ++ DVH_ARRAY_NODE_NAME_POSTFIX }

/-- No tuple that the reader inserts follows a tuple that it leaves out. -/
def ReadCsvToDoubleArrayNode.NoGap (doubleArray : DvhArray) : Prop :=
  ∀ (i j : ℕ) (first second : DvhTuple), i < j → doubleArray.get? i = some first →
    doubleArray.get? j = some second → ReadCsvToDoubleArrayNode.inserts second = true →
    ReadCsvToDoubleArrayNode.inserts first = true

/-- Two arrays have the same number of tuples, and their doses and volume
percents differ by no more than the tolerance. -/
def SameWithin (tolerance : ℚ) (original imported : DvhArray) : Prop :=
  imported.length = original.length
    ∧ ∀ k, k < original.length →
      |doseAt imported k - doseAt original k| ≤ tolerance
        ∧ |percentAt imported k - percentAt original k| ≤ tolerance

/-- A structure named PTV of 0.5 cc, with a curve of two tuples. -/
def exportedPTV : ExportedStructure :=
  { structureName := "PTV".toList, volume := 1 / 2, doubleArray := [(0, 100), (51 / 10, 0)] }

/-- A structure with a name of sixteen characters, of 25 cc, with a curve of
two tuples. -/
def exportedLeftParotidGland : ExportedStructure :=
  { structureName := "LeftParotidGland".toList, volume := 25,
    doubleArray := [(0, 100), (51 / 10, 0)] }

/-- A structure whose curve ends with a tuple of dose 0 and 0 percent. -/
def exportedEndingAtZero : ExportedStructure :=
  { structureName := "PTV".toList, volume := 1 / 2, doubleArray := [(-1, 100), (0, 0)] }

/-! ## Vocabulary of the row invariant of the metrics table -/

/-- Number of structures of the scene that have a computed DVH curve: the DVH
array nodes referenced by the metrics table node whose array holds a tuple. -/
def Scene.computedCurves (scene : Scene) : ℕ :=
  scene.nodeReferences.countP (fun entry => decide (entry.2.doubleArray ≠ []))

/-! ### Layout of the exported table, after the specification -/

/-- Maximum curve length across all structures, 0 when there is none. -/
def ExportLayout.maxCurveLength (dvhArrayNodes : List ExportedStructure) : ℕ :=
  (dvhArrayNodes.map (fun dvhArrayNode => dvhArrayNode.doubleArray.length)).foldr max 0

/-- A text with every decimal point replaced by a comma. -/
def ExportLayout.decimalComma (s : Text) : Text := s.map (fun c => if c = '.' then ',' else c)

/-- The delimiter character: the comma, or the tabulator. -/
def ExportLayout.delimiter (comma : Bool) : Char := if comma then ',' else '\t'

/-- The cell of a curve in data row `row`, for the dose (`component = 0`) or
the percent: the value of sample `row` with 6 decimal digits when `row` is
below the length of the curve, with the decimal point replaced by a comma for
the tabulator delimiter; empty otherwise. -/
def ExportLayout.cell (comma : Bool) (doubleArray : DvhArray) (row component : ℕ) : Text :=
  if row < doubleArray.length then
    if comma then
      formatFixed 6 (if component = 0 then doseAt doubleArray row else percentAt doubleArray row)
    else
      ExportLayout.decimalComma (formatFixed 6
        (if component = 0 then doseAt doubleArray row else percentAt doubleArray row))
  else []

/-! ## Metric strings and metric columns (`GetNumbersFromMetricString`,
`IsVMetricName`, the columns of `ComputeVMetrics`)

The metrics table is seen through the list of its column names, in column
order; `AddColumn` appends a name. -/

/-- Call `v.clear()` of a `std::vector`. -/
def vectorClear {α : Type} (_v : List α) : List α := []

/-- Least magnitude that the conversion of a numeral to `double` rounds to
infinity: half way between the largest double `2^1024 - 2^971` and `2^1024`. -/
def doubleOverflowThreshold : ℚ := 2 ^ 1024 - 2 ^ 970

/-- Extraction `ss >> num` followed by the test `ss.fail()`: the number read, or
`none` when the failure state is set. The state is set when no number can be
taken (see `extractDouble`) and also when the numeral is beyond the range of
`double` (the conversion gives infinity; the stream then stores the largest
double and sets `failbit`). For a numeral below the range of the normal
doubles the libraries differ; as in the GNU library, it does not fail here. -/
def extractDouble.checked (s : Text) : Option ℚ :=
  match extractDouble s with
  | none => none
  | some num => if doubleOverflowThreshold ≤ |num| then none else some num

/-- The handling of one token by `GetNumbersFromMetricString`: the number that
the extraction gives is appended to the vector; when the extraction fails
(`ss.fail()`) a warning is logged and the vector is left as it is. -/
def GetNumbersFromMetricString.token (metricNumbers : List ℚ) (token : Text) : List ℚ :=
  match extractDouble.checked token with
  | none => metricNumbers
  | some num => metricNumbers ++ [num]

/-- Embedding of `GetNumbersFromMetricString`: the vector `metricNumbers` at the
return. The loop `while (commaPosition != std::string::npos)` takes the texts
in front of each comma in turn; what is left after the last comma is taken
when it is not empty. -/
def GetNumbersFromMetricString (metricStr : Text) (metricNumbers : List ℚ) : List ℚ :=
  let metricNumbers := vectorClear metricNumbers
  let metricNumbers :=
    (splitLine ',' metricStr).1.foldl GetNumbersFromMetricString.token metricNumbers
  let metricStr := (splitLine ',' metricStr).2
  if metricStr ≠ [] then GetNumbersFromMetricString.token metricNumbers metricStr
  else metricNumbers

/-- Number read by `stream >> intValue` from a stream that holds `s`: white
space is skipped, then an optional sign and digits are taken; `none` when the
extraction fails, for want of a digit or for a value outside of the range of
`int`. -/
def extractInt (s : Text) : Option ℤ :=
  let signed := extractDouble.signed (s.dropWhile isSpace)
  let digits := signed.2.takeWhile isDigit
  if digits = [] then none
  else
    let value : ℤ :=
      if signed.1 then -((digitsValue digits : ℕ) : ℤ) else ((digitsValue digits : ℕ) : ℤ)
    if value < -2147483648 ∨ 2147483647 < value then none else some value

/-- Embedding of `IsVMetricName`: the name is not empty, its first character is
a `V`, and the extraction of an `int` from its second character succeeds (the
text `name.substr(1,1)` is empty for a name of one character). -/
def IsVMetricName (name : Text) : Bool :=
  if name = [] then false
  -- first character needs to be a 'V'
  else if name.take 1 ≠ ['V'] then false
  -- if second character is a number, then we consider it a V metric
  else (extractInt ((name.drop 1).take 1)).isSome

/-- Digits without the zeros at their end. -/
def stripTrailingZeros (digits : Text) : Text :=
  (digits.reverse.dropWhile (fun c => decide (c = '0'))).reverse

/-- The six significant digits of a positive number, as a natural number of six
digits, and its decimal exponent, after rounding: the number is shown as
`d.ddddd` times ten to the exponent. -/
def formatGeneral.significant (a : ℚ) : ℕ × ℤ :=
  if (roundHalfEven (a / 10 ^ (Int.log 10 a - 5))).toNat = 10 ^ 6 then
    (10 ^ 5, Int.log 10 a + 1)
  else ((roundHalfEven (a / 10 ^ (Int.log 10 a - 5))).toNat, Int.log 10 a)

/-- The decimal point and the digits behind it, when there are any. -/
def formatGeneral.fraction (digits : Text) : Text :=
  if stripTrailingZeros digits = [] then [] else '.' :: stripTrailingZeros digits

/-- Text of `stream << x` for a `double` and a stream with its default flags
(precision 6, neither `fixed` nor `scientific`), the format `%g`: six
significant digits without zeros at the end, in scientific form when the
decimal exponent is below -4 or at least 6. The rationals have one zero: the
double `-0.0`, which a stream writes as `-0`, has no counterpart here. -/
def formatGeneral (x : ℚ) : Text :=
  (if x < 0 then ['-'] else [])
    ++ (if x = 0 then ['0']
      else if (formatGeneral.significant |x|).2 < -4 ∨ 6 ≤ (formatGeneral.significant |x|).2 then
        (fractionDigits 6 (formatGeneral.significant |x|).1).take 1
          ++ formatGeneral.fraction ((fractionDigits 6 (formatGeneral.significant |x|).1).drop 1)
          ++ ['e', if (formatGeneral.significant |x|).2 < 0 then '-' else '+']
          ++ (if (formatGeneral.significant |x|).2.natAbs < 10 then ['0'] else [])
          ++ natDigits (formatGeneral.significant |x|).2.natAbs
      else if 0 ≤ (formatGeneral.significant |x|).2 then
        (fractionDigits 6 (formatGeneral.significant |x|).1).take
            ((formatGeneral.significant |x|).2.toNat + 1)
          ++ formatGeneral.fraction ((fractionDigits 6 (formatGeneral.significant |x|).1).drop
              ((formatGeneral.significant |x|).2.toNat + 1))
      else
        ['0', '.'] ++ List.replicate ((formatGeneral.significant |x|).2.natAbs - 1) '0'
          ++ stripTrailingZeros (fractionDigits 6 (formatGeneral.significant |x|).1))

/-- Names of the columns that `InitializeMetricsTable` gives to an empty
table; `doseUnitName` is the dose unit of the study of the dose volume, absent
for a volume that is not a dose (`AssembleDoseMetricName`). -/
def InitializeMetricsTable (doseUnitName : Option Text) : List Text :=
  let valueType : Text :=
    match doseUnitName with
    | some unitName => "dose".toList ++ " (".toList ++ unitName ++ ")".toList
    | none => "intensity".toList
  ["Show".toList, "Structure".toList, "Volume name".toList, "Volume (cc)".toList,
    "Mean ".toList ++ valueType, "Min ".toList ++ valueType, "Max ".toList ++ valueType]

/-- One pass of the loop `for (int col=0; ...)` of the removal in
`ComputeVMetrics`: the first column whose name is that of a V metric is removed. -/
def ComputeVMetrics.removeFirst : List Text → List Text
  | [] => []
  | columnName :: rest =>
    if IsVMetricName columnName then rest else columnName :: ComputeVMetrics.removeFirst rest

/-- The loop `do ... while (numberOfColumnsBeforeRemoval != GetNumberOfColumns())`
of `ComputeVMetrics`, with `passes` bounding the number of passes. -/
def ComputeVMetrics.removeLoop : (passes : ℕ) → List Text → List Text
  | 0, columns => columns
  | passes + 1, columns =>
    if columns.length ≠ (ComputeVMetrics.removeFirst columns).length then
      ComputeVMetrics.removeLoop passes (ComputeVMetrics.removeFirst columns)
    else ComputeVMetrics.removeFirst columns

/-- Names of the columns that `ComputeVMetrics` adds for the dose values: for
every value the column of the volume in cc (when shown), then the column of the
volume in percent (when shown). -/
def ComputeVMetrics.newColumns (doseValues : List ℚ) (showVMetricsCc showVMetricsPercent : Bool) :
    List Text :=
  doseValues.flatMap (fun doseValue =>
    (if showVMetricsCc then ["V".toList ++ formatGeneral doseValue ++ " (cc)".toList] else [])
      ++ (if showVMetricsPercent
          then ["V".toList ++ formatGeneral doseValue ++ " (%)".toList] else []))

/-- Embedding of `ComputeVMetrics` as far as the columns of the metrics table
go: the names of the columns at the return, for the names `columns` at the call
and the text `doseValuesStr` of the dose values. Every pass of the removal loop
but the last removes a column, so one pass more than there are columns lets the
loop end by its own test. -/
def ComputeVMetrics.columns (columns : List Text) (doseValuesStr : Text)
    (showVMetricsCc showVMetricsPercent : Bool) : List Text :=
  -- remove all V metrics from the table
  let columns := ComputeVMetrics.removeLoop (columns.length + 1) columns
  -- if no V metrics need to be shown then exit
  if ¬ showVMetricsCc ∧ ¬ showVMetricsPercent then columns
  else
    columns ++ ComputeVMetrics.newColumns (GetNumbersFromMetricString doseValuesStr [])
      showVMetricsCc showVMetricsPercent

/-- A text made of tokens and commas: every token followed by a comma, or the
tokens with a comma between each two of them. -/
def commaJoined (tokens : List Text) (trailingComma : Bool) : Text :=
  if trailingComma then (tokens.map (fun token => token ++ [','])).flatten
  else [','].intercalate tokens

/-! ## Double arithmetic

The definitions above compute with exact rationals. Where the rounding of an
intermediate result can change a comparison or a count, the functions are
given once more with a rounding function `fl` applied to the result of every
arithmetic operation, in the order in which C++ evaluates the expression (every
operation on `double` rounds its exact result, binary64 evaluation without
fused operations). `fl = roundDouble` is the arithmetic of the program; with
`fl = id` the definitions are the exact ones. -/

/-- Rounding of an exact result to `double` (IEEE 754 binary64, round to
nearest, ties to even): the result has 53 significant bits. The exponent is not
bounded here: overflow to infinity (magnitudes from `2^1024 - 2^970` on) and
gradual underflow (magnitudes below `2^-1022`) are not part of this function. -/
def roundDouble (x : ℚ) : ℚ :=
  if x = 0 then 0
  else (if x < 0 then -1 else 1)
    * ((roundHalfEven (|x| / 2 ^ (Int.log 2 |x| - 52)) : ℤ) : ℚ) * 2 ^ (Int.log 2 |x| - 52)

/-- The scan of `ComputeDMetric` (see `ComputeDMetric.scan`) with the rounding
`fl` after every operation. -/
def ComputeDMetric.rounded.scan (fl : ℚ → ℚ) (doubleArray : DvhArray)
    (volumeSize structureVolume : ℚ) : (remaining : ℕ) → (i : ℕ) → Option ℚ
  | 0, _ => some 0
  | remaining + 1, i => do
    let volumePrevious := fl (fl ((← GetComponent doubleArray i 1) / 100) * structureVolume)
    let volumeNext := fl (fl ((← GetComponent doubleArray (i + 1) 1) / 100) * structureVolume)
    if volumePrevious > volumeSize ∧ volumeSize ≥ volumeNext then
      let dosePrevious ← GetComponent doubleArray i 0
      let doseNext ← GetComponent doubleArray (i + 1) 0
      let doseEstimated := fl (dosePrevious
        + fl (fl (fl (doseNext - dosePrevious) * fl (volumeSize - volumePrevious))
            / fl (volumeNext - volumePrevious)))
      pure doseEstimated
    else
      ComputeDMetric.rounded.scan fl doubleArray volumeSize structureVolume remaining (i + 1)

/-- Embedding of `vtkSlicerDoseVolumeHistogramModuleLogic::ComputeDMetric` with
the rounding `fl` after every operation: `volume * structureVolume / 100.0` is
`fl (fl (volume * structureVolume) / 100)`, and
`GetComponent(i, 1) / 100.0 * structureVolume` is
`fl (fl (percent / 100) * structureVolume)`. -/
def ComputeDMetric.rounded (fl : ℚ → ℚ) (dvhArrayNode : Option DvhArray)
    (volume structureVolume : ℚ) (isPercent : Bool) : Option (MetricReturn ℚ) :=
  match dvhArrayNode with
  | none => some ⟨0, some "ComputeDMetric: Invalid DVH array node!"⟩
  | some doubleArray =>
    if isPercent ∧ structureVolume = 0 then
      some ⟨0, some "ComputeDMetric: Invalid structure volume!"⟩
    else do
      let volumeSize := if isPercent then fl (fl (volume * structureVolume) / 100) else volume
      let firstPercent ← GetComponent doubleArray 0 1
      if volumeSize ≥ fl (fl (firstPercent / 100) * structureVolume) then
        pure ⟨0, none⟩
      else do
        let last := GetNumberOfTuples doubleArray - 1
        let lastPercent ← GetComponent doubleArray last 1
        if volumeSize < fl (fl (lastPercent / 100) * structureVolume) then do
          let lastDose ← GetComponent doubleArray last 0
          pure ⟨lastDose, none⟩
        else do
          let doseForVolume ←
            ComputeDMetric.rounded.scan fl doubleArray volumeSize structureVolume last 0
          pure ⟨doseForVolume, none⟩

/-- The requested volume in cc as `ComputeDMetric` computes it: for a percent
threshold `volume * structureVolume / 100.0`, rounded after the product and
after the quotient. -/
def requestedVolumeCc.rounded (fl : ℚ → ℚ) (volume structureVolume : ℚ) (isPercent : Bool) : ℚ :=
  if isPercent then fl (fl (volume * structureVolume) / 100) else volume

/-- Cumulative volume of sample `k` in cc as `ComputeDMetric` computes it:
`GetComponent(k, 1) / 100.0 * structureVolume`, rounded after the quotient and
after the product. -/
def volumeAt.rounded (fl : ℚ → ℚ) (doubleArray : DvhArray) (structureVolume : ℚ) (k : ℕ) : ℚ :=
  fl (fl (percentAt doubleArray k / 100) * structureVolume)

/-- The `double` nearest to 0.119 (a structure of 119 cubic millimetres). -/
def doubleOf0119 : ℚ := 535928355657089 / 4503599627370496

/-- The curve of the scenario of the full volume: the whole structure receives
dose 1, half of it dose 3, nothing dose 5. -/
def plateauCurve : DvhArray := [(0, 100), (1, 100), (3, 50), (5, 0)]

/-- Values set by the constructor of the logic in the arithmetic with rounding
`fl`: the literals `0.1` and `0.2` stand for the doubles nearest to them. -/
def Logic.New.rounded (fl : ℚ → ℚ) : Logic :=
  { StartValue := fl (1 / 10), StepSize := fl (2 / 10), NumberOfSamplesForNonDoseVolumes := 100 }

/-- Bin index of `vtkImageAccumulate` (see `binIndex`) with the rounding `fl`
after the difference and after the quotient. -/
def binIndex.rounded (fl : ℚ → ℚ) (floorOfDivisionByZero : ℚ → ℤ) (origin spacing v : ℚ) : ℤ :=
  if spacing = 0 then floorOfDivisionByZero (fl (v - origin))
  else ⌊fl (fl (v - origin) / spacing)⌋

/-- Histogram read (see `GetScalarComponentAsDouble`) with the bin indices of
`binIndex.rounded`. -/
def GetScalarComponentAsDouble.rounded (fl : ℚ → ℚ) (floorOfDivisionByZero : ℚ → ℤ)
    (structureStat : List ℚ) (extentMax : ℤ) (origin spacing : ℚ) (k : ℤ) : ℕ :=
  if 0 ≤ k ∧ k ≤ extentMax then
    structureStat.countP
      (fun v => decide (binIndex.rounded fl floorOfDivisionByZero origin spacing v = k))
  else 0

/-- The sample loop of `ComputeDvh` (see `ComputeDvh.sampleLoop`) with the
rounding `fl` after every operation: the abscissa
`startValue + sampleIndex * stepSize` is `fl (startValue + fl (sampleIndex * stepSize))`,
the percent `(1.0-(double)voxelBelowDose/(double)totalVoxels)*100.0` is
`fl (fl (1 - fl (voxelBelowDose / totalVoxels)) * 100)`. -/
def ComputeDvh.rounded.sampleLoop (fl : ℚ → ℚ) (voxelsInBin : ℤ → ℕ) (startValue stepSize : ℚ)
    (totalVoxels : ℕ) : (remaining : ℕ) → (sampleIndex : ℕ) → (voxelBelowDose : ℕ) → DvhArray
  | 0, _, _ => []
  | remaining + 1, sampleIndex, voxelBelowDose =>
    (fl (startValue + fl (sampleIndex * stepSize)),
        fl (fl (1 - fl ((voxelBelowDose : ℚ) / (totalVoxels : ℚ))) * 100))
      :: ComputeDvh.rounded.sampleLoop fl voxelsInBin startValue stepSize totalVoxels remaining
          (sampleIndex + 1) (voxelBelowDose + voxelsInBin sampleIndex)

/-- The variable `numSamples` of `ComputeDvh` with the rounding `fl`:
`(int)ceil( (maxDoseGy-startValue)/stepSize ) + 1` takes the ceiling of the
rounded quotient of the rounded difference (the ceiling of a double is exact,
and the conversion to `int` is taken as exact). -/
def ComputeDvh.rounded.numSamples (fl : ℚ → ℚ) (self : Logic) (isDoseVolume : Bool)
    (maxDoseGy : ℚ) : ℤ :=
  if isDoseVolume then ⌈fl (fl (maxDoseGy - self.StartValue) / self.StepSize)⌉ + 1
  else self.NumberOfSamplesForNonDoseVolumes

/-- The variable `stepSize` of `ComputeDvh` with the rounding `fl`:
`(rangeMax - rangeMin) / (double)(numSamples-1)` for a volume that does not
hold dose. -/
def ComputeDvh.rounded.stepSize (fl : ℚ → ℚ) (self : Logic) (structureStat : List ℚ)
    (isDoseVolume : Bool) : ℚ :=
  if isDoseVolume then self.StepSize
  else fl (fl (GetMax structureStat - GetMin structureStat)
    / ((self.NumberOfSamplesForNonDoseVolumes - 1 : ℤ) : ℚ))

/-- Embedding of the per-structure `ComputeDvh` (see `ComputeDvh`) with the
rounding `fl` after every operation on doubles. -/
def ComputeDvh.rounded (fl : ℚ → ℚ) (self : Logic) (floorOfDivisionByZero : ℚ → ℤ)
    (structureStat : List ℚ) (isDoseVolume : Bool) (maxDoseGy : ℚ) : Outcome DvhArray :=
  if GetVoxelCount structureStat < 1 then
    .error "Dose volume and the structure do not overlap"
  else
    let rangeMin := GetMin structureStat
    if isDoseVolume ∧ rangeMin < 0 then
      .error "The dose volume contains negative dose values"
    else if (isDoseVolume ∧ self.StepSize = 0)
        ∨ (¬ isDoseVolume ∧ self.NumberOfSamplesForNonDoseVolumes - 1 = 0) then
      -- the divisor of the sample count, respectively of the step size, is zero
      .undefined
    else
      let startValue := ComputeDvh.startValue self structureStat isDoseVolume
      let stepSize := ComputeDvh.rounded.stepSize fl self structureStat isDoseVolume
      let numSamples := ComputeDvh.rounded.numSamples fl self isDoseVolume maxDoseGy
      -- number of voxels with smaller dose than at the start value
      let voxelBelowDose : ℕ :=
        GetScalarComponentAsDouble.rounded fl floorOfDivisionByZero structureStat 1 0
          startValue 0
      let insertPointAtOrigin : Bool := if startValue < 0 then false else true
      if numSamples < 0 then
        -- `SetNumberOfTuples` with a negative count, or a write to a missing tuple
        .undefined
      else
        let totalVoxels := GetVoxelCount structureStat
        let origin : DvhArray := if insertPointAtOrigin then [(0, 100)] else []
        let doubleArray : DvhArray := origin ++
          ComputeDvh.rounded.sampleLoop fl
            (GetScalarComponentAsDouble.rounded fl floorOfDivisionByZero structureStat
              (numSamples - 1) startValue stepSize)
            startValue stepSize totalVoxels numSamples.toNat 0 voxelBelowDose
        -- set the start of the first bin to 0 for a dose volume with negative start value
        if isDoseVolume ∧ ¬ insertPointAtOrigin then
          match doubleArray with
          | [] => .undefined
          | first :: rest => .ok ((0, first.2) :: rest)
        else
          .ok doubleArray

/-- The double nearest to 0.1, the start value set by the constructor. -/
def doubleOf01 : ℚ := 3602879701896397 / 36028797018963968

/-- The double nearest to 0.2, the step size set by the constructor. -/
def doubleOf02 : ℚ := 3602879701896397 / 18014398509481984

/-- The double nearest to 1.1. -/
def doubleOf11 : ℚ := 2476979795053773 / 2251799813685248

/-- The double that follows the double nearest to 3.7 (3.7000000000000006). -/
def doubleAbove37 : ℚ := 8331659310635419 / 2251799813685248

/-- The double nearest to 3.7. -/
def doubleOf37 : ℚ := 4165829655317709 / 1125899906842624

/-! ### Numerals of a metric string, after the specification -/

/-- A decimal numeral of a number: an optional minus sign, at least one digit,
and optionally a decimal point followed by digits. The number is the value of
the digits in front of the point plus the value of the `k` digits behind it
divided by `10^k`, with the sign. -/
def IsDecimalNumeral (token : Text) (number : ℚ) : Prop :=
  ∃ (negative : Bool) (integer fraction : Text),
    integer ≠ [] ∧ (∀ c ∈ integer, isDigit c = true) ∧ (∀ c ∈ fraction, isDigit c = true)
    ∧ ((token = (if negative then ['-'] else []) ++ integer ∧ fraction = [])
      ∨ token = (if negative then ['-'] else []) ++ integer ++ '.' :: fraction)
    ∧ number = (if negative then -1 else 1)
        * ((digitsValue integer : ℚ) + (digitsValue fraction : ℚ) / 10 ^ fraction.length)

/-- What a token of a metric string stands for: `some number` for the decimal
numeral of a number within the range of `double` (zero, or a magnitude from
the least normal double `2^-1022` up to the overflow threshold), `none` for a
token without a comma from which no number can be extracted. -/
def TokenYields (token : Text) : Option ℚ → Prop
  | some number => IsDecimalNumeral token number ∧ |number| < doubleOverflowThreshold
      ∧ (number = 0 ∨ 1 / 2 ^ 1022 ≤ |number|)
  | none => ',' ∉ token ∧ extractDouble.checked token = none

/-- The fields that the header loop of `ReadCsvToDoubleArrayNode` reads as
volume fields, among the fields that are followed by a separator: those met
while `fieldCount` is odd. -/
def ReadCsvToDoubleArrayNode.volumeFields : (fieldCount : ℕ) → List Text → List Text
  | _, [] => []
  | fieldCount, field :: rest =>
    if fieldCount % 2 = 1 then
      field :: ReadCsvToDoubleArrayNode.volumeFields (fieldCount + 1) rest
    else ReadCsvToDoubleArrayNode.volumeFields (fieldCount + 1) rest

/-- Name and volume that `ReadCsvToDoubleArrayNode` takes from a header field
that holds a volume (see `ReadCsvToDoubleArrayNode.volumeField`), when `substr`
does not throw: the parts of the field cut at the position found for the
marker, which is `npos` when the marker is absent. -/
def ReadCsvToDoubleArrayNode.entryOf (failedExtraction : ℚ) (field : Text) : Text × ℚ :=
  (field.take (sizeSub (find field DVH_CSV_HEADER_VOLUME_FIELD_MIDDLE)
      DVH_ARRAY_NODE_NAME_POSTFIX.length),
    (extractDouble
      ((field.drop (sizeAdd (find field DVH_CSV_HEADER_VOLUME_FIELD_MIDDLE)
          DVH_CSV_HEADER_VOLUME_FIELD_MIDDLE.length)).take
        (sizeSub (sizeSub (sizeSub field.length (find field DVH_CSV_HEADER_VOLUME_FIELD_MIDDLE))
          DVH_CSV_HEADER_VOLUME_FIELD_MIDDLE.length)
          DVH_CSV_HEADER_VOLUME_FIELD_END.length))).getD failedExtraction)

/-- The text of the table that `ExportDvhToCsv` writes with the comma
delimiter, but with `headerLine` in the place of its first line. -/
def ExportDvhToCsv.withHeader (headerLine : Text) (dvhArrayNodes : List ExportedStructure) :
    Text :=
  ((headerLine :: (List.range' 0 (ExportDvhToCsv.maxNumberOfValues dvhArrayNodes).toNat).map
      (fun (row : ℕ) => ExportDvhToCsv.valueLine dvhArrayNodes true row)).map
    (fun line => line ++ ['\n'])).flatten

/-! ## Lemmas on array reads and on the D metric scan -/

theorem GetComponent_dose (doubleArray : DvhArray) (i : ℕ) (h : i < doubleArray.length) :
    GetComponent doubleArray i 0 = some (doseAt doubleArray i) := by
  simp [GetComponent, doseAt, List.getD, List.getElem?_eq_getElem h]

theorem GetComponent_percent (doubleArray : DvhArray) (i : ℕ) (h : i < doubleArray.length) :
    GetComponent doubleArray i 1 = some (percentAt doubleArray i) := by
  simp [GetComponent, percentAt, List.getD, List.getElem?_eq_getElem h]

/-- The scan returns the interpolation over the first bracketing pair at or
after its start index, when there is one within its range. -/
theorem scan_first_bracket (doubleArray : DvhArray) (structureVolume target : ℚ) :
    ∀ (remaining i j : ℕ), i + remaining < doubleArray.length → i ≤ j → j < i + remaining →
      Brackets doubleArray structureVolume target j →
      (∀ k, i ≤ k → k < j → ¬ Brackets doubleArray structureVolume target k) →
      ComputeDMetric.scan doubleArray target structureVolume remaining i
        = some (interpolatedDose doubleArray structureVolume target j) := by
  intro remaining
  induction remaining with
  | zero =>
    intro i j _ hij hj
    omega
  | succ r ih =>
    intro i j hlen hij hj hb hfirst
    have hi : i < doubleArray.length := by omega
    have hi1 : i + 1 < doubleArray.length := by omega
    rcases Nat.eq_or_lt_of_le hij with heq | hlt
    · subst heq
      have hb2 := hb
      unfold Brackets volumeAt at hb2
      simp only [ComputeDMetric.scan, GetComponent_percent _ _ hi, GetComponent_percent _ _ hi1,
        GetComponent_dose _ _ hi, GetComponent_dose _ _ hi1, Option.bind_eq_bind,
        Option.some_bind, Option.pure_def]
      rw [if_pos hb2]
      rfl
    · have hnb : ¬ Brackets doubleArray structureVolume target i := hfirst i le_rfl hlt
      have hnb2 := hnb
      unfold Brackets volumeAt at hnb2
      simp only [ComputeDMetric.scan, GetComponent_percent _ _ hi, GetComponent_percent _ _ hi1,
        Option.bind_eq_bind, Option.some_bind]
      rw [if_neg hnb2]
      exact ih (i + 1) j (by omega) (by omega) (by omega) hb
        (fun k hk hkj => hfirst k (by omega) hkj)

/-! ## Lemmas on the masked statistics and on the curve construction -/

theorem sampleLoop_length (f : ℤ → ℕ) (s st : ℚ) (tot : ℕ) :
    ∀ r i b, (ComputeDvh.sampleLoop f s st tot r i b).length = r := by
  intro r
  induction r with
  | zero => intro i b; rfl
  | succ r ih => intro i b; simp [ComputeDvh.sampleLoop, ih]

/-- Sample `k` of the loop: its abscissa and the percent computed from the
running count of voxels below. -/
theorem sampleLoop_getD (f : ℤ → ℕ) (s st : ℚ) (tot : ℕ) :
    ∀ r i b k, k < r →
      (ComputeDvh.sampleLoop f s st tot r i b).getD k (0, 0)
        = (s + ((i + k : ℕ) : ℚ) * st,
            (1 - ((b + ∑ j in Finset.range k, f ((i + j : ℕ) : ℤ) : ℕ) : ℚ) / (tot : ℚ)) * 100) := by
  intro r
  induction r with
  | zero => intro i b k hk; omega
  | succ r ih =>
    intro i b k hk
    cases k with
    | zero => simp [ComputeDvh.sampleLoop]
    | succ k =>
      have hk2 : k < r := by omega
      have h := ih (i + 1) (b + f (i : ℤ)) k hk2
      simp only [ComputeDvh.sampleLoop, List.getD_cons_succ]
      rw [h, Finset.sum_range_succ']
      have e1 : i + 1 + k = i + (k + 1) := by omega
      have e2 : ∀ j, i + 1 + j = i + (j + 1) := fun j => by omega
      simp only [e1, e2, Nat.add_zero]
      congr 3
      push_cast
      ring

theorem ComputeDvh_ok_inv (self : Logic) (fz : ℚ → ℤ) (structureStat : List ℚ)
    (isDoseVolume : Bool) (maxDoseGy : ℚ) (curve : DvhArray)
    (h : ComputeDvh self fz structureStat isDoseVolume maxDoseGy = .ok curve) :
    structureStat ≠ [] ∧ ¬ (isDoseVolume = true ∧ GetMin structureStat < 0)
    ∧ ¬ (isDoseVolume = true ∧ self.StepSize = 0)
    ∧ ¬ (isDoseVolume = false ∧ self.NumberOfSamplesForNonDoseVolumes - 1 = 0)
    ∧ 0 ≤ ComputeDvh.numSamples self isDoseVolume maxDoseGy
    ∧ ((0 ≤ ComputeDvh.startValue self structureStat isDoseVolume
          ∧ curve = (0, 100) :: ComputeDvh.samples self fz structureStat isDoseVolume maxDoseGy)
      ∨ (ComputeDvh.startValue self structureStat isDoseVolume < 0 ∧ isDoseVolume = false
          ∧ curve = ComputeDvh.samples self fz structureStat isDoseVolume maxDoseGy)
      ∨ (ComputeDvh.startValue self structureStat isDoseVolume < 0 ∧ isDoseVolume = true
          ∧ ∃ first rest,
            ComputeDvh.samples self fz structureStat isDoseVolume maxDoseGy = first :: rest
            ∧ curve = (0, first.2) :: rest)) := by
  unfold ComputeDvh at h
  by_cases h1 : GetVoxelCount structureStat < 1
  · simp [h1] at h
  by_cases h2 : isDoseVolume = true ∧ GetMin structureStat < 0
  · simp [h1, h2] at h
  by_cases h3 : (isDoseVolume = true ∧ self.StepSize = 0)
      ∨ (¬ isDoseVolume = true ∧ self.NumberOfSamplesForNonDoseVolumes - 1 = 0)
  · simp only [if_neg h1, if_neg h2, if_pos h3] at h
    cases h
  by_cases h4 : ComputeDvh.numSamples self isDoseVolume maxDoseGy < 0
  · simp only [if_neg h1, if_neg h2, if_neg h3, if_pos h4] at h
    cases h
  simp only [if_neg h1, if_neg h2, if_neg h3, if_neg h4] at h
  have hne : structureStat ≠ [] := by
    intro he
    apply h1
    simp [he, GetVoxelCount]
  have h3a : ¬ (isDoseVolume = true ∧ self.StepSize = 0) := fun hc => h3 (Or.inl hc)
  have h3b : ¬ (isDoseVolume = false ∧ self.NumberOfSamplesForNonDoseVolumes - 1 = 0) :=
    fun hc => h3 (Or.inr ⟨by simp [hc.1], hc.2⟩)
  refine ⟨hne, h2, h3a, h3b, not_lt.mp h4, ?_⟩
  by_cases h5 : ComputeDvh.startValue self structureStat isDoseVolume < 0
  · right
    cases hd : isDoseVolume with
    | false =>
      left
      subst hd
      simp only [if_pos h5] at h
      simp at h
      exact ⟨h5, rfl, by rw [← h]; rfl⟩
    | true =>
      right
      subst hd
      simp only [if_pos h5] at h
      simp at h
      refine ⟨h5, rfl, ?_⟩
      have h' : (match ComputeDvh.samples self fz structureStat true maxDoseGy with
          | [] => Outcome.undefined
          | first :: rest => Outcome.ok ((0, first.2) :: rest)) = Outcome.ok curve := h
      cases hs : ComputeDvh.samples self fz structureStat true maxDoseGy with
      | nil =>
        rw [hs] at h'
        cases h'
      | cons first rest =>
        rw [hs] at h'
        simp only [Outcome.ok.injEq] at h'
        exact ⟨first, rest, rfl, h'.symm⟩
  · left
    simp only [if_neg h5] at h
    simp at h
    exact ⟨not_lt.mp h5, by rw [← h]; rfl⟩

/-- Entries of `GetMin` are bounded by the start value of the running minimum. -/
theorem foldl_min_le_init (l : List ℚ) :
    ∀ m : ℚ, l.foldl (fun m v => if v < m then v else m) m ≤ m := by
  induction l with
  | nil => intro m; exact le_rfl
  | cons a l ih =>
    intro m
    simp only [List.foldl_cons]
    by_cases h : a < m
    · rw [if_pos h]; exact le_trans (ih a) (le_of_lt h)
    · rw [if_neg h]; exact ih m

theorem foldl_min_le_mem (l : List ℚ) :
    ∀ m : ℚ, ∀ v ∈ l, l.foldl (fun m v => if v < m then v else m) m ≤ v := by
  induction l with
  | nil => intro m v hv; cases hv
  | cons a l ih =>
    intro m v hv
    simp only [List.foldl_cons]
    rcases List.mem_cons.mp hv with rfl | hv
    · by_cases h : v < m
      · rw [if_pos h]; exact foldl_min_le_init l v
      · rw [if_neg h]; exact le_trans (foldl_min_le_init l m) (not_lt.mp h)
    · exact ih _ v hv

/-- The masked minimum is at most every masked value. -/
theorem GetMin_le (structureStat : List ℚ) (v : ℚ) (hv : v ∈ structureStat) :
    GetMin structureStat ≤ v :=
  foldl_min_le_mem structureStat _ v hv

/-- Percent component of the curve that `ComputeDvh` stores, sample by sample:
the origin anchor, when present, comes first. -/
theorem ComputeDvh_ok_percent (self : Logic) (fz : ℚ → ℤ) (structureStat : List ℚ)
    (isDoseVolume : Bool) (maxDoseGy : ℚ) (curve : DvhArray)
    (h : ComputeDvh self fz structureStat isDoseVolume maxDoseGy = .ok curve) :
    curve.map Prod.snd
      = (if ComputeDvh.startValue self structureStat isDoseVolume < 0 then [] else [100])
        ++ (ComputeDvh.samples self fz structureStat isDoseVolume maxDoseGy).map Prod.snd := by
  obtain ⟨_, _, _, _, _, hc⟩ := ComputeDvh_ok_inv self fz structureStat isDoseVolume maxDoseGy curve h
  rcases hc with ⟨h0, rfl⟩ | ⟨h0, _, rfl⟩ | ⟨h0, _, first, rest, hs, rfl⟩
  · simp [not_lt.mpr h0]
  · simp [h0]
  · simp [h0, hs]

/-- Forward form for a dose volume with non-negative start value: the curve is
the origin anchor followed by the samples. -/
theorem ComputeDvh_dose_ok (self : Logic) (fz : ℚ → ℤ) (structureStat : List ℚ) (maxDoseGy : ℚ)
    (hne : structureStat ≠ []) (hmin : 0 ≤ GetMin structureStat) (hstep : self.StepSize ≠ 0)
    (hn : 0 ≤ ComputeDvh.numSamples self true maxDoseGy) (hstart : 0 ≤ self.StartValue) :
    ComputeDvh self fz structureStat true maxDoseGy
      = .ok ((0, 100) :: ComputeDvh.samples self fz structureStat true maxDoseGy) := by
  have h1 : ¬ GetVoxelCount structureStat < 1 := by
    have := List.length_pos.mpr hne
    simp only [GetVoxelCount]
    omega
  have h2 : ¬ (true = true ∧ GetMin structureStat < 0) := fun h => absurd h.2 (not_lt.mpr hmin)
  have h3 : ¬ ((true = true ∧ self.StepSize = 0)
      ∨ (¬ true = true ∧ self.NumberOfSamplesForNonDoseVolumes - 1 = 0)) := by
    rintro (h | h)
    · exact hstep h.2
    · exact h.1 rfl
  have h4 : ¬ ComputeDvh.numSamples self true maxDoseGy < 0 := not_lt.mpr hn
  have h5 : ¬ ComputeDvh.startValue self structureStat true < 0 := by
    simp [ComputeDvh.startValue, hstart]
  unfold ComputeDvh
  simp only [if_neg h1, if_neg h2, if_neg h3, if_neg h4, if_neg h5]
  simp [ComputeDvh.samples, not_lt.mpr hmin, hstep]

/-- Forward form for a volume that does not hold dose: the curve is the samples,
preceded by the origin anchor when the masked minimum is not negative. -/
theorem ComputeDvh_nondose_ok (self : Logic) (fz : ℚ → ℤ) (structureStat : List ℚ)
    (maxDoseGy : ℚ) (hne : structureStat ≠ [])
    (hn1 : self.NumberOfSamplesForNonDoseVolumes - 1 ≠ 0)
    (hn : 0 ≤ self.NumberOfSamplesForNonDoseVolumes) :
    ComputeDvh self fz structureStat false maxDoseGy
      = .ok ((if GetMin structureStat < 0 then [] else [(0, 100)])
          ++ ComputeDvh.samples self fz structureStat false maxDoseGy) := by
  have h1 : ¬ GetVoxelCount structureStat < 1 := by
    have := List.length_pos.mpr hne
    simp only [GetVoxelCount]
    omega
  have h2 : ¬ (false = true ∧ GetMin structureStat < 0) := fun h => by simp at h
  have h3 : ¬ ((false = true ∧ self.StepSize = 0)
      ∨ (¬ false = true ∧ self.NumberOfSamplesForNonDoseVolumes - 1 = 0)) := by
    rintro (h | h)
    · simp at h
    · exact hn1 h.2
  have h4 : ¬ ComputeDvh.numSamples self false maxDoseGy < 0 := by
    simp [ComputeDvh.numSamples, hn]
  unfold ComputeDvh
  simp only [if_neg h1, if_neg h2, if_neg h3, if_neg h4]
  by_cases h5 : GetMin structureStat < 0
  · have h5' : ComputeDvh.startValue self structureStat false < 0 := by
      simpa [ComputeDvh.startValue] using h5
    simp [if_pos h5', if_pos h5, ComputeDvh.samples]
  · have h5' : ¬ ComputeDvh.startValue self structureStat false < 0 := by
      simpa [ComputeDvh.startValue] using h5
    simp [if_neg h5', if_neg h5, ComputeDvh.samples]

/-- Abscissa of sample `k` of the sample loop. -/
theorem samples_doseAt (self : Logic) (fz : ℚ → ℤ) (structureStat : List ℚ)
    (isDoseVolume : Bool) (maxDoseGy : ℚ) (k : ℕ)
    (hk : k < (ComputeDvh.numSamples self isDoseVolume maxDoseGy).toNat) :
    doseAt (ComputeDvh.samples self fz structureStat isDoseVolume maxDoseGy) k
      = ComputeDvh.startValue self structureStat isDoseVolume
        + (k : ℚ) * ComputeDvh.stepSize self structureStat isDoseVolume := by
  unfold doseAt ComputeDvh.samples
  rw [sampleLoop_getD _ _ _ _ _ _ _ _ hk]
  simp

theorem samples_length (self : Logic) (fz : ℚ → ℤ) (structureStat : List ℚ)
    (isDoseVolume : Bool) (maxDoseGy : ℚ) :
    (ComputeDvh.samples self fz structureStat isDoseVolume maxDoseGy).length
      = (ComputeDvh.numSamples self isDoseVolume maxDoseGy).toNat := by
  unfold ComputeDvh.samples
  exact sampleLoop_length _ _ _ _ _ _ _

/-- The percents written by the sample loop do not increase, and none exceeds
the percent that belongs to the count of voxels below at the start. -/
theorem sampleLoop_percent_antitone (f : ℤ → ℕ) (s st : ℚ) (tot : ℕ) :
    ∀ r i b,
      List.Pairwise (fun x y : ℚ => y ≤ x)
          ((ComputeDvh.sampleLoop f s st tot r i b).map Prod.snd)
        ∧ ∀ x ∈ (ComputeDvh.sampleLoop f s st tot r i b).map Prod.snd,
            x ≤ (1 - (b : ℚ) / (tot : ℚ)) * 100 := by
  intro r
  induction r with
  | zero =>
    intro i b
    simp [ComputeDvh.sampleLoop]
  | succ r ih =>
    intro i b
    obtain ⟨hp, hb⟩ := ih (i + 1) (b + f (i : ℤ))
    have hstep : (1 - ((b + f (i : ℤ) : ℕ) : ℚ) / (tot : ℚ)) * 100
        ≤ (1 - (b : ℚ) / (tot : ℚ)) * 100 := by
      have htot : (0 : ℚ) ≤ (tot : ℚ) := Nat.cast_nonneg tot
      have hle : (b : ℚ) ≤ ((b + f (i : ℤ) : ℕ) : ℚ) := by
        exact_mod_cast Nat.le_add_right b (f (i : ℤ))
      have := div_le_div_of_nonneg_right hle htot
      linarith
    simp only [ComputeDvh.sampleLoop, List.map_cons, List.pairwise_cons, List.mem_cons]
    refine ⟨⟨?_, hp⟩, ?_⟩
    · intro x hx
      exact le_trans (hb x hx) hstep
    · rintro x (rfl | hx)
      · exact le_rfl
      · exact le_trans (hb x hx) hstep

/-- Percent of sample `k` of the sample loop: the count of voxels below at the
start value plus the content of the bins before `k`, turned into the share of
voxels that are not below. -/
theorem samples_percentAt (self : Logic) (fz : ℚ → ℤ) (structureStat : List ℚ)
    (isDoseVolume : Bool) (maxDoseGy : ℚ) (k : ℕ)
    (hk : k < (ComputeDvh.numSamples self isDoseVolume maxDoseGy).toNat) :
    percentAt (ComputeDvh.samples self fz structureStat isDoseVolume maxDoseGy) k
      = (1 - ((GetScalarComponentAsDouble fz structureStat 1 0
            (ComputeDvh.startValue self structureStat isDoseVolume) 0
          + ∑ j in Finset.range k, GetScalarComponentAsDouble fz structureStat
              (ComputeDvh.numSamples self isDoseVolume maxDoseGy - 1)
              (ComputeDvh.startValue self structureStat isDoseVolume)
              (ComputeDvh.stepSize self structureStat isDoseVolume) ((j : ℕ) : ℤ) : ℕ) : ℚ)
          / (GetVoxelCount structureStat : ℚ)) * 100 := by
  unfold percentAt ComputeDvh.samples
  rw [sampleLoop_getD _ _ _ _ _ _ _ _ hk]
  simp

theorem doseAt_cons_succ (t : DvhTuple) (l : DvhArray) (k : ℕ) :
    doseAt (t :: l) (k + 1) = doseAt l k := by
  simp [doseAt]

theorem foldl_min_mem (l : List ℚ) :
    ∀ m : ℚ, l.foldl (fun m v => if v < m then v else m) m = m
      ∨ l.foldl (fun m v => if v < m then v else m) m ∈ l := by
  induction l with
  | nil => intro m; exact Or.inl rfl
  | cons a l ih =>
    intro m
    simp only [List.foldl_cons, List.mem_cons]
    by_cases h : a < m
    · rw [if_pos h]
      rcases ih a with h1 | h1
      · exact Or.inr (Or.inl h1)
      · exact Or.inr (Or.inr h1)
    · rw [if_neg h]
      rcases ih m with h1 | h1
      · exact Or.inl h1
      · exact Or.inr (Or.inr h1)

/-- The masked minimum of non-negative values is not negative. -/
theorem GetMin_nonneg (structureStat : List ℚ) (h : ∀ v ∈ structureStat, 0 ≤ v) :
    0 ≤ GetMin structureStat := by
  rcases foldl_min_mem structureStat VTK_DOUBLE_MAX with h1 | h1
  · unfold GetMin
    rw [h1]
    norm_num [VTK_DOUBLE_MAX]
  · exact h _ h1

theorem doseAt_append_right (a b : DvhArray) (k : ℕ) :
    doseAt (a ++ b) (a.length + k) = doseAt b k := by
  unfold doseAt
  rw [List.getD_append_right _ _ _ _ (Nat.le_add_right _ _)]
  simp

/-- The statistics of an empty stencil keep their start values. -/
theorem ne_nil_of_GetMin_lt (structureStat : List ℚ) (bound : ℚ) (hb : bound ≤ 0)
    (h : GetMin structureStat < bound) : structureStat ≠ [] := by
  rintro rfl
  have : (0 : ℚ) < GetMin [] := by norm_num [GetMin, VTK_DOUBLE_MAX]
  linarith

theorem ne_nil_of_GetMin_lt_GetMax (structureStat : List ℚ)
    (h : GetMin structureStat < GetMax structureStat) : structureStat ≠ [] := by
  rintro rfl
  norm_num [GetMin, GetMax, VTK_DOUBLE_MAX, VTK_DOUBLE_MIN] at h

/-- One voxel of non-negative value, positive start value and step size: it is
counted in the bin below the start value or in one of the first `k` bins
exactly when its value is below the abscissa of sample `k`. -/
theorem voxel_counted_below (fz : ℚ → ℤ) (startValue stepSize v : ℚ) (k : ℕ)
    (hstart : 0 < startValue) (hstep : 0 < stepSize) (hv : 0 ≤ v) :
    (if binIndex fz 0 startValue v = 0 then 1 else 0)
      + ∑ j in Finset.range k, (if binIndex fz startValue stepSize v = ((j : ℕ) : ℤ) then 1 else 0)
      = if v < startValue + (k : ℚ) * stepSize then 1 else 0 := by
  have hs0 : startValue ≠ 0 := ne_of_gt hstart
  have hst0 : stepSize ≠ 0 := ne_of_gt hstep
  simp only [binIndex, if_neg hs0, if_neg hst0, sub_zero]
  by_cases hlt : v < startValue
  · have h0 : ⌊v / startValue⌋ = 0 := by
      rw [Int.floor_eq_iff]
      constructor
      · simpa using div_nonneg hv (le_of_lt hstart)
      · simpa using (div_lt_one hstart).mpr hlt
    have hneg : ⌊(v - startValue) / stepSize⌋ < 0 := by
      rw [Int.floor_lt]
      simpa using div_neg_of_neg_of_pos (sub_neg.mpr hlt) hstep
    have hsum : ∑ j in Finset.range k,
        (if ⌊(v - startValue) / stepSize⌋ = ((j : ℕ) : ℤ) then 1 else 0) = 0 := by
      apply Finset.sum_eq_zero
      intro j _
      rw [if_neg]
      intro hj
      have : (0 : ℤ) ≤ ((j : ℕ) : ℤ) := Int.natCast_nonneg j
      omega
    have hk : v < startValue + (k : ℚ) * stepSize := by
      have : (0 : ℚ) ≤ (k : ℚ) * stepSize := mul_nonneg (Nat.cast_nonneg k) (le_of_lt hstep)
      linarith
    rw [if_pos h0, hsum, if_pos hk]
  · have hge : startValue ≤ v := not_lt.mp hlt
    have h0 : ¬ ⌊v / startValue⌋ = 0 := by
      intro h
      rw [Int.floor_eq_iff] at h
      have h1 : v / startValue < 1 := by simpa using h.2
      exact hlt ((div_lt_one hstart).mp h1)
    have hm : 0 ≤ ⌊(v - startValue) / stepSize⌋ := by
      rw [Int.le_floor]
      simpa using div_nonneg (sub_nonneg.mpr hge) (le_of_lt hstep)
    have hsum : ∑ j in Finset.range k,
        (if ⌊(v - startValue) / stepSize⌋ = ((j : ℕ) : ℤ) then 1 else 0)
        = if ⌊(v - startValue) / stepSize⌋ < (k : ℤ) then 1 else 0 := by
      have hcongr : ∀ j ∈ Finset.range k,
          (if ⌊(v - startValue) / stepSize⌋ = ((j : ℕ) : ℤ) then (1 : ℕ) else 0)
          = if ⌊(v - startValue) / stepSize⌋.toNat = j then 1 else 0 := by
        intro j _
        have : ⌊(v - startValue) / stepSize⌋ = ((j : ℕ) : ℤ)
            ↔ ⌊(v - startValue) / stepSize⌋.toNat = j := by omega
        simp only [this]
      rw [Finset.sum_congr rfl hcongr, Finset.sum_ite_eq]
      have : ⌊(v - startValue) / stepSize⌋.toNat ∈ Finset.range k
          ↔ ⌊(v - startValue) / stepSize⌋ < (k : ℤ) := by
        rw [Finset.mem_range]
        omega
      simp only [this]
    have hiff : ⌊(v - startValue) / stepSize⌋ < (k : ℤ) ↔ v < startValue + (k : ℚ) * stepSize := by
      rw [Int.floor_lt, div_lt_iff₀ hstep]
      constructor
      · intro h
        have : ((k : ℤ) : ℚ) = (k : ℚ) := by norm_cast
        rw [this] at h
        linarith
      · intro h
        have : ((k : ℤ) : ℚ) = (k : ℚ) := by norm_cast
        rw [this]
        linarith
    rw [if_neg h0, hsum, zero_add]
    simp only [hiff]

/-- For masked values that are not negative, a positive start value and a
positive step size, the count of voxels below the start value plus the content
of the first `k` bins is the number of masked voxels whose value is below the
abscissa of sample `k`. -/
theorem count_below_abscissa (fz : ℚ → ℤ) (startValue stepSize : ℚ) (extentMax : ℤ) (k : ℕ)
    (hstart : 0 < startValue) (hstep : 0 < stepSize) (hk : (k : ℤ) ≤ extentMax + 1) :
    ∀ structureStat : List ℚ, (∀ v ∈ structureStat, 0 ≤ v) →
      GetScalarComponentAsDouble fz structureStat 1 0 startValue 0
        + ∑ j in Finset.range k,
            GetScalarComponentAsDouble fz structureStat extentMax startValue stepSize ((j : ℕ) : ℤ)
        = structureStat.countP (fun v => decide (v < startValue + (k : ℚ) * stepSize)) := by
  have hext : ∀ j ∈ Finset.range k, (0 : ℤ) ≤ ((j : ℕ) : ℤ) ∧ ((j : ℕ) : ℤ) ≤ extentMax := by
    intro j hj
    have := Finset.mem_range.mp hj
    omega
  intro structureStat
  induction structureStat with
  | nil =>
    intro _
    simp [GetScalarComponentAsDouble]
  | cons a l ih =>
    intro hv
    have ha : 0 ≤ a := hv a (List.mem_cons_self a l)
    have hl := ih (fun v hvl => hv v (List.mem_cons_of_mem a hvl))
    have hone := voxel_counted_below fz startValue stepSize a k hstart hstep ha
    have e1 : ∀ s : List ℚ, GetScalarComponentAsDouble fz s 1 0 startValue 0
        = s.countP (fun v => decide (binIndex fz 0 startValue v = 0)) := by
      intro s
      simp [GetScalarComponentAsDouble]
    have e2 : ∀ s : List ℚ, ∑ j in Finset.range k,
          GetScalarComponentAsDouble fz s extentMax startValue stepSize ((j : ℕ) : ℤ)
        = ∑ j in Finset.range k,
            s.countP (fun v => decide (binIndex fz startValue stepSize v = ((j : ℕ) : ℤ))) := by
      intro s
      apply Finset.sum_congr rfl
      intro j hj
      simp only [GetScalarComponentAsDouble, if_pos (hext j hj)]
    rw [e1, e2] at hl ⊢
    simp only [List.countP_cons, decide_eq_true_eq, Finset.sum_add_distrib]
    rw [← hl, ← hone]
    ring

theorem percentAt_cons_succ (t : DvhTuple) (l : DvhArray) (k : ℕ) :
    percentAt (t :: l) (k + 1) = percentAt l k := by
  simp [percentAt]

/-- The binning rule on the path with a positive start value: when the curve is
built from masked values that are not negative, with positive start value and
step size, sample `k` (which follows the origin anchor) stores
`(1 - below_k / total) * 100`, where `below_k` counts the masked voxels whose
value is below the abscissa of the sample. -/
theorem ComputeDvh_binning_rule_positive_start (self : Logic) (fz : ℚ → ℤ)
    (structureStat : List ℚ) (isDoseVolume : Bool) (maxDoseGy : ℚ) (curve : DvhArray)
    (h : ComputeDvh self fz structureStat isDoseVolume maxDoseGy = .ok curve)
    (hstart : 0 < ComputeDvh.startValue self structureStat isDoseVolume)
    (hstep : 0 < ComputeDvh.stepSize self structureStat isDoseVolume)
    (hv : ∀ v ∈ structureStat, 0 ≤ v) (k : ℕ)
    (hk : (k : ℤ) < ComputeDvh.numSamples self isDoseVolume maxDoseGy) :
    doseAt curve (k + 1) = ComputeDvh.startValue self structureStat isDoseVolume
        + (k : ℚ) * ComputeDvh.stepSize self structureStat isDoseVolume
    ∧ percentAt curve (k + 1)
      = (1 - (structureStat.countP (fun v => decide (v
            < ComputeDvh.startValue self structureStat isDoseVolume
              + (k : ℚ) * ComputeDvh.stepSize self structureStat isDoseVolume)) : ℚ)
          / (GetVoxelCount structureStat : ℚ)) * 100 := by
  obtain ⟨_, _, _, _, hn, hc⟩ :=
    ComputeDvh_ok_inv self fz structureStat isDoseVolume maxDoseGy curve h
  have hkn : k < (ComputeDvh.numSamples self isDoseVolume maxDoseGy).toNat := by omega
  rcases hc with ⟨_, rfl⟩ | ⟨h0, _, _⟩ | ⟨h0, _, _⟩
  · refine ⟨by rw [doseAt_cons_succ, samples_doseAt _ _ _ _ _ _ hkn], ?_⟩
    rw [percentAt_cons_succ, samples_percentAt _ _ _ _ _ _ hkn,
      count_below_abscissa fz _ _ _ k hstart hstep (by omega) structureStat hv]
  · exact absurd h0 (not_lt.mpr (le_of_lt hstart))
  · exact absurd h0 (not_lt.mpr (le_of_lt hstart))

/-- A build traced in full: binning of the constructor, two masked voxels with
dose 0.2 and 0.5, maximum dose 0.5 of the dose volume. -/
theorem ComputeDvh_two_voxels :
    ComputeDvh Logic.New leastIntOnDivisionByZero [1 / 5, 1 / 2] true (1 / 2)
      = .ok [(0, 100), (1 / 10, 100), (3 / 10, 50), (1 / 2, 50)] := by
  have hn : ComputeDvh.numSamples Logic.New true (1 / 2) = 3 := by
    norm_num [ComputeDvh.numSamples, Logic.New, Int.ceil_eq_iff]
  rw [ComputeDvh_dose_ok Logic.New leastIntOnDivisionByZero [1 / 5, 1 / 2] (1 / 2) (by simp)
    (by norm_num [GetMin, VTK_DOUBLE_MAX]) (by norm_num [Logic.New]) (by rw [hn]; decide)
    (by norm_num [Logic.New])]
  simp only [ComputeDvh.samples, hn]
  norm_num [ComputeDvh.sampleLoop, GetScalarComponentAsDouble, binIndex, ComputeDvh.startValue,
    ComputeDvh.stepSize, Logic.New, GetVoxelCount, List.countP_cons, Int.floor_eq_iff]

/-! ## Theorems on the D metric and on the metric input checks (C1 to C4) -/

/-- Upper boundary of `ComputeDMetric` in exact arithmetic: whenever the
requested volume (in cc) is at or above the cumulative volume of the first
sample of the curve, the returned dose is 0.0, for every structure volume. -/
theorem ComputeDMetric_upper_boundary (doubleArray : DvhArray) (volume structureVolume : ℚ)
    (isPercent : Bool) (hne : doubleArray ≠ [])
    (h : requestedVolumeCc volume structureVolume isPercent
      ≥ volumeAt doubleArray structureVolume 0) :
    (ComputeDMetric (some doubleArray) volume structureVolume isPercent).map MetricReturn.value
      = some 0 := by
  have h0 : 0 < doubleArray.length := List.length_pos.mpr hne
  unfold ComputeDMetric
  by_cases hsv : (isPercent = true) ∧ structureVolume = 0
  · simp only [if_pos hsv, Option.map_some']
  · have htv : (if isPercent = true then volume * structureVolume / 100 else volume)
        = requestedVolumeCc volume structureVolume isPercent := by
      simp [requestedVolumeCc]
    simp only [if_neg hsv, GetComponent_percent _ _ h0, Option.bind_eq_bind, Option.some_bind,
      Option.pure_def]
    have h2 : requestedVolumeCc volume structureVolume isPercent
        ≥ percentAt doubleArray 0 / 100 * structureVolume := h
    rw [htv, if_pos h2]
    rfl

/-- C4, as stated, fails: a curve with a single sample is accepted. With the
one-sample curve `(3, 100)` and structure volume 1 cc, `ComputeDMetric` reports
no error and returns the dose 3, for a percent threshold and for a cc threshold
alike. -/
theorem ComputeDMetric_single_sample_returns_value :
    ([(3, 100)] : DvhArray).length < 2
    ∧ ComputeDMetric (some [(3, 100)]) 50 1 true = some ⟨3, none⟩
    ∧ ComputeDMetric (some [(3, 100)]) (1 / 2) 1 false = some ⟨3, none⟩ := by
  refine ⟨by decide, ?_, ?_⟩
  · norm_num [ComputeDMetric, GetComponent, GetNumberOfTuples]
  · norm_num [ComputeDMetric, GetComponent, GetNumberOfTuples]

/-- C4, amended. A structure volume of 0 is rejected with an error by the V
metric evaluation and by the D metric evaluation of the table row (no value is
written), and by `ComputeDMetric` for a percent threshold (0.0 is returned along
with the error). The number of samples is not checked: for a curve of one sample
and a structure volume other than 0, `ComputeDMetric` reports no error and
returns 0.0 or the dose of that sample. -/
theorem metric_queries_invalid_input :
    (∀ (doubleArray : DvhArray) (doseValues : List ℚ) (showCc showPercent : Bool),
      ∃ message, ComputeVMetrics.forDvhNode doubleArray 0 doseValues showCc showPercent
        = some ⟨[], some message⟩)
    ∧ (∀ (doubleArray : DvhArray) (volumeValuesCc volumeValuesPercent : List ℚ),
      ∃ message, ComputeDMetrics.forDvhNode doubleArray 0 volumeValuesCc volumeValuesPercent
        = some ⟨[], some message⟩)
    ∧ (∀ (dvhArrayNode : Option DvhArray) (volume : ℚ),
      ∃ message, ComputeDMetric dvhArrayNode volume 0 true = some ⟨0, some message⟩)
    ∧ (∀ (dose percent volume structureVolume : ℚ) (isPercent : Bool), structureVolume ≠ 0 →
      ComputeDMetric (some [(dose, percent)]) volume structureVolume isPercent = some ⟨0, none⟩
      ∨ ComputeDMetric (some [(dose, percent)]) volume structureVolume isPercent
        = some ⟨dose, none⟩) := by
  refine ⟨?_, ?_, ?_, ?_⟩
  · intro doubleArray doseValues showCc showPercent
    exact ⟨"ComputeVMetrics: Failed to get structure volume for structure",
      by simp [ComputeVMetrics.forDvhNode]⟩
  · intro doubleArray volumeValuesCc volumeValuesPercent
    exact ⟨"ComputeDMetrics: Failed to get structure volume for structure",
      by simp [ComputeDMetrics.forDvhNode]⟩
  · intro dvhArrayNode volume
    cases dvhArrayNode with
    | none => exact ⟨"ComputeDMetric: Invalid DVH array node!", by simp [ComputeDMetric]⟩
    | some doubleArray =>
      exact ⟨"ComputeDMetric: Invalid structure volume!", by simp [ComputeDMetric]⟩
  · intro dose percent volume structureVolume isPercent hsv
    have hn : ¬ ((isPercent = true) ∧ structureVolume = 0) := fun h => hsv h.2
    unfold ComputeDMetric
    simp only [if_neg hn, GetComponent, GetNumberOfTuples, List.get?_cons_zero,
      List.length_singleton, Nat.sub_self, Option.bind_eq_bind, Option.some_bind,
      Option.pure_def, one_ne_zero, if_false, ComputeDMetric.scan]
    split_ifs <;> simp

/-- Witness of the amended C4: the one-sample curve `(3, 100)` with structure
volume 1 cc and a 50 percent threshold. -/
theorem metric_queries_invalid_input_witness :
    (1 : ℚ) ≠ 0
    ∧ (ComputeDMetric (some [(3, 100)]) 50 1 true = some ⟨0, none⟩
      ∨ ComputeDMetric (some [(3, 100)]) 50 1 true = some ⟨3, none⟩) :=
  ⟨by norm_num, metric_queries_invalid_input.2.2.2 3 100 50 1 true (by norm_num)⟩

/-! ## Theorems on the curve construction (C5 to C10) -/

/-- C5, the code at the failing input: a volume that does not hold dose with
masked values -20, -10 and 80 and the default of 100 samples. No masked voxel
is below the first abscissa -20, so the binning rule gives 100 percent there;
the curve stores 200/3 percent, because the count of voxels below the start
value is read from a histogram bin of negative width and comes out as 1 (the
voxel of value -10). -/
theorem ComputeDvh_negative_minimum_first_percent :
    (1 - (([-20, -10, 80] : List ℚ).countP (fun v => decide (v < -20)) : ℚ)
        / (GetVoxelCount [-20, -10, 80] : ℚ)) * 100 = 100
    ∧ GetScalarComponentAsDouble leastIntOnDivisionByZero [-20, -10, 80] 1 0 (-20) 0 = 1
    ∧ ∃ curve, ComputeDvh Logic.New leastIntOnDivisionByZero [-20, -10, 80] false 80 = .ok curve
        ∧ doseAt curve 0 = -20 ∧ percentAt curve 0 = 200 / 3 := by
  have hmin : GetMin [-20, -10, 80] = -20 := by norm_num [GetMin, VTK_DOUBLE_MAX]
  have hneg : GetMin [-20, -10, 80] < 0 := by rw [hmin]; norm_num
  have hb : GetScalarComponentAsDouble leastIntOnDivisionByZero [-20, -10, 80] 1 0 (-20) 0 = 1 := by
    norm_num [GetScalarComponentAsDouble, binIndex, List.countP_cons, Int.floor_eq_iff]
  have hpos : 0 < (ComputeDvh.numSamples Logic.New false 80).toNat := by
    simp [ComputeDvh.numSamples, Logic.New]
  refine ⟨by norm_num [List.countP_cons, GetVoxelCount], hb, _,
    ComputeDvh_nondose_ok Logic.New leastIntOnDivisionByZero [-20, -10, 80] 80 (by simp)
      (by norm_num [Logic.New]) (by norm_num [Logic.New]), ?_, ?_⟩
  · rw [if_pos hneg, List.nil_append, samples_doseAt _ _ _ _ _ _ hpos]
    simp [ComputeDvh.startValue, hmin]
  · rw [if_pos hneg, List.nil_append, samples_percentAt _ _ _ _ _ _ hpos]
    have hs : ComputeDvh.startValue Logic.New [-20, -10, 80] false = -20 := by
      simp [ComputeDvh.startValue, hmin]
    rw [hs, hb]
    norm_num [GetVoxelCount]

/-- C6. Monotonicity of built curves: whenever the per-structure `ComputeDvh`
succeeds, the cumulative volume percent of the stored samples, origin anchor
included, does not increase with the sample index. -/
theorem ComputeDvh_percent_nonincreasing (self : Logic) (fz : ℚ → ℤ) (structureStat : List ℚ)
    (isDoseVolume : Bool) (maxDoseGy : ℚ) (curve : DvhArray)
    (h : ComputeDvh self fz structureStat isDoseVolume maxDoseGy = .ok curve) :
    ∀ i j, i ≤ j → j < curve.length → percentAt curve j ≤ percentAt curve i := by
  have hmap := ComputeDvh_ok_percent self fz structureStat isDoseVolume maxDoseGy curve h
  obtain ⟨hp, hb⟩ := sampleLoop_percent_antitone
    (GetScalarComponentAsDouble fz structureStat
      (ComputeDvh.numSamples self isDoseVolume maxDoseGy - 1)
      (ComputeDvh.startValue self structureStat isDoseVolume)
      (ComputeDvh.stepSize self structureStat isDoseVolume))
    (ComputeDvh.startValue self structureStat isDoseVolume)
    (ComputeDvh.stepSize self structureStat isDoseVolume)
    (GetVoxelCount structureStat)
    (ComputeDvh.numSamples self isDoseVolume maxDoseGy).toNat 0
    (GetScalarComponentAsDouble fz structureStat 1 0
      (ComputeDvh.startValue self structureStat isDoseVolume) 0)
  have hpw : List.Pairwise (fun x y : ℚ => y ≤ x) (curve.map Prod.snd) := by
    rw [hmap]
    by_cases h0 : ComputeDvh.startValue self structureStat isDoseVolume < 0
    · simpa [if_pos h0] using hp
    · rw [if_neg h0, List.singleton_append, List.pairwise_cons]
      refine ⟨?_, hp⟩
      intro x hx
      have hx2 := hb x hx
      have htot : (0 : ℚ) ≤ ((GetVoxelCount structureStat : ℕ) : ℚ) := Nat.cast_nonneg _
      have hb0 : (0 : ℚ) ≤ ((GetScalarComponentAsDouble fz structureStat 1 0
          (ComputeDvh.startValue self structureStat isDoseVolume) 0 : ℕ) : ℚ) :=
        Nat.cast_nonneg _
      have := div_nonneg hb0 htot
      linarith
  intro i j hij hj
  rcases Nat.eq_or_lt_of_le hij with rfl | hlt
  · exact le_rfl
  · have hi : i < curve.length := lt_trans hlt hj
    have := List.pairwise_iff_getElem.mp hpw i j (by simpa using hi) (by simpa using hj) hlt
    simpa [percentAt, List.getD, List.getElem?_eq_getElem hi, List.getElem?_eq_getElem hj]
      using this

/-- Witness of C6: binning of the constructor, two voxels with dose 0.2 and 0.5,
maximum dose 0.5. -/
theorem ComputeDvh_percent_nonincreasing_witness :
    ComputeDvh Logic.New leastIntOnDivisionByZero [1 / 5, 1 / 2] true (1 / 2)
        = .ok [(0, 100), (1 / 10, 100), (3 / 10, 50), (1 / 2, 50)]
    ∧ ∀ i j, i ≤ j → j < ([(0, 100), (1 / 10, 100), (3 / 10, 50), (1 / 2, 50)] : DvhArray).length →
        percentAt [(0, 100), (1 / 10, 100), (3 / 10, 50), (1 / 2, 50)] j
          ≤ percentAt [(0, 100), (1 / 10, 100), (3 / 10, 50), (1 / 2, 50)] i :=
  ⟨ComputeDvh_two_voxels,
    ComputeDvh_percent_nonincreasing Logic.New leastIntOnDivisionByZero [1 / 5, 1 / 2] true
      (1 / 2) _ ComputeDvh_two_voxels⟩

/-- C7. Origin anchor: whenever the curve of a dose volume is built with a start
value that is not negative, its first tuple is `(0.0, 100)`, the tuples that
follow are the sampled bins (sample `k` at abscissa `StartValue + k * StepSize`),
and the curve has one tuple more than there are samples. -/
theorem ComputeDvh_origin_anchor (self : Logic) (fz : ℚ → ℤ) (structureStat : List ℚ)
    (maxDoseGy : ℚ) (curve : DvhArray) (hstart : 0 ≤ self.StartValue)
    (h : ComputeDvh self fz structureStat true maxDoseGy = .ok curve) :
    curve.head? = some (0, 100)
    ∧ curve.tail = ComputeDvh.samples self fz structureStat true maxDoseGy
    ∧ (curve.length : ℤ) = ComputeDvh.numSamples self true maxDoseGy + 1
    ∧ ∀ k : ℕ, (k : ℤ) < ComputeDvh.numSamples self true maxDoseGy →
        doseAt curve (k + 1) = self.StartValue + (k : ℚ) * self.StepSize := by
  obtain ⟨_, _, _, _, hn, hc⟩ := ComputeDvh_ok_inv self fz structureStat true maxDoseGy curve h
  have hs : ComputeDvh.startValue self structureStat true = self.StartValue := by
    simp [ComputeDvh.startValue]
  rcases hc with ⟨_, rfl⟩ | ⟨h0, hd, _⟩ | ⟨h0, _, _⟩
  · refine ⟨rfl, rfl, ?_, ?_⟩
    · rw [List.length_cons, samples_length]
      push_cast
      rw [Int.toNat_of_nonneg hn]
    · intro k hk
      rw [doseAt_cons_succ, samples_doseAt _ _ _ _ _ _ (by omega)]
      simp [ComputeDvh.startValue, ComputeDvh.stepSize]
  · cases hd
  · rw [hs] at h0
    exact absurd h0 (not_lt.mpr hstart)

/-- Witness of C7: binning of the constructor, two voxels with dose 0.2 and 0.5,
maximum dose 0.5. -/
theorem ComputeDvh_origin_anchor_witness :
    0 ≤ Logic.New.StartValue
    ∧ ComputeDvh Logic.New leastIntOnDivisionByZero [1 / 5, 1 / 2] true (1 / 2)
        = .ok [(0, 100), (1 / 10, 100), (3 / 10, 50), (1 / 2, 50)]
    ∧ ([(0, 100), (1 / 10, 100), (3 / 10, 50), (1 / 2, 50)] : DvhArray).head? = some (0, 100)
    ∧ ([(0, 100), (1 / 10, 100), (3 / 10, 50), (1 / 2, 50)] : DvhArray).tail
        = ComputeDvh.samples Logic.New leastIntOnDivisionByZero [1 / 5, 1 / 2] true (1 / 2)
    ∧ ((([(0, 100), (1 / 10, 100), (3 / 10, 50), (1 / 2, 50)] : DvhArray).length : ℕ) : ℤ)
        = ComputeDvh.numSamples Logic.New true (1 / 2) + 1
    ∧ ∀ k : ℕ, (k : ℤ) < ComputeDvh.numSamples Logic.New true (1 / 2) →
        doseAt [(0, 100), (1 / 10, 100), (3 / 10, 50), (1 / 2, 50)] (k + 1)
          = Logic.New.StartValue + (k : ℚ) * Logic.New.StepSize :=
  ⟨by norm_num [Logic.New], ComputeDvh_two_voxels,
    ComputeDvh_origin_anchor Logic.New leastIntOnDivisionByZero [1 / 5, 1 / 2] (1 / 2) _
      (by norm_num [Logic.New]) ComputeDvh_two_voxels⟩

/-- C8, as stated, fails. In the scenario of the claim (volume that does not
hold dose, masked minimum -20, masked maximum 80, 100 samples) the curve has 100
tuples and no anchor, but the abscissa of its first sample is -20, not 0.0. -/
theorem ComputeDvh_intensity_first_abscissa :
    GetMin [-20, 80] = -20 ∧ GetMax [-20, 80] = 80
    ∧ ComputeDvh.stepSize Logic.New [-20, 80] false = 100 / 99
    ∧ ∃ curve, ComputeDvh Logic.New leastIntOnDivisionByZero [-20, 80] false 80 = .ok curve
        ∧ curve.length = 100 ∧ doseAt curve 0 = -20 ∧ doseAt curve 0 ≠ 0 := by
  have hmin : GetMin [-20, 80] = -20 := by norm_num [GetMin, VTK_DOUBLE_MAX]
  have hmax : GetMax [-20, 80] = 80 := by norm_num [GetMax, VTK_DOUBLE_MIN]
  have hneg : GetMin [-20, 80] < 0 := by rw [hmin]; norm_num
  refine ⟨hmin, hmax, ?_, _, ComputeDvh_nondose_ok Logic.New leastIntOnDivisionByZero [-20, 80] 80
    (by simp) (by norm_num [Logic.New]) (by norm_num [Logic.New]), ?_, ?_⟩
  · rw [ComputeDvh.stepSize, hmin, hmax]
    norm_num [Logic.New]
  · rw [if_pos hneg, List.nil_append, samples_length]
    simp [ComputeDvh.numSamples, Logic.New]
  · have h0 : doseAt (ComputeDvh.samples Logic.New leastIntOnDivisionByZero [-20, 80] false 80) 0
        = -20 := by
      rw [samples_doseAt _ _ _ _ _ _ (by norm_num [ComputeDvh.numSamples, Logic.New])]
      simp [ComputeDvh.startValue, hmin]
    rw [if_pos hneg, List.nil_append, h0]
    norm_num

/-- C8, amended. For a volume that does not hold dose, with a negative masked
minimum and a number of samples that is neither negative nor 1, the curve is
built without origin anchor, its length equals the sample count, and every
sample `k`, the first one included, has abscissa `minDose + k * stepSize`: the
first abscissa is the masked minimum. -/
theorem ComputeDvh_negative_start_intensity (self : Logic) (fz : ℚ → ℤ)
    (structureStat : List ℚ) (maxDoseGy : ℚ) (hmin : GetMin structureStat < 0)
    (hn : 0 ≤ self.NumberOfSamplesForNonDoseVolumes)
    (hn1 : self.NumberOfSamplesForNonDoseVolumes ≠ 1) :
    ∃ curve, ComputeDvh self fz structureStat false maxDoseGy = .ok curve
      ∧ curve = ComputeDvh.samples self fz structureStat false maxDoseGy
      ∧ (curve.length : ℤ) = self.NumberOfSamplesForNonDoseVolumes
      ∧ ∀ k : ℕ, (k : ℤ) < self.NumberOfSamplesForNonDoseVolumes →
          doseAt curve k = GetMin structureStat
            + (k : ℚ) * ((GetMax structureStat - GetMin structureStat)
                / ((self.NumberOfSamplesForNonDoseVolumes : ℚ) - 1)) := by
  have hne : structureStat ≠ [] := ne_nil_of_GetMin_lt structureStat 0 le_rfl hmin
  have hok := ComputeDvh_nondose_ok self fz structureStat maxDoseGy hne (by omega) hn
  rw [if_pos hmin, List.nil_append] at hok
  have hns : ComputeDvh.numSamples self false maxDoseGy = self.NumberOfSamplesForNonDoseVolumes := by
    simp [ComputeDvh.numSamples]
  refine ⟨_, hok, rfl, ?_, ?_⟩
  · rw [samples_length, hns, Int.toNat_of_nonneg hn]
  · intro k hk
    rw [samples_doseAt _ _ _ _ _ _ (by rw [hns]; omega)]
    simp [ComputeDvh.startValue, ComputeDvh.stepSize]

/-- Witness of the amended C8: masked values -20 and 80, 100 samples. -/
theorem ComputeDvh_negative_start_intensity_witness :
    GetMin [-20, 80] < 0 ∧ 0 ≤ Logic.New.NumberOfSamplesForNonDoseVolumes
    ∧ Logic.New.NumberOfSamplesForNonDoseVolumes ≠ 1
    ∧ ∃ curve, ComputeDvh Logic.New leastIntOnDivisionByZero [-20, 80] false 80 = .ok curve
      ∧ curve = ComputeDvh.samples Logic.New leastIntOnDivisionByZero [-20, 80] false 80
      ∧ (curve.length : ℤ) = Logic.New.NumberOfSamplesForNonDoseVolumes
      ∧ ∀ k : ℕ, (k : ℤ) < Logic.New.NumberOfSamplesForNonDoseVolumes →
          doseAt curve k = GetMin [-20, 80]
            + (k : ℚ) * ((GetMax [-20, 80] - GetMin [-20, 80])
                / ((Logic.New.NumberOfSamplesForNonDoseVolumes : ℚ) - 1)) :=
  ⟨by norm_num [GetMin, VTK_DOUBLE_MAX], by norm_num [Logic.New], by norm_num [Logic.New],
    ComputeDvh_negative_start_intensity Logic.New leastIntOnDivisionByZero [-20, 80] 80
      (by norm_num [GetMin, VTK_DOUBLE_MAX]) (by norm_num [Logic.New])
      (by norm_num [Logic.New])⟩

/-- C9, as stated, fails: the sample count comes from the maximum dose that the
caller hands in (the maximum of the whole dose volume), not from the masked
maximum. For one masked voxel of dose 1 in a dose volume whose maximum is 5,
the binning of the constructor gives 26 samples after the anchor, while the
masked maximum would give 6. -/
theorem ComputeDvh_sample_count_from_volume_maximum :
    GetMax [1] = 1
    ∧ ⌈(GetMax [1] - Logic.New.StartValue) / Logic.New.StepSize⌉ + 1 = 6
    ∧ ∃ curve, ComputeDvh Logic.New leastIntOnDivisionByZero [1] true 5 = .ok curve
        ∧ curve.length = 26 + 1
        ∧ doseAt curve 26 = Logic.New.StartValue + 25 * Logic.New.StepSize := by
  have hmax : GetMax [1] = 1 := by norm_num [GetMax, VTK_DOUBLE_MIN]
  have hc : ⌈((5 : ℚ) - 1 / 10) / (2 / 10)⌉ = 25 := by
    norm_num [Int.ceil_eq_iff]
  have hc2 : ⌈((1 : ℚ) - 1 / 10) / (2 / 10)⌉ = 5 := by
    norm_num [Int.ceil_eq_iff]
  have hn : ComputeDvh.numSamples Logic.New true 5 = 26 := by
    simp only [ComputeDvh.numSamples, Logic.New, if_true, hc]
    rfl
  refine ⟨hmax, ?_, _, ComputeDvh_dose_ok Logic.New leastIntOnDivisionByZero [1] 5 (by simp)
    (by norm_num [GetMin, VTK_DOUBLE_MAX]) (by norm_num [Logic.New]) (by rw [hn]; decide)
    (by norm_num [Logic.New]), ?_, ?_⟩
  · rw [hmax]
    simp only [Logic.New, hc2]
    rfl
  · rw [List.length_cons, samples_length, hn]
    rfl
  · rw [doseAt_cons_succ, samples_doseAt _ _ _ _ _ _ (by rw [hn]; decide)]
    norm_num [ComputeDvh.startValue, ComputeDvh.stepSize]

/-- The abscissae of a dose volume in exact arithmetic: for a dose volume whose
masked doses are not negative, with a start value that is not negative and a
step size other than 0, the curve is built and its sampled abscissae, after the
origin anchor, are `StartValue + k * StepSize` for `k = 0 .. n-1`, where
`n = ceil((maxDoseGy - StartValue) / StepSize) + 1` is computed from the maximum
dose `maxDoseGy` that the caller passes. -/
theorem ComputeDvh_dose_abscissae (self : Logic) (fz : ℚ → ℤ) (structureStat : List ℚ)
    (maxDoseGy : ℚ) (hne : structureStat ≠ []) (hdose : ∀ v ∈ structureStat, 0 ≤ v)
    (hstart : 0 ≤ self.StartValue) (hstep : self.StepSize ≠ 0)
    (hn : 0 ≤ ⌈(maxDoseGy - self.StartValue) / self.StepSize⌉ + 1) :
    (∃ curve, ComputeDvh self fz structureStat true maxDoseGy = .ok curve
      ∧ (curve.length : ℤ) = (⌈(maxDoseGy - self.StartValue) / self.StepSize⌉ + 1) + 1
      ∧ ∀ k : ℕ, (k : ℤ) < ⌈(maxDoseGy - self.StartValue) / self.StepSize⌉ + 1 →
          doseAt curve (k + 1) = self.StartValue + (k : ℚ) * self.StepSize)
    ∧ Logic.New.StartValue = 1 / 10 ∧ Logic.New.StepSize = 2 / 10 := by
  have hns : ComputeDvh.numSamples self true maxDoseGy
      = ⌈(maxDoseGy - self.StartValue) / self.StepSize⌉ + 1 := by
    simp [ComputeDvh.numSamples]
  have hok := ComputeDvh_dose_ok self fz structureStat maxDoseGy hne
    (GetMin_nonneg structureStat hdose) hstep (by rw [hns]; exact hn) hstart
  refine ⟨⟨_, hok, ?_, ?_⟩, rfl, rfl⟩
  · rw [List.length_cons, samples_length, hns]
    push_cast
    rw [Int.toNat_of_nonneg hn]
  · intro k hk
    rw [doseAt_cons_succ, samples_doseAt _ _ _ _ _ _ (by rw [hns]; omega)]
    simp [ComputeDvh.startValue, ComputeDvh.stepSize]

/-- C10. Binning of a volume that does not hold dose: with masked minimum below
the masked maximum and at least two samples, the curve is built and its sampled
abscissae are `min + k * (max - min) / (n - 1)` for `k = 0 .. n-1`; the first
sampled abscissa is the minimum and the last one is the maximum. -/
theorem ComputeDvh_nondose_abscissae (self : Logic) (fz : ℚ → ℤ) (structureStat : List ℚ)
    (maxDoseGy : ℚ) (hlt : GetMin structureStat < GetMax structureStat)
    (hn : 2 ≤ self.NumberOfSamplesForNonDoseVolumes) :
    ∃ curve, ComputeDvh self fz structureStat false maxDoseGy = .ok curve
      ∧ curve.length = anchorCount (GetMin structureStat)
          + self.NumberOfSamplesForNonDoseVolumes.toNat
      ∧ (∀ k : ℕ, (k : ℤ) < self.NumberOfSamplesForNonDoseVolumes →
          doseAt curve (anchorCount (GetMin structureStat) + k)
            = GetMin structureStat + (k : ℚ) * (GetMax structureStat - GetMin structureStat)
                / ((self.NumberOfSamplesForNonDoseVolumes : ℚ) - 1))
      ∧ doseAt curve (anchorCount (GetMin structureStat)) = GetMin structureStat
      ∧ doseAt curve (anchorCount (GetMin structureStat)
          + (self.NumberOfSamplesForNonDoseVolumes.toNat - 1)) = GetMax structureStat := by
  have hne : structureStat ≠ [] := ne_nil_of_GetMin_lt_GetMax structureStat hlt
  have hok := ComputeDvh_nondose_ok self fz structureStat maxDoseGy hne (by omega) (by omega)
  have hns : ComputeDvh.numSamples self false maxDoseGy = self.NumberOfSamplesForNonDoseVolumes := by
    simp [ComputeDvh.numSamples]
  have hlen : (if GetMin structureStat < 0 then ([] : DvhArray) else [(0, 100)]).length
      = anchorCount (GetMin structureStat) := by
    unfold anchorCount
    split_ifs <;> rfl
  have hk : ∀ k : ℕ, (k : ℤ) < self.NumberOfSamplesForNonDoseVolumes →
      doseAt ((if GetMin structureStat < 0 then ([] : DvhArray) else [(0, 100)])
          ++ ComputeDvh.samples self fz structureStat false maxDoseGy)
          (anchorCount (GetMin structureStat) + k)
        = GetMin structureStat + (k : ℚ) * (GetMax structureStat - GetMin structureStat)
            / ((self.NumberOfSamplesForNonDoseVolumes : ℚ) - 1) := by
    intro k hk
    rw [← hlen, doseAt_append_right, samples_doseAt _ _ _ _ _ _ (by rw [hns]; omega)]
    simp [ComputeDvh.startValue, ComputeDvh.stepSize, mul_div_assoc]
  have hd : ((self.NumberOfSamplesForNonDoseVolumes : ℚ) - 1) ≠ 0 := by
    have h2 : (2 : ℚ) ≤ (self.NumberOfSamplesForNonDoseVolumes : ℚ) := by exact_mod_cast hn
    intro h0
    linarith
  refine ⟨_, hok, ?_, hk, ?_, ?_⟩
  · rw [List.length_append, hlen, samples_length, hns]
  · have := hk 0 (by simpa using (by omega : (0 : ℤ) < self.NumberOfSamplesForNonDoseVolumes))
    simpa using this
  · have hlast := hk (self.NumberOfSamplesForNonDoseVolumes.toNat - 1) (by omega)
    rw [hlast]
    have hc : (((self.NumberOfSamplesForNonDoseVolumes.toNat - 1 : ℕ) : ℚ))
        = (self.NumberOfSamplesForNonDoseVolumes : ℚ) - 1 := by
      have h1 : 1 ≤ self.NumberOfSamplesForNonDoseVolumes.toNat := by omega
      rw [Nat.cast_sub h1]
      have h3 : ((self.NumberOfSamplesForNonDoseVolumes.toNat : ℤ) : ℚ)
          = (self.NumberOfSamplesForNonDoseVolumes : ℚ) := by
        rw [Int.toNat_of_nonneg (by omega)]
      rw [Nat.cast_one, ← h3]
      norm_cast
    rw [hc]
    field_simp

/-- Witness of C10: masked values -20 and 80 with the default of 100 samples. -/
theorem ComputeDvh_nondose_abscissae_witness :
    GetMin [-20, 80] < GetMax [-20, 80] ∧ 2 ≤ Logic.New.NumberOfSamplesForNonDoseVolumes
    ∧ ∃ curve, ComputeDvh Logic.New leastIntOnDivisionByZero [-20, 80] false 80 = .ok curve
      ∧ curve.length = anchorCount (GetMin [-20, 80])
          + Logic.New.NumberOfSamplesForNonDoseVolumes.toNat
      ∧ (∀ k : ℕ, (k : ℤ) < Logic.New.NumberOfSamplesForNonDoseVolumes →
          doseAt curve (anchorCount (GetMin [-20, 80]) + k)
            = GetMin [-20, 80] + (k : ℚ) * (GetMax [-20, 80] - GetMin [-20, 80])
                / ((Logic.New.NumberOfSamplesForNonDoseVolumes : ℚ) - 1))
      ∧ doseAt curve (anchorCount (GetMin [-20, 80])) = GetMin [-20, 80]
      ∧ doseAt curve (anchorCount (GetMin [-20, 80])
          + (Logic.New.NumberOfSamplesForNonDoseVolumes.toNat - 1)) = GetMax [-20, 80] :=
  ⟨by norm_num [GetMin, GetMax, VTK_DOUBLE_MAX, VTK_DOUBLE_MIN], by norm_num [Logic.New],
    ComputeDvh_nondose_abscissae Logic.New leastIntOnDivisionByZero [-20, 80] 80
      (by norm_num [GetMin, GetMax, VTK_DOUBLE_MAX, VTK_DOUBLE_MIN]) (by norm_num [Logic.New])⟩

/-! ## Lemmas on the scenario of the uniform dose -/

/-- On the path with positive start value and step size, the samples are the
abscissae paired with the share of masked voxels that are not below them. -/
theorem samples_eq_map (self : Logic) (fz : ℚ → ℤ) (structureStat : List ℚ)
    (isDoseVolume : Bool) (maxDoseGy : ℚ)
    (hstart : 0 < ComputeDvh.startValue self structureStat isDoseVolume)
    (hstep : 0 < ComputeDvh.stepSize self structureStat isDoseVolume)
    (hv : ∀ v ∈ structureStat, 0 ≤ v) :
    ComputeDvh.samples self fz structureStat isDoseVolume maxDoseGy
      = (List.range (ComputeDvh.numSamples self isDoseVolume maxDoseGy).toNat).map
          (fun (k : ℕ) => (ComputeDvh.startValue self structureStat isDoseVolume
              + (k : ℚ) * ComputeDvh.stepSize self structureStat isDoseVolume,
            (1 - (structureStat.countP (fun v => decide (v
                  < ComputeDvh.startValue self structureStat isDoseVolume
                    + (k : ℚ) * ComputeDvh.stepSize self structureStat isDoseVolume)) : ℚ)
                / (GetVoxelCount structureStat : ℚ)) * 100)) := by
  apply List.ext_getElem
  · rw [samples_length, List.length_map, List.length_range]
  · intro k h1 h2
    have hk : k < (ComputeDvh.numSamples self isDoseVolume maxDoseGy).toNat := by
      rw [samples_length] at h1
      exact h1
    have hd := samples_doseAt self fz structureStat isDoseVolume maxDoseGy k hk
    have hp := samples_percentAt self fz structureStat isDoseVolume maxDoseGy k hk
    rw [count_below_abscissa fz _ _ _ k hstart hstep (by omega) structureStat hv] at hp
    simp only [doseAt, percentAt, List.getD, List.get?_eq_getElem?, List.getElem?_eq_getElem h1,
      Option.getD_some] at hd hp
    rw [List.getElem_map, List.getElem_range]
    exact Prod.ext hd hp

/-- The curve that `ComputeDvh` builds in the scenario of the uniform dose. -/
theorem ComputeDvh_uniform_dose (fz : ℚ → ℤ) :
    ComputeDvh Logic.New fz uniformDoseStat true 5 = .ok uniformDoseCurve := by
  have hc : ⌈((5 : ℚ) - 1 / 10) / (2 / 10)⌉ = 25 := by norm_num [Int.ceil_eq_iff]
  have hn : ComputeDvh.numSamples Logic.New true 5 = 26 := by
    simp only [ComputeDvh.numSamples, Logic.New, if_true, hc]
    rfl
  have hv : ∀ v ∈ uniformDoseStat, (0 : ℚ) ≤ v := by
    intro v hv
    rw [uniformDoseStat, List.mem_replicate] at hv
    rw [hv.2]
    norm_num
  have hlen : uniformDoseStat.length = 500 := by
    rw [uniformDoseStat, List.length_replicate]
  have hne : uniformDoseStat ≠ [] := by
    intro h
    rw [h] at hlen
    cases hlen
  rw [ComputeDvh_dose_ok Logic.New fz uniformDoseStat 5 hne (GetMin_nonneg _ hv)
    (by norm_num [Logic.New]) (by rw [hn]; decide) (by norm_num [Logic.New]),
    samples_eq_map Logic.New fz uniformDoseStat true 5
      (by norm_num [ComputeDvh.startValue, Logic.New])
      (by norm_num [ComputeDvh.stepSize, Logic.New]) hv, hn]
  have hcount : ∀ a : ℚ, (uniformDoseStat.countP (fun v => decide (v < a)) : ℚ)
      = if 5 < a then 500 else 0 := by
    intro a
    rw [uniformDoseStat, List.countP_replicate]
    by_cases h : (5 : ℚ) < a
    · simp [h]
    · simp [h]
  simp only [uniformDoseCurve, Outcome.ok.injEq, List.cons.injEq, true_and, hcount]
  apply List.map_congr_left
  intro k hk
  have hk26 : k < 26 := by simpa using hk
  have hq : (k : ℚ) ≤ 25 := by
    have : k ≤ 25 := by omega
    exact_mod_cast this
  refine Prod.ext ?_ ?_
  · simp [ComputeDvh.startValue, ComputeDvh.stepSize, Logic.New]
  · simp only [ComputeDvh.startValue, ComputeDvh.stepSize, Logic.New, if_true, GetVoxelCount,
      hlen]
    by_cases h25 : k < 25
    · have hq2 : (k : ℚ) ≤ 24 := by
        have : k ≤ 24 := by omega
        exact_mod_cast this
      have : ¬ ((5 : ℚ) < 1 / 10 + (k : ℚ) * (2 / 10)) := by
        intro h
        linarith
      rw [if_neg this, if_pos h25]
      norm_num
    · have hk25 : k = 25 := by omega
      subst hk25
      norm_num

/-- C11. The per-structure `ComputeDvh` returns the error of negative dose
values exactly when the volume holds dose and the masked minimum is negative
(the overlap being non-empty); for a volume that does not hold dose it returns
no error at all, whatever the masked minimum. -/
theorem ComputeDvh_negative_dose_error_iff (self : Logic) (fz : ℚ → ℤ)
    (structureStat : List ℚ) (isDoseVolume : Bool) (maxDoseGy : ℚ)
    (hne : structureStat ≠ []) :
    (ComputeDvh self fz structureStat isDoseVolume maxDoseGy
        = .error "The dose volume contains negative dose values"
      ↔ (isDoseVolume = true ∧ GetMin structureStat < 0))
    ∧ (isDoseVolume = false →
        ∀ message, ComputeDvh self fz structureStat isDoseVolume maxDoseGy ≠ .error message) := by
  have h1 : ¬ GetVoxelCount structureStat < 1 := by
    have := List.length_pos.mpr hne
    simp only [GetVoxelCount]
    omega
  have hform : ∀ message, ComputeDvh self fz structureStat isDoseVolume maxDoseGy = .error message →
      isDoseVolume = true ∧ GetMin structureStat < 0 := by
    intro message h
    by_contra hneg
    unfold ComputeDvh at h
    simp only [if_neg h1, if_neg hneg] at h
    split_ifs at h
    all_goals first
      | cases h
      | (split at h <;> cases h)
  refine ⟨⟨hform _, ?_⟩, ?_⟩
  · intro hcond
    unfold ComputeDvh
    simp only [if_neg h1, if_pos hcond]
  · intro hd message h
    have := (hform message h).1
    rw [hd] at this
    cases this

/-- Witness of C11: masked doses 1 and -1. -/
theorem ComputeDvh_negative_dose_error_iff_witness :
    ([1, -1] : List ℚ) ≠ []
    ∧ ((ComputeDvh Logic.New leastIntOnDivisionByZero [1, -1] true 5
          = .error "The dose volume contains negative dose values"
        ↔ ((true : Bool) = true ∧ GetMin [1, -1] < 0))
      ∧ ((true : Bool) = false →
          ∀ message, ComputeDvh Logic.New leastIntOnDivisionByZero [1, -1] true 5
            ≠ .error message)) :=
  ⟨by simp, ComputeDvh_negative_dose_error_iff Logic.New leastIntOnDivisionByZero [1, -1] true 5
    (by simp)⟩

theorem uniformDoseCurve_length : uniformDoseCurve.length = 27 := by
  simp [uniformDoseCurve]

theorem uniformDoseCurve_doseAt_succ (k : ℕ) (hk : k < 26) :
    doseAt uniformDoseCurve (k + 1) = 1 / 10 + (k : ℚ) * (2 / 10) := by
  simp [doseAt, uniformDoseCurve, List.getD, List.getElem?_range hk]

theorem uniformDoseCurve_percentAt_succ (k : ℕ) (hk : k < 26) :
    percentAt uniformDoseCurve (k + 1) = if k < 25 then 100 else 0 := by
  simp [percentAt, uniformDoseCurve, List.getD, List.getElem?_range hk]

theorem uniformDoseCurve_percentAt_le (k : ℕ) (hk : k ≤ 25) :
    percentAt uniformDoseCurve k = 100 := by
  cases k with
  | zero => simp [percentAt, uniformDoseCurve]
  | succ m =>
    rw [uniformDoseCurve_percentAt_succ m (by omega), if_pos (by omega)]

/-- The value of `ComputeDMetric` when the first bracketing pair is known. -/
theorem ComputeDMetric_of_first_bracket (doubleArray : DvhArray) (volume structureVolume : ℚ)
    (isPercent : Bool) (j : ℕ) (hj : j + 1 < doubleArray.length)
    (hsv : structureVolume ≠ 0)
    (hfirst : volumeAt doubleArray structureVolume 0
      > requestedVolumeCc volume structureVolume isPercent)
    (hlast : requestedVolumeCc volume structureVolume isPercent
      ≥ volumeAt doubleArray structureVolume (doubleArray.length - 1))
    (hb : Brackets doubleArray structureVolume
      (requestedVolumeCc volume structureVolume isPercent) j)
    (hmin : ∀ k, k < j → ¬ Brackets doubleArray structureVolume
      (requestedVolumeCc volume structureVolume isPercent) k) :
    ComputeDMetric (some doubleArray) volume structureVolume isPercent
      = some ⟨interpolatedDose doubleArray structureVolume
          (requestedVolumeCc volume structureVolume isPercent) j, none⟩ := by
  set target := requestedVolumeCc volume structureVolume isPercent with htarget
  have h0 : 0 < doubleArray.length := by omega
  have hl : doubleArray.length - 1 < doubleArray.length := by omega
  have hscan := scan_first_bracket doubleArray structureVolume target
    (doubleArray.length - 1) 0 j (by omega) (Nat.zero_le _) (by omega) hb
    (fun k _ hk => hmin k hk)
  have hnotsv : ¬ ((isPercent = true) ∧ structureVolume = 0) := fun h => hsv h.2
  have hc1 : ¬ (target ≥ percentAt doubleArray 0 / 100 * structureVolume) := not_le.mpr hfirst
  have hc2 : ¬ (target < percentAt doubleArray (doubleArray.length - 1) / 100 * structureVolume) :=
    not_lt.mpr hlast
  unfold ComputeDMetric
  simp only [GetNumberOfTuples, GetComponent_percent _ _ h0, GetComponent_percent _ _ hl,
    Option.bind_eq_bind, Option.some_bind, Option.pure_def]
  rw [if_neg hnotsv]
  have htv : (if isPercent = true then volume * structureVolume / 100 else volume) = target := by
    simp [htarget, requestedVolumeCc]
  rw [htv, if_neg hc1, if_neg hc2, hscan]
  rfl

/-- C13. Scenario of the uniform dose (500 masked voxels of dose 5.0, volume
0.5 cc, binning of the constructor): the curve holds 100 percent at every
abscissa up to 4.9 and 0 percent at 5.1, and `ComputeDMetric` with a threshold
of 50 percent returns exactly 5.0. -/
theorem ComputeDMetric_uniform_dose :
    uniformDoseVolumeCc = 1 / 2
    ∧ ∃ curve, ComputeDvh Logic.New leastIntOnDivisionByZero uniformDoseStat true 5 = .ok curve
      ∧ (∀ k, k ≤ 25 → percentAt curve k = 100)
      ∧ doseAt curve 25 = 49 / 10 ∧ doseAt curve 26 = 51 / 10 ∧ percentAt curve 26 = 0
      ∧ ComputeDMetric (some curve) 50 uniformDoseVolumeCc true = some ⟨5, none⟩ := by
  have hv : uniformDoseVolumeCc = 1 / 2 := by norm_num [uniformDoseVolumeCc]
  have hd25 : doseAt uniformDoseCurve 25 = 49 / 10 := by
    rw [uniformDoseCurve_doseAt_succ 24 (by omega)]
    norm_num
  have hd26 : doseAt uniformDoseCurve 26 = 51 / 10 := by
    rw [uniformDoseCurve_doseAt_succ 25 (by omega)]
    norm_num
  have hp26 : percentAt uniformDoseCurve 26 = 0 := by
    rw [uniformDoseCurve_percentAt_succ 25 (by omega)]
    simp
  have hp25 := uniformDoseCurve_percentAt_le 25 le_rfl
  refine ⟨hv, uniformDoseCurve, ComputeDvh_uniform_dose _, uniformDoseCurve_percentAt_le,
    hd25, hd26, hp26, ?_⟩
  have htarget : requestedVolumeCc 50 uniformDoseVolumeCc true = 1 / 4 := by
    norm_num [requestedVolumeCc, hv]
  have hm := ComputeDMetric_of_first_bracket uniformDoseCurve 50 uniformDoseVolumeCc true 25
    (by rw [uniformDoseCurve_length]; omega) (by rw [hv]; norm_num)
    (by rw [htarget, volumeAt, uniformDoseCurve_percentAt_le 0 (by omega), hv]; norm_num)
    (by rw [htarget, uniformDoseCurve_length, volumeAt, hp26]; norm_num)
    (by
      rw [htarget]
      constructor
      · rw [volumeAt, hp25, hv]; norm_num
      · rw [volumeAt, hp26]; norm_num)
    (by
      intro k hk hb
      rw [htarget] at hb
      have := hb.2
      rw [volumeAt, uniformDoseCurve_percentAt_le (k + 1) (by omega), hv] at this
      norm_num at this)
  rw [hm, htarget]
  simp only [interpolatedDose, volumeAt, hd25, hd26, hp25, hp26, hv]
  norm_num

/-! ## Lemmas on the interpolator of the V metric -/

/-- Sorting leaves nodes alone that are already in strictly increasing order. -/
theorem SortAndUpdateRange_of_increasing (nodes : PiecewiseFunction)
    (h : nodes.Pairwise (fun a b => a.1 < b.1)) : SortAndUpdateRange nodes = nodes := by
  unfold SortAndUpdateRange
  apply List.Sorted.insertionSort_eq
  exact List.Pairwise.imp (fun hab => le_of_lt hab) h

/-- A node that lies before all others comes first after sorting. -/
theorem SortAndUpdateRange_append_least (nodes : PiecewiseFunction) (a : ℚ × ℚ)
    (h : ∀ b ∈ nodes, a.1 < b.1) :
    SortAndUpdateRange (nodes ++ [a]) = a :: SortAndUpdateRange nodes := by
  unfold SortAndUpdateRange
  induction nodes with
  | nil => simp
  | cons b l ih =>
    have hb : ¬ b.1 ≤ a.1 := not_le.mpr (h b (List.mem_cons_self b l))
    have hl := ih (fun c hc => h c (List.mem_cons_of_mem b hc))
    rw [List.cons_append]
    show List.orderedInsert _ b (List.insertionSort _ (l ++ [a]))
      = a :: List.orderedInsert _ b (List.insertionSort _ l)
    rw [hl, List.orderedInsert, if_neg hb]

/-- Nodes that `BuildFunctionFromTable` makes from the tuples after the first
one: for abscissae uniformly spaced from sample 1 onward and in strictly
increasing order, they are these tuples. -/
theorem BuildFunctionFromTable_eq_tail (doubleArray : DvhArray) (hlen : 2 ≤ doubleArray.length)
    (huni : UniformFromSecond doubleArray)
    (hinc : (doubleArray.drop 1).Pairwise (fun a b => a.1 < b.1)) :
    BuildFunctionFromTable (doseAt doubleArray 1) (doseAt doubleArray (doubleArray.length - 1))
        (doubleArray.length - 1) ((doubleArray.drop 1).map Prod.snd)
      = doubleArray.drop 1 := by
  obtain ⟨step, hstep⟩ := huni
  obtain ⟨m, hm⟩ : ∃ m, doubleArray.length = m + 2 := ⟨doubleArray.length - 2, by omega⟩
  have hsize : doubleArray.length - 1 = m + 1 := by omega
  rw [hsize]
  have hlast : doseAt doubleArray (m + 1) = doseAt doubleArray 1 + (m : ℚ) * step :=
    hstep m (by omega)
  have hinc2 : (if m + 1 > 1 then (doseAt doubleArray (m + 1) - doseAt doubleArray 1)
      / (((m + 1 : ℕ) : ℚ) - 1) else 0) = if m + 1 > 1 then step else 0 := by
    by_cases hgt : m + 1 > 1
    · rw [if_pos hgt, if_pos hgt, hlast]
      have hne : (m : ℚ) ≠ 0 := by
        have : m ≠ 0 := by omega
        exact_mod_cast this
      push_cast
      field_simp
    · rw [if_neg hgt, if_neg hgt]
  have hz : (List.range (m + 1)).zipWith
      (fun (i : ℕ) (y : ℚ) => (doseAt doubleArray 1
        + (if m + 1 > 1 then (doseAt doubleArray (m + 1) - doseAt doubleArray 1)
            / (((m + 1 : ℕ) : ℚ) - 1) else 0) * (i : ℚ), y))
      ((doubleArray.drop 1).map Prod.snd) = doubleArray.drop 1 := by
    rw [hinc2]
    apply List.ext_getElem
    · simp
      omega
    · intro k h1 h2
      have hk : k + 1 < doubleArray.length := by
        simp at h2
        omega
      have hdk := hstep k hk
      have hmul : (if m + 1 > 1 then step else 0) * (k : ℚ) = (k : ℚ) * step := by
        by_cases hgt : m + 1 > 1
        · rw [if_pos hgt, mul_comm]
        · rw [if_neg hgt]
          have : k = 0 := by omega
          subst this
          simp
      simp only [List.getElem_zipWith, List.getElem_range, List.getElem_map]
      rw [hmul, ← hdk]
      simp [doseAt, List.getD, List.getElem?_eq_getElem hk]
  have hdef : BuildFunctionFromTable (doseAt doubleArray 1) (doseAt doubleArray (m + 1)) (m + 1)
      ((doubleArray.drop 1).map Prod.snd)
      = SortAndUpdateRange ((List.range (m + 1)).zipWith
          (fun (i : ℕ) (y : ℚ) => (doseAt doubleArray 1
            + (if m + 1 > 1 then (doseAt doubleArray (m + 1) - doseAt doubleArray 1)
                / (((m + 1 : ℕ) : ℚ) - 1) else 0) * (i : ℚ), y))
          ((doubleArray.drop 1).map Prod.snd)) := rfl
  rw [hdef, hz]
  exact SortAndUpdateRange_of_increasing _ hinc

/-- Adding a point ahead of nodes in strictly increasing order puts it in front. -/
theorem AddPoint_before_all (nodes : PiecewiseFunction) (x y : ℚ)
    (hinc : nodes.Pairwise (fun a b => a.1 < b.1)) (h : ∀ b ∈ nodes, x < b.1) :
    AddPoint nodes x y = (x, y) :: nodes := by
  unfold AddPoint
  have he : nodes.eraseP (fun node => decide (node.1 = x)) = nodes := by
    apply List.eraseP_of_forall_not
    intro b hb
    have := h b hb
    simp only [decide_eq_true_eq]
    exact fun hbx => absurd hbx (ne_of_gt this)
  rw [he, SortAndUpdateRange_append_least nodes (x, y) h, SortAndUpdateRange_of_increasing _ hinc]

/-- Adding a point at or ahead of the first of nodes in strictly increasing
order: the point comes first, and a node at the same place is replaced. -/
theorem AddPoint_at_or_before_all (nodes : PiecewiseFunction) (x y : ℚ)
    (hinc : nodes.Pairwise (fun a b => a.1 < b.1)) (h : ∀ b ∈ nodes, x ≤ b.1) :
    ∃ rest, AddPoint nodes x y = (x, y) :: rest := by
  cases nodes with
  | nil => exact ⟨[], by simp [AddPoint, SortAndUpdateRange]⟩
  | cons a l =>
    rw [List.pairwise_cons] at hinc
    by_cases hax : a.1 = x
    · refine ⟨l, ?_⟩
      have he : (a :: l).eraseP (fun node => decide (node.1 = x)) = l := by
        simp [List.eraseP_cons, hax]
      have hl : ∀ b ∈ l, x < b.1 := fun b hb => hax ▸ hinc.1 b hb
      unfold AddPoint
      rw [he, SortAndUpdateRange_append_least l (x, y) hl,
        SortAndUpdateRange_of_increasing _ hinc.2]
    · have hlt : x < a.1 := lt_of_le_of_ne (h a (List.mem_cons_self a l)) (Ne.symm hax)
      refine ⟨a :: l, AddPoint_before_all (a :: l) x y (List.pairwise_cons.mpr hinc) ?_⟩
      intro b hb
      rcases List.mem_cons.mp hb with rfl | hb
      · exact hlt
      · exact lt_trans hlt (hinc.1 b hb)

theorem doseAt_zero_cons (t : DvhTuple) (l : DvhArray) : doseAt (t :: l) 0 = t.1 := by
  simp [doseAt]

theorem percentAt_zero_cons (t : DvhTuple) (l : DvhArray) : percentAt (t :: l) 0 = t.2 := by
  simp [percentAt]

/-- In a curve of strictly increasing abscissae no sample lies before the first. -/
theorem doseAt_ge_first (t : DvhTuple) (l : DvhArray)
    (hinc : (t :: l).Pairwise (fun a b => a.1 < b.1)) (k : ℕ) (hk : k < (t :: l).length) :
    t.1 ≤ doseAt (t :: l) k := by
  cases k with
  | zero => rw [doseAt_zero_cons]
  | succ j =>
    have hj : j < l.length := by simpa using hk
    rw [doseAt_cons_succ]
    have hmem : l[j] ∈ l := List.getElem_mem hj
    have := (List.pairwise_cons.mp hinc).1 _ hmem
    simp only [doseAt, List.getD, List.get?_eq_getElem?, List.getElem?_eq_getElem hj,
      Option.getD_some]
    exact le_of_lt this

theorem linearBetween_cons_succ (t : DvhTuple) (l : DvhArray) (i : ℕ) (d : ℚ) :
    linearBetween (t :: l) (i + 1) d = linearBetween l i d := by
  simp [linearBetween, doseAt_cons_succ, percentAt_cons_succ]

/-- Evaluation beyond a node, inside the pair `(i, i+1)` of the nodes. -/
theorem GetValue_after_between (d : ℚ) :
    ∀ (rest : PiecewiseFunction) (previous : ℚ × ℚ) (i : ℕ),
      (previous :: rest).Pairwise (fun a b => a.1 < b.1) → i + 1 < (previous :: rest).length →
      previous.1 < d → doseAt (previous :: rest) i < d → d ≤ doseAt (previous :: rest) (i + 1) →
      GetValue.after previous rest d = linearBetween (previous :: rest) i d := by
  intro rest
  induction rest with
  | nil =>
    intro previous i _ hi
    simp at hi
  | cons a l ih =>
    intro previous i hinc hi hprev hlo hhi
    have hinc2 := (List.pairwise_cons.mp hinc).2
    cases i with
    | zero =>
      have h1 : doseAt (previous :: a :: l) 1 = a.1 := by
        rw [doseAt_cons_succ, doseAt_zero_cons]
      rw [h1] at hhi
      rw [GetValue.after, if_neg (not_lt.mpr hhi)]
      simp only [linearBetween, doseAt_zero_cons, percentAt_zero_cons, doseAt_cons_succ,
        percentAt_cons_succ]
    | succ j =>
      rw [doseAt_cons_succ] at hlo hhi
      have hj : j < (a :: l).length := by
        simp only [List.length_cons] at hi ⊢
        omega
      have ha : a.1 < d := lt_of_le_of_lt (doseAt_ge_first a l hinc2 j hj) hlo
      rw [GetValue.after, if_pos ha, linearBetween_cons_succ]
      exact ih a j hinc2 (by simp only [List.length_cons] at hi ⊢; omega) ha hlo hhi

/-- Evaluation beyond the last node gives the value of the last node. -/
theorem GetValue_after_beyond (d : ℚ) :
    ∀ (rest : PiecewiseFunction) (previous : ℚ × ℚ),
      (previous :: rest).Pairwise (fun a b => a.1 < b.1) →
      doseAt (previous :: rest) ((previous :: rest).length - 1) < d →
      GetValue.after previous rest d
        = percentAt (previous :: rest) ((previous :: rest).length - 1) := by
  intro rest
  induction rest with
  | nil =>
    intro previous _ _
    simp [GetValue.after, percentAt]
  | cons a l ih =>
    intro previous hinc hd
    have hinc2 := (List.pairwise_cons.mp hinc).2
    have hlen : (previous :: a :: l).length - 1 = ((a :: l).length - 1) + 1 := by simp
    rw [hlen, doseAt_cons_succ] at hd
    rw [hlen, percentAt_cons_succ]
    have ha : a.1 < d :=
      lt_of_le_of_lt (doseAt_ge_first a l hinc2 _ (by simp)) hd
    rw [GetValue.after, if_pos ha]
    exact ih a hinc2 hd

/-- On nodes in strictly increasing order `GetValue` is the clamped piecewise
linear interpolation through the nodes. -/
theorem GetValue_isClampedInterpolation (nodes : PiecewiseFunction) (d : ℚ)
    (hne : nodes ≠ []) (hinc : nodes.Pairwise (fun a b => a.1 < b.1)) :
    IsClampedInterpolation nodes d (GetValue nodes d) := by
  cases nodes with
  | nil => exact absurd rfl hne
  | cons t l =>
    have hbetween : ∀ i, i + 1 < (t :: l).length → doseAt (t :: l) i < d →
        d ≤ doseAt (t :: l) (i + 1) → GetValue (t :: l) d = linearBetween (t :: l) i d := by
      intro i hi hlo hhi
      have ht : t.1 < d := lt_of_le_of_lt (doseAt_ge_first t l hinc i (by omega)) hlo
      rw [GetValue, if_pos ht]
      exact GetValue_after_between d l t i hinc hi ht hlo hhi
    have hfirst : d ≤ doseAt (t :: l) 0 → GetValue (t :: l) d = percentAt (t :: l) 0 := by
      intro h
      rw [doseAt_zero_cons] at h
      rw [GetValue, if_neg (not_lt.mpr h), percentAt_zero_cons]
    have hstrict : ∀ i, i + 1 < (t :: l).length →
        doseAt (t :: l) i < doseAt (t :: l) (i + 1) := by
      intro i hi
      have h1 : i < (t :: l).length := by omega
      have := List.pairwise_iff_getElem.mp hinc i (i + 1) h1 hi (Nat.lt_succ_self i)
      simpa [doseAt, List.getD, List.getElem?_eq_getElem h1, List.getElem?_eq_getElem hi]
        using this
    have hat : ∀ i, i + 1 < (t :: l).length → d = doseAt (t :: l) (i + 1) →
        GetValue (t :: l) d = percentAt (t :: l) (i + 1) := by
      intro i hi hd
      have hs := hstrict i hi
      rw [hbetween i hi (by rw [hd]; exact hs) (le_of_eq hd), linearBetween, hd]
      have hne0 : doseAt (t :: l) (i + 1) - doseAt (t :: l) i ≠ 0 := by linarith
      rw [div_self hne0]
      ring
    refine ⟨hfirst, ?_, ?_⟩
    · intro hlast
      rcases eq_or_lt_of_le hlast with heq | hlt
      · cases hl : l with
        | nil =>
          subst hl
          simp only [List.length_singleton, Nat.sub_self] at heq ⊢
          exact hfirst (le_of_eq heq.symm)
        | cons a l2 =>
          subst hl
          have := hat ((t :: a :: l2).length - 2) (by simp) (by
            rw [← heq]
            congr 1)
          simpa using this
      · rw [GetValue, if_pos (lt_of_le_of_lt (doseAt_ge_first t l hinc _ (by simp)) hlt)]
        exact GetValue_after_beyond d l t hinc hlt
    · intro i hi hlo hhi
      rcases eq_or_lt_of_le hlo with heq | hlt
      · cases i with
        | zero =>
          rw [hfirst (le_of_eq heq.symm), linearBetween, ← heq]
          simp
        | succ j =>
          rw [hat j (by omega) heq.symm, linearBetween, ← heq]
          simp
      · exact hbetween i hi hlt hhi

/-- The table entries of the V metric for a curve with at least two tuples and
a structure volume other than 0, in terms of the interpolator. -/
theorem forDvhNode_eq (doubleArray : DvhArray) (structureVolume : ℚ) (doseValues : List ℚ)
    (showCc showPercent : Bool) (hlen : 2 ≤ doubleArray.length) (hsv : structureVolume ≠ 0) :
    ComputeVMetrics.forDvhNode doubleArray structureVolume doseValues showCc showPercent
      = some ⟨(doseValues.map (fun d =>
          (if showCc then [GetValue (AddPoint (BuildFunctionFromTable (doseAt doubleArray 1)
              (doseAt doubleArray (doubleArray.length - 1)) (doubleArray.length - 1)
              ((doubleArray.drop 1).map Prod.snd)) (doseAt doubleArray 0)
              (percentAt doubleArray 0)) d * structureVolume / 100] else [])
          ++ (if showPercent then [GetValue (AddPoint (BuildFunctionFromTable
              (doseAt doubleArray 1) (doseAt doubleArray (doubleArray.length - 1))
              (doubleArray.length - 1) ((doubleArray.drop 1).map Prod.snd))
              (doseAt doubleArray 0) (percentAt doubleArray 0)) d] else []))).flatten, none⟩ := by
  have h1 : 1 < doubleArray.length := by omega
  have h0 : 0 < doubleArray.length := by omega
  have hl : doubleArray.length - 1 < doubleArray.length := by omega
  unfold ComputeVMetrics.forDvhNode
  rw [if_neg hsv]
  simp only [GetNumberOfTuples, GetComponent_dose doubleArray 1 h1,
    GetComponent_dose doubleArray (doubleArray.length - 1) hl, GetComponent_dose doubleArray 0 h0,
    GetComponent_percent doubleArray 0 h0, Option.bind_eq_bind, Option.some_bind,
    Option.pure_def]

/-- For a curve with strictly increasing abscissae, uniformly spaced from sample
1 onward, the nodes of the interpolator are the tuples of the curve. -/
theorem interpolator_eq_curve (doubleArray : DvhArray) (hlen : 2 ≤ doubleArray.length)
    (hinc : doubleArray.Pairwise (fun a b => a.1 < b.1)) (huni : UniformFromSecond doubleArray) :
    AddPoint (BuildFunctionFromTable (doseAt doubleArray 1)
        (doseAt doubleArray (doubleArray.length - 1)) (doubleArray.length - 1)
        ((doubleArray.drop 1).map Prod.snd)) (doseAt doubleArray 0) (percentAt doubleArray 0)
      = doubleArray := by
  cases doubleArray with
  | nil => simp at hlen
  | cons t l =>
    have hp := List.pairwise_cons.mp hinc
    rw [BuildFunctionFromTable_eq_tail (t :: l) hlen huni (by simpa using hp.2)]
    simp only [List.drop_succ_cons, List.drop_zero, doseAt_zero_cons, percentAt_zero_cons]
    exact AddPoint_before_all l t.1 t.2 hp.2 hp.1

/-- C15. V metric evaluation: for a curve with at least two samples whose
abscissae increase strictly and are uniformly spaced from sample 1 onward, and
a structure volume other than 0, the percent that `ComputeVMetrics` computes for
a dose `d` is the piecewise linear interpolation through all samples of the
curve, sample 0 included, clamped to the percent of the first sample below the
first abscissa and to the percent of the last sample above the last one. -/
theorem ComputeVMetrics_clamped_interpolation (doubleArray : DvhArray)
    (structureVolume d : ℚ) (hlen : 2 ≤ doubleArray.length)
    (hinc : doubleArray.Pairwise (fun a b => a.1 < b.1)) (huni : UniformFromSecond doubleArray)
    (hsv : structureVolume ≠ 0) :
    ∃ v, ComputeVMetrics.forDvhNode doubleArray structureVolume [d] false true
        = some ⟨[v], none⟩
      ∧ IsClampedInterpolation doubleArray d v := by
  refine ⟨GetValue doubleArray d, ?_, ?_⟩
  · rw [forDvhNode_eq doubleArray structureVolume [d] false true hlen hsv,
      interpolator_eq_curve doubleArray hlen hinc huni]
    simp
  · apply GetValue_isClampedInterpolation doubleArray d _ hinc
    intro h
    rw [h] at hlen
    simp at hlen

/-- Witness of C15: the curve `(0,100) (1,100) (3,50) (5,0)`, structure volume
2 cc, dose 2. -/
theorem ComputeVMetrics_clamped_interpolation_witness :
    2 ≤ ([(0, 100), (1, 100), (3, 50), (5, 0)] : DvhArray).length
    ∧ ([(0, 100), (1, 100), (3, 50), (5, 0)] : DvhArray).Pairwise (fun a b => a.1 < b.1)
    ∧ UniformFromSecond [(0, 100), (1, 100), (3, 50), (5, 0)]
    ∧ (2 : ℚ) ≠ 0
    ∧ ∃ v, ComputeVMetrics.forDvhNode [(0, 100), (1, 100), (3, 50), (5, 0)] 2 [2] false true
        = some ⟨[v], none⟩
      ∧ IsClampedInterpolation [(0, 100), (1, 100), (3, 50), (5, 0)] 2 v :=
  have hinc : ([(0, 100), (1, 100), (3, 50), (5, 0)] : DvhArray).Pairwise
      (fun a b => a.1 < b.1) := by
    simp only [List.pairwise_cons, List.mem_cons, List.mem_singleton, List.not_mem_nil,
      forall_eq_or_imp, forall_eq, List.Pairwise.nil]
    norm_num
  have huni : UniformFromSecond [(0, 100), (1, 100), (3, 50), (5, 0)] := by
    refine ⟨2, ?_⟩
    intro k hk
    have hk3 : k < 3 := by
      simp only [List.length_cons, List.length_nil] at hk
      omega
    interval_cases k <;> norm_num [doseAt]
  ⟨by decide, hinc, huni, by norm_num,
    ComputeVMetrics_clamped_interpolation [(0, 100), (1, 100), (3, 50), (5, 0)] 2 2 (by decide)
      hinc huni (by norm_num)⟩

/-- Abscissa of a tuple of the samples, by position. -/
theorem samples_getElem_fst (self : Logic) (fz : ℚ → ℤ) (structureStat : List ℚ)
    (isDoseVolume : Bool) (maxDoseGy : ℚ) (k : ℕ)
    (hk : k < (ComputeDvh.samples self fz structureStat isDoseVolume maxDoseGy).length) :
    ((ComputeDvh.samples self fz structureStat isDoseVolume maxDoseGy)[k]).1
      = ComputeDvh.startValue self structureStat isDoseVolume
        + (k : ℚ) * ComputeDvh.stepSize self structureStat isDoseVolume := by
  have hk2 : k < (ComputeDvh.numSamples self isDoseVolume maxDoseGy).toNat := by
    rw [samples_length] at hk
    exact hk
  have hd := samples_doseAt self fz structureStat isDoseVolume maxDoseGy k hk2
  simpa only [doseAt, List.getD, List.get?_eq_getElem?, List.getElem?_eq_getElem hk,
    Option.getD_some] using hd

/-- With a positive step size the samples are in strictly increasing order. -/
theorem samples_increasing (self : Logic) (fz : ℚ → ℤ) (structureStat : List ℚ)
    (isDoseVolume : Bool) (maxDoseGy : ℚ)
    (hstep : 0 < ComputeDvh.stepSize self structureStat isDoseVolume) :
    (ComputeDvh.samples self fz structureStat isDoseVolume maxDoseGy).Pairwise
      (fun a b => a.1 < b.1) := by
  rw [List.pairwise_iff_getElem]
  intro i j hi hj hij
  rw [samples_getElem_fst _ _ _ _ _ i hi, samples_getElem_fst _ _ _ _ _ j hj]
  have : (i : ℚ) < (j : ℚ) := by exact_mod_cast hij
  nlinarith

/-- The curve with origin anchor has abscissae uniformly spaced from sample 1 onward. -/
theorem anchored_uniformFromSecond (self : Logic) (fz : ℚ → ℤ) (structureStat : List ℚ)
    (isDoseVolume : Bool) (maxDoseGy : ℚ) (anchor : DvhTuple) :
    UniformFromSecond
      (anchor :: ComputeDvh.samples self fz structureStat isDoseVolume maxDoseGy) := by
  refine ⟨ComputeDvh.stepSize self structureStat isDoseVolume, ?_⟩
  intro k hk
  have hk2 : k < (ComputeDvh.numSamples self isDoseVolume maxDoseGy).toNat := by
    rw [List.length_cons, samples_length] at hk
    omega
  have h0 : 0 < (ComputeDvh.numSamples self isDoseVolume maxDoseGy).toNat := by omega
  rw [doseAt_cons_succ, samples_doseAt _ _ _ _ _ k hk2,
    show (1 : ℕ) = 0 + 1 from rfl, doseAt_cons_succ, samples_doseAt _ _ _ _ _ 0 h0]
  simp

/-- The sample count of a dose volume is at least 1 when the step size is
positive and the maximum dose lies above the start value less one step. -/
theorem numSamples_pos (self : Logic) (maxDoseGy : ℚ) (hstep : 0 < self.StepSize)
    (hreach : self.StartValue - self.StepSize < maxDoseGy) :
    1 ≤ ComputeDvh.numSamples self true maxDoseGy := by
  have hq : ((-1 : ℤ) : ℚ) < (maxDoseGy - self.StartValue) / self.StepSize := by
    rw [lt_div_iff₀ hstep]
    push_cast
    linarith
  have := Int.lt_ceil.mpr hq
  simp only [ComputeDvh.numSamples, if_true]
  omega

/-- C14. Full volume at zero dose: for a dose volume whose masked doses are not
negative, binned with a start value that is not negative and a positive step
size that reach the maximum dose, and for a positive structure volume, the curve
is built and its V metric at dose 0.0 is 100 percent, in cc the structure
volume. -/
theorem ComputeVMetrics_full_volume_at_zero_dose (self : Logic) (fz : ℚ → ℤ)
    (structureStat : List ℚ) (maxDoseGy structureVolume : ℚ) (hne : structureStat ≠ [])
    (hdose : ∀ v ∈ structureStat, 0 ≤ v) (hstart : 0 ≤ self.StartValue)
    (hstep : 0 < self.StepSize) (hreach : self.StartValue - self.StepSize < maxDoseGy)
    (hsv : 0 < structureVolume) :
    ∃ curve, ComputeDvh self fz structureStat true maxDoseGy = .ok curve
      ∧ ComputeVMetrics.forDvhNode curve structureVolume [0] true true
          = some ⟨[structureVolume, 100], none⟩ := by
  have hn := numSamples_pos self maxDoseGy hstep hreach
  have hok := ComputeDvh_dose_ok self fz structureStat maxDoseGy hne
    (GetMin_nonneg structureStat hdose) (ne_of_gt hstep) (by omega) hstart
  have hstep2 : 0 < ComputeDvh.stepSize self structureStat true := by
    simpa [ComputeDvh.stepSize] using hstep
  have hstart2 : ComputeDvh.startValue self structureStat true = self.StartValue := by
    simp [ComputeDvh.startValue]
  refine ⟨_, hok, ?_⟩
  have hlen : 2 ≤ ((0, 100) :: ComputeDvh.samples self fz structureStat true maxDoseGy).length := by
    rw [List.length_cons, samples_length]
    omega
  have hinc := samples_increasing self fz structureStat true maxDoseGy hstep2
  have hnonneg : ∀ b ∈ ComputeDvh.samples self fz structureStat true maxDoseGy,
      (0 : ℚ) ≤ b.1 := by
    intro b hb
    obtain ⟨k, hk, rfl⟩ := List.mem_iff_getElem.mp hb
    rw [samples_getElem_fst _ _ _ _ _ k hk, hstart2]
    have : (0 : ℚ) ≤ (k : ℚ) * ComputeDvh.stepSize self structureStat true :=
      mul_nonneg (Nat.cast_nonneg k) (le_of_lt hstep2)
    linarith
  rw [forDvhNode_eq _ structureVolume [0] true true hlen (ne_of_gt hsv),
    BuildFunctionFromTable_eq_tail _ hlen (anchored_uniformFromSecond _ _ _ _ _ _)
      (by simpa using hinc)]
  simp only [List.drop_succ_cons, List.drop_zero, doseAt_zero_cons, percentAt_zero_cons]
  obtain ⟨rest, hrest⟩ := AddPoint_at_or_before_all
    (ComputeDvh.samples self fz structureStat true maxDoseGy) 0 100 hinc hnonneg
  rw [hrest]
  simp [GetValue]

/-- Witness of C14: binning of the constructor, two voxels with dose 0.2 and 0.5,
maximum dose 0.5, structure volume 2 cc. -/
theorem ComputeVMetrics_full_volume_at_zero_dose_witness :
    ([1 / 5, 1 / 2] : List ℚ) ≠ [] ∧ (∀ v ∈ ([1 / 5, 1 / 2] : List ℚ), 0 ≤ v)
    ∧ 0 ≤ Logic.New.StartValue ∧ 0 < Logic.New.StepSize
    ∧ Logic.New.StartValue - Logic.New.StepSize < 1 / 2 ∧ (0 : ℚ) < 2
    ∧ ∃ curve, ComputeDvh Logic.New leastIntOnDivisionByZero [1 / 5, 1 / 2] true (1 / 2)
        = .ok curve
      ∧ ComputeVMetrics.forDvhNode curve 2 [0] true true = some ⟨[2, 100], none⟩ :=
  have hv : ∀ v ∈ ([1 / 5, 1 / 2] : List ℚ), 0 ≤ v := by
    intro v hv
    simp only [List.mem_cons, List.mem_singleton, List.not_mem_nil, or_false] at hv
    rcases hv with rfl | rfl <;> norm_num
  ⟨by simp, hv, by norm_num [Logic.New], by norm_num [Logic.New], by norm_num [Logic.New],
    by norm_num,
    ComputeVMetrics_full_volume_at_zero_dose Logic.New leastIntOnDivisionByZero [1 / 5, 1 / 2]
      (1 / 2) 2 (by simp) hv (by norm_num [Logic.New]) (by norm_num [Logic.New])
      (by norm_num [Logic.New]) (by norm_num)⟩

/-- The curve of the uniform dose scenario is in strictly increasing dose order. -/
theorem uniformDoseCurve_increasing :
    uniformDoseCurve.Pairwise (fun a b => a.1 < b.1) := by
  rw [List.pairwise_iff_getElem]
  intro i j hi hj hij
  have hi2 : i < 27 := by rw [uniformDoseCurve_length] at hi; exact hi
  have hj2 : j < 27 := by rw [uniformDoseCurve_length] at hj; exact hj
  have hd : ∀ (k : ℕ) (hk : k < uniformDoseCurve.length),
      (uniformDoseCurve[k]).1 = doseAt uniformDoseCurve k := by
    intro k hk
    simp only [doseAt, List.getD, List.get?_eq_getElem?, List.getElem?_eq_getElem hk,
      Option.getD_some]
  rw [hd i hi, hd j hj]
  obtain ⟨m, rfl⟩ : ∃ m, j = m + 1 := ⟨j - 1, by omega⟩
  rw [uniformDoseCurve_doseAt_succ m (by omega)]
  cases i with
  | zero =>
    have h0 : doseAt uniformDoseCurve 0 = 0 := by simp [doseAt, uniformDoseCurve]
    rw [h0]
    positivity
  | succ n =>
    rw [uniformDoseCurve_doseAt_succ n (by omega)]
    have : (n : ℚ) < (m : ℚ) := by exact_mod_cast (by omega : n < m)
    linarith

/-- The abscissae of the uniform dose curve are spaced by 0.2 from sample 1 onward. -/
theorem uniformDoseCurve_uniformFromSecond : UniformFromSecond uniformDoseCurve := by
  refine ⟨2 / 10, ?_⟩
  intro k hk
  rw [uniformDoseCurve_length] at hk
  rw [uniformDoseCurve_doseAt_succ k (by omega), show (1 : ℕ) = 0 + 1 from rfl,
    uniformDoseCurve_doseAt_succ 0 (by omega)]
  simp

/-- V metric in cc of the uniform dose curve at a dose between the abscissae 4.9
and 5.1: the value interpolated on the straight line from 100 to 0 percent. -/
theorem uniformDoseCurve_VMetric_between (d : ℚ) (h1 : 49 / 10 ≤ d) (h2 : d ≤ 51 / 10) :
    ComputeVMetrics.forDvhNode uniformDoseCurve uniformDoseVolumeCc [d] true false
      = some ⟨[(100 - (d - 49 / 10) * 500) * (1 / 2) / 100], none⟩ := by
  have hv : uniformDoseVolumeCc = 1 / 2 := by norm_num [uniformDoseVolumeCc]
  have hlen : 2 ≤ uniformDoseCurve.length := by rw [uniformDoseCurve_length]; omega
  have hd25 : doseAt uniformDoseCurve 25 = 49 / 10 := by
    rw [uniformDoseCurve_doseAt_succ 24 (by omega)]
    norm_num
  have hd26 : doseAt uniformDoseCurve 26 = 51 / 10 := by
    rw [uniformDoseCurve_doseAt_succ 25 (by omega)]
    norm_num
  have hp26 : percentAt uniformDoseCurve 26 = 0 := by
    rw [uniformDoseCurve_percentAt_succ 25 (by omega)]
    simp
  have hp25 := uniformDoseCurve_percentAt_le 25 le_rfl
  have hne : uniformDoseCurve ≠ [] := by
    intro h
    rw [h] at hlen
    simp at hlen
  have hclamp := GetValue_isClampedInterpolation uniformDoseCurve d hne
    uniformDoseCurve_increasing
  have hval := hclamp.2.2 25 (by rw [uniformDoseCurve_length]; omega) (by rw [hd25]; exact h1)
    (by rw [hd26]; exact h2)
  rw [forDvhNode_eq _ _ _ _ _ hlen (by rw [hv]; norm_num),
    interpolator_eq_curve _ hlen uniformDoseCurve_increasing uniformDoseCurve_uniformFromSecond]
  simp only [List.map_cons, List.map_nil, if_true, List.flatten_cons, List.flatten_nil,
    List.append_nil, Bool.false_eq_true, if_false, hval, hv, linearBetween, hd25, hd26, hp25,
    hp26]
  norm_num
  ring

/-- Counterexample to C12. On the curve of the uniform dose scenario (500 masked
voxels of dose 5.0, volume 0.5 cc, binning of the constructor) the V metric in
cc at dose 5.0 is 0.25, not 0.5, and at dose 5.01 it is 0.225, not 0.0. -/
theorem ComputeVMetrics_uniform_dose_not_step :
    ∃ curve, ComputeDvh Logic.New leastIntOnDivisionByZero uniformDoseStat true 5 = .ok curve
      ∧ ComputeVMetrics.forDvhNode curve uniformDoseVolumeCc [5] true false
          ≠ some ⟨[1 / 2], none⟩
      ∧ ComputeVMetrics.forDvhNode curve uniformDoseVolumeCc [501 / 100] true false
          ≠ some ⟨[0], none⟩ := by
  refine ⟨uniformDoseCurve, ComputeDvh_uniform_dose _, ?_, ?_⟩
  · rw [uniformDoseCurve_VMetric_between 5 (by norm_num) (by norm_num)]
    norm_num
  · rw [uniformDoseCurve_VMetric_between (501 / 100) (by norm_num) (by norm_num)]
    norm_num

/-- C12, amended. On the curve of the uniform dose scenario, which holds 100
percent at the abscissa 4.9 and 0 percent at the abscissa 5.1, the V metric in
cc is interpolated on the straight line between these two samples: 0.5 at dose
4.9, 0.25 at dose 5.0, 0.225 at dose 5.01 and 0.0 at dose 5.1. -/
theorem ComputeVMetrics_uniform_dose :
    uniformDoseVolumeCc = 1 / 2
    ∧ ∃ curve, ComputeDvh Logic.New leastIntOnDivisionByZero uniformDoseStat true 5 = .ok curve
      ∧ ComputeVMetrics.forDvhNode curve uniformDoseVolumeCc [49 / 10] true false
          = some ⟨[1 / 2], none⟩
      ∧ ComputeVMetrics.forDvhNode curve uniformDoseVolumeCc [5] true false
          = some ⟨[1 / 4], none⟩
      ∧ ComputeVMetrics.forDvhNode curve uniformDoseVolumeCc [501 / 100] true false
          = some ⟨[9 / 40], none⟩
      ∧ ComputeVMetrics.forDvhNode curve uniformDoseVolumeCc [51 / 10] true false
          = some ⟨[0], none⟩ := by
  refine ⟨by norm_num [uniformDoseVolumeCc], uniformDoseCurve, ComputeDvh_uniform_dose _,
    ?_, ?_, ?_, ?_⟩
  · rw [uniformDoseCurve_VMetric_between (49 / 10) (by norm_num) (by norm_num)]
    norm_num
  · rw [uniformDoseCurve_VMetric_between 5 (by norm_num) (by norm_num)]
    norm_num
  · rw [uniformDoseCurve_VMetric_between (501 / 100) (by norm_num) (by norm_num)]
    norm_num
  · rw [uniformDoseCurve_VMetric_between (51 / 10) (by norm_num) (by norm_num)]
    norm_num

/-! ## Lemmas and theorems on the scene bookkeeping (C16, C17) -/

/-- The segment loop over a list that is cut in two: when the first part runs
through without error, the loop continues on the second part with the scene
that the first part left. -/
theorem segmentLoop_append (self : Logic) (fz : ℚ → ℤ) (assemble : String → String)
    (doseVolumeName : String) (isDoseVolume : Bool) (maxDose : ℚ) (rest : List SelectedSegment) :
    ∀ (before : List SelectedSegment) (scene scene1 : Scene),
      ComputeDvh.segmentLoop self fz assemble doseVolumeName isDoseVolume maxDose scene before
        = some ("", scene1) →
      ComputeDvh.segmentLoop self fz assemble doseVolumeName isDoseVolume maxDose scene
          (before ++ rest)
        = ComputeDvh.segmentLoop self fz assemble doseVolumeName isDoseVolume maxDose scene1
          rest := by
  intro before
  induction before with
  | nil =>
    intro scene scene1 h
    simp only [ComputeDvh.segmentLoop, Option.some.injEq, Prod.mk.injEq, true_and] at h
    rw [h, List.nil_append]
  | cons segment tail ih =>
    intro scene scene1 h
    rw [List.cons_append]
    conv_lhs => unfold ComputeDvh.segmentLoop
    unfold ComputeDvh.segmentLoop at h
    cases himg : segment.images with
    | inl failure =>
      rw [himg] at h
      simp only [Option.some.injEq, Prod.mk.injEq] at h
      cases failure <;> simp [GeometryFailure.errorMessage] at h
    | inr images =>
      rw [himg] at h
      simp only
      simp only at h
      cases hstep : ComputeDvh.inScene self fz assemble doseVolumeName isDoseVolume scene images
          segment.segmentID segment.segmentName maxDose with
      | none =>
        rw [hstep] at h
        simp at h
      | some result =>
        obtain ⟨errorMessage, scene2⟩ := result
        rw [hstep] at h
        simp only
        simp only at h
        by_cases hmsg : errorMessage ≠ ""
        · rw [if_pos hmsg] at h
          simp only [Option.some.injEq, Prod.mk.injEq] at h
          exact absurd h.1 hmsg
        · rw [if_neg hmsg] at h
          rw [if_neg hmsg]
          exact ih scene2 scene1 h

/-- The segment loop returns at the first step with a non-empty message. -/
theorem segmentLoop_cons_of_error (self : Logic) (fz : ℚ → ℤ) (assemble : String → String)
    (doseVolumeName : String) (isDoseVolume : Bool) (maxDose : ℚ) (failing : SelectedSegment)
    (after : List SelectedSegment) (scene scene2 : Scene) (errorMessage : String)
    (hfail : ComputeDvh.segmentLoop self fz assemble doseVolumeName isDoseVolume maxDose scene
      [failing] = some (errorMessage, scene2))
    (hmsg : errorMessage ≠ "") :
    ComputeDvh.segmentLoop self fz assemble doseVolumeName isDoseVolume maxDose scene
      (failing :: after) = some (errorMessage, scene2) := by
  unfold ComputeDvh.segmentLoop
  unfold ComputeDvh.segmentLoop at hfail
  cases himg : failing.images with
  | inl failure =>
    rw [himg] at hfail
    exact hfail
  | inr images =>
    rw [himg] at hfail
    simp only
    simp only at hfail
    cases hstep : ComputeDvh.inScene self fz assemble doseVolumeName isDoseVolume scene images
        failing.segmentID failing.segmentName maxDose with
    | none =>
      rw [hstep] at hfail
      simp at hfail
    | some result =>
      obtain ⟨message, scene3⟩ := result
      rw [hstep] at hfail
      simp only
      simp only at hfail
      by_cases hm : message ≠ ""
      · rw [if_pos hm] at hfail
        rw [if_pos hm]
        exact hfail
      · rw [if_neg hm] at hfail
        simp only [ComputeDvh.segmentLoop, Option.some.injEq, Prod.mk.injEq] at hfail
        exact absurd hfail.1.symm hmsg

/-- C16. Empty overlap: when no voxel lies inside the structure stencil, the
per-structure `ComputeDvh` returns a non-empty error message and the scene it
was given, so that the metrics table has no new row and no DVH array node is
created; when the stencil extent spans more than one voxel along each axis the
message is the overlap error. -/
theorem ComputeDvh_empty_overlap (self : Logic) (fz : ℚ → ℤ) (assemble : String → String)
    (doseVolumeName : String) (isDoseVolume : Bool) (scene : Scene) (images : StenciledDose)
    (segmentID segmentName : String) (maxDoseGy : ℚ)
    (hempty : GetVoxelCount images.structureStat = 0) :
    (∃ errorMessage, errorMessage ≠ "" ∧
      ComputeDvh.inScene self fz assemble doseVolumeName isDoseVolume scene images segmentID
        segmentName maxDoseGy = some (errorMessage, scene))
    ∧ (0 < images.stencilExtent.2.1 - images.stencilExtent.1 →
        0 < images.stencilExtent.2.2.2.1 - images.stencilExtent.2.2.1 →
        0 < images.stencilExtent.2.2.2.2.2 - images.stencilExtent.2.2.2.2.1 →
        ComputeDvh.inScene self fz assemble doseVolumeName isDoseVolume scene images segmentID
          segmentName maxDoseGy
          = some ("Dose volume and the structure do not overlap", scene)) := by
  have hcount : GetVoxelCount images.structureStat < 1 := by omega
  constructor
  · by_cases hextent : images.stencilExtent.2.1 - images.stencilExtent.1 ≤ 0
        ∨ images.stencilExtent.2.2.2.1 - images.stencilExtent.2.2.1 ≤ 0
        ∨ images.stencilExtent.2.2.2.2.2 - images.stencilExtent.2.2.2.2.1 ≤ 0
    · refine ⟨"Invalid stenciled dose volume", by decide, ?_⟩
      simp only [ComputeDvh.inScene, if_pos hextent]
    · refine ⟨"Dose volume and the structure do not overlap", by decide, ?_⟩
      simp only [ComputeDvh.inScene, if_neg hextent, if_pos hcount]
  · intro hx hy hz
    have hextent : ¬ (images.stencilExtent.2.1 - images.stencilExtent.1 ≤ 0
        ∨ images.stencilExtent.2.2.2.1 - images.stencilExtent.2.2.1 ≤ 0
        ∨ images.stencilExtent.2.2.2.2.2 - images.stencilExtent.2.2.2.2.1 ≤ 0) := by omega
    simp only [ComputeDvh.inScene, if_neg hextent, if_pos hcount]

/-- Witness of C16: an empty stencil on a 10 x 10 x 10 grid, in a scene that
holds one row and one DVH array node already. -/
theorem ComputeDvh_empty_overlap_witness :
    GetVoxelCount ([] : List ℚ) = 0
    ∧ ComputeDvh.inScene Logic.New leastIntOnDivisionByZero id "Dose" true
        ⟨[InsertNextBlankRow], [("B", ⟨some 0, some "B", [(0, 100)]⟩)]⟩
        ⟨(0, 9, 0, 9, 0, 9), (1, 1, 1), []⟩ "A" "A" 5
      = some ("Dose volume and the structure do not overlap",
          ⟨[InsertNextBlankRow], [("B", ⟨some 0, some "B", [(0, 100)]⟩)]⟩) :=
  ⟨rfl, (ComputeDvh_empty_overlap Logic.New leastIntOnDivisionByZero id "Dose" true
      ⟨[InsertNextBlankRow], [("B", ⟨some 0, some "B", [(0, 100)]⟩)]⟩
      ⟨(0, 9, 0, 9, 0, 9), (1, 1, 1), []⟩ "A" "A" 5 rfl).2
    (by decide) (by decide) (by decide)⟩

/-- Curve of the structure of two voxels under the binning of the constructor
and a maximum dose of 2. -/
theorem ComputeDvh_segmentOfTwoVoxels :
    ComputeDvh Logic.New leastIntOnDivisionByZero [1, 2] true 2
      = .ok ((0, 100) :: ComputeDvh.samples Logic.New leastIntOnDivisionByZero [1, 2] true 2) := by
  have hmin : GetMin [1, 2] = 1 := by norm_num [GetMin, VTK_DOUBLE_MAX]
  have hceil : ⌈((2 : ℚ) - 1 / 10) / (2 / 10)⌉ = 10 := by norm_num [Int.ceil_eq_iff]
  exact ComputeDvh_dose_ok Logic.New leastIntOnDivisionByZero [1, 2] 2 (by simp)
    (by rw [hmin]; norm_num) (by norm_num [Logic.New])
    (by simp only [ComputeDvh.numSamples, Logic.New, if_true, hceil]; decide)
    (by norm_num [Logic.New])

/-- The per-structure `ComputeDvh` on an empty scene for the structure of two
voxels: one row and one DVH array node are created and filled. -/
theorem inScene_segmentOfTwoVoxels :
    ComputeDvh.inScene Logic.New leastIntOnDivisionByZero id "Dose" true ⟨[], []⟩
        ⟨(0, 9, 0, 9, 0, 9), (1, 1, 1), [1, 2]⟩ "B" "B" 2
      = some ("", ⟨[⟨some "B", some "Dose", some (1 / 500), some (3 / 2), some 1, some 2⟩],
          [("B", ⟨some 0, some "B",
            (0, 100) :: ComputeDvh.samples Logic.New leastIntOnDivisionByZero [1, 2] true 2⟩)]⟩) := by
  have hmin : GetMin [1, 2] = 1 := by norm_num [GetMin, VTK_DOUBLE_MAX]
  have hmax2 : GetMax [1, 2] = 2 := by norm_num [GetMax, VTK_DOUBLE_MIN]
  have hcount : ¬ GetVoxelCount ([1, 2] : List ℚ) < 1 := by simp [GetVoxelCount]
  have hextent : ¬ ((9 : ℤ) - 0 ≤ 0 ∨ (9 : ℤ) - 0 ≤ 0 ∨ (9 : ℤ) - 0 ≤ 0) := by decide
  unfold ComputeDvh.inScene
  dsimp only
  rw [if_neg hextent, if_neg hcount, ComputeDvh_segmentOfTwoVoxels]
  norm_num [GetVoxelCount, Scene.GetNodeReference, Scene.updateArrayNode, GetMean, hmin,
    hmax2, InsertNextBlankRow]

/-- Counterexample to C17. In a batch of two structures on an empty scene, the
first without overlap and the second covering two voxels, the batch returns the
overlap error of the first and leaves the scene empty: the second structure,
which the batch computes when it is selected alone, gets neither a row nor a
curve. -/
theorem ComputeDvh_batch_skips_later_structures :
    ComputeDvh.batch Logic.New leastIntOnDivisionByZero id "Dose" true ⟨[], []⟩ [0, 1, 2]
        [segmentWithoutOverlap, segmentOfTwoVoxels]
      = some ("Dose volume and the structure do not overlap", ⟨[], []⟩)
    ∧ ∃ curve, curve ≠ [] ∧
      ComputeDvh.batch Logic.New leastIntOnDivisionByZero id "Dose" true ⟨[], []⟩ [0, 1, 2]
          [segmentOfTwoVoxels]
        = some ("", ⟨[⟨some "B", some "Dose", some (1 / 500), some (3 / 2), some 1, some 2⟩],
            [("B", ⟨some 0, some "B", curve⟩)]⟩) := by
  constructor
  · simp [ComputeDvh.batch, ComputeDvh.segmentLoop, ComputeDvh.inScene, segmentWithoutOverlap,
      GetVoxelCount]
  · have hmax : GetMax [0, 1, 2] = 2 := by norm_num [GetMax, VTK_DOUBLE_MIN]
    refine ⟨(0, 100) :: ComputeDvh.samples Logic.New leastIntOnDivisionByZero [1, 2] true 2,
      List.cons_ne_nil _ _, ?_⟩
    unfold ComputeDvh.batch
    simp only [hmax, segmentOfTwoVoxels, ComputeDvh.segmentLoop, inScene_segmentOfTwoVoxels]
    simp

/-- C17, amended. The batch `ComputeDvh` stops at the first structure whose
computation fails: when the structures before it run through without error and
the failing structure returns a non-empty message, the batch returns that
message with the scene as the failing call left it, whatever structures follow;
the structures before the failing one keep their rows and curves, the ones
after it are not computed. -/
theorem ComputeDvh_batch_stops_at_first_failure (self : Logic) (fz : ℚ → ℤ)
    (assemble : String → String) (doseVolumeName : String) (isDoseVolume : Bool)
    (doseVolumeScalars : List ℚ) (before after : List SelectedSegment) (failing : SelectedSegment)
    (scene scene1 scene2 : Scene) (errorMessage : String)
    (hbefore : ComputeDvh.batch self fz assemble doseVolumeName isDoseVolume scene
      doseVolumeScalars before = some ("", scene1))
    (hfail : ComputeDvh.batch self fz assemble doseVolumeName isDoseVolume scene1
      doseVolumeScalars [failing] = some (errorMessage, scene2))
    (hmsg : errorMessage ≠ "") :
    ComputeDvh.batch self fz assemble doseVolumeName isDoseVolume scene doseVolumeScalars
      (before ++ failing :: after) = some (errorMessage, scene2) := by
  unfold ComputeDvh.batch at hbefore hfail ⊢
  simp only at hbefore hfail ⊢
  rw [segmentLoop_append _ _ _ _ _ _ _ before scene scene1 hbefore]
  exact segmentLoop_cons_of_error _ _ _ _ _ _ failing after scene1 scene2 errorMessage hfail hmsg

/-- Witness of C17, amended: the structure without overlap, followed by
the structure of two voxels, on an empty scene. -/
theorem ComputeDvh_batch_stops_at_first_failure_witness :
    ComputeDvh.batch Logic.New leastIntOnDivisionByZero id "Dose" true ⟨[], []⟩ [0, 1, 2] []
      = some ("", ⟨[], []⟩)
    ∧ ComputeDvh.batch Logic.New leastIntOnDivisionByZero id "Dose" true ⟨[], []⟩ [0, 1, 2]
        [segmentWithoutOverlap]
      = some ("Dose volume and the structure do not overlap", ⟨[], []⟩)
    ∧ "Dose volume and the structure do not overlap" ≠ ""
    ∧ ComputeDvh.batch Logic.New leastIntOnDivisionByZero id "Dose" true ⟨[], []⟩ [0, 1, 2]
        ([] ++ segmentWithoutOverlap :: [segmentOfTwoVoxels])
      = some ("Dose volume and the structure do not overlap", ⟨[], []⟩) :=
  have h1 : ComputeDvh.batch Logic.New leastIntOnDivisionByZero id "Dose" true ⟨[], []⟩
      [0, 1, 2] [] = some ("", ⟨[], []⟩) := rfl
  have h2 : ComputeDvh.batch Logic.New leastIntOnDivisionByZero id "Dose" true ⟨[], []⟩
      [0, 1, 2] [segmentWithoutOverlap]
      = some ("Dose volume and the structure do not overlap", ⟨[], []⟩) := by
    simp [ComputeDvh.batch, ComputeDvh.segmentLoop, ComputeDvh.inScene, segmentWithoutOverlap,
      GetVoxelCount]
  ⟨h1, h2, by decide,
    ComputeDvh_batch_stops_at_first_failure Logic.New leastIntOnDivisionByZero id "Dose" true
      [0, 1, 2] [] [segmentOfTwoVoxels] segmentWithoutOverlap ⟨[], []⟩ ⟨[], []⟩ ⟨[], []⟩ _ h1 h2
      (by decide)⟩

/-! ## Lemmas on the text of numbers -/

theorem digitValue_digitChar (d : ℕ) (h : d < 10) : digitValue (digitChar d) = d := by
  interval_cases d <;> rfl

theorem isDigit_digitChar (d : ℕ) (h : d < 10) : isDigit (digitChar d) = true := by
  interval_cases d <;> rfl

theorem isDigit_period : isDigit '.' = false := rfl

theorem isNumberChar_digitChar (d : ℕ) (h : d < 10) : isNumberChar (digitChar d) = true := by
  interval_cases d <;> rfl

theorem natDigitsAux_isDigit : ∀ (fuel n : ℕ), ∀ c ∈ natDigitsAux fuel n, isDigit c = true := by
  intro fuel
  induction fuel with
  | zero => intro n c hc; simp [natDigitsAux] at hc
  | succ fuel ih =>
    intro n c hc
    unfold natDigitsAux at hc
    split_ifs at hc with hn
    · rw [List.mem_singleton] at hc
      rw [hc]
      exact isDigit_digitChar n hn
    · rw [List.mem_append, List.mem_singleton] at hc
      rcases hc with hc | hc
      · exact ih _ c hc
      · rw [hc]
        exact isDigit_digitChar _ (Nat.mod_lt _ (by norm_num))

theorem natDigits_isDigit (n : ℕ) : ∀ c ∈ natDigits n, isDigit c = true :=
  natDigitsAux_isDigit (n + 1) n

theorem natDigits_ne_nil (n : ℕ) : natDigits n ≠ [] := by
  unfold natDigits natDigitsAux
  split_ifs <;> simp

theorem fractionDigits_isDigit : ∀ (width n : ℕ), ∀ c ∈ fractionDigits width n,
    isDigit c = true := by
  intro width
  induction width with
  | zero => intro n c hc; simp [fractionDigits] at hc
  | succ width ih =>
    intro n c hc
    unfold fractionDigits at hc
    rw [List.mem_cons] at hc
    rcases hc with hc | hc
    · rw [hc]
      exact isDigit_digitChar _ (Nat.mod_lt _ (by norm_num))
    · exact ih n c hc

theorem fractionDigits_length : ∀ (width n : ℕ), (fractionDigits width n).length = width := by
  intro width
  induction width with
  | zero => intro n; rfl
  | succ width ih => intro n; simp [fractionDigits, ih]

/-- Value of a digit sequence that continues a number read so far. -/
theorem foldl_natDigitsAux : ∀ (fuel n acc : ℕ), n < 10 ^ fuel →
    (natDigitsAux fuel n).foldl (fun acc c => acc * 10 + digitValue c) acc
      = acc * 10 ^ (natDigitsAux fuel n).length + n := by
  intro fuel
  induction fuel with
  | zero =>
    intro n acc hn
    have : n = 0 := by simpa using hn
    simp [natDigitsAux, this]
  | succ fuel ih =>
    intro n acc hn
    unfold natDigitsAux
    split_ifs with h10
    · simp [digitValue_digitChar n h10]
    · have hdiv : n / 10 < 10 ^ fuel := by
        rw [Nat.div_lt_iff_lt_mul (by norm_num)]
        calc n < 10 ^ (fuel + 1) := hn
          _ = 10 ^ fuel * 10 := by ring
      rw [List.foldl_append, ih (n / 10) acc hdiv]
      simp only [List.foldl_cons, List.foldl_nil, List.length_append, List.length_singleton]
      rw [digitValue_digitChar _ (Nat.mod_lt _ (by norm_num))]
      have := Nat.div_add_mod n 10
      rw [pow_succ]
      nlinarith [Nat.div_add_mod n 10]

theorem foldl_natDigits (n acc : ℕ) :
    (natDigits n).foldl (fun acc c => acc * 10 + digitValue c) acc
      = acc * 10 ^ (natDigits n).length + n :=
  foldl_natDigitsAux (n + 1) n acc (Nat.lt_pow_self (by norm_num) _ |>.trans_le
    (Nat.pow_le_pow_right (by norm_num) (Nat.le_succ n)))

theorem foldl_fractionDigits : ∀ (width n acc : ℕ),
    (fractionDigits width n).foldl (fun acc c => acc * 10 + digitValue c) acc
      = acc * 10 ^ width + n % 10 ^ width := by
  intro width
  induction width with
  | zero => intro n acc; simp [fractionDigits, Nat.mod_one]
  | succ width ih =>
    intro n acc
    unfold fractionDigits
    rw [List.foldl_cons, ih, digitValue_digitChar _ (Nat.mod_lt _ (by norm_num)),
      Nat.mod_pow_succ]
    ring

/-- Number that the digits of an integer part and of a fraction part denote
together. -/
theorem digitsValue_natDigits_fractionDigits (width n m : ℕ) :
    digitsValue (natDigits n ++ fractionDigits width m) = n * 10 ^ width + m % 10 ^ width := by
  unfold digitsValue
  rw [List.foldl_append, foldl_natDigits, foldl_fractionDigits]
  simp

theorem takeWhile_isDigit_append (digits rest : Text) (hd : ∀ c ∈ digits, isDigit c = true)
    (hr : ∀ c ∈ rest.head?, isDigit c = false) :
    (digits ++ rest).takeWhile isDigit = digits := by
  induction digits with
  | nil =>
    cases rest with
    | nil => rfl
    | cons c tail =>
      have hc : isDigit c = false := hr c (by simp)
      simp [List.takeWhile, hc]
  | cons d digits ih =>
    have hdd : isDigit d = true := hd d (List.mem_cons_self _ _)
    have := ih (fun c hc => hd c (List.mem_cons_of_mem _ hc))
    rw [List.cons_append, List.takeWhile_cons, hdd, if_pos rfl, this]

theorem dropWhile_isDigit_append (digits rest : Text) (hd : ∀ c ∈ digits, isDigit c = true)
    (hr : ∀ c ∈ rest.head?, isDigit c = false) :
    (digits ++ rest).dropWhile isDigit = rest := by
  induction digits with
  | nil =>
    cases rest with
    | nil => rfl
    | cons c tail =>
      have hc : isDigit c = false := hr c (by simp)
      simp [List.dropWhile, hc]
  | cons d digits ih =>
    have hdd : isDigit d = true := hd d (List.mem_cons_self _ _)
    have := ih (fun c hc => hd c (List.mem_cons_of_mem _ hc))
    rw [List.cons_append, List.dropWhile_cons, hdd, if_pos rfl, this]

theorem isSpace_of_isDigit (c : Char) (h : isDigit c = true) : isSpace c = false := by
  simp only [isDigit, isSpace, decide_eq_true_eq, decide_eq_false_iff_not] at h ⊢
  omega

theorem ne_minus_of_isDigit (c : Char) (h : isDigit c = true) : c ≠ '-' := by
  rintro rfl
  exact absurd h (by decide)

theorem ne_plus_of_isDigit (c : Char) (h : isDigit c = true) : c ≠ '+' := by
  rintro rfl
  exact absurd h (by decide)

/-- Extraction from the text of an unsigned number in fixed format. -/
theorem extractDouble_unsigned (integerDigits fractionDigits : Text) (hne : integerDigits ≠ [])
    (hi : ∀ c ∈ integerDigits, isDigit c = true) (hf : ∀ c ∈ fractionDigits, isDigit c = true) :
    extractDouble (integerDigits ++ '.' :: fractionDigits)
      = some (((digitsValue (integerDigits ++ fractionDigits) : ℕ) : ℚ)
          / 10 ^ fractionDigits.length) := by
  obtain ⟨c, tail, rfl⟩ := List.exists_cons_of_ne_nil hne
  have hc : isDigit c = true := hi c (List.mem_cons_self _ _)
  have hsp : (c :: tail ++ '.' :: fractionDigits).dropWhile isSpace
      = c :: tail ++ '.' :: fractionDigits := by
    rw [List.cons_append, List.dropWhile_cons, isSpace_of_isDigit c hc]
    simp
  have hsign : extractDouble.signed (c :: tail ++ '.' :: fractionDigits)
      = (false, c :: tail ++ '.' :: fractionDigits) := by
    rw [List.cons_append, extractDouble.signed, if_neg (ne_minus_of_isDigit c hc),
      if_neg (ne_plus_of_isDigit c hc)]
  have htake : (c :: tail ++ '.' :: fractionDigits).takeWhile isDigit = c :: tail :=
    takeWhile_isDigit_append _ _ hi (by simp [isDigit_period])
  have hdrop : (c :: tail ++ '.' :: fractionDigits).dropWhile isDigit = '.' :: fractionDigits :=
    dropWhile_isDigit_append _ _ hi (by simp [isDigit_period])
  have htake2 : fractionDigits.takeWhile isDigit = fractionDigits := by
    have := takeWhile_isDigit_append fractionDigits [] hf (by simp)
    simpa using this
  have hdrop2 : fractionDigits.dropWhile isDigit = [] := by
    have := dropWhile_isDigit_append fractionDigits [] hf (by simp)
    simpa using this
  unfold extractDouble extractDouble.scan
  simp only [hsp, hsign, htake, hdrop, extractDouble.fraction, if_true, htake2, hdrop2,
    extractDouble.exponent]
  simp [extractDouble.value]

/-- Extraction from the text of a negative number in fixed format. -/
theorem extractDouble_negative (integerDigits fractionDigits : Text) (hne : integerDigits ≠ [])
    (hi : ∀ c ∈ integerDigits, isDigit c = true) (hf : ∀ c ∈ fractionDigits, isDigit c = true) :
    extractDouble ('-' :: (integerDigits ++ '.' :: fractionDigits))
      = some (-(((digitsValue (integerDigits ++ fractionDigits) : ℕ) : ℚ)
          / 10 ^ fractionDigits.length)) := by
  have hsp : ('-' :: (integerDigits ++ '.' :: fractionDigits)).dropWhile isSpace
      = '-' :: (integerDigits ++ '.' :: fractionDigits) := by
    rw [List.dropWhile_cons]
    rfl
  have hsign : extractDouble.signed ('-' :: (integerDigits ++ '.' :: fractionDigits))
      = (true, integerDigits ++ '.' :: fractionDigits) := by
    rw [extractDouble.signed, if_pos rfl]
  have htake : (integerDigits ++ '.' :: fractionDigits).takeWhile isDigit = integerDigits :=
    takeWhile_isDigit_append _ _ hi (by simp [isDigit_period])
  have hdrop : (integerDigits ++ '.' :: fractionDigits).dropWhile isDigit
      = '.' :: fractionDigits :=
    dropWhile_isDigit_append _ _ hi (by simp [isDigit_period])
  have htake2 : fractionDigits.takeWhile isDigit = fractionDigits := by
    have := takeWhile_isDigit_append fractionDigits [] hf (by simp)
    simpa using this
  have hdrop2 : fractionDigits.dropWhile isDigit = [] := by
    have := dropWhile_isDigit_append fractionDigits [] hf (by simp)
    simpa using this
  unfold extractDouble extractDouble.scan
  simp only [hsp, hsign, htake, hdrop, extractDouble.fraction, if_true, htake2, hdrop2,
    extractDouble.exponent]
  simp [hne, extractDouble.value]

theorem scaledFixed_div_add_mod (precision : ℕ) (x : ℚ) :
    scaledFixed precision x / 10 ^ precision * 10 ^ precision
      + scaledFixed precision x % 10 ^ precision % 10 ^ precision = scaledFixed precision x := by
  rw [Nat.mod_mod]
  exact Nat.div_add_mod' _ _

/-- Reading back the text of a number in fixed format gives the number rounded
to the precision of the text. -/
theorem extractDouble_formatFixed (precision : ℕ) (hp : 0 < precision) (x : ℚ) :
    extractDouble (formatFixed precision x) = some (roundTo precision x) := by
  have hp0 : precision ≠ 0 := by omega
  unfold formatFixed roundTo
  rw [if_neg hp0]
  by_cases hx : x < 0
  · rw [if_pos hx, if_pos hx]
    rw [List.append_assoc, List.singleton_append,
      extractDouble_negative _ _ (natDigits_ne_nil _) (natDigits_isDigit _)
        (fractionDigits_isDigit _ _),
      digitsValue_natDigits_fractionDigits, fractionDigits_length, scaledFixed_div_add_mod]
    congr 1
    ring
  · rw [if_neg hx, if_neg hx, List.nil_append,
      extractDouble_unsigned _ _ (natDigits_ne_nil _) (natDigits_isDigit _)
        (fractionDigits_isDigit _ _),
      digitsValue_natDigits_fractionDigits, fractionDigits_length, scaledFixed_div_add_mod]
    congr 1
    ring

theorem abs_roundHalfEven_sub_le (q : ℚ) : |((roundHalfEven q : ℤ) : ℚ) - q| ≤ 1 / 2 := by
  have h1 := Int.floor_le q
  have h2 := Int.lt_floor_add_one q
  unfold roundHalfEven
  rw [abs_le]
  split_ifs with ha hb hc
  · constructor <;> linarith
  · push_cast
    constructor <;> linarith
  · constructor <;> linarith
  · push_cast
    constructor <;> linarith

theorem roundHalfEven_nonneg (q : ℚ) (hq : 0 ≤ q) : 0 ≤ roundHalfEven q := by
  have h0 : 0 ≤ ⌊q⌋ := Int.floor_nonneg.mpr hq
  unfold roundHalfEven
  split_ifs <;> omega

theorem scaledFixed_cast (precision : ℕ) (x : ℚ) :
    ((scaledFixed precision x : ℕ) : ℚ)
      = ((roundHalfEven (|x| * 10 ^ precision) : ℤ) : ℚ) := by
  unfold scaledFixed
  have h := roundHalfEven_nonneg (|x| * 10 ^ precision) (by positivity)
  have : ((roundHalfEven (|x| * 10 ^ precision)).toNat : ℤ)
      = roundHalfEven (|x| * 10 ^ precision) := Int.toNat_of_nonneg h
  exact_mod_cast this

/-- The number that a text in fixed format denotes differs from the number
written by at most half a unit of the last decimal. -/
theorem abs_roundTo_sub_le (precision : ℕ) (x : ℚ) :
    |roundTo precision x - x| ≤ 1 / (2 * 10 ^ precision) := by
  have hpow : (0 : ℚ) < 10 ^ precision := by positivity
  have hr := abs_roundHalfEven_sub_le (|x| * 10 ^ precision)
  rw [← scaledFixed_cast] at hr
  rw [abs_le] at hr ⊢
  unfold roundTo
  by_cases hx : x < 0
  · rw [if_pos hx]
    rw [abs_of_neg hx] at hr
    constructor
    · rw [← sub_nonneg]
      have : ((-1 : ℚ) * (scaledFixed precision x : ℚ) / 10 ^ precision - x
          - -(1 / (2 * 10 ^ precision)))
          = (1 / 2 - ((scaledFixed precision x : ℚ) - -x * 10 ^ precision)) / 10 ^ precision := by
        field_simp
        ring
      rw [this]
      apply div_nonneg _ hpow.le
      linarith [hr.2]
    · rw [← sub_nonneg]
      have : (1 / (2 * 10 ^ precision)
          - ((-1 : ℚ) * (scaledFixed precision x : ℚ) / 10 ^ precision - x))
          = (1 / 2 + ((scaledFixed precision x : ℚ) - -x * 10 ^ precision)) / 10 ^ precision := by
        field_simp
        ring
      rw [this]
      apply div_nonneg _ hpow.le
      linarith [hr.1]
  · rw [if_neg hx]
    rw [abs_of_nonneg (not_lt.mp hx)] at hr
    constructor
    · rw [← sub_nonneg]
      have : ((1 : ℚ) * (scaledFixed precision x : ℚ) / 10 ^ precision - x
          - -(1 / (2 * 10 ^ precision)))
          = (1 / 2 + ((scaledFixed precision x : ℚ) - x * 10 ^ precision)) / 10 ^ precision := by
        field_simp
        ring
      rw [this]
      apply div_nonneg _ hpow.le
      linarith [hr.1]
    · rw [← sub_nonneg]
      have : (1 / (2 * 10 ^ precision)
          - ((1 : ℚ) * (scaledFixed precision x : ℚ) / 10 ^ precision - x))
          = (1 / 2 - ((scaledFixed precision x : ℚ) - x * 10 ^ precision)) / 10 ^ precision := by
        field_simp
        ring
      rw [this]
      apply div_nonneg _ hpow.le
      linarith [hr.2]

/-! ## Lemmas on lines and fields -/

theorem splitLine_append_sep (sep : Char) (rest : Text) :
    ∀ (cell : Text), sep ∉ cell →
      splitLine sep (cell ++ sep :: rest)
        = (cell :: (splitLine sep rest).1, (splitLine sep rest).2) := by
  intro cell
  induction cell with
  | nil =>
    intro _
    simp [splitLine]
  | cons c cell ih =>
    intro h
    have hc : c ≠ sep := fun hc => h (hc ▸ List.mem_cons_self _ _)
    have ih2 := ih (fun hm => h (List.mem_cons_of_mem _ hm))
    rw [List.cons_append, splitLine, if_neg hc, ih2]

theorem splitLine_of_not_mem (sep : Char) :
    ∀ (s : Text), sep ∉ s → splitLine sep s = ([], s) := by
  intro s
  induction s with
  | nil => intro _; rfl
  | cons c s ih =>
    intro h
    have hc : c ≠ sep := fun hc => h (hc ▸ List.mem_cons_self _ _)
    have ih2 := ih (fun hm => h (List.mem_cons_of_mem _ hm))
    rw [splitLine, if_neg hc, ih2]

/-- Cells that are each followed by a separator are the fields of their text. -/
theorem splitLine_terminated (sep : Char) :
    ∀ (cells : List Text), (∀ cell ∈ cells, sep ∉ cell) →
      splitLine sep ((cells.map (fun cell => cell ++ [sep])).flatten) = (cells, []) := by
  intro cells
  induction cells with
  | nil => intro _; rfl
  | cons cell cells ih =>
    intro h
    rw [List.map_cons, List.flatten_cons, List.append_assoc, List.singleton_append,
      splitLine_append_sep sep _ cell (h cell (List.mem_cons_self _ _)),
      ih (fun c hc => h c (List.mem_cons_of_mem _ hc))]

theorem flatten_pairs (sep : Char) (first second : ExportedStructure → Text) :
    ∀ (nodes : List ExportedStructure),
      (nodes.map (fun node => first node ++ [sep] ++ second node ++ [sep])).flatten
        = ((nodes.flatMap (fun node => [first node, second node])).map
            (fun cell => cell ++ [sep])).flatten := by
  intro nodes
  induction nodes with
  | nil => rfl
  | cons node nodes ih =>
    rw [List.map_cons, List.flatten_cons, ih]
    simp [List.flatMap_cons]

theorem isNumberChar_formatFixed (precision : ℕ) (x : ℚ) :
    ∀ c ∈ formatFixed precision x, isNumberChar c = true := by
  intro c hc
  unfold formatFixed at hc
  rw [List.mem_append, List.mem_append] at hc
  rcases hc with (hc | hc) | hc
  · split_ifs at hc
    · rw [List.mem_singleton] at hc
      rw [hc]
      rfl
    · simp at hc
  · have := natDigits_isDigit _ c hc
    simp [isNumberChar, this]
  · split_ifs at hc
    · simp at hc
    · rw [List.mem_cons] at hc
      rcases hc with hc | hc
      · rw [hc]
        rfl
      · have := fractionDigits_isDigit _ _ c hc
        simp [isNumberChar, this]

theorem ne_of_isNumberChar (c sep : Char) (hsep : isNumberChar sep = false)
    (h : isNumberChar c = true) : c ≠ sep := by
  rintro rfl
  rw [h] at hsep
  exact absurd hsep (by decide)

theorem not_mem_formatFixed (precision : ℕ) (x : ℚ) (sep : Char)
    (hsep : isNumberChar sep = false) : sep ∉ formatFixed precision x := fun h =>
  ne_of_isNumberChar sep sep hsep (isNumberChar_formatFixed precision x sep h) rfl

theorem formatFixed_ne_nil (precision : ℕ) (x : ℚ) : formatFixed precision x ≠ [] := by
  unfold formatFixed
  intro h
  rw [List.append_eq_nil, List.append_eq_nil] at h
  exact natDigits_ne_nil _ h.1.2

/-! ## Lemmas on the header -/

theorem findFrom_of_occurs (pattern : Text) :
    ∀ (s : Text) (i : ℕ), pattern <:+: s →
      ∃ m, findFrom pattern s i = i + m ∧ m + pattern.length ≤ s.length := by
  intro s
  induction s with
  | nil =>
    intro i h
    have hp : pattern = [] := List.eq_nil_of_infix_nil h
    exact ⟨0, by simp [findFrom, hp], by simp [hp]⟩
  | cons c rest ih =>
    intro i h
    unfold findFrom
    by_cases hpre : pattern.isPrefixOf (c :: rest) = true
    · rw [if_pos hpre]
      have := (List.isPrefixOf_iff_prefix.mp hpre).length_le
      exact ⟨0, rfl, by simpa using this⟩
    · rw [if_neg hpre]
      rcases List.infix_cons_iff.mp h with h1 | h2
      · exact absurd (List.isPrefixOf_iff_prefix.mpr h1) hpre
      · obtain ⟨m, hm, hlen⟩ := ih (i + 1) h2
        exact ⟨m + 1, by rw [hm]; ring, by simp only [List.length_cons]; omega⟩

theorem findFrom_eq_npos_or (pattern : Text) :
    ∀ (s : Text) (i : ℕ), findFrom pattern s i = npos
      ∨ ∃ m, findFrom pattern s i = i + m ∧ m + pattern.length ≤ s.length := by
  intro s
  induction s with
  | nil =>
    intro i
    unfold findFrom
    split_ifs with hp
    · exact Or.inr ⟨0, rfl, by simp [hp]⟩
    · exact Or.inl rfl
  | cons c rest ih =>
    intro i
    unfold findFrom
    by_cases hpre : pattern.isPrefixOf (c :: rest) = true
    · rw [if_pos hpre]
      have := (List.isPrefixOf_iff_prefix.mp hpre).length_le
      exact Or.inr ⟨0, rfl, by simpa using this⟩
    · rw [if_neg hpre]
      rcases ih (i + 1) with h | ⟨m, hm, hlen⟩
      · exact Or.inl h
      · exact Or.inr ⟨m + 1, by rw [hm]; ring, by simp only [List.length_cons]; omega⟩

theorem find_of_occurs (s pattern : Text) (h : pattern <:+: s) :
    find s pattern + pattern.length ≤ s.length := by
  obtain ⟨m, hm, hlen⟩ := findFrom_of_occurs pattern s 0 h
  unfold find
  rw [hm]
  omega

theorem find_valid_of_ne_npos (s pattern : Text) (h : find s pattern ≠ npos) :
    find s pattern + pattern.length ≤ s.length := by
  rcases findFrom_eq_npos_or pattern s 0 with h0 | ⟨m, hm, hlen⟩
  · exact absurd h0 h
  · unfold find
    rw [hm]
    omega

/-- The name and the volume taken from a header field in which the marker
starts at a position inside of the field. -/
theorem volumeField_of_valid (failedExtraction : ℚ) (field : Text) (middlePosition : ℕ)
    (h : middlePosition + DVH_CSV_HEADER_VOLUME_FIELD_MIDDLE.length ≤ field.length) :
    ReadCsvToDoubleArrayNode.volumeField failedExtraction field middlePosition
      = .ok (field.take (sizeSub middlePosition DVH_ARRAY_NODE_NAME_POSTFIX.length),
          (extractDouble
            ((field.drop (sizeAdd middlePosition DVH_CSV_HEADER_VOLUME_FIELD_MIDDLE.length)).take
              (sizeSub (sizeSub (sizeSub field.length middlePosition)
                DVH_CSV_HEADER_VOLUME_FIELD_MIDDLE.length)
                DVH_CSV_HEADER_VOLUME_FIELD_END.length))).getD failedExtraction) := by
  have h1 : ¬ (0 > field.length) := by omega
  have h2 : ¬ (sizeAdd middlePosition DVH_CSV_HEADER_VOLUME_FIELD_MIDDLE.length
      > field.length) := by
    have := Nat.mod_le (middlePosition + DVH_CSV_HEADER_VOLUME_FIELD_MIDDLE.length) (2 ^ 64)
    unfold sizeAdd
    omega
  unfold ReadCsvToDoubleArrayNode.volumeField substr
  rw [if_neg h1, if_neg h2]
  rfl

theorem volumeField_occurs (dvhArrayNode : ExportedStructure) :
    DVH_CSV_HEADER_VOLUME_FIELD_MIDDLE <:+: ExportDvhToCsv.volumeField dvhArrayNode :=
  ⟨dvhArrayNode.structureName,
    formatFixed 3 dvhArrayNode.volume ++ DVH_CSV_HEADER_VOLUME_FIELD_END, by
      simp [ExportDvhToCsv.volumeField, List.append_assoc]⟩

/-- The name and the volume that the reader takes from the volume field of an
exported structure. -/
theorem volumeField_exported (failedExtraction : ℚ) (dvhArrayNode : ExportedStructure) :
    ReadCsvToDoubleArrayNode.volumeField failedExtraction
        (ExportDvhToCsv.volumeField dvhArrayNode)
        (find (ExportDvhToCsv.volumeField dvhArrayNode) DVH_CSV_HEADER_VOLUME_FIELD_MIDDLE)
      = .ok ((ReadCsvToDoubleArrayNode.ofExported failedExtraction dvhArrayNode).segmentID,
          (ReadCsvToDoubleArrayNode.ofExported failedExtraction
            dvhArrayNode).structureVolumeCC) := by
  rw [volumeField_of_valid failedExtraction _ _
    (find_of_occurs _ _ (volumeField_occurs dvhArrayNode))]
  simp only [ReadCsvToDoubleArrayNode.ofExported]

/-- The header loop on the fields of an exported header. -/
theorem headerLoop_exported (failedExtraction : ℚ) (doseUnitName : Text) :
    ∀ (nodes : List ExportedStructure) (state : HeaderState), state.fieldCount % 2 = 0 →
      ReadCsvToDoubleArrayNode.headerLoop failedExtraction
          (nodes.flatMap (fun node =>
            [ExportDvhToCsv.doseField doseUnitName node, ExportDvhToCsv.volumeField node]))
          state
        = .ok { fieldCount := state.fieldCount + 2 * nodes.length,
                structureNames := state.structureNames ++ nodes.map (fun node =>
                  (ReadCsvToDoubleArrayNode.ofExported failedExtraction node).segmentID),
                structureVolumeCCs := state.structureVolumeCCs ++ nodes.map (fun node =>
                  (ReadCsvToDoubleArrayNode.ofExported failedExtraction
                    node).structureVolumeCC) } := by
  intro nodes
  induction nodes with
  | nil =>
    intro state _
    simp [ReadCsvToDoubleArrayNode.headerLoop]
    rfl
  | cons node nodes ih =>
    intro state hstate
    have h0 : ¬ state.fieldCount % 2 = 1 := by omega
    have h1 : (state.fieldCount + 1) % 2 = 1 := by omega
    rw [List.flatMap_cons, List.cons_append, List.singleton_append,
      ReadCsvToDoubleArrayNode.headerLoop, if_neg h0, ReadCsvToDoubleArrayNode.headerLoop]
    simp only [h1, if_true, volumeField_exported]
    have h2 := ih
      { fieldCount := state.fieldCount + 1 + 1,
        structureNames := state.structureNames
          ++ [(ReadCsvToDoubleArrayNode.ofExported failedExtraction node).segmentID],
        structureVolumeCCs := state.structureVolumeCCs
          ++ [(ReadCsvToDoubleArrayNode.ofExported failedExtraction node).structureVolumeCC] }
      (by simp only; omega)
    simp only [bind, Except.bind]
    rw [h2]
    simp only [List.length_cons, List.map_cons, List.append_assoc, List.singleton_append]
    congr 2
    ring

theorem not_mem_doseField (doseUnitName : Text) (node : ExportedStructure) (sep : Char)
    (hsep : sep ∉ " Dose ()".toList) (hname : sep ∉ node.structureName)
    (hunit : sep ∉ doseUnitName) : sep ∉ ExportDvhToCsv.doseField doseUnitName node := by
  unfold ExportDvhToCsv.doseField
  simp only [List.mem_append, not_or]
  refine ⟨⟨⟨hname, ?_⟩, hunit⟩, ?_⟩
  · intro h
    apply hsep
    simp only [String.toList, List.mem_cons] at h ⊢
    tauto
  · intro h
    apply hsep
    simp only [String.toList, List.mem_cons] at h ⊢
    tauto

theorem not_mem_volumeField (node : ExportedStructure) (sep : Char)
    (hsep : sep ∉ " Value (% of cc)".toList) (hnum : isNumberChar sep = false)
    (hname : sep ∉ node.structureName) : sep ∉ ExportDvhToCsv.volumeField node := by
  unfold ExportDvhToCsv.volumeField
  simp only [List.mem_append, not_or]
  refine ⟨⟨⟨hname, ?_⟩, not_mem_formatFixed 3 _ sep hnum⟩, ?_⟩
  · intro h
    apply hsep
    simp only [DVH_CSV_HEADER_VOLUME_FIELD_MIDDLE, String.toList, List.mem_cons] at h ⊢
    tauto
  · intro h
    apply hsep
    simp only [DVH_CSV_HEADER_VOLUME_FIELD_END, String.toList, List.mem_cons] at h ⊢
    tauto

theorem header_eq_terminated (doseUnitName : Text) (nodes : List ExportedStructure) :
    ExportDvhToCsv.header doseUnitName nodes true
      = ((nodes.flatMap (fun node =>
          [ExportDvhToCsv.doseField doseUnitName node, ExportDvhToCsv.volumeField node])).map
          (fun cell => cell ++ [','])).flatten := by
  unfold ExportDvhToCsv.header
  simp only [ExportDvhToCsv.delimiter, if_true]
  exact flatten_pairs ',' _ _ nodes

/-- The fields of an exported header with the comma delimiter. -/
theorem splitLine_header (doseUnitName : Text) (nodes : List ExportedStructure)
    (hnames : ∀ node ∈ nodes, ',' ∉ node.structureName) (hunit : ',' ∉ doseUnitName) :
    splitLine ',' (ExportDvhToCsv.header doseUnitName nodes true)
      = (nodes.flatMap (fun node =>
          [ExportDvhToCsv.doseField doseUnitName node, ExportDvhToCsv.volumeField node]),
        []) := by
  rw [header_eq_terminated]
  apply splitLine_terminated
  intro cell hcell
  rw [List.mem_flatMap] at hcell
  obtain ⟨node, hnode, hcell⟩ := hcell
  simp only [List.mem_cons, List.mem_singleton, List.not_mem_nil, or_false] at hcell
  rcases hcell with rfl | rfl
  · exact not_mem_doseField _ _ _ (by decide) (hnames node hnode) hunit
  · exact not_mem_volumeField _ _ (by decide) (by decide) (hnames node hnode)

/-- The header state that the reader derives from an exported header with the
comma delimiter. -/
theorem header_exported (failedExtraction : ℚ) (doseUnitName : Text)
    (nodes : List ExportedStructure) (hnames : ∀ node ∈ nodes, ',' ∉ node.structureName)
    (hunit : ',' ∉ doseUnitName) :
    ReadCsvToDoubleArrayNode.header failedExtraction
        (ExportDvhToCsv.header doseUnitName nodes true)
      = .ok { fieldCount := 2 * nodes.length,
              structureNames := nodes.map (fun node =>
                (ReadCsvToDoubleArrayNode.ofExported failedExtraction node).segmentID),
              structureVolumeCCs := nodes.map (fun node =>
                (ReadCsvToDoubleArrayNode.ofExported failedExtraction
                  node).structureVolumeCC) } := by
  unfold ReadCsvToDoubleArrayNode.header
  rw [splitLine_header doseUnitName nodes hnames hunit]
  simp only
  rw [headerLoop_exported failedExtraction doseUnitName nodes _ (by simp)]
  simp [bind, Except.bind, pure, Except.pure]

/-! ## Lemmas on the lines of values -/

theorem valueLine_eq_terminated (nodes : List ExportedStructure) (row : ℕ) :
    ExportDvhToCsv.valueLine nodes true row
      = ((nodes.flatMap (fun node =>
          [ExportDvhToCsv.valueCell true row 0 node,
            ExportDvhToCsv.valueCell true row 1 node])).map
          (fun cell => cell ++ [','])).flatten := by
  unfold ExportDvhToCsv.valueLine
  simp only [ExportDvhToCsv.delimiter, if_true]
  exact flatten_pairs ',' _ _ nodes

theorem not_mem_valueCell (row component : ℕ) (node : ExportedStructure) (sep : Char)
    (hnum : isNumberChar sep = false) :
    sep ∉ ExportDvhToCsv.valueCell true row component node := by
  unfold ExportDvhToCsv.valueCell
  cases node.doubleArray.get? row with
  | none => simp
  | some tuple =>
    simp only [ExportDvhToCsv.cell, if_true]
    exact not_mem_formatFixed 6 _ sep hnum

/-- The fields of an exported line of values with the comma delimiter. -/
theorem splitLine_valueLine (nodes : List ExportedStructure) (row : ℕ) :
    splitLine ',' (ExportDvhToCsv.valueLine nodes true row)
      = (nodes.flatMap (fun node =>
          [ExportDvhToCsv.valueCell true row 0 node,
            ExportDvhToCsv.valueCell true row 1 node]),
        []) := by
  rw [valueLine_eq_terminated]
  apply splitLine_terminated
  intro cell hcell
  rw [List.mem_flatMap] at hcell
  obtain ⟨node, _, hcell⟩ := hcell
  simp only [List.mem_cons, List.mem_singleton, List.not_mem_nil, or_false] at hcell
  rcases hcell with rfl | rfl
  · exact not_mem_valueCell _ _ _ _ (by decide)
  · exact not_mem_valueCell _ _ _ _ (by decide)

theorem insert_append (done rest : List DvhArray) (doubleArray : DvhArray) (tuple : DvhTuple) :
    ReadCsvToDoubleArrayNode.insert (done ++ doubleArray :: rest) done.length
        doubleArray.length tuple
      = .ok (done ++ (doubleArray ++ [tuple]) :: rest) := by
  have hget : (done ++ doubleArray :: rest).get? done.length = some doubleArray := by
    rw [List.get?_eq_getElem?, List.getElem?_append_right (le_refl _)]
    simp
  unfold ReadCsvToDoubleArrayNode.insert vectorAt InsertTuple
  rw [hget]
  simp [bind, Except.bind, pure, Except.pure]

theorem take_succ_filter_map (doubleArray : DvhArray) (row : ℕ) :
    ((doubleArray.take (row + 1)).filter ReadCsvToDoubleArrayNode.inserts).map roundTuple
      = ((doubleArray.take row).filter ReadCsvToDoubleArrayNode.inserts).map roundTuple
        ++ (((doubleArray.get? row).toList.filter ReadCsvToDoubleArrayNode.inserts).map
            roundTuple) := by
  rw [List.take_succ, List.filter_append, List.map_append, List.get?_eq_getElem?]

theorem filter_take_of_noGap (doubleArray : DvhArray) (row : ℕ) (tuple : DvhTuple)
    (hgap : ReadCsvToDoubleArrayNode.NoGap doubleArray)
    (hget : doubleArray.get? row = some tuple)
    (hins : ReadCsvToDoubleArrayNode.inserts tuple = true) :
    (doubleArray.take row).filter ReadCsvToDoubleArrayNode.inserts = doubleArray.take row := by
  rw [List.filter_eq_self]
  intro first hfirst
  obtain ⟨i, hi⟩ := List.mem_iff_get?.mp hfirst
  have hlt : i < row := by
    have h1 := (List.get?_eq_some.mp hi).1
    rw [List.length_take] at h1
    omega
  rw [List.get?_eq_getElem?, List.getElem?_take_of_lt hlt, ← List.get?_eq_getElem?] at hi
  exact hgap i row first tuple hlt hi hget hins

/-- One line of values of an export with the comma delimiter, read into arrays
that hold the tuples of the lines before it: every array whose structure has a
tuple in this line that passes the test of the reader grows by the tuple as its
text denotes it. -/
theorem valueLoop_exported (failedExtraction : ℚ) (row : ℕ) :
    ∀ (nodes : List ExportedStructure) (done : List DvhArray),
      (∀ node ∈ nodes, ReadCsvToDoubleArrayNode.NoGap node.doubleArray) →
      ReadCsvToDoubleArrayNode.valueLoop failedExtraction row []
          (nodes.flatMap (fun node =>
            [ExportDvhToCsv.valueCell true row 0 node,
              ExportDvhToCsv.valueCell true row 1 node]))
          done.length
          (done ++ nodes.map (fun node =>
            ((node.doubleArray.take row).filter ReadCsvToDoubleArrayNode.inserts).map
              roundTuple))
        = .ok (done ++ nodes.map (fun node =>
            ((node.doubleArray.take (row + 1)).filter ReadCsvToDoubleArrayNode.inserts).map
              roundTuple)) := by
  intro nodes
  induction nodes with
  | nil =>
    intro done _
    simp [ReadCsvToDoubleArrayNode.valueLoop, pure, Except.pure]
  | cons node nodes ih =>
    intro done hgap
    have hrest : ∀ n ∈ nodes, ReadCsvToDoubleArrayNode.NoGap n.doubleArray :=
      fun n hn => hgap n (List.mem_cons_of_mem _ hn)
    have hstep := take_succ_filter_map node.doubleArray row
    rw [List.flatMap_cons, List.cons_append, List.singleton_append, List.map_cons,
      ReadCsvToDoubleArrayNode.valueLoop]
    cases hget : node.doubleArray.get? row with
    | none =>
      have hcell0 : ExportDvhToCsv.valueCell true row 0 node = [] := by
        unfold ExportDvhToCsv.valueCell
        rw [hget]
      have hcell1 : ExportDvhToCsv.valueCell true row 1 node = [] := by
        unfold ExportDvhToCsv.valueCell
        rw [hget]
      rw [hget] at hstep
      simp only [Option.toList_none, List.filter_nil, List.map_nil, List.append_nil] at hstep
      simp only [hcell0, hcell1, List.length_nil, gt_iff_lt, lt_self_iff_false, and_false,
        if_false]
      have := ih (done ++ [((node.doubleArray.take row).filter
        ReadCsvToDoubleArrayNode.inserts).map roundTuple]) hrest
      simp only [List.length_append, List.length_singleton, List.append_assoc,
        List.singleton_append] at this
      rw [this, List.map_cons, hstep]
    | some tuple =>
      have hcell0 : ExportDvhToCsv.valueCell true row 0 node = formatFixed 6 tuple.1 := by
        unfold ExportDvhToCsv.valueCell
        rw [hget]
        simp [ExportDvhToCsv.cell]
      have hcell1 : ExportDvhToCsv.valueCell true row 1 node = formatFixed 6 tuple.2 := by
        unfold ExportDvhToCsv.valueCell
        rw [hget]
        simp [ExportDvhToCsv.cell]
      have hpos : (formatFixed 6 tuple.2).length > 0 :=
        List.length_pos.mpr (formatFixed_ne_nil 6 tuple.2)
      rw [hget] at hstep
      simp only [hcell0, hcell1, extractDouble_formatFixed 6 (by norm_num), Option.getD_some]
      by_cases hins : ReadCsvToDoubleArrayNode.inserts tuple = true
      · have hcond : roundTo 6 tuple.1 ≠ 0 ∨ roundTo 6 tuple.2 ≠ 0 := by
          simpa [ReadCsvToDoubleArrayNode.inserts] using hins
        have hfilter := filter_take_of_noGap node.doubleArray row tuple
          (hgap node (List.mem_cons_self _ _)) hget hins
        have hlen : (((node.doubleArray.take row).filter
            ReadCsvToDoubleArrayNode.inserts).map roundTuple).length = row := by
          have := (List.get?_eq_some.mp hget).1
          rw [hfilter, List.length_map, List.length_take]
          omega
        simp only [Option.toList_some, List.filter_cons, hins, if_true, List.filter_nil,
          List.map_cons, List.map_nil] at hstep
        rw [if_pos ⟨hcond, hpos⟩]
        have hinsert := insert_append done
          (nodes.map (fun node => ((node.doubleArray.take row).filter
            ReadCsvToDoubleArrayNode.inserts).map roundTuple))
          (((node.doubleArray.take row).filter ReadCsvToDoubleArrayNode.inserts).map
            roundTuple)
          (roundTo 6 tuple.1, roundTo 6 tuple.2)
        rw [hlen] at hinsert
        simp only [bind, Except.bind, hinsert]
        have := ih (done ++ [((node.doubleArray.take row).filter
          ReadCsvToDoubleArrayNode.inserts).map roundTuple
          ++ [(roundTo 6 tuple.1, roundTo 6 tuple.2)]]) hrest
        simp only [List.length_append, List.length_singleton, List.append_assoc,
          List.singleton_append] at this
        rw [this, List.map_cons, hstep]
        rfl
      · have hcond : ¬ (roundTo 6 tuple.1 ≠ 0 ∨ roundTo 6 tuple.2 ≠ 0) := by
          simpa [ReadCsvToDoubleArrayNode.inserts] using hins
        simp only [Option.toList_some, List.filter_cons, hins, Bool.false_eq_true, if_false,
          List.filter_nil, List.map_nil, List.append_nil] at hstep
        rw [if_neg (fun h => hcond h.1)]
        have := ih (done ++ [((node.doubleArray.take row).filter
          ReadCsvToDoubleArrayNode.inserts).map roundTuple]) hrest
        simp only [List.length_append, List.length_singleton, List.append_assoc,
          List.singleton_append] at this
        rw [this, List.map_cons, hstep]

/-- The lines of values of an export with the comma delimiter, from line `row`
on, read into arrays that hold the tuples of the lines before. -/
theorem valueLines_exported (failedExtraction : ℚ) (nodes : List ExportedStructure)
    (hgap : ∀ node ∈ nodes, ReadCsvToDoubleArrayNode.NoGap node.doubleArray) :
    ∀ (count row : ℕ),
      ReadCsvToDoubleArrayNode.valueLines failedExtraction
          ((List.range' row count).map (fun (r : ℕ) => ExportDvhToCsv.valueLine nodes true r))
          row
          (nodes.map (fun node =>
            ((node.doubleArray.take row).filter ReadCsvToDoubleArrayNode.inserts).map
              roundTuple))
        = .ok (nodes.map (fun node =>
            ((node.doubleArray.take (row + count)).filter
              ReadCsvToDoubleArrayNode.inserts).map roundTuple)) := by
  intro count
  induction count with
  | zero =>
    intro row
    simp [ReadCsvToDoubleArrayNode.valueLines, pure, Except.pure]
  | succ count ih =>
    intro row
    rw [List.range'_succ, List.map_cons, ReadCsvToDoubleArrayNode.valueLines,
      splitLine_valueLine]
    have h := valueLoop_exported failedExtraction row nodes [] hgap
    simp only [List.length_nil, List.nil_append] at h
    simp only [bind, Except.bind, h]
    rw [ih (row + 1), Nat.add_assoc, Nat.add_comm 1 count]

/-! ## Lemmas on the whole file -/

theorem nodes_exported (failedExtraction : ℚ) (state : HeaderState) :
    ∀ (nodes before : List ExportedStructure),
      state.structureNames = (before ++ nodes).map (fun node =>
        (ReadCsvToDoubleArrayNode.ofExported failedExtraction node).segmentID) →
      state.structureVolumeCCs = (before ++ nodes).map (fun node =>
        (ReadCsvToDoubleArrayNode.ofExported failedExtraction node).structureVolumeCC) →
      ReadCsvToDoubleArrayNode.nodes state
          (nodes.map (fun node =>
            (node.doubleArray.filter ReadCsvToDoubleArrayNode.inserts).map roundTuple))
          before.length
        = .ok (nodes.map (ReadCsvToDoubleArrayNode.ofExported failedExtraction)) := by
  intro nodes
  induction nodes with
  | nil =>
    intro before _ _
    rfl
  | cons node nodes ih =>
    intro before hnames hvolumes
    have h1 : state.structureNames.get? before.length
        = some (ReadCsvToDoubleArrayNode.ofExported failedExtraction node).segmentID := by
      rw [hnames, List.get?_eq_getElem?, List.map_append,
        List.getElem?_append_right (by simp)]
      simp
    have h2 : state.structureVolumeCCs.get? before.length
        = some (ReadCsvToDoubleArrayNode.ofExported failedExtraction node).structureVolumeCC := by
      rw [hvolumes, List.get?_eq_getElem?, List.map_append,
        List.getElem?_append_right (by simp)]
      simp
    have h3 := ih (before ++ [node]) (by simpa using hnames) (by simpa using hvolumes)
    rw [List.length_append, List.length_singleton] at h3
    rw [List.map_cons, ReadCsvToDoubleArrayNode.nodes]
    simp only [h1, h2, vectorAt, bind, Except.bind, h3, pure, Except.pure, List.map_cons]
    simp only [ReadCsvToDoubleArrayNode.ofExported]

theorem foldl_maxNumberOfValues_ge (nodes : List ExportedStructure) :
    ∀ (m : ℤ), m ≤ nodes.foldl
        (fun m dvhArrayNode =>
          if (GetNumberOfTuples dvhArrayNode.doubleArray : ℤ) > m
          then (GetNumberOfTuples dvhArrayNode.doubleArray : ℤ) else m) m := by
  induction nodes with
  | nil => intro m; exact le_refl m
  | cons node nodes ih =>
    intro m
    rw [List.foldl_cons]
    refine le_trans ?_ (ih _)
    split_ifs <;> omega

theorem length_le_foldl_maxNumberOfValues (nodes : List ExportedStructure) :
    ∀ (m : ℤ), ∀ node ∈ nodes, (node.doubleArray.length : ℤ) ≤ nodes.foldl
        (fun m dvhArrayNode =>
          if (GetNumberOfTuples dvhArrayNode.doubleArray : ℤ) > m
          then (GetNumberOfTuples dvhArrayNode.doubleArray : ℤ) else m) m := by
  induction nodes with
  | nil => intro m node h; simp at h
  | cons first nodes ih =>
    intro m node h
    rw [List.foldl_cons]
    rcases List.mem_cons.mp h with rfl | h
    · refine le_trans ?_ (foldl_maxNumberOfValues_ge nodes _)
      simp only [GetNumberOfTuples]
      split_ifs <;> omega
    · exact ih _ node h

/-- No array is longer than the number of lines of values. -/
theorem length_le_maxNumberOfValues (nodes : List ExportedStructure) (node : ExportedStructure)
    (h : node ∈ nodes) :
    node.doubleArray.length ≤ (ExportDvhToCsv.maxNumberOfValues nodes).toNat := by
  have := length_le_foldl_maxNumberOfValues nodes (-1) node h
  unfold ExportDvhToCsv.maxNumberOfValues
  omega

theorem not_mem_header (doseUnitName : Text) (nodes : List ExportedStructure) (comma : Bool)
    (sep : Char) (hsep : sep ∉ " Dose ()".toList) (hsep2 : sep ∉ " Value (% of cc)".toList)
    (hnum : isNumberChar sep = false) (hdelimiter : sep ∉ ExportDvhToCsv.delimiter comma)
    (hnames : ∀ node ∈ nodes, sep ∉ node.structureName) (hunit : sep ∉ doseUnitName) :
    sep ∉ ExportDvhToCsv.header doseUnitName nodes comma := by
  unfold ExportDvhToCsv.header
  intro h
  rw [List.mem_flatten] at h
  obtain ⟨part, hpart, hmem⟩ := h
  rw [List.mem_map] at hpart
  obtain ⟨node, hnode, rfl⟩ := hpart
  simp only [List.mem_append] at hmem
  rcases hmem with ((hmem | hmem) | hmem) | hmem
  · exact not_mem_doseField _ _ _ hsep (hnames node hnode) hunit hmem
  · exact hdelimiter hmem
  · exact not_mem_volumeField _ _ hsep2 hnum (hnames node hnode) hmem
  · exact hdelimiter hmem

theorem not_mem_valueLine_true (nodes : List ExportedStructure) (row : ℕ) (sep : Char)
    (hnum : isNumberChar sep = false) (hdelimiter : sep ≠ ',') :
    sep ∉ ExportDvhToCsv.valueLine nodes true row := by
  unfold ExportDvhToCsv.valueLine
  intro h
  rw [List.mem_flatten] at h
  obtain ⟨part, hpart, hmem⟩ := h
  rw [List.mem_map] at hpart
  obtain ⟨node, _, rfl⟩ := hpart
  simp only [List.mem_append, ExportDvhToCsv.delimiter, if_true, List.mem_singleton] at hmem
  rcases hmem with ((hmem | hmem) | hmem) | hmem
  · exact not_mem_valueCell _ _ _ _ hnum hmem
  · exact hdelimiter hmem
  · exact not_mem_valueCell _ _ _ _ hnum hmem
  · exact hdelimiter hmem

theorem getlines_terminated (lines : List Text) (hline : ∀ line ∈ lines, '\n' ∉ line)
    (hshort : ∀ line ∈ lines, line.length < 16384) :
    getlines ((lines.map (fun line => line ++ ['\n'])).flatten) = lines := by
  unfold getlines
  rw [splitLine_terminated '\n' lines hline]
  simp only [if_true, List.append_nil]
  rw [List.takeWhile_eq_self_iff]
  intro line hmem
  simpa using hshort line hmem

/-- The text that `ExportDvhToCsv` writes, as a list of lines. -/
theorem ExportDvhToCsv_lines (doseUnitName : Text) (nodes : List ExportedStructure)
    (comma : Bool) :
    ExportDvhToCsv (some doseUnitName) nodes comma
      = some (((ExportDvhToCsv.header doseUnitName nodes comma
          :: (List.range' 0 (ExportDvhToCsv.maxNumberOfValues nodes).toNat).map
              (fun (row : ℕ) => ExportDvhToCsv.valueLine nodes comma row)).map
          (fun line => line ++ ['\n'])).flatten) := by
  unfold ExportDvhToCsv
  simp only [List.map_cons, List.flatten_cons, List.map_map, List.range_eq_range',
    List.append_assoc]
  rfl

/-- Reading the export with the comma delimiter: for names and a dose unit
free of commas and line ends, lines that fit the line buffer, and arrays in
which no tuple that the reader inserts follows one that it leaves out,
every structure comes back as the node `ofExported`. -/
theorem ReadCsv_export_comma (failedExtraction : ℚ) (doseUnitName : Text)
    (nodes : List ExportedStructure)
    (hnames : ∀ node ∈ nodes, ',' ∉ node.structureName ∧ '\n' ∉ node.structureName)
    (hunit : ',' ∉ doseUnitName ∧ '\n' ∉ doseUnitName)
    (hheader : (ExportDvhToCsv.header doseUnitName nodes true).length < 16384)
    (hlines : ∀ row, (ExportDvhToCsv.valueLine nodes true row).length < 16384)
    (hgap : ∀ node ∈ nodes, ReadCsvToDoubleArrayNode.NoGap node.doubleArray) :
    ∃ file, ExportDvhToCsv (some doseUnitName) nodes true = some file
      ∧ ReadCsvToDoubleArrayNode failedExtraction file
        = .ok (nodes.map (ReadCsvToDoubleArrayNode.ofExported failedExtraction)) := by
  refine ⟨_, ExportDvhToCsv_lines doseUnitName nodes true, ?_⟩
  unfold ReadCsvToDoubleArrayNode
  rw [getlines_terminated]
  · simp only
    rw [header_exported failedExtraction doseUnitName nodes (fun n hn => (hnames n hn).1)
      hunit.1]
    simp only [bind, Except.bind]
    have hinit : List.replicate (2 * nodes.length / 2) ([] : DvhArray)
        = nodes.map (fun node =>
          ((node.doubleArray.take 0).filter ReadCsvToDoubleArrayNode.inserts).map
            roundTuple) := by
      rw [Nat.mul_div_cancel_left _ (by norm_num : 0 < 2)]
      simp only [List.take_zero, List.filter_nil, List.map_nil]
      symm
      rw [List.eq_replicate_iff]
      simp
    rw [hinit, valueLines_exported failedExtraction nodes hgap]
    simp only [Nat.zero_add]
    have hall : nodes.map (fun node =>
        ((node.doubleArray.take (ExportDvhToCsv.maxNumberOfValues nodes).toNat).filter
          ReadCsvToDoubleArrayNode.inserts).map roundTuple)
        = nodes.map (fun node =>
          (node.doubleArray.filter ReadCsvToDoubleArrayNode.inserts).map roundTuple) := by
      apply List.map_congr_left
      intro node hnode
      rw [List.take_of_length_le (length_le_maxNumberOfValues nodes node hnode)]
    rw [hall]
    exact nodes_exported failedExtraction _ nodes [] rfl rfl
  · intro line hline
    rcases List.mem_cons.mp hline with rfl | hline
    · exact not_mem_header _ _ _ _ (by decide) (by decide) (by decide) (by decide)
        (fun n hn => (hnames n hn).2) hunit.2
    · rw [List.mem_map] at hline
      obtain ⟨row, _, rfl⟩ := hline
      exact not_mem_valueLine_true _ _ _ (by decide) (by decide)
  · intro line hline
    rcases List.mem_cons.mp hline with rfl | hline
    · exact hheader
    · rw [List.mem_map] at hline
      obtain ⟨row, _, rfl⟩ := hline
      exact hlines row

/-! ## Lemmas on the length and on the value of written numbers -/

theorem natDigitsAux_length_le : ∀ (fuel n : ℕ), (natDigitsAux fuel n).length ≤ fuel := by
  intro fuel
  induction fuel with
  | zero => intro n; simp [natDigitsAux]
  | succ fuel ih =>
    intro n
    unfold natDigitsAux
    split_ifs
    · simp
    · have := ih (n / 10)
      simp only [List.length_append, List.length_singleton]
      omega

theorem scaledFixed_le (precision : ℕ) (x : ℚ) (bound : ℕ) (h : |x| ≤ bound) :
    scaledFixed precision x ≤ bound * 10 ^ precision := by
  have hr := abs_roundHalfEven_sub_le (|x| * 10 ^ precision)
  rw [← scaledFixed_cast, abs_le] at hr
  have hpow : (0 : ℚ) < 10 ^ precision := by positivity
  have h1 : ((scaledFixed precision x : ℕ) : ℚ) ≤ (bound : ℚ) * 10 ^ precision + 1 / 2 := by
    have := mul_le_mul_of_nonneg_right h hpow.le
    linarith [hr.2]
  by_contra hlt
  rw [not_le] at hlt
  have h2 : bound * 10 ^ precision + 1 ≤ scaledFixed precision x := hlt
  have h3 : ((bound * 10 ^ precision + 1 : ℕ) : ℚ) ≤ ((scaledFixed precision x : ℕ) : ℚ) := by
    exact_mod_cast h2
  push_cast at h3
  linarith

/-- Length of the text of a number in fixed format. -/
theorem formatFixed_length_le (precision : ℕ) (x : ℚ) (bound : ℕ) (h : |x| ≤ bound) :
    (formatFixed precision x).length ≤ bound + precision + 3 := by
  have h1 : scaledFixed precision x / 10 ^ precision ≤ bound :=
    Nat.div_le_of_le_mul (by rw [Nat.mul_comm]; exact scaledFixed_le precision x bound h)
  have h2 := natDigitsAux_length_le (scaledFixed precision x / 10 ^ precision + 1)
    (scaledFixed precision x / 10 ^ precision)
  have h3 := fractionDigits_length precision (scaledFixed precision x % 10 ^ precision)
  unfold formatFixed
  simp only [List.length_append]
  have h4 : (if x < 0 then ['-'] else ([] : Text)).length ≤ 1 := by
    split_ifs <;> simp
  have h5 : (if precision = 0 then ([] : Text)
      else '.' :: fractionDigits precision (scaledFixed precision x % 10 ^ precision)).length
      ≤ precision + 1 := by
    split_ifs
    · simp
    · simp only [List.length_cons, h3]
      omega
  unfold natDigits
  omega

theorem scaledFixed_of_exact (precision : ℕ) (x : ℚ) (n : ℕ)
    (h : |x| * 10 ^ precision = (n : ℚ)) : scaledFixed precision x = n := by
  unfold scaledFixed roundHalfEven
  rw [h]
  have hfloor : ⌊(n : ℚ)⌋ = (n : ℤ) := by
    have : ((n : ℤ) : ℚ) = (n : ℚ) := by push_cast; rfl
    rw [← this, Int.floor_intCast]
  rw [hfloor]
  have : ((n : ℚ) - ((n : ℤ) : ℚ)) < 1 / 2 := by
    push_cast
    norm_num
  rw [if_pos this]
  simp

/-- A number with no more decimals than the precision is read back exactly. -/
theorem roundTo_of_exact (precision : ℕ) (x : ℚ) (n : ℕ)
    (h : |x| * 10 ^ precision = (n : ℚ)) : roundTo precision x = x := by
  have hpow : (0 : ℚ) < 10 ^ precision := by positivity
  unfold roundTo
  rw [scaledFixed_of_exact precision x n h, ← h]
  by_cases hx : x < 0
  · rw [if_pos hx, abs_of_neg hx]
    field_simp
  · rw [if_neg hx, abs_of_nonneg (not_lt.mp hx)]
    field_simp

/-- Text of a number with no more decimals than the precision. -/
theorem formatFixed_of_exact (precision : ℕ) (x : ℚ) (n : ℕ)
    (h : |x| * 10 ^ precision = (n : ℚ)) :
    formatFixed precision x
      = (if x < 0 then ['-'] else [])
        ++ natDigits (n / 10 ^ precision)
        ++ (if precision = 0 then [] else '.' :: fractionDigits precision (n % 10 ^ precision)) := by
  unfold formatFixed
  rw [scaledFixed_of_exact precision x n h]

theorem header_length_le (doseUnitName : Text) (comma : Bool) (nameBound volumeBound : ℕ) :
    ∀ (nodes : List ExportedStructure),
      (∀ node ∈ nodes, node.structureName.length ≤ nameBound ∧ |node.volume| ≤ volumeBound) →
      (ExportDvhToCsv.header doseUnitName nodes comma).length
        ≤ nodes.length * (2 * nameBound + doseUnitName.length + volumeBound + 33) := by
  intro nodes
  induction nodes with
  | nil => intro _; simp [ExportDvhToCsv.header]
  | cons node nodes ih =>
    intro h
    have h1 := h node (List.mem_cons_self _ _)
    have h2 := ih (fun n hn => h n (List.mem_cons_of_mem _ hn))
    have h3 := formatFixed_length_le 3 node.volume volumeBound h1.2
    have h4 : (ExportDvhToCsv.delimiter comma).length = 1 := by
      unfold ExportDvhToCsv.delimiter
      split_ifs <;> rfl
    have h6 : " Dose (".toList.length = 7 := rfl
    have h7 : ")".toList.length = 1 := rfl
    have h8 : DVH_CSV_HEADER_VOLUME_FIELD_MIDDLE.length = 13 := rfl
    have h9 : DVH_CSV_HEADER_VOLUME_FIELD_END.length = 4 := rfl
    have hcons : ExportDvhToCsv.header doseUnitName (node :: nodes) comma
        = (ExportDvhToCsv.doseField doseUnitName node ++ ExportDvhToCsv.delimiter comma
            ++ ExportDvhToCsv.volumeField node ++ ExportDvhToCsv.delimiter comma)
          ++ ExportDvhToCsv.header doseUnitName nodes comma := by
      simp [ExportDvhToCsv.header]
    rw [hcons, List.length_cons, Nat.add_mul, Nat.one_mul]
    simp only [List.length_append, ExportDvhToCsv.doseField, ExportDvhToCsv.volumeField, h4, h6,
      h7, h8, h9]
    omega

theorem valueCell_length_le (row component : ℕ) (node : ExportedStructure) (bound : ℕ)
    (h : ∀ tuple ∈ node.doubleArray, |tuple.1| ≤ bound ∧ |tuple.2| ≤ bound) :
    (ExportDvhToCsv.valueCell true row component node).length ≤ bound + 9 := by
  unfold ExportDvhToCsv.valueCell
  cases hget : node.doubleArray.get? row with
  | none => simp
  | some tuple =>
    have hb := h tuple (List.get?_mem hget)
    simp only [ExportDvhToCsv.cell, if_true]
    split_ifs
    · exact formatFixed_length_le 6 _ bound hb.1
    · exact formatFixed_length_le 6 _ bound hb.2

theorem valueLine_length_le (row bound : ℕ) :
    ∀ (nodes : List ExportedStructure),
      (∀ node ∈ nodes, ∀ tuple ∈ node.doubleArray, |tuple.1| ≤ bound ∧ |tuple.2| ≤ bound) →
      (ExportDvhToCsv.valueLine nodes true row).length ≤ nodes.length * (2 * bound + 20) := by
  intro nodes
  induction nodes with
  | nil => intro _; simp [ExportDvhToCsv.valueLine]
  | cons node nodes ih =>
    intro h
    have h1 := valueCell_length_le row 0 node bound (h node (List.mem_cons_self _ _))
    have h2 := valueCell_length_le row 1 node bound (h node (List.mem_cons_self _ _))
    have h3 := ih (fun n hn => h n (List.mem_cons_of_mem _ hn))
    unfold ExportDvhToCsv.valueLine at h3 ⊢
    simp only [List.map_cons, List.flatten_cons, List.length_append, List.length_cons,
      ExportDvhToCsv.delimiter, if_true, List.length_nil] at h3 ⊢
    have h5 : (nodes.length + 1) * (2 * bound + 20)
        = nodes.length * (2 * bound + 20) + (2 * bound + 20) := by ring
    omega

/-! ## Theorems on the export and import of the DVH table (C18 to C20) -/

theorem noGap_of_inserts (doubleArray : DvhArray)
    (h : ∀ tuple ∈ doubleArray, ReadCsvToDoubleArrayNode.inserts tuple = true) :
    ReadCsvToDoubleArrayNode.NoGap doubleArray :=
  fun _ _ first _ _ hfirst _ _ => h first (List.get?_mem hfirst)

theorem sameWithin_map_roundTuple (doubleArray : DvhArray) :
    SameWithin (1 / 1000000) doubleArray (doubleArray.map roundTuple) := by
  refine ⟨List.length_map _ _, ?_⟩
  intro k hk
  have hget : (doubleArray.map roundTuple).getD k (0, 0)
      = roundTuple (doubleArray.getD k (0, 0)) := by
    simp only [List.getD, List.get?_eq_getElem?, List.getElem?_map,
      List.getElem?_eq_getElem hk, Option.map_some', Option.getD_some]
  have hbound : ∀ x : ℚ, |roundTo 6 x - x| ≤ 1 / 1000000 := fun x =>
    le_trans (abs_roundTo_sub_le 6 x) (by norm_num)
  simp only [doseAt, percentAt, hget, roundTuple]
  exact ⟨hbound _, hbound _⟩

theorem ofExported_doubleArray (failedExtraction : ℚ) (node : ExportedStructure) :
    (ReadCsvToDoubleArrayNode.ofExported failedExtraction node).doubleArray
      = (node.doubleArray.filter ReadCsvToDoubleArrayNode.inserts).map roundTuple := rfl

/-- C18, amended. Serialization round trip with the comma delimiter: for every
list of curves whose structure names and dose unit hold neither a comma nor a
line end, whose exported lines fit the line buffer of the reader, and in which
no tuple has both of its numbers written as zero, `ReadCsvToDoubleArrayNode`
reads from the text of `ExportDvhToCsv` one node for each structure, in the
same order, whose array has the same number of tuples with doses and volume
percents within 1e-6 of the exported ones. -/
theorem ReadCsv_ExportDvhToCsv_round_trip (failedExtraction : ℚ) (doseUnitName : Text)
    (nodes : List ExportedStructure)
    (hnames : ∀ node ∈ nodes, ',' ∉ node.structureName ∧ '\n' ∉ node.structureName)
    (hunit : ',' ∉ doseUnitName ∧ '\n' ∉ doseUnitName)
    (hheader : (ExportDvhToCsv.header doseUnitName nodes true).length < 16384)
    (hlines : ∀ row, (ExportDvhToCsv.valueLine nodes true row).length < 16384)
    (hnonzero : ∀ node ∈ nodes, ∀ tuple ∈ node.doubleArray,
      roundTo 6 tuple.1 ≠ 0 ∨ roundTo 6 tuple.2 ≠ 0) :
    ∃ file imported, ExportDvhToCsv (some doseUnitName) nodes true = some file
      ∧ ReadCsvToDoubleArrayNode failedExtraction file = .ok imported
      ∧ List.Forall₂ (fun node importedNode =>
          SameWithin (1 / 1000000) node.doubleArray importedNode.doubleArray) nodes imported := by
  have hins : ∀ node ∈ nodes, ∀ tuple ∈ node.doubleArray,
      ReadCsvToDoubleArrayNode.inserts tuple = true := by
    intro node hnode tuple htuple
    simpa [ReadCsvToDoubleArrayNode.inserts] using hnonzero node hnode tuple htuple
  obtain ⟨file, hfile, hread⟩ := ReadCsv_export_comma failedExtraction doseUnitName nodes
    hnames hunit hheader hlines (fun node hnode => noGap_of_inserts _ (hins node hnode))
  refine ⟨file, _, hfile, hread, ?_⟩
  rw [List.forall₂_map_right_iff, List.forall₂_same]
  intro node hnode
  rw [ofExported_doubleArray, List.filter_eq_self.mpr (hins node hnode)]
  exact sameWithin_map_roundTuple node.doubleArray

theorem exportedPTV_names :
    ∀ node ∈ [exportedPTV], ',' ∉ node.structureName ∧ '\n' ∉ node.structureName := by
  intro node h
  rw [List.mem_singleton] at h
  subst h
  decide

theorem exportedPTV_header : (ExportDvhToCsv.header "Gy".toList [exportedPTV] true).length
    < 16384 := by
  refine lt_of_le_of_lt (header_length_le "Gy".toList true 3 1 [exportedPTV] ?_) (by decide)
  intro node h
  rw [List.mem_singleton] at h
  subst h
  exact ⟨by decide, by norm_num [exportedPTV, abs_of_pos]⟩

theorem exportedPTV_lines :
    ∀ row, (ExportDvhToCsv.valueLine [exportedPTV] true row).length < 16384 := by
  intro row
  refine lt_of_le_of_lt (valueLine_length_le row 100 [exportedPTV] ?_) (by decide)
  intro node h tuple htuple
  rw [List.mem_singleton] at h
  subst h
  simp only [exportedPTV, List.mem_cons, List.mem_singleton, List.not_mem_nil, or_false]
    at htuple
  rcases htuple with rfl | rfl <;> norm_num [abs_of_pos]

theorem exportedPTV_nonzero : ∀ node ∈ [exportedPTV], ∀ tuple ∈ node.doubleArray,
    roundTo 6 tuple.1 ≠ 0 ∨ roundTo 6 tuple.2 ≠ 0 := by
  intro node h tuple htuple
  rw [List.mem_singleton] at h
  subst h
  simp only [exportedPTV, List.mem_cons, List.mem_singleton, List.not_mem_nil, or_false]
    at htuple
  rcases htuple with rfl | rfl
  · right
    rw [roundTo_of_exact 6 100 100000000 (by norm_num)]
    norm_num
  · left
    rw [roundTo_of_exact 6 (51 / 10) 5100000 (by norm_num [abs_of_pos])]
    norm_num

/-- Witness of C18, amended: the structure PTV with the curve `(0,100) (5.1,0)`
and the dose unit Gy. -/
theorem ReadCsv_ExportDvhToCsv_round_trip_witness :
    (∀ node ∈ [exportedPTV], ',' ∉ node.structureName ∧ '\n' ∉ node.structureName)
    ∧ (',' ∉ "Gy".toList ∧ '\n' ∉ "Gy".toList)
    ∧ (ExportDvhToCsv.header "Gy".toList [exportedPTV] true).length < 16384
    ∧ (∀ row, (ExportDvhToCsv.valueLine [exportedPTV] true row).length < 16384)
    ∧ (∀ node ∈ [exportedPTV], ∀ tuple ∈ node.doubleArray,
        roundTo 6 tuple.1 ≠ 0 ∨ roundTo 6 tuple.2 ≠ 0)
    ∧ ∃ file imported, ExportDvhToCsv (some "Gy".toList) [exportedPTV] true = some file
      ∧ ReadCsvToDoubleArrayNode 0 file = .ok imported
      ∧ List.Forall₂ (fun node importedNode =>
          SameWithin (1 / 1000000) node.doubleArray importedNode.doubleArray)
          [exportedPTV] imported :=
  ⟨exportedPTV_names, by decide, exportedPTV_header, exportedPTV_lines, exportedPTV_nonzero,
    ReadCsv_ExportDvhToCsv_round_trip 0 "Gy".toList [exportedPTV] exportedPTV_names (by decide)
      exportedPTV_header exportedPTV_lines exportedPTV_nonzero⟩

theorem formatFixed_half : formatFixed 3 (1 / 2) = "0.500".toList := by
  rw [formatFixed_of_exact 3 (1 / 2) 500 (by norm_num [abs_of_pos]), if_neg (by norm_num)]
  decide

theorem formatFixed_minus_one : formatFixed 6 (-1) = "-1.000000".toList := by
  rw [formatFixed_of_exact 6 (-1) 1000000 (by norm_num), if_pos (by norm_num)]
  decide

theorem formatFixed_hundred : formatFixed 6 100 = "100.000000".toList := by
  rw [formatFixed_of_exact 6 100 100000000 (by norm_num), if_neg (by norm_num)]
  decide

theorem formatFixed_zero : formatFixed 6 0 = "0.000000".toList := by
  rw [formatFixed_of_exact 6 0 0 (by norm_num), if_neg (by norm_num)]
  decide

theorem inserts_minus_one_hundred : ReadCsvToDoubleArrayNode.inserts (-1, 100) = true := by
  simp only [ReadCsvToDoubleArrayNode.inserts, decide_eq_true_eq]
  left
  rw [roundTo_of_exact 6 (-1) 1000000 (by norm_num)]
  norm_num

theorem inserts_zero_zero : ReadCsvToDoubleArrayNode.inserts (0, 0) = false := by
  simp only [ReadCsvToDoubleArrayNode.inserts, decide_eq_false_iff_not, not_or, not_not]
  rw [roundTo_of_exact 6 0 0 (by norm_num)]
  exact ⟨rfl, rfl⟩

theorem exportedEndingAtZero_text :
    ExportDvhToCsv (some "Gy".toList) [exportedEndingAtZero] true
      = some ("PTV Dose (Gy),PTV Value (% of 0.500 cc),\n"
          ++ "-1.000000,100.000000,\n" ++ "0.000000,0.000000,\n").toList := by
  have hmax : (ExportDvhToCsv.maxNumberOfValues [exportedEndingAtZero]).toNat = 2 := by decide
  have hheader : ExportDvhToCsv.header "Gy".toList [exportedEndingAtZero] true
      = "PTV Dose (Gy),PTV Value (% of 0.500 cc),".toList := by
    simp only [ExportDvhToCsv.header, ExportDvhToCsv.doseField, ExportDvhToCsv.volumeField,
      ExportDvhToCsv.delimiter, exportedEndingAtZero, List.map_cons, List.map_nil,
      List.flatten_cons, List.flatten_nil, if_true, formatFixed_half]
    decide
  have hline0 : ExportDvhToCsv.valueLine [exportedEndingAtZero] true 0
      = "-1.000000,100.000000,".toList := by
    simp only [ExportDvhToCsv.valueLine, ExportDvhToCsv.valueCell, ExportDvhToCsv.cell,
      ExportDvhToCsv.delimiter, exportedEndingAtZero, List.map_cons, List.map_nil,
      List.flatten_cons, List.flatten_nil, if_true, List.get?_cons_zero, one_ne_zero, if_false,
      formatFixed_minus_one, formatFixed_hundred]
    decide
  have hline1 : ExportDvhToCsv.valueLine [exportedEndingAtZero] true 1
      = "0.000000,0.000000,".toList := by
    simp only [ExportDvhToCsv.valueLine, ExportDvhToCsv.valueCell, ExportDvhToCsv.cell,
      ExportDvhToCsv.delimiter, exportedEndingAtZero, List.map_cons, List.map_nil,
      List.flatten_cons, List.flatten_nil, if_true, List.get?_cons_succ, List.get?_cons_zero,
      one_ne_zero, if_false, formatFixed_zero]
    decide
  rw [ExportDvhToCsv_lines, hmax]
  simp only [List.range', List.map_cons, List.map_nil, List.flatten_cons, List.flatten_nil,
    hheader, hline0, hline1]
  decide

/-- What the reader makes of the export of the curve `(-1,100) (0,0)`. -/
theorem readCsv_exportedEndingAtZero (failedExtraction : ℚ) :
    exportedEndingAtZero.doubleArray = [(-1, 100), (0, 0)]
    ∧ ExportDvhToCsv (some "Gy".toList) [exportedEndingAtZero] true
      = some ("PTV Dose (Gy),PTV Value (% of 0.500 cc),\n"
          ++ "-1.000000,100.000000,\n" ++ "0.000000,0.000000,\n").toList
    ∧ ∃ imported, ReadCsvToDoubleArrayNode failedExtraction
          ("PTV Dose (Gy),PTV Value (% of 0.500 cc),\n"
            ++ "-1.000000,100.000000,\n" ++ "0.000000,0.000000,\n").toList = .ok [imported]
        ∧ imported.doubleArray = [(-1, 100)] := by
  have hnames : ∀ node ∈ [exportedEndingAtZero],
      ',' ∉ node.structureName ∧ '\n' ∉ node.structureName := by
    intro node h
    rw [List.mem_singleton] at h
    subst h
    decide
  have hheader : (ExportDvhToCsv.header "Gy".toList [exportedEndingAtZero] true).length
      < 16384 := by
    refine lt_of_le_of_lt (header_length_le "Gy".toList true 3 1 [exportedEndingAtZero] ?_)
      (by decide)
    intro node h
    rw [List.mem_singleton] at h
    subst h
    exact ⟨by decide, by norm_num [exportedEndingAtZero, abs_of_pos]⟩
  have hlines : ∀ row, (ExportDvhToCsv.valueLine [exportedEndingAtZero] true row).length
      < 16384 := by
    intro row
    refine lt_of_le_of_lt (valueLine_length_le row 100 [exportedEndingAtZero] ?_) (by decide)
    intro node h tuple htuple
    rw [List.mem_singleton] at h
    subst h
    simp only [exportedEndingAtZero, List.mem_cons, List.mem_singleton, List.not_mem_nil,
      or_false] at htuple
    rcases htuple with rfl | rfl <;> norm_num [abs_of_pos]
  have hgap : ∀ node ∈ [exportedEndingAtZero],
      ReadCsvToDoubleArrayNode.NoGap node.doubleArray := by
    intro node h
    rw [List.mem_singleton] at h
    subst h
    intro i j first second hij hi hj hins
    rcases j with _ | _ | j
    · omega
    · simp only [exportedEndingAtZero, zero_add, List.get?_cons_succ, List.get?_cons_zero,
        Option.some.injEq] at hj
      rw [← hj, inserts_zero_zero] at hins
      exact absurd hins (by decide)
    · simp [exportedEndingAtZero] at hj
  obtain ⟨file, hfile, hread⟩ := ReadCsv_export_comma failedExtraction "Gy".toList
    [exportedEndingAtZero] hnames (by decide) hheader hlines hgap
  rw [exportedEndingAtZero_text, Option.some.injEq] at hfile
  refine ⟨rfl, exportedEndingAtZero_text, _, by rw [hfile]; exact hread, ?_⟩
  rw [ofExported_doubleArray]
  simp only [exportedEndingAtZero, List.filter_cons, inserts_minus_one_hundred,
    inserts_zero_zero, if_true, Bool.false_eq_true, if_false, List.filter_nil, List.map_cons,
    List.map_nil, roundTuple]
  rw [roundTo_of_exact 6 (-1) 1000000 (by norm_num), roundTo_of_exact 6 100 100000000 (by norm_num)]

/-- Counterexample to C18. The curve `(-1,100) (0,0)` of the structure PTV is
written as the lines `-1.000000,100.000000,` and `0.000000,0.000000,`; the
reader leaves out the second tuple, whose two numbers are zero, so that the
array that comes back holds one tuple instead of two. -/
theorem ReadCsv_drops_zero_tuple :
    exportedEndingAtZero.doubleArray = [(-1, 100), (0, 0)]
    ∧ ExportDvhToCsv (some "Gy".toList) [exportedEndingAtZero] true
      = some ("PTV Dose (Gy),PTV Value (% of 0.500 cc),\n"
          ++ "-1.000000,100.000000,\n" ++ "0.000000,0.000000,\n").toList
    ∧ ∃ imported, ReadCsvToDoubleArrayNode 0
          ("PTV Dose (Gy),PTV Value (% of 0.500 cc),\n"
            ++ "-1.000000,100.000000,\n" ++ "0.000000,0.000000,\n").toList = .ok [imported]
        ∧ imported.doubleArray = [(-1, 100)] :=
  readCsv_exportedEndingAtZero 0

theorem findFrom_le_of_occurrence (pattern rest : Text) :
    ∀ (before : Text) (i : ℕ),
      findFrom pattern (before ++ pattern ++ rest) i ≤ i + before.length := by
  intro before
  induction before with
  | nil =>
    intro i
    have hpre : pattern.isPrefixOf (pattern ++ rest) = true :=
      List.isPrefixOf_iff_prefix.mpr (List.prefix_append _ _)
    cases hp : pattern ++ rest with
    | nil =>
      have h1 : pattern = [] := (List.append_eq_nil.mp hp).1
      have h2 : rest = [] := (List.append_eq_nil.mp hp).2
      simp [findFrom, h1, h2]
    | cons c tail =>
      rw [hp] at hpre
      simp only [List.nil_append, hp, findFrom, hpre, if_true, List.length_nil]
      omega
  | cons c before ih =>
    intro i
    rw [List.cons_append, List.cons_append, findFrom]
    split_ifs
    · omega
    · have := ih (i + 1)
      simp only [List.length_cons]
      omega

theorem ofExported_segmentID (failedExtraction : ℚ) (node : ExportedStructure) :
    (ReadCsvToDoubleArrayNode.ofExported failedExtraction node).segmentID
      = (ExportDvhToCsv.volumeField node).take
        (sizeSub (find (ExportDvhToCsv.volumeField node) DVH_CSV_HEADER_VOLUME_FIELD_MIDDLE)
          DVH_ARRAY_NODE_NAME_POSTFIX.length) := by
  simp only [ReadCsvToDoubleArrayNode.ofExported]

/-- The name that the reader cuts out of the volume field of an exported
header is never the exported structure name. -/
theorem volumeField_name_ne (failedExtraction : ℚ) (node : ExportedStructure)
    (hshort : (ExportDvhToCsv.volumeField node).length < 16384) :
    (ReadCsvToDoubleArrayNode.ofExported failedExtraction node).segmentID
      ≠ node.structureName := by
  have hle : find (ExportDvhToCsv.volumeField node) DVH_CSV_HEADER_VOLUME_FIELD_MIDDLE
      ≤ node.structureName.length := by
    have := findFrom_le_of_occurrence DVH_CSV_HEADER_VOLUME_FIELD_MIDDLE
      (formatFixed 3 node.volume ++ DVH_CSV_HEADER_VOLUME_FIELD_END) node.structureName 0
    unfold find ExportDvhToCsv.volumeField
    rw [List.append_assoc (node.structureName ++ DVH_CSV_HEADER_VOLUME_FIELD_MIDDLE)]
    omega
  have hlen : (ExportDvhToCsv.volumeField node).length
      = node.structureName.length + 13 + (formatFixed 3 node.volume).length + 4 := by
    simp only [ExportDvhToCsv.volumeField, List.length_append]
    rfl
  intro heq
  rw [ofExported_segmentID] at heq
  have hlength := congrArg List.length heq
  have hnine : DVH_ARRAY_NODE_NAME_POSTFIX.length = 9 := rfl
  rw [List.length_take, hnine] at hlength
  unfold sizeSub at hlength
  have h9 : (9 : ℕ) % 2 ^ 64 = 9 := by norm_num
  rw [h9] at hlength
  by_cases hm : 9 ≤ find (ExportDvhToCsv.volumeField node) DVH_CSV_HEADER_VOLUME_FIELD_MIDDLE
  · have hmod : (find (ExportDvhToCsv.volumeField node) DVH_CSV_HEADER_VOLUME_FIELD_MIDDLE
        + (2 ^ 64 - 9)) % 2 ^ 64
        = find (ExportDvhToCsv.volumeField node) DVH_CSV_HEADER_VOLUME_FIELD_MIDDLE - 9 := by
      have h2 : find (ExportDvhToCsv.volumeField node) DVH_CSV_HEADER_VOLUME_FIELD_MIDDLE
          + (2 ^ 64 - 9)
          = (find (ExportDvhToCsv.volumeField node) DVH_CSV_HEADER_VOLUME_FIELD_MIDDLE - 9)
            + 2 ^ 64 := by omega
      rw [h2, Nat.add_mod_right, Nat.mod_eq_of_lt (by omega)]
    rw [hmod] at hlength
    omega
  · have hmod : (find (ExportDvhToCsv.volumeField node) DVH_CSV_HEADER_VOLUME_FIELD_MIDDLE
        + (2 ^ 64 - 9)) % 2 ^ 64
        = find (ExportDvhToCsv.volumeField node) DVH_CSV_HEADER_VOLUME_FIELD_MIDDLE
          + (2 ^ 64 - 9) := Nat.mod_eq_of_lt (by omega)
    rw [hmod] at hlength
    omega

theorem exportedLeftParotidGland_names : ∀ node ∈ [exportedLeftParotidGland],
    ',' ∉ node.structureName ∧ '\n' ∉ node.structureName := by
  intro node h
  rw [List.mem_singleton] at h
  subst h
  decide

theorem exportedLeftParotidGland_header :
    (ExportDvhToCsv.header "Gy".toList [exportedLeftParotidGland] true).length < 16384 := by
  refine lt_of_le_of_lt
    (header_length_le "Gy".toList true 16 25 [exportedLeftParotidGland] ?_) (by decide)
  intro node h
  rw [List.mem_singleton] at h
  subst h
  exact ⟨by decide, by norm_num [exportedLeftParotidGland, abs_of_pos]⟩

theorem exportedLeftParotidGland_lines :
    ∀ row, (ExportDvhToCsv.valueLine [exportedLeftParotidGland] true row).length < 16384 := by
  intro row
  refine lt_of_le_of_lt (valueLine_length_le row 100 [exportedLeftParotidGland] ?_) (by decide)
  intro node h tuple htuple
  rw [List.mem_singleton] at h
  subst h
  simp only [exportedLeftParotidGland, List.mem_cons, List.mem_singleton, List.not_mem_nil,
    or_false] at htuple
  rcases htuple with rfl | rfl <;> norm_num [abs_of_pos]

theorem exportedLeftParotidGland_noGap : ∀ node ∈ [exportedLeftParotidGland],
    ReadCsvToDoubleArrayNode.NoGap node.doubleArray := by
  intro node h
  rw [List.mem_singleton] at h
  subst h
  apply noGap_of_inserts
  intro tuple htuple
  have := exportedPTV_nonzero exportedPTV (List.mem_singleton_self _) tuple htuple
  simpa [ReadCsvToDoubleArrayNode.inserts] using this

theorem volumeField_exportedPTV :
    ExportDvhToCsv.volumeField exportedPTV = "PTV Value (% of 0.500 cc)".toList := by
  simp only [ExportDvhToCsv.volumeField, exportedPTV, formatFixed_half]
  decide

theorem formatFixed_twenty_five : formatFixed 3 25 = "25.000".toList := by
  rw [formatFixed_of_exact 3 25 25000 (by norm_num), if_neg (by norm_num)]
  decide

theorem volumeField_exportedLeftParotidGland :
    ExportDvhToCsv.volumeField exportedLeftParotidGland
      = "LeftParotidGland Value (% of 25.000 cc)".toList := by
  simp only [ExportDvhToCsv.volumeField, exportedLeftParotidGland, formatFixed_twenty_five]
  decide

/-- C20. Structure-name round trip: the reader cuts the name out of the header
field in front of the position of the text ' Value (% of ' less the nine
characters of the node name ending `_DvhArray`, which the export does not
write. For the structure PTV the subtraction wraps around and the whole header
field comes back as the name; for the structure LeftParotidGland the name
comes back without its last nine characters; for no structure is the name that
comes back the exported one. -/
theorem ReadCsv_structure_name_cut (failedExtraction : ℚ) :
    (∃ file imported, ExportDvhToCsv (some "Gy".toList) [exportedPTV] true = some file
      ∧ ReadCsvToDoubleArrayNode failedExtraction file = .ok [imported]
      ∧ imported.segmentID = "PTV Value (% of 0.500 cc)".toList
      ∧ imported.Name = "PTV Value (% of 0.500 cc)_DvhArray".toList)
    ∧ (∃ file imported,
      ExportDvhToCsv (some "Gy".toList) [exportedLeftParotidGland] true = some file
      ∧ ReadCsvToDoubleArrayNode failedExtraction file = .ok [imported]
      ∧ imported.segmentID = "LeftPar".toList
      ∧ imported.Name = "LeftPar_DvhArray".toList)
    ∧ ∀ node : ExportedStructure, (ExportDvhToCsv.volumeField node).length < 16384 →
      ∃ entry, ReadCsvToDoubleArrayNode.volumeField failedExtraction
          (ExportDvhToCsv.volumeField node)
          (find (ExportDvhToCsv.volumeField node) DVH_CSV_HEADER_VOLUME_FIELD_MIDDLE)
          = .ok entry
        ∧ entry.1 ≠ node.structureName := by
  refine ⟨?_, ?_, ?_⟩
  · obtain ⟨file, hfile, hread⟩ := ReadCsv_export_comma failedExtraction "Gy".toList
      [exportedPTV] exportedPTV_names (by decide) exportedPTV_header exportedPTV_lines
      (fun node hnode => noGap_of_inserts _ (fun tuple htuple => by
        simpa [ReadCsvToDoubleArrayNode.inserts]
          using exportedPTV_nonzero node hnode tuple htuple))
    refine ⟨file, _, hfile, hread, ?_, ?_⟩
    · simp only [ReadCsvToDoubleArrayNode.ofExported, volumeField_exportedPTV]
      decide
    · simp only [ReadCsvToDoubleArrayNode.ofExported, volumeField_exportedPTV]
      decide
  · obtain ⟨file, hfile, hread⟩ := ReadCsv_export_comma failedExtraction "Gy".toList
      [exportedLeftParotidGland] exportedLeftParotidGland_names (by decide)
      exportedLeftParotidGland_header exportedLeftParotidGland_lines
      exportedLeftParotidGland_noGap
    refine ⟨file, _, hfile, hread, ?_, ?_⟩
    · simp only [ReadCsvToDoubleArrayNode.ofExported, volumeField_exportedLeftParotidGland]
      decide
    · simp only [ReadCsvToDoubleArrayNode.ofExported, volumeField_exportedLeftParotidGland]
      decide
  · intro node hshort
    refine ⟨_, volumeField_exported failedExtraction node, ?_⟩
    simp only
    exact volumeField_name_ne failedExtraction node hshort

/-! ## The export with the tabulator delimiter (C19) -/

/-- A first line without a comma gives no array. -/
theorem header_of_no_comma (failedExtraction : ℚ) (line : Text) (h : ',' ∉ line) :
    ∃ state, ReadCsvToDoubleArrayNode.header failedExtraction line = .ok state
      ∧ state.fieldCount / 2 = 0 := by
  unfold ReadCsvToDoubleArrayNode.header
  rw [splitLine_of_not_mem ',' line h]
  simp only [ReadCsvToDoubleArrayNode.headerLoop, pure, Except.pure, bind, Except.bind]
  by_cases hlast : line ≠ [] ∧ find line DVH_CSV_HEADER_VOLUME_FIELD_MIDDLE ≠ npos
  · rw [if_pos hlast, volumeField_of_valid failedExtraction line _
      (find_valid_of_ne_npos line _ hlast.2)]
    exact ⟨_, rfl, by simp only [Nat.zero_add]⟩
  · rw [if_neg hlast]
    exact ⟨_, rfl, by simp only⟩

theorem insert_nil (structureNumber lineNumber : ℕ) (tuple : DvhTuple) :
    ReadCsvToDoubleArrayNode.insert [] structureNumber lineNumber tuple
      = .error .out_of_range := rfl

/-- Without arrays, a line of values either leaves the reader without arrays
or makes `currentDvh.at` throw. -/
theorem valueLoop_nil (failedExtraction : ℚ) (lineNumber : ℕ) (lineStr : Text) :
    ∀ (fields : List Text),
      (∀ structureNumber,
        ReadCsvToDoubleArrayNode.valueLoop failedExtraction lineNumber lineStr fields
            structureNumber [] = .ok []
        ∨ ReadCsvToDoubleArrayNode.valueLoop failedExtraction lineNumber lineStr fields
            structureNumber [] = .error .out_of_range)
      ∧ ∀ field structureNumber,
        ReadCsvToDoubleArrayNode.valueLoop failedExtraction lineNumber lineStr
            (field :: fields) structureNumber [] = .ok []
        ∨ ReadCsvToDoubleArrayNode.valueLoop failedExtraction lineNumber lineStr
            (field :: fields) structureNumber [] = .error .out_of_range := by
  intro fields
  induction fields with
  | nil =>
    constructor
    · intro structureNumber
      left
      rfl
    · intro field structureNumber
      rw [ReadCsvToDoubleArrayNode.valueLoop]
      simp only [insert_nil]
      split_ifs
      · right
        rfl
      · left
        rfl
  | cons second fields ih =>
    constructor
    · intro structureNumber
      exact ih.2 second structureNumber
    · intro field structureNumber
      rw [ReadCsvToDoubleArrayNode.valueLoop]
      simp only [insert_nil]
      split_ifs
      · right
        rfl
      · exact ih.1 (structureNumber + 1)

theorem valueLines_nil (failedExtraction : ℚ) :
    ∀ (lines : List Text) (lineNumber : ℕ),
      ReadCsvToDoubleArrayNode.valueLines failedExtraction lines lineNumber [] = .ok []
      ∨ ReadCsvToDoubleArrayNode.valueLines failedExtraction lines lineNumber []
        = .error .out_of_range := by
  intro lines
  induction lines with
  | nil =>
    intro lineNumber
    left
    rfl
  | cons line lines ih =>
    intro lineNumber
    rw [ReadCsvToDoubleArrayNode.valueLines]
    rcases (valueLoop_nil failedExtraction lineNumber (splitLine ',' line).2
      (splitLine ',' line).1).1 0 with h | h
    · rw [h]
      exact ih (lineNumber + 1)
    · rw [h]
      right
      rfl

/-- A file whose first line holds no comma is read as no node at all, or the
reader is left by an exception. -/
theorem ReadCsv_of_first_line_no_comma (failedExtraction : ℚ) (file : Text)
    (h : ∀ line ∈ (getlines file).head?, ',' ∉ line) :
    ReadCsvToDoubleArrayNode failedExtraction file = .ok []
    ∨ ReadCsvToDoubleArrayNode failedExtraction file = .error .out_of_range := by
  unfold ReadCsvToDoubleArrayNode
  cases hlines : getlines file with
  | nil =>
    left
    rfl
  | cons firstLine valueLines =>
    rw [hlines] at h
    obtain ⟨state, hstate, hcount⟩ := header_of_no_comma failedExtraction firstLine
      (h firstLine (by simp))
    simp only [hstate, bind, Except.bind, hcount, List.replicate_zero]
    rcases valueLines_nil failedExtraction valueLines 0 with hv | hv
    · rw [hv]
      left
      rfl
    · rw [hv]
      right
      rfl

theorem head_getlines (first rest : Text) (h : '\n' ∉ first) :
    ∀ line ∈ (getlines (first ++ '\n' :: rest)).head?, line = first := by
  intro line hline
  unfold getlines at hline
  rw [splitLine_append_sep '\n' rest first h] at hline
  simp only [List.cons_append, List.takeWhile_cons] at hline
  by_cases hshort : decide (first.length < 16384) = true
  · rw [if_pos hshort, List.head?_cons, Option.mem_def, Option.some.injEq] at hline
    exact hline.symm
  · rw [if_neg hshort] at hline
    simp at hline

/-- C19, amended. Reading the export with the tabulator delimiter: for every
list of curves whose structure names and dose unit hold neither a comma nor a
line end, `ReadCsvToDoubleArrayNode`, whose separator is the comma, finds no
field in the header of the text that `ExportDvhToCsv` writes with
`comma = false` and makes no array: it returns an empty collection, or it is
left by the exception of `currentDvh.at` at the first tuple that it tries to
insert. No curve comes back. -/
theorem ReadCsv_ExportDvhToCsv_tab (failedExtraction : ℚ) (doseUnitName : Text)
    (nodes : List ExportedStructure)
    (hnames : ∀ node ∈ nodes, ',' ∉ node.structureName ∧ '\n' ∉ node.structureName)
    (hunit : ',' ∉ doseUnitName ∧ '\n' ∉ doseUnitName) :
    ∃ file, ExportDvhToCsv (some doseUnitName) nodes false = some file
      ∧ (ReadCsvToDoubleArrayNode failedExtraction file = .ok []
        ∨ ReadCsvToDoubleArrayNode failedExtraction file = .error .out_of_range) := by
  refine ⟨_, ExportDvhToCsv_lines doseUnitName nodes false, ?_⟩
  apply ReadCsv_of_first_line_no_comma
  rw [List.map_cons, List.flatten_cons, List.append_assoc, List.singleton_append]
  intro line hline
  have hnewline : '\n' ∉ ExportDvhToCsv.header doseUnitName nodes false :=
    not_mem_header _ _ _ _ (by decide) (by decide) (by decide) (by decide)
      (fun n hn => (hnames n hn).2) hunit.2
  rw [head_getlines _ _ hnewline line hline]
  exact not_mem_header _ _ _ _ (by decide) (by decide) (by decide) (by decide)
    (fun n hn => (hnames n hn).1) hunit.1

/-- Witness of C19, amended: the structure PTV with the dose unit Gy. -/
theorem ReadCsv_ExportDvhToCsv_tab_witness :
    (∀ node ∈ [exportedPTV], ',' ∉ node.structureName ∧ '\n' ∉ node.structureName)
    ∧ (',' ∉ "Gy".toList ∧ '\n' ∉ "Gy".toList)
    ∧ ∃ file, ExportDvhToCsv (some "Gy".toList) [exportedPTV] false = some file
      ∧ (ReadCsvToDoubleArrayNode 0 file = .ok []
        ∨ ReadCsvToDoubleArrayNode 0 file = .error .out_of_range) :=
  ⟨exportedPTV_names, by decide,
    ReadCsv_ExportDvhToCsv_tab 0 "Gy".toList [exportedPTV] exportedPTV_names (by decide)⟩

theorem extractDouble_of_scan (s : Text) (parts : Bool × ℕ × ℕ × ℤ)
    (h : extractDouble.scan s = some parts) :
    extractDouble s = some (extractDouble.value parts) := by
  unfold extractDouble
  rw [h]
  rfl

theorem formatFixed_five_point_one : formatFixed 6 (51 / 10) = "5.100000".toList := by
  rw [formatFixed_of_exact 6 (51 / 10) 5100000 (by norm_num [abs_of_pos]),
    if_neg (by norm_num)]
  decide

theorem exportedPTV_tab_text :
    ExportDvhToCsv (some "Gy".toList) [exportedPTV] false
      = some ("PTV Dose (Gy)\tPTV Value (% of 0.500 cc)\t\n"
          ++ "0,000000\t100,000000\t\n" ++ "5,100000\t0,000000\t\n").toList := by
  have hmax : (ExportDvhToCsv.maxNumberOfValues [exportedPTV]).toNat = 2 := by decide
  have hheader : ExportDvhToCsv.header "Gy".toList [exportedPTV] false
      = "PTV Dose (Gy)\tPTV Value (% of 0.500 cc)\t".toList := by
    simp only [ExportDvhToCsv.header, ExportDvhToCsv.doseField, ExportDvhToCsv.volumeField,
      ExportDvhToCsv.delimiter, exportedPTV, List.map_cons, List.map_nil,
      List.flatten_cons, List.flatten_nil, Bool.false_eq_true, if_false, formatFixed_half]
    decide
  have hline0 : ExportDvhToCsv.valueLine [exportedPTV] false 0
      = "0,000000\t100,000000\t".toList := by
    simp only [ExportDvhToCsv.valueLine, ExportDvhToCsv.valueCell, ExportDvhToCsv.cell,
      ExportDvhToCsv.delimiter, exportedPTV, List.map_cons, List.map_nil,
      List.flatten_cons, List.flatten_nil, Bool.false_eq_true, if_false, if_true,
      List.get?_cons_zero, one_ne_zero, formatFixed_zero, formatFixed_hundred]
    decide
  have hline1 : ExportDvhToCsv.valueLine [exportedPTV] false 1
      = "5,100000\t0,000000\t".toList := by
    simp only [ExportDvhToCsv.valueLine, ExportDvhToCsv.valueCell, ExportDvhToCsv.cell,
      ExportDvhToCsv.delimiter, exportedPTV, List.map_cons, List.map_nil,
      List.flatten_cons, List.flatten_nil, Bool.false_eq_true, if_false, if_true,
      List.get?_cons_succ, List.get?_cons_zero, one_ne_zero, formatFixed_zero,
      formatFixed_five_point_one]
    decide
  rw [ExportDvhToCsv_lines, hmax]
  simp only [List.range', List.map_cons, List.map_nil, List.flatten_cons, List.flatten_nil,
    hheader, hline0, hline1]
  decide

/-- What the reader makes of the export of the structure PTV with the
tabulator delimiter. -/
theorem readCsv_exportedPTV_tab (failedExtraction : ℚ) :
    ExportDvhToCsv (some "Gy".toList) [exportedPTV] false
      = some ("PTV Dose (Gy)\tPTV Value (% of 0.500 cc)\t\n"
          ++ "0,000000\t100,000000\t\n" ++ "5,100000\t0,000000\t\n").toList
    ∧ ReadCsvToDoubleArrayNode failedExtraction
        ("PTV Dose (Gy)\tPTV Value (% of 0.500 cc)\t\n"
          ++ "0,000000\t100,000000\t\n" ++ "5,100000\t0,000000\t\n").toList
      = .error .out_of_range := by
  refine ⟨exportedPTV_tab_text, ?_⟩
  have hlines : getlines ("PTV Dose (Gy)\tPTV Value (% of 0.500 cc)\t\n"
      ++ "0,000000\t100,000000\t\n" ++ "5,100000\t0,000000\t\n").toList
      = ["PTV Dose (Gy)\tPTV Value (% of 0.500 cc)\t".toList, "0,000000\t100,000000\t".toList,
          "5,100000\t0,000000\t".toList] := by decide
  obtain ⟨state, hstate, hcount⟩ := header_of_no_comma failedExtraction
    "PTV Dose (Gy)\tPTV Value (% of 0.500 cc)\t".toList (by decide)
  have hsplit0 : splitLine ',' "0,000000\t100,000000\t".toList
      = (["0".toList, "000000\t100".toList], "000000\t".toList) := by decide
  have hsplit1 : splitLine ',' "5,100000\t0,000000\t".toList
      = (["5".toList, "100000\t0".toList], "000000\t".toList) := by decide
  have hzero : extractDouble ['0'] = some 0 := by
    rw [extractDouble_of_scan _ (false, 0, 0, 0) (by decide)]
    norm_num [extractDouble.value]
  have hzero2 : extractDouble ['0', '0', '0', '0', '0', '0', '\t', '1', '0', '0'] = some 0 := by
    rw [extractDouble_of_scan _ (false, 0, 0, 0) (by decide)]
    norm_num [extractDouble.value]
  have hfive : extractDouble ['5'] = some 5 := by
    rw [extractDouble_of_scan _ (false, 5, 0, 0) (by decide)]
    norm_num [extractDouble.value]
  unfold ReadCsvToDoubleArrayNode
  rw [hlines]
  simp only [hstate, bind, Except.bind, hcount, List.replicate_zero,
    ReadCsvToDoubleArrayNode.valueLines, hsplit0, hsplit1,
    ReadCsvToDoubleArrayNode.valueLoop, pure, Except.pure]
  simp [hzero, hzero2, hfive, ReadCsvToDoubleArrayNode.insert, vectorAt, bind, Except.bind]

/-- Counterexample to C19. The export of the structure PTV with the curve
`(0,100) (5.1,0)` and the tabulator delimiter holds a header line without a
comma and the lines `0,000000 100,000000` and `5,100000 0,000000`; the reader
makes no array from the header, reads the dose 5 from the last line and is
left by the exception `std::out_of_range` of `currentDvh.at(0)`: no curve
comes back. -/
theorem ReadCsv_tab_export_throws :
    ExportDvhToCsv (some "Gy".toList) [exportedPTV] false
      = some ("PTV Dose (Gy)\tPTV Value (% of 0.500 cc)\t\n"
          ++ "0,000000\t100,000000\t\n" ++ "5,100000\t0,000000\t\n").toList
    ∧ ReadCsvToDoubleArrayNode 0
        ("PTV Dose (Gy)\tPTV Value (% of 0.500 cc)\t\n"
          ++ "0,000000\t100,000000\t\n" ++ "5,100000\t0,000000\t\n").toList
      = .error .out_of_range :=
  readCsv_exportedPTV_tab 0

/-! ## Lemmas on the order of the D metric -/

/-- Abscissae in strictly increasing order, read by index. -/
theorem doseAt_lt_of_pairwise (doubleArray : DvhArray)
    (hinc : doubleArray.Pairwise (fun a b => a.1 < b.1)) (i j : ℕ) (hij : i < j)
    (hj : j < doubleArray.length) : doseAt doubleArray i < doseAt doubleArray j := by
  have hi : i < doubleArray.length := by omega
  have := List.pairwise_iff_getElem.mp hinc i j hi hj hij
  simpa [doseAt, List.getD, List.getElem?_eq_getElem hi, List.getElem?_eq_getElem hj] using this

/-- A sequence that starts above the target and is at or below it at index `n`
stays above it up to some index `j < n` and is at or below it at `j + 1`. -/
theorem exists_first_crossing (f : ℕ → ℚ) (t : ℚ) (n : ℕ) (h0 : f 0 > t) (hn : t ≥ f n) :
    ∃ j, j < n ∧ (∀ k, k ≤ j → f k > t) ∧ t ≥ f (j + 1) := by
  classical
  have hex : ∃ m, t ≥ f m := ⟨n, hn⟩
  have hspec := Nat.find_spec hex
  have hle : Nat.find hex ≤ n := Nat.find_min' hex hn
  cases hfind : Nat.find hex with
  | zero =>
    rw [hfind] at hspec
    exact absurd h0 (not_lt.mpr hspec)
  | succ j =>
    refine ⟨j, by omega, ?_, ?_⟩
    · intro k hk
      exact not_le.mp (Nat.find_min hex (by omega))
    · rw [hfind] at hspec
      exact hspec

/-- The value of `ComputeDMetric` at or above the volume of the first sample. -/
theorem ComputeDMetric_at_or_above_first (doubleArray : DvhArray) (volume structureVolume : ℚ)
    (isPercent : Bool) (hne : doubleArray ≠ []) (hsv : structureVolume ≠ 0)
    (h : requestedVolumeCc volume structureVolume isPercent
      ≥ volumeAt doubleArray structureVolume 0) :
    ComputeDMetric (some doubleArray) volume structureVolume isPercent = some ⟨0, none⟩ := by
  have h0 : 0 < doubleArray.length := List.length_pos.mpr hne
  have hnotsv : ¬ ((isPercent = true) ∧ structureVolume = 0) := fun h => hsv h.2
  unfold ComputeDMetric
  simp only [GetComponent_percent _ _ h0, Option.bind_eq_bind, Option.some_bind, Option.pure_def]
  rw [if_neg hnotsv]
  have htv : (if isPercent = true then volume * structureVolume / 100 else volume)
      = requestedVolumeCc volume structureVolume isPercent := by
    simp [requestedVolumeCc]
  rw [htv, if_pos (show requestedVolumeCc volume structureVolume isPercent
    ≥ percentAt doubleArray 0 / 100 * structureVolume from h)]

/-- The value of `ComputeDMetric` below the volume of the last sample. -/
theorem ComputeDMetric_below_last (doubleArray : DvhArray) (volume structureVolume : ℚ)
    (isPercent : Bool) (hne : doubleArray ≠ []) (hsv : structureVolume ≠ 0)
    (hfirst : volumeAt doubleArray structureVolume 0
      > requestedVolumeCc volume structureVolume isPercent)
    (hlast : requestedVolumeCc volume structureVolume isPercent
      < volumeAt doubleArray structureVolume (doubleArray.length - 1)) :
    ComputeDMetric (some doubleArray) volume structureVolume isPercent
      = some ⟨doseAt doubleArray (doubleArray.length - 1), none⟩ := by
  have h0 : 0 < doubleArray.length := List.length_pos.mpr hne
  have hl : doubleArray.length - 1 < doubleArray.length := by omega
  have hnotsv : ¬ ((isPercent = true) ∧ structureVolume = 0) := fun h => hsv h.2
  have hc1 : ¬ (requestedVolumeCc volume structureVolume isPercent
      ≥ percentAt doubleArray 0 / 100 * structureVolume) := not_le.mpr hfirst
  unfold ComputeDMetric
  simp only [GetNumberOfTuples, GetComponent_percent _ _ h0, GetComponent_percent _ _ hl,
    GetComponent_dose _ _ hl, Option.bind_eq_bind, Option.some_bind, Option.pure_def]
  rw [if_neg hnotsv]
  have htv : (if isPercent = true then volume * structureVolume / 100 else volume)
      = requestedVolumeCc volume structureVolume isPercent := by
    simp [requestedVolumeCc]
  rw [htv, if_neg hc1, if_pos (show requestedVolumeCc volume structureVolume isPercent
    < percentAt doubleArray (doubleArray.length - 1) / 100 * structureVolume from hlast)]

/-- The value of `ComputeDMetric` between the volumes of the first and of the
last sample: the interpolation over the first pair that reaches the request. -/
theorem ComputeDMetric_interior (doubleArray : DvhArray) (volume structureVolume : ℚ)
    (isPercent : Bool) (hsv : structureVolume ≠ 0)
    (hfirst : volumeAt doubleArray structureVolume 0
      > requestedVolumeCc volume structureVolume isPercent)
    (hlast : requestedVolumeCc volume structureVolume isPercent
      ≥ volumeAt doubleArray structureVolume (doubleArray.length - 1)) :
    ∃ j, j + 1 < doubleArray.length
      ∧ (∀ k, k ≤ j → volumeAt doubleArray structureVolume k
          > requestedVolumeCc volume structureVolume isPercent)
      ∧ requestedVolumeCc volume structureVolume isPercent
          ≥ volumeAt doubleArray structureVolume (j + 1)
      ∧ ComputeDMetric (some doubleArray) volume structureVolume isPercent
          = some ⟨interpolatedDose doubleArray structureVolume
              (requestedVolumeCc volume structureVolume isPercent) j, none⟩ := by
  obtain ⟨j, hj, hall, hge⟩ := exists_first_crossing (volumeAt doubleArray structureVolume)
    (requestedVolumeCc volume structureVolume isPercent) (doubleArray.length - 1) hfirst hlast
  refine ⟨j, by omega, hall, hge, ?_⟩
  apply ComputeDMetric_of_first_bracket doubleArray volume structureVolume isPercent j
    (by omega) hsv hfirst hlast ⟨hall j le_rfl, hge⟩
  intro k hk hb
  exact absurd hb.2 (not_le.mpr (hall (k + 1) (by omega)))

/-- Over a bracketing pair with increasing dose the interpolated dose lies
above the dose of the first sample of the pair and at or below that of the
second. -/
theorem interpolatedDose_bounds (doubleArray : DvhArray) (structureVolume target : ℚ) (j : ℕ)
    (hd : doseAt doubleArray j < doseAt doubleArray (j + 1))
    (hb : Brackets doubleArray structureVolume target j) :
    doseAt doubleArray j < interpolatedDose doubleArray structureVolume target j
      ∧ interpolatedDose doubleArray structureVolume target j ≤ doseAt doubleArray (j + 1) := by
  obtain ⟨hp, hn⟩ := hb
  have hneg : volumeAt doubleArray structureVolume (j + 1)
      - volumeAt doubleArray structureVolume j < 0 := by linarith
  have hnum : (doseAt doubleArray (j + 1) - doseAt doubleArray j)
      * (target - volumeAt doubleArray structureVolume j) < 0 :=
    mul_neg_of_pos_of_neg (by linarith) (by linarith)
  unfold interpolatedDose
  constructor
  · have := div_pos_of_neg_of_neg hnum hneg
    linarith
  · have hle : (doseAt doubleArray (j + 1) - doseAt doubleArray j)
        * (target - volumeAt doubleArray structureVolume j)
        / (volumeAt doubleArray structureVolume (j + 1) - volumeAt doubleArray structureVolume j)
        ≤ doseAt doubleArray (j + 1) - doseAt doubleArray j := by
      rw [div_le_iff_of_neg hneg]
      apply mul_le_mul_of_nonneg_left _ (by linarith)
      linarith
    linarith

/-- The three cases of `ComputeDMetric` on a curve with at least one sample. -/
theorem ComputeDMetric_cases (doubleArray : DvhArray) (volume structureVolume : ℚ)
    (isPercent : Bool) (hne : doubleArray ≠ []) (hsv : structureVolume ≠ 0) :
    ∃ d, ComputeDMetric (some doubleArray) volume structureVolume isPercent = some ⟨d, none⟩
      ∧ ((requestedVolumeCc volume structureVolume isPercent
            ≥ volumeAt doubleArray structureVolume 0 ∧ d = 0)
        ∨ (volumeAt doubleArray structureVolume 0
            > requestedVolumeCc volume structureVolume isPercent
          ∧ requestedVolumeCc volume structureVolume isPercent
            < volumeAt doubleArray structureVolume (doubleArray.length - 1)
          ∧ d = doseAt doubleArray (doubleArray.length - 1))
        ∨ (volumeAt doubleArray structureVolume 0
            > requestedVolumeCc volume structureVolume isPercent
          ∧ ∃ j, j + 1 < doubleArray.length
            ∧ (∀ k, k ≤ j → volumeAt doubleArray structureVolume k
                > requestedVolumeCc volume structureVolume isPercent)
            ∧ requestedVolumeCc volume structureVolume isPercent
                ≥ volumeAt doubleArray structureVolume (j + 1)
            ∧ d = interpolatedDose doubleArray structureVolume
                (requestedVolumeCc volume structureVolume isPercent) j)) := by
  by_cases h1 : requestedVolumeCc volume structureVolume isPercent
      ≥ volumeAt doubleArray structureVolume 0
  · exact ⟨0, ComputeDMetric_at_or_above_first _ _ _ _ hne hsv h1, Or.inl ⟨h1, rfl⟩⟩
  · have h1' := not_le.mp h1
    by_cases h2 : requestedVolumeCc volume structureVolume isPercent
        < volumeAt doubleArray structureVolume (doubleArray.length - 1)
    · exact ⟨_, ComputeDMetric_below_last _ _ _ _ hne hsv h1' h2, Or.inr (Or.inl ⟨h1', h2, rfl⟩)⟩
    · obtain ⟨j, hj, hall, hge, heq⟩ := ComputeDMetric_interior doubleArray volume
        structureVolume isPercent hsv h1' (not_lt.mp h2)
      exact ⟨_, heq, Or.inr (Or.inr ⟨h1', j, hj, hall, hge, rfl⟩)⟩

/-! ## Theorems on the order and on the scaling of the D metric (C26 to C28) -/

/-- Interpolating the percent at the interpolated dose gives back the target. -/
theorem inverse_algebra (dp dn pp pn p sv : ℚ) (hd : dn - dp ≠ 0) (hp : pn - pp ≠ 0)
    (hsv : sv ≠ 0) :
    pp + (dp + (dn - dp) * (p / 100 * sv - pp / 100 * sv) / (pn / 100 * sv - pp / 100 * sv) - dp)
      / (dn - dp) * (pn - pp) = p := by
  have hr : (p / 100 * sv - pp / 100 * sv) / (pn / 100 * sv - pp / 100 * sv)
      = (p - pp) / (pn - pp) := by
    have hvne : pn / 100 * sv - pp / 100 * sv ≠ 0 := by
      have : pn / 100 * sv - pp / 100 * sv = (pn - pp) * (sv / 100) := by ring
      rw [this]
      exact mul_ne_zero hp (div_ne_zero hsv (by norm_num))
    rw [div_eq_div_iff hvne hp]
    ring
  have h1 : dp + (dn - dp) * (p / 100 * sv - pp / 100 * sv) / (pn / 100 * sv - pp / 100 * sv) - dp
      = (dn - dp) * ((p / 100 * sv - pp / 100 * sv) / (pn / 100 * sv - pp / 100 * sv)) := by
    ring
  rw [h1, hr, mul_div_cancel_left₀ _ hd, div_mul_cancel₀ _ hp]
  ring

/-- C27. The D metric and the V metric are inverse to each other on the
interior: for a curve whose abscissae increase strictly and are uniformly
spaced from sample 1 onward, a positive structure volume and a percent target
`p` with `percent(first) > p ≥ percent(last)`, `ComputeDMetric` returns a dose
`d` for `p` (as a percent threshold), and the percent that `ComputeVMetrics`
computes at the dose `d` is `p`. -/
theorem ComputeVMetrics_of_ComputeDMetric (doubleArray : DvhArray) (p structureVolume : ℚ)
    (hinc : doubleArray.Pairwise (fun a b => a.1 < b.1)) (huni : UniformFromSecond doubleArray)
    (hsv : 0 < structureVolume) (hfirst : percentAt doubleArray 0 > p)
    (hlast : p ≥ percentAt doubleArray (doubleArray.length - 1)) :
    ∃ d, ComputeDMetric (some doubleArray) p structureVolume true = some ⟨d, none⟩
      ∧ ComputeVMetrics.forDvhNode doubleArray structureVolume [d] false true
          = some ⟨[p], none⟩ := by
  have hsv0 : structureVolume ≠ 0 := ne_of_gt hsv
  have htarget : requestedVolumeCc p structureVolume true = p / 100 * structureVolume := by
    simp only [requestedVolumeCc, if_true]
    ring
  have hf : volumeAt doubleArray structureVolume 0
      > requestedVolumeCc p structureVolume true := by
    rw [htarget]
    unfold volumeAt
    apply mul_lt_mul_of_pos_right _ hsv
    linarith
  have hl : requestedVolumeCc p structureVolume true
      ≥ volumeAt doubleArray structureVolume (doubleArray.length - 1) := by
    rw [htarget]
    unfold volumeAt
    apply mul_le_mul_of_nonneg_right _ (le_of_lt hsv)
    linarith
  obtain ⟨j, hj, hall, hge, heq⟩ := ComputeDMetric_interior doubleArray p structureVolume
    true hsv0 hf hl
  have hlen : 2 ≤ doubleArray.length := by omega
  have hd := doseAt_lt_of_pairwise doubleArray hinc j (j + 1) (Nat.lt_succ_self j) hj
  have hb := interpolatedDose_bounds doubleArray structureVolume _ j hd ⟨hall j le_rfl, hge⟩
  refine ⟨_, heq, ?_⟩
  rw [forDvhNode_eq doubleArray structureVolume _ false true hlen hsv0,
    interpolator_eq_curve doubleArray hlen hinc huni]
  have hne : doubleArray ≠ [] := by
    intro h
    rw [h] at hlen
    simp at hlen
  have hclamped := GetValue_isClampedInterpolation doubleArray
    (interpolatedDose doubleArray structureVolume (requestedVolumeCc p structureVolume true) j)
    hne hinc
  have hval := hclamped.2.2 j hj (le_of_lt hb.1) hb.2
  have hpj : percentAt doubleArray j > p := by
    have := hall j le_rfl
    rw [htarget] at this
    unfold volumeAt at this
    have h2 := lt_of_mul_lt_mul_right this (le_of_lt hsv)
    linarith
  have hkey : linearBetween doubleArray j
      (interpolatedDose doubleArray structureVolume (requestedVolumeCc p structureVolume true) j)
      = p := by
    have hpn : percentAt doubleArray (j + 1) ≤ p := by
      have := hge
      rw [htarget] at this
      unfold volumeAt at this
      have h2 := le_of_mul_le_mul_right this hsv
      linarith
    have hdne : doseAt doubleArray (j + 1) - doseAt doubleArray j ≠ 0 := by linarith
    have hpne : percentAt doubleArray (j + 1) - percentAt doubleArray j ≠ 0 := by linarith
    rw [htarget]
    unfold linearBetween interpolatedDose volumeAt
    exact inverse_algebra _ _ _ _ _ _ hdne hpne hsv0
  simp only [List.map_cons, List.map_nil, if_true, Bool.false_eq_true, if_false, List.nil_append,
    List.flatten_cons, List.flatten_nil, List.append_nil]
  rw [hval, hkey]

/-- Witness of C27: the curve `(0,100) (1,100) (3,50) (5,0)`, structure volume
2 cc, target 75 percent. -/
theorem ComputeVMetrics_of_ComputeDMetric_witness :
    ([(0, 100), (1, 100), (3, 50), (5, 0)] : DvhArray).Pairwise (fun a b => a.1 < b.1)
    ∧ UniformFromSecond [(0, 100), (1, 100), (3, 50), (5, 0)]
    ∧ (0 : ℚ) < 2
    ∧ percentAt [(0, 100), (1, 100), (3, 50), (5, 0)] 0 > 75
    ∧ (75 : ℚ) ≥ percentAt [(0, 100), (1, 100), (3, 50), (5, 0)]
        (([(0, 100), (1, 100), (3, 50), (5, 0)] : DvhArray).length - 1)
    ∧ ∃ d, ComputeDMetric (some [(0, 100), (1, 100), (3, 50), (5, 0)]) 75 2 true
        = some ⟨d, none⟩
      ∧ ComputeVMetrics.forDvhNode [(0, 100), (1, 100), (3, 50), (5, 0)] 2 [d] false true
          = some ⟨[75], none⟩ :=
  have hinc : ([(0, 100), (1, 100), (3, 50), (5, 0)] : DvhArray).Pairwise
      (fun a b => a.1 < b.1) := by
    simp only [List.pairwise_cons, List.mem_cons, List.mem_singleton, List.not_mem_nil,
      forall_eq_or_imp, forall_eq, List.Pairwise.nil]
    norm_num
  have huni : UniformFromSecond [(0, 100), (1, 100), (3, 50), (5, 0)] := by
    refine ⟨2, ?_⟩
    intro k hk
    have hk3 : k < 3 := by
      simp only [List.length_cons, List.length_nil] at hk
      omega
    interval_cases k <;> norm_num [doseAt]
  ⟨hinc, huni, by norm_num, by norm_num [percentAt], by norm_num [percentAt],
    ComputeVMetrics_of_ComputeDMetric [(0, 100), (1, 100), (3, 50), (5, 0)] 75 2 hinc huni
      (by norm_num) (by norm_num [percentAt]) (by norm_num [percentAt])⟩

/-- The scan of `ComputeDMetric` reads inside of the array and so yields a dose. -/
theorem scan_isSome (doubleArray : DvhArray) (volumeSize structureVolume : ℚ) :
    ∀ (remaining i : ℕ), i + remaining < doubleArray.length →
      ∃ d, ComputeDMetric.scan doubleArray volumeSize structureVolume remaining i = some d := by
  intro remaining
  induction remaining with
  | zero =>
    intro i _
    exact ⟨0, rfl⟩
  | succ r ih =>
    intro i hlen
    have hi : i < doubleArray.length := by omega
    have hi1 : i + 1 < doubleArray.length := by omega
    simp only [ComputeDMetric.scan, GetComponent_percent _ _ hi, GetComponent_percent _ _ hi1,
      GetComponent_dose _ _ hi, GetComponent_dose _ _ hi1, Option.bind_eq_bind,
      Option.some_bind, Option.pure_def]
    split_ifs
    · exact ⟨_, rfl⟩
    · exact ih (i + 1) (by omega)

/-- The scan of `ComputeDMetric` for a percent threshold does not depend on the
positive volume of the structure. -/
theorem scan_scale (doubleArray : DvhArray) (p s1 s2 : ℚ) (h1 : 0 < s1) (h2 : 0 < s2) :
    ∀ (remaining i : ℕ),
      ComputeDMetric.scan doubleArray (p * s1 / 100) s1 remaining i
        = ComputeDMetric.scan doubleArray (p * s2 / 100) s2 remaining i := by
  intro remaining
  induction remaining with
  | zero =>
    intro i
    rfl
  | succ r ih =>
    intro i
    simp only [ComputeDMetric.scan, Option.bind_eq_bind, Option.pure_def]
    cases GetComponent doubleArray i 1 with
    | none => simp only [Option.none_bind]
    | some pp =>
      cases GetComponent doubleArray (i + 1) 1 with
      | none => simp only [Option.none_bind]
      | some pn =>
        simp only [Option.some_bind]
        have hcond : ∀ s : ℚ, 0 < s →
            ((pp / 100 * s > p * s / 100 ∧ p * s / 100 ≥ pn / 100 * s) ↔ (pp > p ∧ p ≥ pn)) := by
          intro s hs
          have e1 : pp / 100 * s = pp * s / 100 := by ring
          have e2 : pn / 100 * s = pn * s / 100 := by ring
          have h100 : (0 : ℚ) < 100 := by norm_num
          rw [e1, e2, gt_iff_lt, ge_iff_le, div_lt_div_iff_of_pos_right h100,
            div_le_div_iff_of_pos_right h100, mul_lt_mul_right hs, mul_le_mul_right hs]
        by_cases hc : pp > p ∧ p ≥ pn
        · rw [if_pos ((hcond s1 h1).mpr hc), if_pos ((hcond s2 h2).mpr hc)]
          cases GetComponent doubleArray i 0 with
          | none => simp only [Option.none_bind]
          | some dp =>
            cases GetComponent doubleArray (i + 1) 0 with
            | none => simp only [Option.none_bind]
            | some dn =>
              simp only [Option.some_bind]
              have hpne : pn - pp ≠ 0 := by
                have := hc.1
                have := hc.2
                intro h
                linarith
              have key : ∀ s : ℚ, s ≠ 0 →
                  (dn - dp) * (p * s / 100 - pp / 100 * s) / (pn / 100 * s - pp / 100 * s)
                    = (dn - dp) * (p - pp) / (pn - pp) := by
                intro s hs
                have hvne : pn / 100 * s - pp / 100 * s ≠ 0 := by
                  have : pn / 100 * s - pp / 100 * s = (pn - pp) * (s / 100) := by ring
                  rw [this]
                  exact mul_ne_zero hpne (div_ne_zero hs (by norm_num))
                rw [div_eq_div_iff hvne hpne]
                ring
              rw [key s1 (ne_of_gt h1), key s2 (ne_of_gt h2)]
        · rw [if_neg (fun h => hc ((hcond s1 h1).mp h)),
            if_neg (fun h => hc ((hcond s2 h2).mp h))]
          exact ih (i + 1)

/-- Scale invariance of the D metric in exact arithmetic: for every curve and
percent threshold `p`, `ComputeDMetric` with `isPercent = true` gives the same
result for every two positive structure volumes `s1` and `s2`, and that result
is the one of `ComputeDMetric` for the threshold `p * s1 / 100` in cc with the
structure volume `s1`; for a curve with at least one sample the result is a
dose without error. -/
theorem ComputeDMetric_scale_invariant (doubleArray : DvhArray) (p s1 s2 : ℚ)
    (h1 : 0 < s1) (h2 : 0 < s2) :
    ComputeDMetric (some doubleArray) p s1 true = ComputeDMetric (some doubleArray) p s2 true
    ∧ ComputeDMetric (some doubleArray) p s1 true
        = ComputeDMetric (some doubleArray) (p * s1 / 100) s1 false
    ∧ (doubleArray ≠ [] →
        ∃ d, ComputeDMetric (some doubleArray) p s1 true = some ⟨d, none⟩) := by
  have hcmp : ∀ (q s : ℚ), 0 < s → ((p * s / 100 ≥ q / 100 * s) ↔ p ≥ q) := by
    intro q s hs
    have e : q / 100 * s = q * s / 100 := by ring
    have h100 : (0 : ℚ) < 100 := by norm_num
    rw [e, ge_iff_le, ge_iff_le, div_le_div_iff_of_pos_right h100, mul_le_mul_right hs]
  have hn1 : ¬ (True ∧ s1 = 0) := fun h => (ne_of_gt h1) h.2
  have hn2 : ¬ (True ∧ s2 = 0) := fun h => (ne_of_gt h2) h.2
  refine ⟨?_, ?_, ?_⟩
  · unfold ComputeDMetric
    simp only [if_true, Option.bind_eq_bind, Option.pure_def]
    rw [if_neg hn1, if_neg hn2]
    cases GetComponent doubleArray 0 1 with
    | none => simp only [Option.none_bind]
    | some first =>
      simp only [Option.some_bind]
      by_cases hc : p ≥ first
      · rw [if_pos ((hcmp first s1 h1).mpr hc), if_pos ((hcmp first s2 h2).mpr hc)]
      · rw [if_neg (fun h => hc ((hcmp first s1 h1).mp h)),
          if_neg (fun h => hc ((hcmp first s2 h2).mp h))]
        cases GetComponent doubleArray (GetNumberOfTuples doubleArray - 1) 1 with
        | none => simp only [Option.none_bind]
        | some last =>
          simp only [Option.some_bind]
          by_cases hc2 : p ≥ last
          · rw [if_neg (not_lt.mpr ((hcmp last s1 h1).mpr hc2)),
              if_neg (not_lt.mpr ((hcmp last s2 h2).mpr hc2)),
              scan_scale doubleArray p s1 s2 h1 h2]
          · rw [if_pos (not_le.mp (fun h => hc2 ((hcmp last s1 h1).mp h))),
              if_pos (not_le.mp (fun h => hc2 ((hcmp last s2 h2).mp h)))]
  · unfold ComputeDMetric
    simp only [if_true, Bool.false_eq_true, if_false, false_and]
    rw [if_neg hn1]
  · intro hne
    obtain ⟨d, hd, _⟩ := ComputeDMetric_cases doubleArray p s1 true hne (ne_of_gt h1)
    exact ⟨d, hd⟩

/-! ## The reach of the dose axis in exact arithmetic -/

/-- Coverage of the dose axis in exact arithmetic: for a dose volume whose
masked doses are not negative, binned with a start value that is not negative
and a positive step size with `startValue - stepSize < maxDose` (the binning of
the constructor with any `maxDose ≥ 0` is such a case), the sample count
`n = ceil((maxDose - startValue)/stepSize) + 1` is at least 1, the curve is
built with `n + 1` tuples (the origin anchor and the samples), which is at
least 2, and its last abscissa `startValue + (n-1) * stepSize` is at least
`maxDose` and less than `maxDose + stepSize`. -/
theorem ComputeDvh_dose_axis_coverage (self : Logic) (fz : ℚ → ℤ) (structureStat : List ℚ)
    (maxDoseGy : ℚ) (hne : structureStat ≠ []) (hdose : ∀ v ∈ structureStat, 0 ≤ v)
    (hstart : 0 ≤ self.StartValue) (hstep : 0 < self.StepSize)
    (hreach : self.StartValue - self.StepSize < maxDoseGy) :
    ComputeDvh.numSamples self true maxDoseGy
        = ⌈(maxDoseGy - self.StartValue) / self.StepSize⌉ + 1
    ∧ 1 ≤ ComputeDvh.numSamples self true maxDoseGy
    ∧ ∃ curve, ComputeDvh self fz structureStat true maxDoseGy = .ok curve
      ∧ 2 ≤ curve.length
      ∧ (curve.length : ℤ) = ComputeDvh.numSamples self true maxDoseGy + 1
      ∧ doseAt curve (curve.length - 1) = self.StartValue
          + ((ComputeDvh.numSamples self true maxDoseGy : ℚ) - 1) * self.StepSize
      ∧ maxDoseGy ≤ doseAt curve (curve.length - 1)
      ∧ doseAt curve (curve.length - 1) < maxDoseGy + self.StepSize := by
  have hn := numSamples_pos self maxDoseGy hstep hreach
  have hok := ComputeDvh_dose_ok self fz structureStat maxDoseGy hne
    (GetMin_nonneg structureStat hdose) (ne_of_gt hstep) (by omega) hstart
  have hnum : ComputeDvh.numSamples self true maxDoseGy
      = ⌈(maxDoseGy - self.StartValue) / self.StepSize⌉ + 1 := by
    simp [ComputeDvh.numSamples]
  have hlen : ((0, 100) :: ComputeDvh.samples self fz structureStat true maxDoseGy).length
      = (ComputeDvh.numSamples self true maxDoseGy).toNat + 1 := by
    rw [List.length_cons, samples_length]
  have hlast : doseAt ((0, 100) :: ComputeDvh.samples self fz structureStat true maxDoseGy)
      (((0, 100) :: ComputeDvh.samples self fz structureStat true maxDoseGy).length - 1)
      = self.StartValue
        + ((ComputeDvh.numSamples self true maxDoseGy : ℚ) - 1) * self.StepSize := by
    rw [hlen]
    obtain ⟨m, hm⟩ : ∃ m : ℕ, (ComputeDvh.numSamples self true maxDoseGy).toNat = m + 1 :=
      ⟨(ComputeDvh.numSamples self true maxDoseGy).toNat - 1, by omega⟩
    rw [hm, Nat.add_sub_cancel, doseAt_cons_succ,
      samples_doseAt self fz structureStat true maxDoseGy m (by omega)]
    have hcast : (ComputeDvh.numSamples self true maxDoseGy : ℚ) = (m : ℚ) + 1 := by
      have h1 : ComputeDvh.numSamples self true maxDoseGy = (m : ℤ) + 1 := by omega
      rw [h1]
      push_cast
      ring
    rw [hcast]
    simp [ComputeDvh.startValue, ComputeDvh.stepSize]
  have hceil1 := Int.le_ceil ((maxDoseGy - self.StartValue) / self.StepSize)
  have hceil2 := Int.ceil_lt_add_one ((maxDoseGy - self.StartValue) / self.StepSize)
  have hcastn : (ComputeDvh.numSamples self true maxDoseGy : ℚ) - 1
      = ((⌈(maxDoseGy - self.StartValue) / self.StepSize⌉ : ℤ) : ℚ) := by
    rw [hnum]
    push_cast
    ring
  have hq : (maxDoseGy - self.StartValue) / self.StepSize * self.StepSize
      = maxDoseGy - self.StartValue := div_mul_cancel₀ _ (ne_of_gt hstep)
  refine ⟨hnum, hn, _, hok, ?_, ?_, hlast, ?_, ?_⟩
  · rw [hlen]
    omega
  · rw [hlen]
    omega
  · rw [hlast, hcastn]
    have := mul_le_mul_of_nonneg_right hceil1 (le_of_lt hstep)
    rw [hq] at this
    linarith
  · rw [hlast, hcastn]
    have := mul_lt_mul_of_pos_right hceil2 hstep
    rw [add_mul, hq, one_mul] at this
    linarith

/-! ## Theorem on the rows of the metrics table (C24) -/

/-- The curve construction on masked doses with a negative value in a dose
volume ends with the error of the negative dose. -/
theorem ComputeDvh_of_negative_dose (self : Logic) (fz : ℚ → ℤ) (structureStat : List ℚ)
    (maxDoseGy : ℚ) (hneg : ∃ v ∈ structureStat, v < 0) :
    ComputeDvh self fz structureStat true maxDoseGy
      = .error "The dose volume contains negative dose values" := by
  obtain ⟨v, hv, hlt⟩ := hneg
  have hcount : ¬ GetVoxelCount structureStat < 1 := by
    have := List.length_pos_of_mem hv
    simp only [GetVoxelCount]
    omega
  have hmin : True ∧ GetMin structureStat < 0 :=
    ⟨trivial, lt_of_le_of_lt (GetMin_le structureStat v hv) hlt⟩
  unfold ComputeDvh
  rw [if_neg hcount]
  simp only
  rw [if_pos hmin]

/-- C24. Rows of the metrics table after a failing call: the per-structure
`ComputeDvh` on a dose volume, for a structure that has no DVH array node yet,
a stencil of positive extent and a negative dose among its masked voxels,
returns the error of the negative dose and leaves a scene with one more row
in the metrics table and with the same number of computed (non-empty) curves,
for the array of the node it created is empty. -/
theorem ComputeDvh_negative_dose_leaves_row (self : Logic) (fz : ℚ → ℤ)
    (assemble : String → String) (doseVolumeName : String) (scene : Scene)
    (images : StenciledDose) (segmentID segmentName : String) (maxDoseGy : ℚ)
    (hextent : 0 < images.stencilExtent.2.1 - images.stencilExtent.1
      ∧ 0 < images.stencilExtent.2.2.2.1 - images.stencilExtent.2.2.1
      ∧ 0 < images.stencilExtent.2.2.2.2.2 - images.stencilExtent.2.2.2.2.1)
    (hnew : scene.GetNodeReference (assemble segmentID) = none)
    (hneg : ∃ v ∈ images.structureStat, v < 0) :
    ∃ after, ComputeDvh.inScene self fz assemble doseVolumeName true scene images segmentID
          segmentName maxDoseGy
        = some ("The dose volume contains negative dose values", after)
      ∧ after.metricsTable.length = scene.metricsTable.length + 1
      ∧ after.computedCurves = scene.computedCurves
      ∧ after.GetNodeReference (assemble segmentID)
          = some ⟨some (scene.metricsTable.length : ℤ), some segmentID, []⟩ := by
  have hext : ¬ (images.stencilExtent.2.1 - images.stencilExtent.1 ≤ 0
      ∨ images.stencilExtent.2.2.2.1 - images.stencilExtent.2.2.1 ≤ 0
      ∨ images.stencilExtent.2.2.2.2.2 - images.stencilExtent.2.2.2.2.1 ≤ 0) := by
    omega
  have hcount : ¬ GetVoxelCount images.structureStat < 1 := by
    obtain ⟨v, hv, _⟩ := hneg
    have := List.length_pos_of_mem hv
    simp only [GetVoxelCount]
    omega
  have hrow : ¬ (((scene.metricsTable.length : ℕ) : ℤ) < 0
      ∨ (((scene.metricsTable ++ [InsertNextBlankRow]).length : ℕ) : ℤ)
        ≤ ((scene.metricsTable.length : ℕ) : ℤ)) := by
    rw [List.length_append, List.length_singleton]
    omega
  have hlookup : scene.nodeReferences.lookup (assemble segmentID) = none := hnew
  have hother : ∀ entry ∈ scene.nodeReferences, entry.1 ≠ assemble segmentID := by
    intro entry hentry heq
    have hl := hlookup
    rw [List.lookup_eq_none_iff] at hl
    have := hl entry hentry
    simp [heq] at this
  have hmap : scene.nodeReferences.map
      (fun entry => if entry.1 = assemble segmentID
        then (assemble segmentID,
          (⟨some (scene.metricsTable.length : ℤ), some segmentID, []⟩ : DoubleArrayNode))
        else entry) = scene.nodeReferences := by
    conv_rhs => rw [← List.map_id scene.nodeReferences]
    apply List.map_congr_left
    intro entry hentry
    rw [if_neg (hother entry hentry)]
    rfl
  unfold ComputeDvh.inScene
  dsimp only
  rw [if_neg hext, if_neg hcount, hnew]
  dsimp only [Scene.updateArrayNode]
  rw [if_neg hrow, ComputeDvh_of_negative_dose self fz images.structureStat maxDoseGy hneg]
  refine ⟨_, rfl, ?_, ?_, ?_⟩
  · simp
  · simp only [Scene.computedCurves, List.map_append, hmap, List.map_cons, List.map_nil,
      if_true, List.countP_append, List.countP_cons, List.countP_nil]
    simp
  · simp only [Scene.GetNodeReference, List.map_append, hmap, List.map_cons, List.map_nil,
      if_true]
    rw [List.lookup_append, hlookup]
    simp [List.lookup]

/-- Witness of C24: on the empty scene, a structure of two voxels with the
doses -1 and 2. -/
theorem ComputeDvh_negative_dose_leaves_row_witness :
    ((0 : ℤ) < 9 - 0 ∧ (0 : ℤ) < 9 - 0 ∧ (0 : ℤ) < 9 - 0)
    ∧ (⟨[], []⟩ : Scene).GetNodeReference (id "A") = none
    ∧ (∃ v ∈ ([-1, 2] : List ℚ), v < 0)
    ∧ (⟨[], []⟩ : Scene).metricsTable.length = (⟨[], []⟩ : Scene).computedCurves
    ∧ ∃ after, ComputeDvh.inScene Logic.New leastIntOnDivisionByZero id "Dose" true ⟨[], []⟩
          ⟨(0, 9, 0, 9, 0, 9), (1, 1, 1), [-1, 2]⟩ "A" "A" 2
        = some ("The dose volume contains negative dose values", after)
      ∧ after.metricsTable.length = (⟨[], []⟩ : Scene).metricsTable.length + 1
      ∧ after.computedCurves = (⟨[], []⟩ : Scene).computedCurves
      ∧ after.GetNodeReference (id "A")
          = some ⟨some (((⟨[], []⟩ : Scene).metricsTable.length : ℕ) : ℤ), some "A", []⟩ :=
  ⟨by decide, rfl, ⟨-1, by simp, by norm_num⟩, rfl,
    ComputeDvh_negative_dose_leaves_row Logic.New leastIntOnDivisionByZero id "Dose" ⟨[], []⟩
      ⟨(0, 9, 0, 9, 0, 9), (1, 1, 1), [-1, 2]⟩ "A" "A" 2 (by decide) rfl
      ⟨-1, by simp, by norm_num⟩⟩
/-! ## Lemmas on the volume of the header (C21) -/

theorem sizeSub_of_le (a b : ℕ) (hb : b ≤ a) (ha : a < 2 ^ 64) : sizeSub a b = a - b := by
  unfold sizeSub
  have hb2 : b % 2 ^ 64 = b := Nat.mod_eq_of_lt (by omega)
  rw [hb2]
  have : a + (2 ^ 64 - b) = (a - b) + 2 ^ 64 := by omega
  rw [this, Nat.add_mod_right]
  exact Nat.mod_eq_of_lt (by omega)

theorem toNat_foldl_maxNumberOfValues (nodes : List ExportedStructure) :
    ∀ (m : ℤ), (nodes.foldl
        (fun m dvhArrayNode =>
          if (GetNumberOfTuples dvhArrayNode.doubleArray : ℤ) > m
          then (GetNumberOfTuples dvhArrayNode.doubleArray : ℤ) else m) m).toNat
      = max m.toNat (ExportLayout.maxCurveLength nodes) := by
  induction nodes with
  | nil =>
    intro m
    simp [ExportLayout.maxCurveLength]
  | cons node nodes ih =>
    intro m
    rw [List.foldl_cons, ih]
    have hcons : ExportLayout.maxCurveLength (node :: nodes)
        = max node.doubleArray.length (ExportLayout.maxCurveLength nodes) := by
      simp [ExportLayout.maxCurveLength]
    rw [hcons]
    simp only [GetNumberOfTuples]
    split_ifs <;> omega

/-- The number of data lines is the maximum curve length. -/
theorem maxNumberOfValues_toNat (nodes : List ExportedStructure) :
    (ExportDvhToCsv.maxNumberOfValues nodes).toNat = ExportLayout.maxCurveLength nodes := by
  unfold ExportDvhToCsv.maxNumberOfValues
  rw [toNat_foldl_maxNumberOfValues]
  simp

theorem findFrom_period (post : Text) :
    ∀ (pre : Text) (i : ℕ), '.' ∉ pre →
      findFrom ['.'] (pre ++ '.' :: post) i = i + pre.length := by
  intro pre
  induction pre with
  | nil =>
    intro i _
    simp [findFrom, List.isPrefixOf]
  | cons c pre ih =>
    intro i h
    have hc : c ≠ '.' := fun hc => h (hc ▸ List.mem_cons_self _ _)
    have hpre : List.isPrefixOf ['.'] (c :: (pre ++ '.' :: post)) = false := by
      simp [List.isPrefixOf, Ne.symm hc]
    rw [List.cons_append, findFrom, hpre, if_neg (by decide),
      ih (i + 1) (fun hm => h (List.mem_cons_of_mem _ hm)), List.length_cons]
    omega

theorem decimalComma_of_not_mem (s : Text) (h : '.' ∉ s) : ExportLayout.decimalComma s = s := by
  unfold ExportLayout.decimalComma
  conv_rhs => rw [← List.map_id s]
  apply List.map_congr_left
  intro c hc
  have : c ≠ '.' := fun heq => h (heq ▸ hc)
  simp [this]

theorem ne_period_of_isDigit (c : Char) (h : isDigit c = true) : c ≠ '.' := by
  rintro rfl
  exact absurd h (by decide)

/-- The text of a number with six decimals: what stands before the decimal
point and what stands behind it hold no decimal point. -/
theorem formatFixed_six_parts (x : ℚ) :
    ∃ pre post : Text, formatFixed 6 x = pre ++ '.' :: post ∧ '.' ∉ pre ∧ '.' ∉ post := by
  refine ⟨(if x < 0 then ['-'] else []) ++ natDigits (scaledFixed 6 x / 10 ^ 6),
    fractionDigits 6 (scaledFixed 6 x % 10 ^ 6), ?_, ?_, ?_⟩
  · unfold formatFixed
    rw [if_neg (show ¬ (6 : ℕ) = 0 by decide)]
  · intro h
    rw [List.mem_append] at h
    rcases h with h | h
    · split_ifs at h
      · rw [List.mem_singleton] at h
        exact absurd h (by decide)
      · simp at h
    · exact ne_period_of_isDigit _ (natDigits_isDigit _ _ h) rfl
  · intro h
    exact ne_period_of_isDigit _ (fractionDigits_isDigit _ _ _ h) rfl

/-- The cell written with the tabulator delimiter is the text of the number
with its decimal point replaced by a comma. -/
theorem cell_false (x : ℚ) (hlen : (formatFixed 6 x).length < npos) :
    ExportDvhToCsv.cell false x = ExportLayout.decimalComma (formatFixed 6 x) := by
  obtain ⟨pre, post, hparts, hpre, hpost⟩ := formatFixed_six_parts x
  have hfind : find (formatFixed 6 x) ['.'] = pre.length := by
    unfold find
    rw [hparts, findFrom_period post pre 0 hpre]
    omega
  have hne : pre.length ≠ npos := by
    rw [hparts, List.length_append] at hlen
    omega
  unfold ExportDvhToCsv.cell
  simp only [Bool.false_eq_true, if_false, hfind, if_pos hne]
  rw [hparts, List.take_left, ← List.length_cons '.' pre]
  have hdrop : (pre ++ '.' :: post).drop (pre.length + 1) = post := by
    have : pre ++ '.' :: post = (pre ++ ['.']) ++ post := by simp
    rw [this, ← List.length_singleton '.', ← List.length_append, List.drop_left]
  rw [List.length_cons, hdrop]
  unfold ExportLayout.decimalComma
  rw [List.map_append, List.map_cons, if_pos rfl]
  have h1 := decimalComma_of_not_mem pre hpre
  have h2 := decimalComma_of_not_mem post hpost
  unfold ExportLayout.decimalComma at h1 h2
  rw [h1, h2]
  simp

/-- The cell that the export writes is the cell of the layout. -/
theorem valueCell_eq_layout (comma : Bool) (row component : ℕ) (node : ExportedStructure)
    (htext : comma = false → ∀ tuple ∈ node.doubleArray,
      (formatFixed 6 tuple.1).length < npos ∧ (formatFixed 6 tuple.2).length < npos) :
    ExportDvhToCsv.valueCell comma row component node
      = ExportLayout.cell comma node.doubleArray row component := by
  unfold ExportDvhToCsv.valueCell ExportLayout.cell
  by_cases hrow : row < node.doubleArray.length
  · have hget : node.doubleArray.get? row = some (node.doubleArray.get ⟨row, hrow⟩) :=
      List.get?_eq_get hrow
    have hd : doseAt node.doubleArray row = (node.doubleArray.get ⟨row, hrow⟩).1 := by
      simp [doseAt, List.getD, List.getElem?_eq_getElem hrow]
    have hp : percentAt node.doubleArray row = (node.doubleArray.get ⟨row, hrow⟩).2 := by
      simp [percentAt, List.getD, List.getElem?_eq_getElem hrow]
    rw [hget, if_pos hrow, hd, hp]
    cases comma with
    | true => simp [ExportDvhToCsv.cell]
    | false =>
      have hmem := htext rfl _ (List.get_mem node.doubleArray row hrow)
      simp only [Bool.false_eq_true, if_false]
      split_ifs
      · exact cell_false _ hmem.1
      · exact cell_false _ hmem.2
  · have hget : node.doubleArray.get? row = none := by
      rw [List.get?_eq_none]
      omega
    rw [hget, if_neg hrow]

theorem not_mem_decimalComma_formatFixed (x : ℚ) (sep : Char) (hnum : isNumberChar sep = false)
    (hsep : sep ≠ ',') : sep ∉ ExportLayout.decimalComma (formatFixed 6 x) := by
  unfold ExportLayout.decimalComma
  intro h
  rw [List.mem_map] at h
  obtain ⟨c, hc, heq⟩ := h
  split_ifs at heq
  · exact hsep heq.symm
  · rw [heq] at hc
    exact not_mem_formatFixed 6 x sep hnum hc

theorem not_mem_layout_cell (comma : Bool) (doubleArray : DvhArray) (row component : ℕ) :
    ExportLayout.delimiter comma ∉ ExportLayout.cell comma doubleArray row component := by
  unfold ExportLayout.cell ExportLayout.delimiter
  by_cases hrow : row < doubleArray.length
  · rw [if_pos hrow]
    cases comma with
    | true =>
      simp only [if_true]
      exact not_mem_formatFixed 6 _ ',' (by decide)
    | false =>
      simp only [Bool.false_eq_true, if_false]
      exact not_mem_decimalComma_formatFixed _ '\t' (by decide) (by decide)
  · rw [if_neg hrow]
    exact List.not_mem_nil _

theorem valueLine_eq_terminated_general (nodes : List ExportedStructure) (comma : Bool)
    (row : ℕ) :
    ExportDvhToCsv.valueLine nodes comma row
      = ((nodes.flatMap (fun node =>
          [ExportDvhToCsv.valueCell comma row 0 node,
            ExportDvhToCsv.valueCell comma row 1 node])).map
          (fun cell => cell ++ [ExportLayout.delimiter comma])).flatten := by
  have hd : ExportDvhToCsv.delimiter comma = [ExportLayout.delimiter comma] := by
    cases comma <;> rfl
  unfold ExportDvhToCsv.valueLine
  rw [hd]
  exact flatten_pairs _ _ _ nodes

theorem length_flatMap_pairs (first second : ExportedStructure → Text) :
    ∀ (nodes : List ExportedStructure),
      (nodes.flatMap (fun node => [first node, second node])).length = 2 * nodes.length := by
  intro nodes
  induction nodes with
  | nil => rfl
  | cons node nodes ih =>
    rw [List.flatMap_cons, List.length_append, ih, List.length_cons, List.length_cons,
      List.length_nil, List.length_cons]
    omega

/-- The fields of an exported line of values, for either delimiter. -/
theorem splitLine_valueLine_layout (nodes : List ExportedStructure) (comma : Bool) (row : ℕ)
    (htext : comma = false → ∀ node ∈ nodes, ∀ tuple ∈ node.doubleArray,
      (formatFixed 6 tuple.1).length < npos ∧ (formatFixed 6 tuple.2).length < npos) :
    splitLine (ExportLayout.delimiter comma) (ExportDvhToCsv.valueLine nodes comma row)
      = (nodes.flatMap (fun node =>
          [ExportLayout.cell comma node.doubleArray row 0,
            ExportLayout.cell comma node.doubleArray row 1]), []) := by
  have hcells : nodes.flatMap (fun node =>
        [ExportDvhToCsv.valueCell comma row 0 node, ExportDvhToCsv.valueCell comma row 1 node])
      = nodes.flatMap (fun node =>
        [ExportLayout.cell comma node.doubleArray row 0,
          ExportLayout.cell comma node.doubleArray row 1]) := by
    induction nodes with
    | nil => rfl
    | cons node nodes ih =>
      rw [List.flatMap_cons, List.flatMap_cons,
        ih (fun hc n hn => htext hc n (List.mem_cons_of_mem _ hn)),
        valueCell_eq_layout comma row 0 node (fun hc => htext hc node (List.mem_cons_self _ _)),
        valueCell_eq_layout comma row 1 node (fun hc => htext hc node (List.mem_cons_self _ _))]
  rw [valueLine_eq_terminated_general, hcells]
  apply splitLine_terminated
  intro cell hcell
  rw [List.mem_flatMap] at hcell
  obtain ⟨node, _, hcell⟩ := hcell
  simp only [List.mem_cons, List.mem_singleton, List.not_mem_nil, or_false] at hcell
  rcases hcell with rfl | rfl
  · exact not_mem_layout_cell _ _ _ _
  · exact not_mem_layout_cell _ _ _ _

/-! ## Theorem on the layout of the export (C22) -/

/-- C22. Layout of the export: for a dose unit name that is set and every list
of structures, `ExportDvhToCsv` writes the header line and then the data lines,
each ended by a line end; the number of data lines is the maximum curve
length; every data line is made of two cells for each structure, each
followed by the delimiter, nothing else; the cells of a structure in row `r`
are its dose and its percent of sample `r` with 6 decimal digits when `r` is
below the length of its curve and are empty otherwise; with the tabulator
delimiter the decimal point of each of these values is replaced by a comma
(the texts of the values being shorter than the largest `size_t`). -/
theorem ExportDvhToCsv_layout (doseUnitName : Text) (nodes : List ExportedStructure)
    (comma : Bool)
    (htext : comma = false → ∀ node ∈ nodes, ∀ tuple ∈ node.doubleArray,
      (formatFixed 6 tuple.1).length < npos ∧ (formatFixed 6 tuple.2).length < npos) :
    ∃ rows : List Text,
      ExportDvhToCsv (some doseUnitName) nodes comma
        = some (((ExportDvhToCsv.header doseUnitName nodes comma :: rows).map
            (fun line => line ++ ['\n'])).flatten)
      ∧ rows.length = ExportLayout.maxCurveLength nodes
      ∧ ∀ r, r < ExportLayout.maxCurveLength nodes →
          ∃ line cells, rows.get? r = some line
            ∧ splitLine (ExportLayout.delimiter comma) line = (cells, [])
            ∧ cells.length = 2 * nodes.length
            ∧ cells = nodes.flatMap (fun node =>
                [ExportLayout.cell comma node.doubleArray r 0,
                  ExportLayout.cell comma node.doubleArray r 1]) := by
  refine ⟨(List.range' 0 (ExportDvhToCsv.maxNumberOfValues nodes).toNat).map
    (fun (row : ℕ) => ExportDvhToCsv.valueLine nodes comma row),
    ExportDvhToCsv_lines doseUnitName nodes comma, ?_, ?_⟩
  · rw [List.length_map, List.length_range', maxNumberOfValues_toNat]
  · intro r hr
    refine ⟨ExportDvhToCsv.valueLine nodes comma r, _, ?_,
      splitLine_valueLine_layout nodes comma r htext, ?_, rfl⟩
    · rw [maxNumberOfValues_toNat, List.get?_eq_getElem?, List.getElem?_map,
        List.getElem?_range' _ _ hr]
      simp
    · exact length_flatMap_pairs _ _ nodes

/-- Witness of C22: the structure PTV with the curve `(0,100) (5.1,0)`, the
dose unit Gy and the tabulator delimiter. -/
theorem ExportDvhToCsv_layout_witness :
    (false = false → ∀ node ∈ [exportedPTV], ∀ tuple ∈ node.doubleArray,
      (formatFixed 6 tuple.1).length < npos ∧ (formatFixed 6 tuple.2).length < npos)
    ∧ ∃ rows : List Text,
      ExportDvhToCsv (some "Gy".toList) [exportedPTV] false
        = some (((ExportDvhToCsv.header "Gy".toList [exportedPTV] false :: rows).map
            (fun line => line ++ ['\n'])).flatten)
      ∧ rows.length = ExportLayout.maxCurveLength [exportedPTV]
      ∧ ∀ r, r < ExportLayout.maxCurveLength [exportedPTV] →
          ∃ line cells, rows.get? r = some line
            ∧ splitLine (ExportLayout.delimiter false) line = (cells, [])
            ∧ cells.length = 2 * [exportedPTV].length
            ∧ cells = [exportedPTV].flatMap (fun node =>
                [ExportLayout.cell false node.doubleArray r 0,
                  ExportLayout.cell false node.doubleArray r 1]) :=
  have htext : false = false → ∀ node ∈ [exportedPTV], ∀ tuple ∈ node.doubleArray,
      (formatFixed 6 tuple.1).length < npos ∧ (formatFixed 6 tuple.2).length < npos := by
    intro _ node h tuple htuple
    rw [List.mem_singleton] at h
    subst h
    have hnpos : 109 < npos := by norm_num [npos]
    simp only [exportedPTV, List.mem_cons, List.mem_singleton, List.not_mem_nil,
      or_false] at htuple
    rcases htuple with rfl | rfl
    · exact ⟨lt_of_le_of_lt (formatFixed_length_le 6 _ 100 (by norm_num)) hnpos,
        lt_of_le_of_lt (formatFixed_length_le 6 _ 100 (by norm_num)) hnpos⟩
    · exact ⟨lt_of_le_of_lt (formatFixed_length_le 6 _ 100 (by norm_num [abs_of_pos])) hnpos,
        lt_of_le_of_lt (formatFixed_length_le 6 _ 100 (by norm_num)) hnpos⟩
  ⟨htext, ExportDvhToCsv_layout "Gy".toList [exportedPTV] false htext⟩
/-! ## Lemmas on header fields without the marker (C23) -/

/-- The name and the volume taken from a header field in which the marker is
not found: the exception of `substr` for a field of fewer than 12 characters,
the whole field as the name otherwise. -/
theorem volumeField_without_marker (failedExtraction : ℚ) (field : Text)
    (hlen : field.length < 16384) :
    (field.length < 12 →
      ReadCsvToDoubleArrayNode.volumeField failedExtraction field npos = .error .out_of_range)
    ∧ (12 ≤ field.length →
      ReadCsvToDoubleArrayNode.volumeField failedExtraction field npos
        = .ok (field, (extractDouble
            ((field.drop 12).take (sizeSub (field.length - 12) 4))).getD failedExtraction)) := by
  have h9 : sizeSub npos DVH_ARRAY_NODE_NAME_POSTFIX.length = 2 ^ 64 - 10 := by decide
  have h13 : sizeAdd npos DVH_CSV_HEADER_VOLUME_FIELD_MIDDLE.length = 12 := by decide
  have hm : DVH_CSV_HEADER_VOLUME_FIELD_MIDDLE.length = 13 := rfl
  have he : DVH_CSV_HEADER_VOLUME_FIELD_END.length = 4 := rfl
  have h0 : ¬ (0 > field.length) := by omega
  have htake : field.take (2 ^ 64 - 10) = field := List.take_of_length_le (by omega)
  constructor
  · intro hshort
    have hpos : 12 > field.length := hshort
    unfold ReadCsvToDoubleArrayNode.volumeField substr
    rw [h9, h13, if_neg h0, if_pos hpos]
    rfl
  · intro hlong
    have hpos : ¬ (12 > field.length) := by omega
    have hsub : sizeSub (sizeSub field.length npos) 13 = field.length - 12 := by
      have h1 : sizeSub field.length npos = field.length + 1 := by
        unfold sizeSub npos
        norm_num
        omega
      rw [h1, sizeSub_of_le _ _ (by omega) (by omega)]
      omega
    unfold ReadCsvToDoubleArrayNode.volumeField substr
    rw [h9, h13, hm, he, hsub, if_neg h0, if_neg hpos]
    simp only [List.drop_zero, htake]
    rfl

/-- The import of a table whose header has a second field without the marker:
the field as a whole becomes the name of a curve. -/
theorem readCsv_header_without_marker (failedExtraction : ℚ) :
    ReadCsvToDoubleArrayNode failedExtraction
        ("Dose,Structure volume,\n" ++ "1.000000,100.000000,\n").toList
      = .ok [{ doubleArray := [(1, 100)], structureVolumeCC := failedExtraction,
               segmentID := "Structure volume".toList,
               Name := "Structure volume_DvhArray".toList }] := by
  have hlines : getlines ("Dose,Structure volume,\n" ++ "1.000000,100.000000,\n").toList
      = ["Dose,Structure volume,".toList, "1.000000,100.000000,".toList] := by decide
  have hsplit : splitLine ',' "Dose,Structure volume,".toList
      = (["Dose".toList, "Structure volume".toList], []) := by decide
  have hfind : find "Structure volume".toList DVH_CSV_HEADER_VOLUME_FIELD_MIDDLE = npos := by
    decide
  have hvolume : ReadCsvToDoubleArrayNode.volumeField failedExtraction
      "Structure volume".toList npos = .ok ("Structure volume".toList, failedExtraction) := by
    rw [(volumeField_without_marker failedExtraction "Structure volume".toList
      (by decide)).2 (by decide)]
    have hcount : sizeSub ("Structure volume".toList.length - 12) 4 = 0 := by decide
    rw [hcount, List.take_zero]
    rfl
  have hheader : ReadCsvToDoubleArrayNode.header failedExtraction
      "Dose,Structure volume,".toList
      = .ok { fieldCount := 2, structureNames := ["Structure volume".toList],
              structureVolumeCCs := [failedExtraction] } := by
    unfold ReadCsvToDoubleArrayNode.header
    rw [hsplit]
    simp only [ReadCsvToDoubleArrayNode.headerLoop, hfind, hvolume, bind, Except.bind, pure,
      Except.pure]
    simp
  have hsplit1 : splitLine ',' "1.000000,100.000000,".toList
      = (["1.000000".toList, "100.000000".toList], []) := by decide
  have hone : extractDouble "1.000000".toList = some 1 := by
    rw [extractDouble_of_scan _ (false, 1000000, 6, 0) (by decide)]
    norm_num [extractDouble.value]
  have hhundred : extractDouble "100.000000".toList = some 100 := by
    rw [extractDouble_of_scan _ (false, 100000000, 6, 0) (by decide)]
    norm_num [extractDouble.value]
  have hone2 : extractDouble ['1', '.', '0', '0', '0', '0', '0', '0'] = some 1 := hone
  have hhundred2 : extractDouble ['1', '0', '0', '.', '0', '0', '0', '0', '0', '0']
      = some 100 := hhundred
  have hlength : "100.000000".toList.length > 0 := by decide
  unfold ReadCsvToDoubleArrayNode
  rw [hlines]
  simp only [hheader, bind, Except.bind, ReadCsvToDoubleArrayNode.valueLines, hsplit1,
    ReadCsvToDoubleArrayNode.valueLoop, hone, hhundred, Option.getD_some, hlength, pure,
    Except.pure]
  norm_num [ReadCsvToDoubleArrayNode.insert, vectorAt, InsertTuple, bind, Except.bind, pure,
    Except.pure, ReadCsvToDoubleArrayNode.nodes, DVH_ARRAY_NODE_NAME_POSTFIX, hone2, hhundred2]

/-! ## Lemmas on the numbers of a metric string (C30) -/

/-- Cells that are each followed by a separator, and a rest without one. -/
theorem splitLine_terminated_append (sep : Char) (rest : Text) (hrest : sep ∉ rest) :
    ∀ (cells : List Text), (∀ cell ∈ cells, sep ∉ cell) →
      splitLine sep ((cells.map (fun cell => cell ++ [sep])).flatten ++ rest)
        = (cells, rest) := by
  intro cells
  induction cells with
  | nil =>
    intro _
    simpa using splitLine_of_not_mem sep rest hrest
  | cons cell cells ih =>
    intro h
    rw [List.map_cons, List.flatten_cons, List.append_assoc, List.append_assoc,
      List.singleton_append,
      splitLine_append_sep sep _ cell (h cell (List.mem_cons_self _ _)),
      ih (fun c hc => h c (List.mem_cons_of_mem _ hc))]

theorem foldl_token (tokens : List Text) :
    ∀ (metricNumbers : List ℚ),
      tokens.foldl GetNumbersFromMetricString.token metricNumbers
        = metricNumbers ++ tokens.filterMap extractDouble.checked := by
  induction tokens with
  | nil =>
    intro metricNumbers
    simp
  | cons token tokens ih =>
    intro metricNumbers
    rw [List.foldl_cons, ih]
    unfold GetNumbersFromMetricString.token
    cases h : extractDouble.checked token with
    | none => simp [List.filterMap_cons, h]
    | some num => simp [List.filterMap_cons, h]

theorem extractDouble_nil : extractDouble [] = none := by
  have h : extractDouble.scan [] = none := by decide
  unfold extractDouble
  rw [h]
  rfl

theorem extractDouble_checked_nil : extractDouble.checked [] = none := by
  unfold extractDouble.checked
  rw [extractDouble_nil]

/-- The checked extraction of a number within the range of `double`. -/
theorem extractDouble_checked_of_lt (s : Text) (num : ℚ) (h : extractDouble s = some num)
    (hrange : |num| < doubleOverflowThreshold) : extractDouble.checked s = some num := by
  unfold extractDouble.checked
  rw [h]
  exact if_neg (not_le.mpr hrange)

/-- The numbers taken from tokens that are each followed by a comma, and a last
token without a comma behind it. -/
theorem GetNumbersFromMetricString_terminated (tokens : List Text) (last : Text)
    (previous : List ℚ) (hcomma : ∀ token ∈ tokens, ',' ∉ token) (hlast : ',' ∉ last) :
    GetNumbersFromMetricString ((tokens.map (fun token => token ++ [','])).flatten ++ last)
        previous
      = (tokens ++ [last]).filterMap extractDouble.checked := by
  unfold GetNumbersFromMetricString
  simp only [splitLine_terminated_append ',' last hlast tokens hcomma, vectorClear, foldl_token,
    List.nil_append]
  by_cases hempty : last = []
  · rw [if_neg (not_not.mpr hempty), hempty, List.filterMap_append]
    simp [List.filterMap_cons, extractDouble_checked_nil]
  · rw [if_pos hempty, List.filterMap_append]
    unfold GetNumbersFromMetricString.token
    cases h : extractDouble.checked last with
    | none => simp [List.filterMap_cons, h]
    | some num => simp [List.filterMap_cons, h]

theorem intercalate_cons_cons (sep first second : Text) (rest : List Text) :
    sep.intercalate (first :: second :: rest)
      = first ++ sep ++ sep.intercalate (second :: rest) := by
  simp [List.intercalate, List.intersperse]

theorem intercalate_append_singleton (sep : Text) (last : Text) :
    ∀ (front : List Text),
      sep.intercalate (front ++ [last])
        = (front.map (fun token => token ++ sep)).flatten ++ last := by
  intro front
  induction front with
  | nil => simp [List.intercalate]
  | cons token front ih =>
    cases front with
    | nil => simp [List.intercalate]
    | cons second front =>
      rw [List.cons_append, List.cons_append, intercalate_cons_cons, ← List.cons_append, ih]
      simp

/-! ## Lemmas on the removal of the V metric columns (C25) -/

theorem removeFirst_of_none :
    ∀ (columns : List Text), (∀ name ∈ columns, IsVMetricName name = false) →
      ComputeVMetrics.removeFirst columns = columns := by
  intro columns
  induction columns with
  | nil => intro _; rfl
  | cons name columns ih =>
    intro h
    have hname := h name (List.mem_cons_self _ _)
    rw [ComputeVMetrics.removeFirst, hname, if_neg (by decide),
      ih (fun n hn => h n (List.mem_cons_of_mem _ hn))]

theorem removeFirst_of_some :
    ∀ (columns : List Text), (∃ name ∈ columns, IsVMetricName name = true) →
      (ComputeVMetrics.removeFirst columns).length + 1 = columns.length
      ∧ (ComputeVMetrics.removeFirst columns).countP IsVMetricName + 1
          = columns.countP IsVMetricName
      ∧ (ComputeVMetrics.removeFirst columns).filter (fun name => !IsVMetricName name)
          = columns.filter (fun name => !IsVMetricName name) := by
  intro columns
  induction columns with
  | nil =>
    rintro ⟨name, hmem, _⟩
    simp at hmem
  | cons first columns ih =>
    rintro ⟨name, hmem, hname⟩
    by_cases hfirst : IsVMetricName first = true
    · rw [ComputeVMetrics.removeFirst, if_pos hfirst]
      refine ⟨by simp, ?_, ?_⟩
      · rw [List.countP_cons, if_pos hfirst]
      · rw [List.filter_cons, if_neg (by simp [hfirst])]
    · have hfalse : IsVMetricName first = false := by simpa using hfirst
      have hrest : ∃ name ∈ columns, IsVMetricName name = true := by
        rcases List.mem_cons.mp hmem with rfl | hm
        · exact absurd hname hfirst
        · exact ⟨name, hm, hname⟩
      obtain ⟨h1, h2, h3⟩ := ih hrest
      rw [ComputeVMetrics.removeFirst, if_neg hfirst]
      refine ⟨by simp only [List.length_cons]; omega, ?_, ?_⟩
      · simp only [List.countP_cons, hfalse]
        omega
      · rw [List.filter_cons, List.filter_cons, h3]

/-- With more passes than there are V metric columns, the removal loop ends by
its test and leaves the columns whose name is not that of a V metric. -/
theorem removeLoop_eq_filter :
    ∀ (passes : ℕ) (columns : List Text), columns.countP IsVMetricName < passes →
      ComputeVMetrics.removeLoop passes columns
        = columns.filter (fun name => !IsVMetricName name) := by
  intro passes
  induction passes with
  | zero =>
    intro columns h
    omega
  | succ passes ih =>
    intro columns h
    by_cases hany : ∃ name ∈ columns, IsVMetricName name = true
    · obtain ⟨h1, h2, h3⟩ := removeFirst_of_some columns hany
      have hlen : columns.length ≠ (ComputeVMetrics.removeFirst columns).length := by omega
      rw [ComputeVMetrics.removeLoop, if_pos hlen, ih _ (by omega), h3]
    · have hnone : ∀ name ∈ columns, IsVMetricName name = false := by
        intro name hmem
        by_contra hcon
        exact hany ⟨name, hmem, by simpa using hcon⟩
      have hsame := removeFirst_of_none columns hnone
      rw [ComputeVMetrics.removeLoop, hsame, if_neg (by simp)]
      symm
      rw [List.filter_eq_self]
      intro name hmem
      simp [hnone name hmem]

/-- The columns after `ComputeVMetrics`: the columns whose name is not that of
a V metric, then the new V metric columns. -/
theorem ComputeVMetrics_columns_eq (columns : List Text) (doseValuesStr : Text)
    (showVMetricsCc showVMetricsPercent : Bool) :
    ComputeVMetrics.columns columns doseValuesStr showVMetricsCc showVMetricsPercent
      = columns.filter (fun name => !IsVMetricName name)
        ++ (if ¬ showVMetricsCc ∧ ¬ showVMetricsPercent then []
            else ComputeVMetrics.newColumns (GetNumbersFromMetricString doseValuesStr [])
              showVMetricsCc showVMetricsPercent) := by
  have hcount : columns.countP IsVMetricName < columns.length + 1 :=
    Nat.lt_succ_of_le (List.countP_le_length _)
  unfold ComputeVMetrics.columns
  simp only [removeLoop_eq_filter _ columns hcount]
  split_ifs <;> simp

/-! ## Lemmas on the names of the V metric columns (C25) -/

theorem IsVMetricName_of_minus (rest : Text) : IsVMetricName ('V' :: '-' :: rest) = false := by
  have h : extractInt ['-'] = none := by decide
  simp [IsVMetricName, h]

theorem extractInt_digit (c : Char) (h : isDigit c = true) :
    extractInt [c] = some ((digitValue c : ℕ) : ℤ) := by
  have hspace : isSpace c = false := isSpace_of_isDigit c h
  have hminus : c ≠ '-' := ne_minus_of_isDigit c h
  have hplus : c ≠ '+' := ne_plus_of_isDigit c h
  have hvalue : digitValue c ≤ 9 := by
    simp only [isDigit, decide_eq_true_eq] at h
    unfold digitValue
    omega
  have hdrop : List.dropWhile isSpace [c] = [c] := by simp [List.dropWhile, hspace]
  have hsigned : extractDouble.signed [c] = (false, [c]) := by
    simp [extractDouble.signed, hminus, hplus]
  have htake : List.takeWhile isDigit [c] = [c] := by simp [List.takeWhile, h]
  have hdigits : digitsValue [c] = digitValue c := by simp [digitsValue]
  have hrange : ¬ (((digitValue c : ℕ) : ℤ) < -2147483648
      ∨ 2147483647 < ((digitValue c : ℕ) : ℤ)) := by omega
  unfold extractInt
  simp only [hdrop, hsigned, htake, hdigits]
  simp only [List.cons_ne_nil, if_false, Bool.false_eq_true]
  rw [if_neg hrange]

theorem IsVMetricName_of_digit (c : Char) (rest : Text) (h : isDigit c = true) :
    IsVMetricName ('V' :: c :: rest) = true := by
  simp [IsVMetricName, extractInt_digit c h]

theorem fractionDigits_six_head (n : ℕ) :
    ∃ c rest, fractionDigits 6 n = c :: rest ∧ isDigit c = true :=
  ⟨digitChar (n / 10 ^ 5 % 10), fractionDigits 5 n, rfl,
    isDigit_digitChar _ (Nat.mod_lt _ (by norm_num))⟩

/-- The text of a negative number starts with the minus sign. -/
theorem formatGeneral_of_neg (x : ℚ) (h : x < 0) : ∃ rest, formatGeneral x = '-' :: rest := by
  unfold formatGeneral
  rw [if_pos h]
  exact ⟨_, rfl⟩

/-- The text of a number that is not negative starts with a digit. -/
theorem formatGeneral_of_nonneg (x : ℚ) (h : 0 ≤ x) :
    ∃ c rest, formatGeneral x = c :: rest ∧ isDigit c = true := by
  obtain ⟨c, digits, hdigits, hc⟩ := fractionDigits_six_head (formatGeneral.significant |x|).1
  unfold formatGeneral
  rw [if_neg (not_lt.mpr h), List.nil_append]
  by_cases hzero : x = 0
  · rw [if_pos hzero]
    exact ⟨'0', [], rfl, by decide⟩
  · rw [if_neg hzero]
    by_cases hscientific : (formatGeneral.significant |x|).2 < -4
        ∨ 6 ≤ (formatGeneral.significant |x|).2
    · rw [if_pos hscientific, hdigits]
      exact ⟨c, _, rfl, hc⟩
    · rw [if_neg hscientific]
      by_cases hfixed : 0 ≤ (formatGeneral.significant |x|).2
      · rw [if_pos hfixed, hdigits]
        exact ⟨c, _, rfl, hc⟩
      · rw [if_neg hfixed]
        exact ⟨'0', _, rfl, by decide⟩

theorem IsVMetricName_static (doseUnitName : Option Text) :
    ∀ name ∈ InitializeMetricsTable doseUnitName, IsVMetricName name = false := by
  have ho : extractInt ['o'] = none := by decide
  intro name hname
  cases doseUnitName <;>
    simp [InitializeMetricsTable] at hname <;>
    rcases hname with rfl | rfl | rfl | rfl | rfl | rfl | rfl <;>
    simp [IsVMetricName, ho]

/-! ## Lemmas on the scenario of a negative dose value (C25) -/

theorem roundHalfEven_natCast (n : ℕ) : roundHalfEven (n : ℚ) = (n : ℤ) := by
  unfold roundHalfEven
  have hfloor : ⌊(n : ℚ)⌋ = (n : ℤ) := by
    have : ((n : ℤ) : ℚ) = (n : ℚ) := by push_cast; rfl
    rw [← this, Int.floor_intCast]
  rw [hfloor]
  have : ((n : ℚ) - ((n : ℤ) : ℚ)) < 1 / 2 := by
    push_cast
    norm_num
  rw [if_pos this]

/-- The significant digits of a number with no more than six of them. -/
theorem significant_of_exact (a : ℚ) (exponent : ℤ) (digits : ℕ)
    (hexponent : Int.log 10 a = exponent) (hdigits : a / 10 ^ (exponent - 5) = (digits : ℚ))
    (hne : digits ≠ 10 ^ 6) : formatGeneral.significant a = (digits, exponent) := by
  unfold formatGeneral.significant
  rw [hexponent, hdigits, roundHalfEven_natCast, Int.toNat_natCast, if_neg hne]

theorem formatGeneral_minus_five : formatGeneral (-5) = "-5".toList := by
  have hlog : Int.log 10 (5 : ℚ) = 0 := by
    rw [Int.log_of_one_le_right _ (by norm_num)]
    norm_num [Nat.log_of_lt]
  have hs : formatGeneral.significant |(-5 : ℚ)| = (500000, 0) := by
    rw [show |(-5 : ℚ)| = 5 by norm_num]
    exact significant_of_exact 5 0 500000 hlog (by norm_num) (by norm_num)
  unfold formatGeneral
  rw [if_pos (by norm_num), if_neg (by norm_num), hs]
  decide

theorem formatGeneral_ten : formatGeneral 10 = "10".toList := by
  have hlog : Int.log 10 (10 : ℚ) = 1 := by
    rw [Int.log_of_one_le_right _ (by norm_num)]
    simp [Nat.log]
  have hs : formatGeneral.significant |(10 : ℚ)| = (100000, 1) := by
    rw [show |(10 : ℚ)| = 10 by norm_num]
    exact significant_of_exact 10 1 100000 hlog (by norm_num) (by norm_num)
  unfold formatGeneral
  rw [if_neg (by norm_num), if_neg (by norm_num), hs]
  decide

theorem GetNumbersFromMetricString_minus_five :
    GetNumbersFromMetricString "-5".toList [] = [-5] := by
  have hsplit : splitLine ',' "-5".toList = ([], "-5".toList) := by decide
  have hvalue : extractDouble.checked "-5".toList = some (-5) := by
    apply extractDouble_checked_of_lt
    · rw [extractDouble_of_scan _ (true, 5, 0, 0) (by decide)]
      norm_num [extractDouble.value]
    · norm_num [doubleOverflowThreshold]
  unfold GetNumbersFromMetricString
  simp only [hsplit, vectorClear, List.foldl_nil]
  rw [if_pos (by decide)]
  unfold GetNumbersFromMetricString.token
  rw [hvalue]
  rfl

theorem GetNumbersFromMetricString_ten :
    GetNumbersFromMetricString "10".toList [] = [10] := by
  have hsplit : splitLine ',' "10".toList = ([], "10".toList) := by decide
  have hvalue : extractDouble.checked "10".toList = some 10 := by
    apply extractDouble_checked_of_lt
    · rw [extractDouble_of_scan _ (false, 10, 0, 0) (by decide)]
      norm_num [extractDouble.value]
    · norm_num [doubleOverflowThreshold]
  unfold GetNumbersFromMetricString
  simp only [hsplit, vectorClear, List.foldl_nil]
  rw [if_pos (by decide)]
  unfold GetNumbersFromMetricString.token
  rw [hvalue]
  rfl

/-! ## Theorem on the replacement of the V metric columns (C25) -/

/-- C25. Columns of the V metrics: `ComputeVMetrics` leaves the columns whose
name `IsVMetricName` does not take for that of a V metric and appends the
columns of the new dose values; no name that `InitializeMetricsTable` sets is
taken for that of a V metric; the name that `ComputeVMetrics` makes for a
dose value is taken for one when the value is not negative, and it is not when
the value is negative, for its second character is then the minus sign. So on
the table of a dose volume in Gy, `ComputeVMetrics` for the dose value `-5`
(volume in cc shown) adds the column `V-5 (cc)`, and the next call for the
dose value `10` leaves that column in the table and adds `V10 (cc)` behind
it. -/
theorem ComputeVMetrics_negative_dose_column_stays :
    (∀ (columns : List Text) (doseValuesStr : Text) (showVMetricsCc showVMetricsPercent : Bool),
      ComputeVMetrics.columns columns doseValuesStr showVMetricsCc showVMetricsPercent
        = columns.filter (fun name => !IsVMetricName name)
          ++ (if ¬ showVMetricsCc ∧ ¬ showVMetricsPercent then []
              else ComputeVMetrics.newColumns (GetNumbersFromMetricString doseValuesStr [])
                showVMetricsCc showVMetricsPercent))
    ∧ (∀ doseUnitName, ∀ name ∈ InitializeMetricsTable doseUnitName,
        IsVMetricName name = false)
    ∧ (∀ (doseValue : ℚ) (unitText : Text), 0 ≤ doseValue →
        IsVMetricName ("V".toList ++ formatGeneral doseValue ++ unitText) = true)
    ∧ (∀ (doseValue : ℚ) (unitText : Text), doseValue < 0 →
        IsVMetricName ("V".toList ++ formatGeneral doseValue ++ unitText) = false)
    ∧ ComputeVMetrics.columns (InitializeMetricsTable (some "Gy".toList)) "-5".toList true false
        = InitializeMetricsTable (some "Gy".toList) ++ ["V-5 (cc)".toList]
    ∧ ComputeVMetrics.columns
          (InitializeMetricsTable (some "Gy".toList) ++ ["V-5 (cc)".toList]) "10".toList
          true false
        = InitializeMetricsTable (some "Gy".toList)
          ++ ["V-5 (cc)".toList, "V10 (cc)".toList] := by
  have hstatic : (InitializeMetricsTable (some "Gy".toList)).filter
      (fun name => !IsVMetricName name) = InitializeMetricsTable (some "Gy".toList) := by
    rw [List.filter_eq_self]
    intro name hmem
    simp [IsVMetricName_static _ name hmem]
  have hminus : IsVMetricName "V-5 (cc)".toList = false := IsVMetricName_of_minus _
  refine ⟨ComputeVMetrics_columns_eq, IsVMetricName_static, ?_, ?_, ?_, ?_⟩
  · intro doseValue unitText h
    obtain ⟨c, rest, hc, hdigit⟩ := formatGeneral_of_nonneg doseValue h
    rw [hc]
    exact IsVMetricName_of_digit c (rest ++ unitText) hdigit
  · intro doseValue unitText h
    obtain ⟨rest, hc⟩ := formatGeneral_of_neg doseValue h
    rw [hc]
    exact IsVMetricName_of_minus (rest ++ unitText)
  · rw [ComputeVMetrics_columns_eq, hstatic, GetNumbersFromMetricString_minus_five]
    simp only [ComputeVMetrics.newColumns, List.flatMap_cons, List.flatMap_nil,
      formatGeneral_minus_five]
    decide
  · rw [ComputeVMetrics_columns_eq, List.filter_append, hstatic,
      GetNumbersFromMetricString_ten]
    simp only [ComputeVMetrics.newColumns, List.flatMap_cons, List.flatMap_nil,
      formatGeneral_ten, List.filter_cons, List.filter_nil, hminus]
    decide
/-! ## Lemmas on double arithmetic -/

/-- A rational within less than one half of an integer rounds to it. -/
theorem roundHalfEven_of_near (q : ℚ) (m : ℤ) (h : |q - m| < 1 / 2) : roundHalfEven q = m := by
  rw [abs_lt] at h
  have hfloor : ⌊q⌋ = m ∨ ⌊q⌋ = m - 1 := by
    by_cases hq : (m : ℚ) ≤ q
    · left
      rw [Int.floor_eq_iff]
      constructor
      · exact hq
      · linarith [h.2]
    · right
      rw [Int.floor_eq_iff]
      push_cast
      constructor
      · linarith [h.1]
      · push_neg at hq
        linarith
  unfold roundHalfEven
  rcases hfloor with hf | hf
  · have h1 : q - ((⌊q⌋ : ℤ) : ℚ) < 1 / 2 := by rw [hf]; linarith [h.2]
    rw [if_pos h1, hf]
  · have h1 : ¬ q - ((⌊q⌋ : ℤ) : ℚ) < 1 / 2 := by
      rw [hf]; push_cast; linarith [h.1]
    have h2 : 1 / 2 < q - ((⌊q⌋ : ℤ) : ℚ) := by
      rw [hf]; push_cast; linarith [h.1]
    rw [if_neg h1, if_pos h2, hf]
    ring

/-- The binary exponent of a positive rational between two powers of two. -/
theorem log_two_of_between (x : ℚ) (e : ℤ) (hlow : (2 : ℚ) ^ e ≤ x) (hhigh : x < 2 ^ (e + 1)) :
    Int.log 2 x = e := by
  have hpos : 0 < x := lt_of_lt_of_le (zpow_pos (by norm_num) e) hlow
  have h1 : e ≤ Int.log 2 x := by
    rw [← Int.zpow_le_iff_le_log (by norm_num) hpos]
    exact_mod_cast hlow
  have h2 : Int.log 2 x < e + 1 := by
    rw [← Int.lt_zpow_iff_log_lt (by norm_num) hpos]
    exact_mod_cast hhigh
  omega

/-- A rational half way between the even integer `m` and `m + 1` rounds to `m`. -/
theorem roundHalfEven_of_tie_even (q : ℚ) (m : ℤ) (h : q = m + 1 / 2) (heven : m % 2 = 0) :
    roundHalfEven q = m := by
  have hf : ⌊q⌋ = m := by
    rw [Int.floor_eq_iff, h]
    constructor <;> linarith
  unfold roundHalfEven
  have h1 : ¬ q - ((⌊q⌋ : ℤ) : ℚ) < 1 / 2 := by rw [hf, h]; norm_num
  have h2 : ¬ 1 / 2 < q - ((⌊q⌋ : ℤ) : ℚ) := by rw [hf, h]; norm_num
  rw [if_neg h1, if_neg h2, hf, if_pos heven]

/-- Evaluation of `roundDouble` at a positive rational: with `2^e ≤ x < 2^(e+1)`
the double is `m * 2^(e-52)` for the integer `m` to which `x / 2^(e-52)` is
rounded. -/
theorem roundDouble_of_round (x : ℚ) (e m : ℤ) (hlow : (2 : ℚ) ^ e ≤ x)
    (hhigh : x < 2 ^ (e + 1)) (hm : roundHalfEven (x / 2 ^ (e - 52)) = m) :
    roundDouble x = m * 2 ^ (e - 52) := by
  have hpos : 0 < x := lt_of_lt_of_le (zpow_pos (by norm_num) e) hlow
  unfold roundDouble
  rw [if_neg hpos.ne', if_neg (not_lt.mpr hpos.le), abs_of_pos hpos,
    log_two_of_between x e hlow hhigh, hm, one_mul]

/-- Evaluation of `roundDouble` at a positive rational: with `2^e ≤ x < 2^(e+1)`
and `x / 2^(e-52)` within less than one half of the integer `m`, the double is
`m * 2^(e-52)`. -/
theorem roundDouble_of_pos (x : ℚ) (e m : ℤ) (hlow : (2 : ℚ) ^ e ≤ x) (hhigh : x < 2 ^ (e + 1))
    (hm : |x / 2 ^ (e - 52) - m| < 1 / 2) : roundDouble x = m * 2 ^ (e - 52) :=
  roundDouble_of_round x e m hlow hhigh (roundHalfEven_of_near _ m hm)

/-- Rounding to double commutes with the change of sign. -/
theorem roundDouble_neg (x : ℚ) : roundDouble (-x) = -roundDouble x := by
  unfold roundDouble
  by_cases h0 : x = 0
  · simp [h0]
  · rcases lt_or_gt_of_ne h0 with hneg | hpos
    · have h1 : ¬ (-x < 0) := by linarith
      rw [if_neg (neg_ne_zero.mpr h0), if_neg h0, if_neg h1, if_pos hneg, abs_neg]
      ring
    · have h1 : -x < 0 := by linarith
      have h2 : ¬ x < 0 := by linarith
      rw [if_neg (neg_ne_zero.mpr h0), if_neg h0, if_pos h1, if_neg h2, abs_neg]
      ring

/-- Evaluation of `roundDouble` at a negative rational. -/
theorem roundDouble_of_neg (x : ℚ) (e m : ℤ) (hlow : (2 : ℚ) ^ e ≤ -x) (hhigh : -x < 2 ^ (e + 1))
    (hm : |-x / 2 ^ (e - 52) - m| < 1 / 2) : roundDouble x = -(m * 2 ^ (e - 52)) := by
  have h := roundDouble_of_pos (-x) e m hlow hhigh hm
  rw [roundDouble_neg] at h
  linarith

/-- The relative error of the rounding to double is at most `2^-53`. -/
theorem roundDouble_relative_error (x : ℚ) : |roundDouble x - x| ≤ 1 / 2 ^ 53 * |x| := by
  have key : ∀ y : ℚ, 0 < y → |roundDouble y - y| ≤ 1 / 2 ^ 53 * |y| := by
    intro y hy
    unfold roundDouble
    rw [if_neg hy.ne', if_neg (not_lt.mpr hy.le), abs_of_pos hy, one_mul]
    set e := Int.log 2 y with he
    have hq : (0 : ℚ) < 2 ^ (e - 52) := zpow_pos (by norm_num) _
    have hlow : (2 : ℚ) ^ e ≤ y := by
      have := Int.zpow_log_le_self (b := 2) (r := y) (by norm_num) hy
      exact_mod_cast this
    have hr := abs_roundHalfEven_sub_le (y / 2 ^ (e - 52))
    have hsplit : (2 : ℚ) ^ e = 2 ^ (e - 52) * 2 ^ (52 : ℤ) := by
      rw [← zpow_add₀ (by norm_num : (2 : ℚ) ≠ 0)]
      congr 1
      ring
    have h52 : (2 : ℚ) ^ (52 : ℤ) = 2 ^ 52 := by norm_cast
    have heq : ((roundHalfEven (y / 2 ^ (e - 52)) : ℤ) : ℚ) * 2 ^ (e - 52) - y
        = (((roundHalfEven (y / 2 ^ (e - 52)) : ℤ) : ℚ) - y / 2 ^ (e - 52)) * 2 ^ (e - 52) := by
      field_simp
    rw [heq, abs_mul, abs_of_pos hq]
    calc |((roundHalfEven (y / 2 ^ (e - 52)) : ℤ) : ℚ) - y / 2 ^ (e - 52)| * 2 ^ (e - 52)
        ≤ 1 / 2 * 2 ^ (e - 52) := by
          exact mul_le_mul_of_nonneg_right hr hq.le
      _ = 1 / 2 ^ 53 * (2 ^ (e - 52) * 2 ^ (52 : ℤ)) := by rw [h52]; ring
      _ ≤ 1 / 2 ^ 53 * y := by
          rw [← hsplit]
          exact mul_le_mul_of_nonneg_left hlow (by positivity)
  rcases lt_trichotomy x 0 with hneg | h0 | hpos
  · have h := key (-x) (by linarith)
    rw [roundDouble_neg, abs_neg] at h
    have : |roundDouble x - x| = |-roundDouble x - -x| := by
      rw [← abs_neg]; congr 1; ring
    rw [this]
    exact h
  · simp [h0, roundDouble]
  · exact key x hpos

/-- Rounding to double commutes with the multiplication by a power of two (the
exponent is not bounded). -/
theorem roundDouble_mul_two_zpow (x : ℚ) (k : ℤ) :
    roundDouble (x * 2 ^ k) = roundDouble x * 2 ^ k := by
  have hk : (0 : ℚ) < 2 ^ k := zpow_pos (by norm_num) k
  have key : ∀ y : ℚ, 0 < y → roundDouble (y * 2 ^ k) = roundDouble y * 2 ^ k := by
    intro y hy
    have hlow : (2 : ℚ) ^ Int.log 2 y ≤ y := by
      have := Int.zpow_log_le_self (b := 2) (r := y) (by norm_num) hy
      exact_mod_cast this
    have hhigh : y < (2 : ℚ) ^ (Int.log 2 y + 1) := by
      have := Int.lt_zpow_succ_log_self (b := 2) (by norm_num) y
      exact_mod_cast this
    have hlog : Int.log 2 (y * 2 ^ k) = Int.log 2 y + k := by
      apply log_two_of_between
      · rw [zpow_add₀ (by norm_num : (2 : ℚ) ≠ 0)]
        exact mul_le_mul_of_nonneg_right hlow hk.le
      · have : Int.log 2 y + k + 1 = (Int.log 2 y + 1) + k := by ring
        rw [this, zpow_add₀ (by norm_num : (2 : ℚ) ≠ 0)]
        exact mul_lt_mul_of_pos_right hhigh hk
    have hyk : 0 < y * 2 ^ k := mul_pos hy hk
    unfold roundDouble
    rw [if_neg hyk.ne', if_neg (not_lt.mpr hyk.le), if_neg hy.ne', if_neg (not_lt.mpr hy.le),
      abs_of_pos hyk, abs_of_pos hy, hlog]
    have hsplit : (2 : ℚ) ^ (Int.log 2 y + k - 52) = 2 ^ (Int.log 2 y - 52) * 2 ^ k := by
      rw [← zpow_add₀ (by norm_num : (2 : ℚ) ≠ 0)]
      congr 1
      ring
    have hquot : y * 2 ^ k / 2 ^ (Int.log 2 y + k - 52) = y / 2 ^ (Int.log 2 y - 52) := by
      rw [hsplit]
      field_simp
      ring
    rw [hquot, hsplit]
    ring
  rcases lt_trichotomy x 0 with hneg | h0 | hpos
  · have h := key (-x) (by linarith)
    rw [neg_mul, roundDouble_neg, roundDouble_neg] at h
    linarith
  · simp [h0, roundDouble]
  · exact key x hpos

/-- With the exact arithmetic `fl = id` the rounded scan is the scan. -/
theorem rounded_scan_id (doubleArray : DvhArray) (volumeSize structureVolume : ℚ) :
    ∀ (remaining i : ℕ),
      ComputeDMetric.rounded.scan id doubleArray volumeSize structureVolume remaining i
        = ComputeDMetric.scan doubleArray volumeSize structureVolume remaining i := by
  intro remaining
  induction remaining with
  | zero => intro i; rfl
  | succ r ih =>
    intro i
    simp only [ComputeDMetric.rounded.scan, ComputeDMetric.scan, id, ih]

/-- With the exact arithmetic `fl = id` the rounded `ComputeDMetric` is
`ComputeDMetric`. -/
theorem ComputeDMetric_rounded_id (dvhArrayNode : Option DvhArray) (volume structureVolume : ℚ)
    (isPercent : Bool) :
    ComputeDMetric.rounded id dvhArrayNode volume structureVolume isPercent
      = ComputeDMetric dvhArrayNode volume structureVolume isPercent := by
  cases dvhArrayNode with
  | none => rfl
  | some doubleArray =>
    simp only [ComputeDMetric.rounded, ComputeDMetric, id, rounded_scan_id]

/-- The first branch of the rounded `ComputeDMetric`. -/
theorem rounded_upper_of_ge (fl : ℚ → ℚ) (doubleArray : DvhArray) (volume structureVolume : ℚ)
    (isPercent : Bool) (hne : doubleArray ≠ [])
    (h : requestedVolumeCc.rounded fl volume structureVolume isPercent
      ≥ volumeAt.rounded fl doubleArray structureVolume 0) :
    (ComputeDMetric.rounded fl (some doubleArray) volume structureVolume isPercent).map
      MetricReturn.value = some 0 := by
  have h0 : 0 < doubleArray.length := List.length_pos.mpr hne
  unfold ComputeDMetric.rounded
  by_cases hsv : (isPercent = true) ∧ structureVolume = 0
  · simp only [if_pos hsv, Option.map_some']
  · have htv : (if isPercent = true then fl (fl (volume * structureVolume) / 100) else volume)
        = requestedVolumeCc.rounded fl volume structureVolume isPercent := by
      simp [requestedVolumeCc.rounded]
    simp only [if_neg hsv, GetComponent_percent _ _ h0, Option.bind_eq_bind, Option.some_bind,
      Option.pure_def]
    have h2 : requestedVolumeCc.rounded fl volume structureVolume isPercent
        ≥ fl (fl (percentAt doubleArray 0 / 100) * structureVolume) := h
    rw [htv, if_pos h2]
    rfl

/-- Evaluation of the rounded `ComputeDMetric` on the curve of the scenario for
the full volume, when the computed request falls below the computed volume of
the plateau. -/
theorem rounded_trace (fl : ℚ → ℚ) (sv request half result : ℚ) (hsv : sv ≠ 0)
    (hrequest : fl (fl (100 * sv) / 100) = request)
    (hfull : fl (fl ((100 : ℚ) / 100) * sv) = sv)
    (hhalf : fl (fl ((50 : ℚ) / 100) * sv) = half)
    (hnone : fl (fl ((0 : ℚ) / 100) * sv) = 0)
    (hbelow : request < sv) (hnonneg : 0 ≤ request) (hbracket : half ≤ request)
    (hresult : fl (1 + fl (fl (fl (3 - 1) * fl (request - sv)) / fl (half - sv))) = result) :
    ComputeDMetric.rounded fl (some plateauCurve) 100 sv true = some ⟨result, none⟩ := by
  have hc01 : GetComponent plateauCurve 0 1 = some 100 := rfl
  have hc11 : GetComponent plateauCurve 1 1 = some 100 := rfl
  have hc21 : GetComponent plateauCurve 2 1 = some 50 := rfl
  have hc31 : GetComponent plateauCurve 3 1 = some 0 := rfl
  have hc10 : GetComponent plateauCurve 1 0 = some 1 := rfl
  have hc20 : GetComponent plateauCurve 2 0 = some 3 := rfl
  have hlen : GetNumberOfTuples plateauCurve - 1 = 3 := rfl
  have h1 : ¬ (True ∧ sv = 0) := fun h => hsv h.2
  have h2 : ¬ request ≥ sv := not_le.mpr hbelow
  have h3 : ¬ request < 0 := not_lt.mpr hnonneg
  have h4 : ¬ (sv > request ∧ request ≥ sv) := fun h => h2 h.2
  have h5 : sv > request ∧ request ≥ half := ⟨hbelow, hbracket⟩
  unfold ComputeDMetric.rounded
  simp only [if_neg h1, if_true, hrequest, hc01, hlen, hc31, Option.bind_eq_bind,
    Option.some_bind, hfull, hnone, if_neg h2, if_neg h3, ComputeDMetric.rounded.scan, hc11,
    hc21, hhalf, if_neg h4, if_pos h5, hc10, hc20, Option.pure_def, hresult]

/-- The double of `1`. -/
theorem roundDouble_one : roundDouble 1 = 1 := by
  rw [roundDouble_of_pos 1 0 (2 ^ 52) (by norm_num) (by norm_num) (by norm_num [abs_lt])]
  norm_num

/-- The double of `2`. -/
theorem roundDouble_two : roundDouble 2 = 2 := by
  rw [roundDouble_of_pos 2 1 (2 ^ 52) (by norm_num) (by norm_num) (by norm_num [abs_lt])]
  norm_num

/-- The double of `0`. -/
theorem roundDouble_zero : roundDouble 0 = 0 := by
  simp [roundDouble]

/-- The number `doubleOf0119` is the double nearest to 0.119. -/
theorem roundDouble_0119 : roundDouble (119 / 1000) = doubleOf0119 := by
  rw [roundDouble_of_pos _ (-4) 8574853690513424 (by norm_num) (by norm_num)
    (by norm_num [abs_lt])]
  norm_num [doubleOf0119]

/-- The number `doubleOf0119` is a double. -/
theorem roundDouble_doubleOf0119 : roundDouble doubleOf0119 = doubleOf0119 := by
  rw [roundDouble_of_pos _ (-4) 8574853690513424 (by norm_num [doubleOf0119])
    (by norm_num [doubleOf0119]) (by norm_num [doubleOf0119, abs_lt])]
  norm_num [doubleOf0119]

/-- The conversion `100 * 0.119 / 100.0` in double arithmetic ends one unit in
the last place below 0.119. -/
theorem rounded_request_0119 :
    roundDouble (roundDouble (100 * doubleOf0119) / 100)
      = 8574853690513423 / 72057594037927936 := by
  have h1 : roundDouble (100 * doubleOf0119) = 1674776111428403 / 140737488355328 := by
    rw [roundDouble_of_round (100 * doubleOf0119) 3 6699104445713612
      (by norm_num [doubleOf0119]) (by norm_num [doubleOf0119])
      (roundHalfEven_of_tie_even _ _ (by norm_num [doubleOf0119]) (by decide))]
    norm_num
  rw [h1, roundDouble_of_pos _ (-4) 8574853690513423 (by norm_num) (by norm_num)
    (by norm_num [abs_lt])]
  norm_num

/-- The D metric for 100 percent of a structure of 0.119 cc on the curve of the
scenario, in double arithmetic: the scan interpolates between dose 1 and dose
3 and returns the double that follows 1. -/
theorem rounded_plateau_full_volume :
    ComputeDMetric.rounded roundDouble (some plateauCurve) 100 doubleOf0119 true
      = some ⟨1 + 1 / 2 ^ 51, none⟩ := by
  have hfull : roundDouble (roundDouble ((100 : ℚ) / 100) * doubleOf0119) = doubleOf0119 := by
    rw [show ((100 : ℚ) / 100) = 1 by norm_num, roundDouble_one, one_mul,
      roundDouble_doubleOf0119]
  have hhalf : roundDouble (roundDouble ((50 : ℚ) / 100) * doubleOf0119)
      = doubleOf0119 / 2 := by
    have h1 : roundDouble ((50 : ℚ) / 100) = 1 / 2 := by
      rw [roundDouble_of_pos _ (-1) (2 ^ 52) (by norm_num) (by norm_num) (by norm_num [abs_lt])]
      norm_num
    rw [h1, roundDouble_of_pos _ (-5) 8574853690513424 (by norm_num [doubleOf0119])
      (by norm_num [doubleOf0119]) (by norm_num [doubleOf0119, abs_lt])]
    norm_num [doubleOf0119]
  have hnone : roundDouble (roundDouble ((0 : ℚ) / 100) * doubleOf0119) = 0 := by
    rw [show ((0 : ℚ) / 100) = 0 by norm_num, roundDouble_zero, zero_mul, roundDouble_zero]
  have hdose : roundDouble (3 - 1) = 2 := by
    rw [show ((3 : ℚ) - 1) = 2 by norm_num, roundDouble_two]
  have hdiff : roundDouble (8574853690513423 / 72057594037927936 - doubleOf0119)
      = -(1 / 72057594037927936) := by
    rw [roundDouble_of_neg _ (-56) (2 ^ 52) (by norm_num [doubleOf0119])
      (by norm_num [doubleOf0119]) (by norm_num [doubleOf0119, abs_lt])]
    norm_num
  have hprod : roundDouble (2 * -(1 / 72057594037927936)) = -(1 / 36028797018963968) := by
    rw [roundDouble_of_neg _ (-55) (2 ^ 52) (by norm_num) (by norm_num) (by norm_num [abs_lt])]
    norm_num
  have hspan : roundDouble (doubleOf0119 / 2 - doubleOf0119) = -(doubleOf0119 / 2) := by
    rw [roundDouble_of_neg _ (-5) 8574853690513424 (by norm_num [doubleOf0119])
      (by norm_num [doubleOf0119]) (by norm_num [doubleOf0119, abs_lt])]
    norm_num [doubleOf0119]
  have hquot : roundDouble (-(1 / 36028797018963968) / -(doubleOf0119 / 2))
      = 4730671877490017 / 10141204801825835211973625643008 := by
    rw [roundDouble_of_pos _ (-51) 4730671877490017 (by norm_num [doubleOf0119])
      (by norm_num [doubleOf0119]) (by norm_num [doubleOf0119, abs_lt])]
    norm_num
  have hsum : roundDouble (1 + 4730671877490017 / 10141204801825835211973625643008)
      = 1 + 1 / 2 ^ 51 := by
    rw [roundDouble_of_pos _ 0 (2 ^ 52 + 2) (by norm_num) (by norm_num) (by norm_num [abs_lt])]
    norm_num
  exact rounded_trace roundDouble doubleOf0119 (8574853690513423 / 72057594037927936)
    (doubleOf0119 / 2) (1 + 1 / 2 ^ 51) (by norm_num [doubleOf0119]) rounded_request_0119
    hfull hhalf hnone (by norm_num [doubleOf0119]) (by norm_num)
    (by norm_num [doubleOf0119]) (by rw [hdose, hdiff, hprod, hspan, hquot, hsum])

/-- The conversion `100 * 2 / 100.0` in double arithmetic gives 2. -/
theorem rounded_request_two : roundDouble (roundDouble (100 * 2) / 100) = 2 := by
  have h1 : roundDouble (100 * 2) = 200 := by
    rw [roundDouble_of_pos _ 7 7036874417766400 (by norm_num) (by norm_num)
      (by norm_num [abs_lt])]
    norm_num
  rw [h1, show ((200 : ℚ) / 100) = 2 by norm_num, roundDouble_two]

/-- The volume of the first sample of the curve of the scenario in double
arithmetic, for a structure of 2 cc. -/
theorem rounded_first_volume_two : volumeAt.rounded roundDouble plateauCurve 2 0 = 2 := by
  have hp : percentAt plateauCurve 0 = 100 := rfl
  rw [volumeAt.rounded, hp, show ((100 : ℚ) / 100) = 1 by norm_num, roundDouble_one, one_mul,
    roundDouble_two]

/-- The rounded scan reads inside of the array and so yields a dose. -/
theorem rounded_scan_isSome (fl : ℚ → ℚ) (doubleArray : DvhArray)
    (volumeSize structureVolume : ℚ) :
    ∀ (remaining i : ℕ), i + remaining < doubleArray.length →
      ∃ d, ComputeDMetric.rounded.scan fl doubleArray volumeSize structureVolume remaining i
        = some d := by
  intro remaining
  induction remaining with
  | zero =>
    intro i _
    exact ⟨0, rfl⟩
  | succ r ih =>
    intro i hlen
    have hi : i < doubleArray.length := by omega
    have hi1 : i + 1 < doubleArray.length := by omega
    simp only [ComputeDMetric.rounded.scan, GetComponent_percent _ _ hi,
      GetComponent_percent _ _ hi1, GetComponent_dose _ _ hi, GetComponent_dose _ _ hi1,
      Option.bind_eq_bind, Option.some_bind, Option.pure_def]
    split_ifs
    · exact ⟨_, rfl⟩
    · exact ih (i + 1) (by omega)

/-- On a curve with at least one sample and with a structure volume other than
0 the rounded `ComputeDMetric` returns a dose without error. -/
theorem rounded_isSome (fl : ℚ → ℚ) (doubleArray : DvhArray) (volume structureVolume : ℚ)
    (isPercent : Bool) (hne : doubleArray ≠ []) (hsv : structureVolume ≠ 0) :
    ∃ d, ComputeDMetric.rounded fl (some doubleArray) volume structureVolume isPercent
      = some ⟨d, none⟩ := by
  have h0 : 0 < doubleArray.length := List.length_pos.mpr hne
  have hlast : doubleArray.length - 1 < doubleArray.length := by omega
  have h1 : ¬ (isPercent = true ∧ structureVolume = 0) := fun h => hsv h.2
  obtain ⟨d, hd⟩ := rounded_scan_isSome fl doubleArray
    (if isPercent = true then fl (fl (volume * structureVolume) / 100) else volume)
    structureVolume (doubleArray.length - 1) 0 (by omega)
  generalize hvs : (if isPercent = true then fl (fl (volume * structureVolume) / 100)
    else volume) = vs at hd
  unfold ComputeDMetric.rounded
  simp only [if_neg h1, hvs, GetComponent_percent _ _ h0, GetNumberOfTuples,
    GetComponent_percent _ _ hlast, GetComponent_dose _ _ hlast, Option.bind_eq_bind,
    Option.some_bind, Option.pure_def, hd]
  split_ifs
  · exact ⟨_, rfl⟩
  · exact ⟨_, rfl⟩
  · exact ⟨_, rfl⟩

/-- The rounded scan does not change when the requested volume and the volume
of the structure are multiplied by a positive factor with which the rounding
commutes. -/
theorem rounded_scan_scale (fl : ℚ → ℚ) (c : ℚ) (hc : 0 < c)
    (hfl : ∀ x, fl (x * c) = fl x * c) (doubleArray : DvhArray) (v s : ℚ) :
    ∀ (remaining i : ℕ),
      ComputeDMetric.rounded.scan fl doubleArray (v * c) (s * c) remaining i
        = ComputeDMetric.rounded.scan fl doubleArray v s remaining i := by
  have hvol : ∀ a : ℚ, fl (fl (a / 100) * (s * c)) = fl (fl (a / 100) * s) * c := by
    intro a
    rw [← mul_assoc, hfl]
  intro remaining
  induction remaining with
  | zero =>
    intro i
    rfl
  | succ r ih =>
    intro i
    simp only [ComputeDMetric.rounded.scan, Option.bind_eq_bind, Option.pure_def]
    cases GetComponent doubleArray i 1 with
    | none => simp only [Option.none_bind]
    | some pp =>
      cases GetComponent doubleArray (i + 1) 1 with
      | none => simp only [Option.none_bind]
      | some pn =>
        simp only [Option.some_bind, hvol]
        have hcond : (fl (fl (pp / 100) * s) * c > v * c ∧ v * c ≥ fl (fl (pn / 100) * s) * c)
            ↔ (fl (fl (pp / 100) * s) > v ∧ v ≥ fl (fl (pn / 100) * s)) := by
          rw [gt_iff_lt, ge_iff_le, mul_lt_mul_right hc, mul_le_mul_right hc]
        by_cases hb : fl (fl (pp / 100) * s) > v ∧ v ≥ fl (fl (pn / 100) * s)
        · rw [if_pos (hcond.mpr hb), if_pos hb]
          cases GetComponent doubleArray i 0 with
          | none => simp only [Option.none_bind]
          | some dp =>
            cases GetComponent doubleArray (i + 1) 0 with
            | none => simp only [Option.none_bind]
            | some dn =>
              simp only [Option.some_bind]
              have e1 : fl (v * c - fl (fl (pp / 100) * s) * c)
                  = fl (v - fl (fl (pp / 100) * s)) * c := by
                rw [← sub_mul, hfl]
              have e2 : fl (fl (fl (pn / 100) * s) * c - fl (fl (pp / 100) * s) * c)
                  = fl (fl (fl (pn / 100) * s) - fl (fl (pp / 100) * s)) * c := by
                rw [← sub_mul, hfl]
              have e3 : fl (fl (dn - dp) * (fl (v - fl (fl (pp / 100) * s)) * c))
                  = fl (fl (dn - dp) * fl (v - fl (fl (pp / 100) * s))) * c := by
                rw [← mul_assoc, hfl]
              rw [e1, e2, e3, mul_div_mul_right _ _ hc.ne']
        · rw [if_neg (fun h => hb (hcond.mp h)), if_neg hb]
          exact ih (i + 1)

/-- The rounded `ComputeDMetric` for a percent threshold does not change when
the structure volume is multiplied by a positive factor with which the rounding
commutes. -/
theorem rounded_percent_scale (fl : ℚ → ℚ) (c : ℚ) (hc : 0 < c)
    (hfl : ∀ x, fl (x * c) = fl x * c) (doubleArray : DvhArray) (p s : ℚ) :
    ComputeDMetric.rounded fl (some doubleArray) p (s * c) true
      = ComputeDMetric.rounded fl (some doubleArray) p s true := by
  have hvol : ∀ a : ℚ, fl (fl (a / 100) * (s * c)) = fl (fl (a / 100) * s) * c := by
    intro a
    rw [← mul_assoc, hfl]
  have hreq : fl (fl (p * (s * c)) / 100) = fl (fl (p * s) / 100) * c := by
    calc fl (fl (p * (s * c)) / 100) = fl (fl (p * s * c) / 100) := by rw [mul_assoc]
      _ = fl (fl (p * s) * c / 100) := by rw [hfl]
      _ = fl (fl (p * s) / 100 * c) := by
          congr 1
          ring
      _ = fl (fl (p * s) / 100) * c := hfl _
  have hzero : (True ∧ s * c = 0) ↔ (True ∧ s = 0) := by
    simp [hc.ne']
  unfold ComputeDMetric.rounded
  simp only [if_true, Option.bind_eq_bind, Option.pure_def, hvol, hreq]
  by_cases hs : True ∧ s = 0
  · rw [if_pos (hzero.mpr hs), if_pos hs]
  · rw [if_neg (fun h => hs (hzero.mp h)), if_neg hs]
    cases GetComponent doubleArray 0 1 with
    | none => simp only [Option.none_bind]
    | some first =>
      simp only [Option.some_bind, ge_iff_le, mul_le_mul_right hc, mul_lt_mul_right hc,
        rounded_scan_scale fl c hc hfl]

/-- C2, as stated, fails in double arithmetic. For 100 percent of a structure of
0.119 cc (the double nearest to 0.119) on the curve `(0,100) (1,100) (3,50)
(5,0)` the requested volume equals the cumulative volume of the first sample,
but the conversion `100 * 0.119 / 100.0` is rounded to the double below
`1.0 * 0.119`, the first check fails, and the scan returns the double that
follows 1 (1.0000000000000002 is `1 + 2^-52`, the result is `1 + 2^-51`). -/
theorem ComputeDMetric_full_volume_not_zero :
    roundDouble (119 / 1000) = doubleOf0119
    ∧ requestedVolumeCc 100 doubleOf0119 true ≥ volumeAt plateauCurve doubleOf0119 0
    ∧ requestedVolumeCc.rounded roundDouble 100 doubleOf0119 true
        < volumeAt.rounded roundDouble plateauCurve doubleOf0119 0
    ∧ (ComputeDMetric.rounded roundDouble (some plateauCurve) 100 doubleOf0119 true).map
        MetricReturn.value = some (1 + 1 / 2 ^ 51) := by
  refine ⟨roundDouble_0119, ?_, ?_, ?_⟩
  · have hp : percentAt plateauCurve 0 = 100 := rfl
    rw [requestedVolumeCc, volumeAt, hp]
    norm_num
  · have hp : percentAt plateauCurve 0 = 100 := rfl
    rw [requestedVolumeCc.rounded, volumeAt.rounded, hp, if_pos rfl, rounded_request_0119,
      show ((100 : ℚ) / 100) = 1 by norm_num, roundDouble_one, one_mul,
      roundDouble_doubleOf0119]
    norm_num [doubleOf0119]
  · rw [rounded_plateau_full_volume]
    rfl

/-- C2, amended. Upper boundary of `ComputeDMetric` in the arithmetic of the
program: for every rounding `fl`, every curve with at least one sample, every
threshold and every structure volume, when the requested volume as the function
computes it (`fl (fl (volume * structureVolume) / 100)` for a percent
threshold, `volume` for a threshold in cc) is at or above the cumulative volume
of the first sample as the function computes it
(`fl (fl (percent / 100) * structureVolume)`), the returned dose is 0.0. -/
theorem ComputeDMetric_rounded_upper_boundary (fl : ℚ → ℚ) (doubleArray : DvhArray)
    (volume structureVolume : ℚ) (isPercent : Bool) (hne : doubleArray ≠ [])
    (h : requestedVolumeCc.rounded fl volume structureVolume isPercent
      ≥ volumeAt.rounded fl doubleArray structureVolume 0) :
    (ComputeDMetric.rounded fl (some doubleArray) volume structureVolume isPercent).map
      MetricReturn.value = some 0 :=
  rounded_upper_of_ge fl doubleArray volume structureVolume isPercent hne h

/-- Witness of the amended C2: 100 percent of a structure of 2 cc in double
arithmetic. -/
theorem ComputeDMetric_rounded_upper_boundary_witness :
    plateauCurve ≠ []
    ∧ requestedVolumeCc.rounded roundDouble 100 2 true
        ≥ volumeAt.rounded roundDouble plateauCurve 2 0
    ∧ (ComputeDMetric.rounded roundDouble (some plateauCurve) 100 2 true).map
        MetricReturn.value = some 0 :=
  have hge : requestedVolumeCc.rounded roundDouble 100 2 true
      ≥ volumeAt.rounded roundDouble plateauCurve 2 0 := by
    rw [rounded_first_volume_two, requestedVolumeCc.rounded, if_pos rfl, rounded_request_two]
  ⟨by simp [plateauCurve], hge,
    ComputeDMetric_rounded_upper_boundary roundDouble plateauCurve 100 2 true
      (by simp [plateauCurve]) hge⟩

/-- C28, as stated, fails in double arithmetic: on the curve `(0,100) (1,100)
(3,50) (5,0)` the threshold of 100 percent gives the dose `1 + 2^-51`
(1.0000000000000004) for a structure of 0.119 cc and the dose 0 for a structure
of 2 cc. -/
theorem ComputeDMetric_scale_dependent :
    0 < doubleOf0119 ∧ (0 : ℚ) < 2
    ∧ roundDouble doubleOf0119 = doubleOf0119 ∧ roundDouble 2 = 2
    ∧ ComputeDMetric.rounded roundDouble (some plateauCurve) 100 doubleOf0119 true
        = some ⟨1 + 1 / 2 ^ 51, none⟩
    ∧ ComputeDMetric.rounded roundDouble (some plateauCurve) 100 2 true = some ⟨0, none⟩ := by
  refine ⟨by norm_num [doubleOf0119], by norm_num, roundDouble_doubleOf0119, roundDouble_two,
    rounded_plateau_full_volume, ?_⟩
  obtain ⟨d, hd⟩ := rounded_isSome roundDouble plateauCurve 100 2 true (by simp [plateauCurve])
    (by norm_num)
  have hge : requestedVolumeCc.rounded roundDouble 100 2 true
      ≥ volumeAt.rounded roundDouble plateauCurve 2 0 := by
    rw [rounded_first_volume_two, requestedVolumeCc.rounded, if_pos rfl, rounded_request_two]
  have h0 := rounded_upper_of_ge roundDouble plateauCurve 100 2 true (by simp [plateauCurve]) hge
  rw [hd] at h0 ⊢
  simp only [Option.map_some', Option.some.injEq] at h0
  rw [h0]

/-- C28, amended. Scaling of the structure volume in the arithmetic of the
program: for every rounding `fl`, every curve, every percent threshold `p` and
every two positive structure volumes `s1` and `s2` such that the rounding
commutes with the multiplication by `s2 / s1` (every ratio in exact arithmetic,
the powers of two in double arithmetic short of overflow and underflow),
`ComputeDMetric` with `isPercent = true` gives the same result for `s1` and
for `s2`; for every volume `s1 > 0` of the structure that result is the one of
`ComputeDMetric` for the threshold in cc that the function computes,
`fl (fl (p * s1) / 100)`, with the same volume `s1` of the structure; and for a
curve with at least one sample the result is a dose without error. -/
theorem ComputeDMetric_rounded_scale (fl : ℚ → ℚ) (doubleArray : DvhArray) (p s1 s2 : ℚ)
    (h1 : 0 < s1) (h2 : 0 < s2) (hfl : ∀ x, fl (x * (s2 / s1)) = fl x * (s2 / s1)) :
    ComputeDMetric.rounded fl (some doubleArray) p s1 true
      = ComputeDMetric.rounded fl (some doubleArray) p s2 true
    ∧ ComputeDMetric.rounded fl (some doubleArray) p s1 true
        = ComputeDMetric.rounded fl (some doubleArray)
            (requestedVolumeCc.rounded fl p s1 true) s1 false
    ∧ (doubleArray ≠ [] →
        ∃ d, ComputeDMetric.rounded fl (some doubleArray) p s1 true = some ⟨d, none⟩) := by
  refine ⟨?_, ?_, ?_⟩
  · have h := rounded_percent_scale fl (s2 / s1) (div_pos h2 h1) hfl doubleArray p s1
    rw [mul_div_cancel₀ s2 h1.ne'] at h
    exact h.symm
  · have hn1 : ¬ (True ∧ s1 = 0) := fun h => h1.ne' h.2
    unfold ComputeDMetric.rounded requestedVolumeCc.rounded
    simp only [if_true, Bool.false_eq_true, if_false, false_and]
    rw [if_neg hn1]
  · intro hne
    exact rounded_isSome fl doubleArray p s1 true hne h1.ne'

/-- Witness of the amended C28: double arithmetic, the curve `(0,100) (1,100)
(3,50) (5,0)`, threshold 100 percent, structure volumes 0.119 cc and four times
that. -/
theorem ComputeDMetric_rounded_scale_witness :
    0 < doubleOf0119 ∧ 0 < doubleOf0119 * 4
    ∧ (∀ x, roundDouble (x * (doubleOf0119 * 4 / doubleOf0119))
        = roundDouble x * (doubleOf0119 * 4 / doubleOf0119))
    ∧ ComputeDMetric.rounded roundDouble (some plateauCurve) 100 doubleOf0119 true
        = ComputeDMetric.rounded roundDouble (some plateauCurve) 100 (doubleOf0119 * 4) true
    ∧ ComputeDMetric.rounded roundDouble (some plateauCurve) 100 doubleOf0119 true
        = ComputeDMetric.rounded roundDouble (some plateauCurve)
            (requestedVolumeCc.rounded roundDouble 100 doubleOf0119 true) doubleOf0119 false
    ∧ (plateauCurve ≠ [] →
        ∃ d, ComputeDMetric.rounded roundDouble (some plateauCurve) 100 doubleOf0119 true
          = some ⟨d, none⟩) :=
  have hfl : ∀ x, roundDouble (x * (doubleOf0119 * 4 / doubleOf0119))
      = roundDouble x * (doubleOf0119 * 4 / doubleOf0119) := by
    intro x
    have h4 : doubleOf0119 * 4 / doubleOf0119 = 2 ^ (2 : ℤ) := by norm_num [doubleOf0119]
    rw [h4]
    exact roundDouble_mul_two_zpow x 2
  ⟨by norm_num [doubleOf0119], by norm_num [doubleOf0119], hfl,
    ComputeDMetric_rounded_scale roundDouble plateauCurve 100 doubleOf0119 (doubleOf0119 * 4)
      (by norm_num [doubleOf0119]) (by norm_num [doubleOf0119]) hfl⟩

/-! ## Lemmas on the curve construction in double arithmetic -/

theorem rounded_sampleLoop_length (fl : ℚ → ℚ) (f : ℤ → ℕ) (s st : ℚ) (tot : ℕ) :
    ∀ r i b, (ComputeDvh.rounded.sampleLoop fl f s st tot r i b).length = r := by
  intro r
  induction r with
  | zero => intro i b; rfl
  | succ r ih => intro i b; simp [ComputeDvh.rounded.sampleLoop, ih]

/-- Abscissa of sample `k` of the rounded sample loop. -/
theorem rounded_sampleLoop_doseAt (fl : ℚ → ℚ) (f : ℤ → ℕ) (s st : ℚ) (tot : ℕ) :
    ∀ r i b k, k < r →
      doseAt (ComputeDvh.rounded.sampleLoop fl f s st tot r i b) k
        = fl (s + fl (((i + k : ℕ) : ℚ) * st)) := by
  intro r
  induction r with
  | zero => intro i b k hk; omega
  | succ r ih =>
    intro i b k hk
    cases k with
    | zero => simp [ComputeDvh.rounded.sampleLoop, doseAt]
    | succ k =>
      have h := ih (i + 1) (b + f i) k (by omega)
      have hidx : i + 1 + k = i + (k + 1) := by omega
      simp only [ComputeDvh.rounded.sampleLoop, doseAt_cons_succ, h, hidx]

/-- With the exact arithmetic `fl = id` the rounded sample loop is the sample
loop. -/
theorem rounded_sampleLoop_id (f : ℤ → ℕ) (s st : ℚ) (tot : ℕ) :
    ∀ r i b, ComputeDvh.rounded.sampleLoop id f s st tot r i b
      = ComputeDvh.sampleLoop f s st tot r i b := by
  intro r
  induction r with
  | zero => intro i b; rfl
  | succ r ih =>
    intro i b
    simp only [ComputeDvh.rounded.sampleLoop, ComputeDvh.sampleLoop, id, ih]

/-- With the exact arithmetic `fl = id` the rounded `ComputeDvh` is `ComputeDvh`. -/
theorem ComputeDvh_rounded_id (self : Logic) (fz : ℚ → ℤ) (structureStat : List ℚ)
    (isDoseVolume : Bool) (maxDoseGy : ℚ) :
    ComputeDvh.rounded id self fz structureStat isDoseVolume maxDoseGy
      = ComputeDvh self fz structureStat isDoseVolume maxDoseGy := by
  have hbin : ∀ origin spacing v, binIndex.rounded id fz origin spacing v
      = binIndex fz origin spacing v := by
    intro origin spacing v
    simp only [binIndex.rounded, binIndex, id]
  have hread : ∀ extentMax origin spacing k,
      GetScalarComponentAsDouble.rounded id fz structureStat extentMax origin spacing k
        = GetScalarComponentAsDouble fz structureStat extentMax origin spacing k := by
    intro extentMax origin spacing k
    simp only [GetScalarComponentAsDouble.rounded, GetScalarComponentAsDouble, hbin]
  have hread2 : ∀ extentMax origin spacing,
      GetScalarComponentAsDouble.rounded id fz structureStat extentMax origin spacing
        = GetScalarComponentAsDouble fz structureStat extentMax origin spacing := by
    intro extentMax origin spacing
    funext k
    exact hread extentMax origin spacing k
  have hnum : ComputeDvh.rounded.numSamples id self isDoseVolume maxDoseGy
      = ComputeDvh.numSamples self isDoseVolume maxDoseGy := by
    simp only [ComputeDvh.rounded.numSamples, ComputeDvh.numSamples, id]
  have hstep : ComputeDvh.rounded.stepSize id self structureStat isDoseVolume
      = ComputeDvh.stepSize self structureStat isDoseVolume := by
    simp only [ComputeDvh.rounded.stepSize, ComputeDvh.stepSize, id]
  simp only [ComputeDvh.rounded, ComputeDvh, hnum, hstep, hread, hread2, rounded_sampleLoop_id]

/-- Forward form of the rounded `ComputeDvh` for a dose volume with
non-negative start value: the curve is the origin anchor followed by the
samples. -/
theorem ComputeDvh_rounded_dose_ok (fl : ℚ → ℚ) (self : Logic) (fz : ℚ → ℤ)
    (structureStat : List ℚ) (maxDoseGy : ℚ)
    (hne : structureStat ≠ []) (hmin : 0 ≤ GetMin structureStat) (hstep : self.StepSize ≠ 0)
    (hn : 0 ≤ ComputeDvh.rounded.numSamples fl self true maxDoseGy)
    (hstart : 0 ≤ self.StartValue) :
    ∃ samples, ComputeDvh.rounded fl self fz structureStat true maxDoseGy
        = .ok ((0, 100) :: samples)
      ∧ samples.length = (ComputeDvh.rounded.numSamples fl self true maxDoseGy).toNat
      ∧ ∀ k, k < (ComputeDvh.rounded.numSamples fl self true maxDoseGy).toNat →
          doseAt samples k = fl (self.StartValue + fl ((k : ℚ) * self.StepSize)) := by
  have h1 : ¬ GetVoxelCount structureStat < 1 := by
    have := List.length_pos.mpr hne
    simp only [GetVoxelCount]
    omega
  have h2 : ¬ (true = true ∧ GetMin structureStat < 0) := fun h => absurd h.2 (not_lt.mpr hmin)
  have h3 : ¬ ((true = true ∧ self.StepSize = 0)
      ∨ (¬ true = true ∧ self.NumberOfSamplesForNonDoseVolumes - 1 = 0)) := by
    rintro (h | h)
    · exact hstep h.2
    · exact h.1 rfl
  have h4 : ¬ ComputeDvh.rounded.numSamples fl self true maxDoseGy < 0 := not_lt.mpr hn
  have h5 : ¬ ComputeDvh.startValue self structureStat true < 0 := by
    simp [ComputeDvh.startValue, hstart]
  refine ⟨ComputeDvh.rounded.sampleLoop fl
    (GetScalarComponentAsDouble.rounded fl fz structureStat
      (ComputeDvh.rounded.numSamples fl self true maxDoseGy - 1)
      (ComputeDvh.startValue self structureStat true)
      (ComputeDvh.rounded.stepSize fl self structureStat true))
    (ComputeDvh.startValue self structureStat true)
    (ComputeDvh.rounded.stepSize fl self structureStat true)
    (GetVoxelCount structureStat)
    (ComputeDvh.rounded.numSamples fl self true maxDoseGy).toNat 0
    (GetScalarComponentAsDouble.rounded fl fz structureStat 1 0
      (ComputeDvh.startValue self structureStat true) 0), ?_, ?_, ?_⟩
  · unfold ComputeDvh.rounded
    simp only [if_neg h1, if_neg h2, if_neg h3, if_neg h4, if_neg h5]
    simp [not_lt.mpr hmin, hstep]
  · exact rounded_sampleLoop_length _ _ _ _ _ _ _ _
  · intro k hk
    rw [rounded_sampleLoop_doseAt _ _ _ _ _ _ _ _ _ hk]
    simp [ComputeDvh.startValue, ComputeDvh.rounded.stepSize]

/-- The double of the literal `0.1`. -/
theorem roundDouble_tenth : roundDouble (1 / 10) = doubleOf01 := by
  rw [roundDouble_of_pos _ (-4) 7205759403792794 (by norm_num) (by norm_num)
    (by norm_num [abs_lt])]
  norm_num [doubleOf01]

/-- The double of the literal `0.2`. -/
theorem roundDouble_fifth : roundDouble (2 / 10) = doubleOf02 := by
  rw [roundDouble_of_pos _ (-3) 7205759403792794 (by norm_num) (by norm_num)
    (by norm_num [abs_lt])]
  norm_num [doubleOf02]

/-- The binning of the constructor in double arithmetic. -/
theorem New_rounded_roundDouble :
    Logic.New.rounded roundDouble
      = { StartValue := doubleOf01, StepSize := doubleOf02,
          NumberOfSamplesForNonDoseVolumes := 100 } := by
  simp only [Logic.New.rounded, roundDouble_tenth, roundDouble_fifth]

/-- The number `doubleOf11` is the double nearest to 1.1. -/
theorem roundDouble_11 : roundDouble (11 / 10) = doubleOf11 := by
  rw [roundDouble_of_pos _ 0 4953959590107546 (by norm_num) (by norm_num)
    (by norm_num [abs_lt])]
  norm_num [doubleOf11]

/-- The number `doubleOf37` is the double nearest to 3.7. -/
theorem roundDouble_37 : roundDouble (37 / 10) = doubleOf37 := by
  rw [roundDouble_of_pos _ 1 8331659310635418 (by norm_num) (by norm_num)
    (by norm_num [abs_lt])]
  norm_num [doubleOf37]

/-- The number `doubleAbove37` is a double, the one that follows `doubleOf37`. -/
theorem roundDouble_doubleAbove37 :
    roundDouble doubleAbove37 = doubleAbove37
    ∧ doubleAbove37 = doubleOf37 + 1 / 2 ^ 51 := by
  constructor
  · rw [roundDouble_of_pos _ 1 8331659310635419 (by norm_num [doubleAbove37])
      (by norm_num [doubleAbove37]) (by norm_num [doubleAbove37, abs_lt])]
    norm_num [doubleAbove37]
  · norm_num [doubleAbove37, doubleOf37]

/-- The rounded quotient of the sample count for the maximum dose 1.1 with the
binning of the constructor is 5. -/
theorem rounded_quotient_11 :
    roundDouble (roundDouble (doubleOf11 - doubleOf01) / doubleOf02) = 5 := by
  have h1 : roundDouble (doubleOf11 - doubleOf01) = 1 := by
    rw [roundDouble_of_pos _ 0 (2 ^ 52) (by norm_num [doubleOf11, doubleOf01])
      (by norm_num [doubleOf11, doubleOf01]) (by norm_num [doubleOf11, doubleOf01, abs_lt])]
    norm_num
  rw [h1, roundDouble_of_pos _ 2 5629499534213120 (by norm_num [doubleOf02])
    (by norm_num [doubleOf02]) (by norm_num [doubleOf02, abs_lt])]
  norm_num

/-- The rounded quotient of the sample count for the maximum dose
3.7000000000000006 with the binning of the constructor is 18. -/
theorem rounded_quotient_above37 :
    roundDouble (roundDouble (doubleAbove37 - doubleOf01) / doubleOf02) = 18 := by
  have h1 : roundDouble (doubleAbove37 - doubleOf01)
      = 4053239664633447 / 1125899906842624 := by
    rw [roundDouble_of_pos _ 1 8106479329266894 (by norm_num [doubleAbove37, doubleOf01])
      (by norm_num [doubleAbove37, doubleOf01])
      (by norm_num [doubleAbove37, doubleOf01, abs_lt])]
    norm_num
  rw [h1, roundDouble_of_pos _ 4 5066549580791808 (by norm_num [doubleOf02])
    (by norm_num [doubleOf02]) (by norm_num [doubleOf02, abs_lt])]
  norm_num

/-- The abscissa of the sample of index 18 with the binning of the
constructor, in double arithmetic: the double nearest to 3.7. -/
theorem rounded_abscissa_18 :
    roundDouble (doubleOf01 + roundDouble (18 * doubleOf02)) = doubleOf37 := by
  have h1 : roundDouble (18 * doubleOf02) = 8106479329266893 / 2251799813685248 := by
    rw [roundDouble_of_pos _ 1 8106479329266893 (by norm_num [doubleOf02])
      (by norm_num [doubleOf02]) (by norm_num [doubleOf02, abs_lt])]
    norm_num
  rw [h1, roundDouble_of_pos _ 1 8331659310635418 (by norm_num [doubleOf01])
    (by norm_num [doubleOf01]) (by norm_num [doubleOf01, abs_lt])]
  norm_num [doubleOf37]

/-- The sample count for the maximum dose 1.1 with the binning of the
constructor in double arithmetic is 6. -/
theorem rounded_numSamples_11 :
    ComputeDvh.rounded.numSamples roundDouble (Logic.New.rounded roundDouble) true doubleOf11
      = 6 := by
  rw [New_rounded_roundDouble]
  simp only [ComputeDvh.rounded.numSamples, if_true, rounded_quotient_11]
  norm_num [Int.ceil_eq_iff]

/-- The sample count for the maximum dose 3.7000000000000006 with the binning
of the constructor in double arithmetic is 19. -/
theorem rounded_numSamples_above37 :
    ComputeDvh.rounded.numSamples roundDouble (Logic.New.rounded roundDouble) true
      doubleAbove37 = 19 := by
  rw [New_rounded_roundDouble]
  simp only [ComputeDvh.rounded.numSamples, if_true, rounded_quotient_above37]
  norm_num [Int.ceil_eq_iff]

/-- The bounds that a relative error `u` of the rounding gives for the rounded
value of a number that is not negative. -/
theorem rounded_bounds_of_nonneg (fl : ℚ → ℚ) (u : ℚ)
    (hfl : ∀ x, |fl x - x| ≤ u * |x|) (x : ℚ) (hx : 0 ≤ x) :
    x * (1 - u) ≤ fl x ∧ fl x ≤ x * (1 + u) := by
  have h := hfl x
  rw [abs_of_nonneg hx, abs_le] at h
  constructor <;> linarith [h.1, h.2]

/-- The bound that a relative error `u` of the rounding gives for the rounded
value of a negative number. -/
theorem rounded_bound_of_neg (fl : ℚ → ℚ) (u : ℚ)
    (hfl : ∀ x, |fl x - x| ≤ u * |x|) (x : ℚ) (hx : x ≤ 0) :
    x * (1 + u) ≤ fl x := by
  have h := hfl x
  rw [abs_of_nonpos hx, abs_le] at h
  linarith [h.1]

/-- The rounded quotient of the sample count is not negative when the maximum
dose is at or above the start value. -/
theorem rounded_quotient_nonneg (fl : ℚ → ℚ) (u : ℚ) (hu1 : u < 1)
    (hfl : ∀ x, |fl x - x| ≤ u * |x|) (s h M : ℚ) (hh : 0 < h) (hsM : s ≤ M) :
    0 ≤ fl (fl (M - s) / h) := by
  have hw : 0 ≤ 1 - u := by linarith
  have hd := (rounded_bounds_of_nonneg fl u hfl (M - s) (by linarith)).1
  have hd0 : 0 ≤ fl (M - s) := le_trans (mul_nonneg (by linarith) hw) hd
  have hq0 : 0 ≤ fl (M - s) / h := div_nonneg hd0 hh.le
  exact le_trans (mul_nonneg hq0 hw) (rounded_bounds_of_nonneg fl u hfl _ hq0).1

/-- The rounded quotient of the sample count is above -1 when the maximum dose
is not negative and the start value, enlarged by two roundings, is below the
step size. -/
theorem rounded_quotient_above_minus_one (fl : ℚ → ℚ) (u : ℚ) (hu0 : 0 ≤ u) (hu1 : u < 1)
    (hfl : ∀ x, |fl x - x| ≤ u * |x|) (s h M : ℚ) (hs : 0 ≤ s) (hh : 0 < h) (hM : 0 ≤ M)
    (hsmall : s * (1 + u) ^ 2 < h) :
    -1 < fl (fl (M - s) / h) := by
  by_cases hsM : s ≤ M
  · have := rounded_quotient_nonneg fl u hu1 hfl s h M hh hsM
    linarith
  · push_neg at hsM
    have hv : 0 < 1 + u := by linarith
    have hd : -s * (1 + u) ≤ fl (M - s) := by
      have h1 := rounded_bound_of_neg fl u hfl (M - s) (by linarith)
      have h2 : -s * (1 + u) ≤ (M - s) * (1 + u) :=
        mul_le_mul_of_nonneg_right (by linarith) hv.le
      linarith
    have hq : -s * (1 + u) / h ≤ fl (M - s) / h :=
      div_le_div_of_nonneg_right hd hh.le
    have hlow : -s * (1 + u) / h * (1 + u) ≤ fl (fl (M - s) / h) := by
      by_cases hneg : fl (M - s) / h ≤ 0
      · have h1 := rounded_bound_of_neg fl u hfl _ hneg
        have h2 := mul_le_mul_of_nonneg_right hq hv.le
        linarith
      · push_neg at hneg
        have h1 := (rounded_bounds_of_nonneg fl u hfl _ hneg.le).1
        have h2 : 0 ≤ fl (M - s) / h * (1 - u) := mul_nonneg hneg.le (by linarith)
        have h3 : -s * (1 + u) / h * (1 + u) ≤ 0 := by
          have : 0 ≤ s * (1 + u) / h * (1 + u) := by positivity
          have e : -s * (1 + u) / h * (1 + u) = -(s * (1 + u) / h * (1 + u)) := by ring
          rw [e]
          linarith
        linarith
    have hlt : -1 < -s * (1 + u) / h * (1 + u) := by
      have e : -s * (1 + u) / h * (1 + u) = -(s * (1 + u) ^ 2 / h) := by ring
      rw [e, neg_lt_neg_iff, div_lt_one hh]
      exact hsmall
    linarith

/-- The last abscissa of the dose axis in an arithmetic with relative error
`u`: for a maximum dose at or above the start value it reaches the maximum dose
up to four roundings and stays below one step beyond it up to four roundings. -/
theorem rounded_last_abscissa_bounds (fl : ℚ → ℚ) (u : ℚ) (hu0 : 0 ≤ u) (hu1 : u < 1)
    (hfl : ∀ x, |fl x - x| ≤ u * |x|) (s h M : ℚ) (hs : 0 ≤ s) (hh : 0 < h) (hsM : s ≤ M) :
    M * (1 - u) ^ 4 ≤ fl (s + fl (((⌈fl (fl (M - s) / h)⌉ : ℤ) : ℚ) * h))
    ∧ fl (s + fl (((⌈fl (fl (M - s) / h)⌉ : ℤ) : ℚ) * h)) < (M + h) * (1 + u) ^ 4 := by
  have hw0 : 0 ≤ 1 - u := by linarith
  have hw1 : 1 - u ≤ 1 := by linarith
  have hv1 : 1 ≤ 1 + u := by linarith
  have hv0 : 0 < 1 + u := by linarith
  have hMs : 0 ≤ M - s := by linarith
  obtain ⟨hd1, hd2⟩ := rounded_bounds_of_nonneg fl u hfl (M - s) hMs
  set d := fl (M - s) with hd
  have hd0 : 0 ≤ d := le_trans (mul_nonneg hMs hw0) hd1
  have hq0' : 0 ≤ d / h := div_nonneg hd0 hh.le
  obtain ⟨hq1, hq2⟩ := rounded_bounds_of_nonneg fl u hfl (d / h) hq0'
  set q := fl (d / h) with hq
  have hq0 : 0 ≤ q := le_trans (mul_nonneg hq0' hw0) hq1
  have hc1 : q ≤ ((⌈q⌉ : ℤ) : ℚ) := Int.le_ceil q
  have hc2 : ((⌈q⌉ : ℤ) : ℚ) < q + 1 := Int.ceil_lt_add_one q
  set c : ℚ := ((⌈q⌉ : ℤ) : ℚ) with hc
  have hc0 : 0 ≤ c := le_trans hq0 hc1
  have hch0 : 0 ≤ c * h := mul_nonneg hc0 hh.le
  obtain ⟨ht1, ht2⟩ := rounded_bounds_of_nonneg fl u hfl (c * h) hch0
  set t := fl (c * h) with ht
  have ht0 : 0 ≤ t := le_trans (mul_nonneg hch0 hw0) ht1
  obtain ⟨hl1, hl2⟩ := rounded_bounds_of_nonneg fl u hfl (s + t) (by linarith)
  have hdh : d / h * h = d := div_mul_cancel₀ d hh.ne'
  have hw2 : 0 ≤ (1 - u) ^ 2 := by positivity
  have hw3 : 0 ≤ (1 - u) ^ 3 := by positivity
  have hw3le : (1 - u) ^ 3 ≤ 1 := pow_le_one₀ hw0 hw1
  have hv2 : 1 ≤ (1 + u) ^ 2 := one_le_pow₀ hv1
  have hv3 : 1 ≤ (1 + u) ^ 3 := one_le_pow₀ hv1
  constructor
  · -- lower bound
    have e1 : (M - s) * (1 - u) ^ 3 ≤ t := by
      have a1 : q * h * (1 - u) ≤ c * h * (1 - u) :=
        mul_le_mul_of_nonneg_right (mul_le_mul_of_nonneg_right hc1 hh.le) hw0
      have a2 : d / h * (1 - u) * h * (1 - u) ≤ q * h * (1 - u) :=
        mul_le_mul_of_nonneg_right (mul_le_mul_of_nonneg_right hq1 hh.le) hw0
      have a3 : d / h * (1 - u) * h * (1 - u) = d * (1 - u) ^ 2 := by
        have : d / h * (1 - u) * h * (1 - u) = d / h * h * (1 - u) ^ 2 := by ring
        rw [this, hdh]
      have a4 : (M - s) * (1 - u) * (1 - u) ^ 2 ≤ d * (1 - u) ^ 2 :=
        mul_le_mul_of_nonneg_right hd1 hw2
      have a5 : (M - s) * (1 - u) * (1 - u) ^ 2 = (M - s) * (1 - u) ^ 3 := by ring
      linarith
    have e2 : s * (1 - u) ^ 3 ≤ s := by
      have := mul_le_mul_of_nonneg_left hw3le hs
      linarith
    have e3 : M * (1 - u) ^ 3 ≤ s + t := by
      have : M * (1 - u) ^ 3 = s * (1 - u) ^ 3 + (M - s) * (1 - u) ^ 3 := by ring
      linarith
    have e4 : M * (1 - u) ^ 3 * (1 - u) ≤ (s + t) * (1 - u) :=
      mul_le_mul_of_nonneg_right e3 hw0
    have e5 : M * (1 - u) ^ 3 * (1 - u) = M * (1 - u) ^ 4 := by ring
    linarith
  · -- upper bound
    have b1 : t < (M - s + h) * (1 + u) ^ 3 := by
      have a1 : c * h * (1 + u) < (q + 1) * h * (1 + u) :=
        mul_lt_mul_of_pos_right (mul_lt_mul_of_pos_right hc2 hh) hv0
      have a2 : (q + 1) * h * (1 + u) ≤ (d / h * (1 + u) + 1) * h * (1 + u) :=
        mul_le_mul_of_nonneg_right
          (mul_le_mul_of_nonneg_right (by linarith) hh.le) hv0.le
      have a3 : (d / h * (1 + u) + 1) * h * (1 + u) = d * (1 + u) ^ 2 + h * (1 + u) := by
        have : (d / h * (1 + u) + 1) * h * (1 + u)
            = d / h * h * (1 + u) ^ 2 + h * (1 + u) := by ring
        rw [this, hdh]
      have a4 : d * (1 + u) ^ 2 ≤ (M - s) * (1 + u) * (1 + u) ^ 2 :=
        mul_le_mul_of_nonneg_right hd2 (by positivity)
      have a5 : h * (1 + u) ≤ h * (1 + u) ^ 3 := by
        have h1 : (1 + u) ≤ (1 + u) ^ 3 := by
          have : (1 + u) * 1 ≤ (1 + u) * (1 + u) ^ 2 :=
            mul_le_mul_of_nonneg_left hv2 hv0.le
          calc (1 + u) = (1 + u) * 1 := by ring
            _ ≤ (1 + u) * (1 + u) ^ 2 := this
            _ = (1 + u) ^ 3 := by ring
        exact mul_le_mul_of_nonneg_left h1 hh.le
      have a6 : (M - s + h) * (1 + u) ^ 3
          = (M - s) * (1 + u) * (1 + u) ^ 2 + h * (1 + u) ^ 3 := by ring
      linarith
    have b2 : s ≤ s * (1 + u) ^ 3 := by
      have := mul_le_mul_of_nonneg_left hv3 hs
      linarith
    have b3 : s + t < (M + h) * (1 + u) ^ 3 := by
      have : (M + h) * (1 + u) ^ 3 = s * (1 + u) ^ 3 + (M - s + h) * (1 + u) ^ 3 := by ring
      linarith
    have b4 : (s + t) * (1 + u) < (M + h) * (1 + u) ^ 3 * (1 + u) :=
      mul_lt_mul_of_pos_right b3 hv0
    have b5 : (M + h) * (1 + u) ^ 3 * (1 + u) = (M + h) * (1 + u) ^ 4 := by ring
    linarith

/-! ## Theorems on the dose axis in double arithmetic (C9, C29) -/

/-- C9, amended. For a dose volume whose masked doses are not negative, with a
start value that is not negative and a step size other than 0, in the
arithmetic of the program (rounding `fl` after every operation) the curve is
built and its sampled abscissae, after the origin anchor, are
`fl (StartValue + fl (k * StepSize))` for `k = 0 .. n-1`, where
`n = ceil(fl (fl (maxDoseGy - StartValue) / StepSize)) + 1` is computed from the
maximum dose `maxDoseGy` that the caller passes (the maximum of the whole dose
volume); the constructor sets the start value to the double of 0.1 and the step
size to the double of 0.2. -/
theorem ComputeDvh_rounded_dose_abscissae (fl : ℚ → ℚ) (self : Logic) (fz : ℚ → ℤ)
    (structureStat : List ℚ) (maxDoseGy : ℚ) (hne : structureStat ≠ [])
    (hdose : ∀ v ∈ structureStat, 0 ≤ v) (hstart : 0 ≤ self.StartValue)
    (hstep : self.StepSize ≠ 0)
    (hn : 0 ≤ ⌈fl (fl (maxDoseGy - self.StartValue) / self.StepSize)⌉ + 1) :
    (∃ curve, ComputeDvh.rounded fl self fz structureStat true maxDoseGy = .ok curve
      ∧ (curve.length : ℤ)
          = (⌈fl (fl (maxDoseGy - self.StartValue) / self.StepSize)⌉ + 1) + 1
      ∧ doseAt curve 0 = 0
      ∧ ∀ k : ℕ, (k : ℤ) < ⌈fl (fl (maxDoseGy - self.StartValue) / self.StepSize)⌉ + 1 →
          doseAt curve (k + 1) = fl (self.StartValue + fl ((k : ℚ) * self.StepSize)))
    ∧ (Logic.New.rounded fl).StartValue = fl (1 / 10)
    ∧ (Logic.New.rounded fl).StepSize = fl (2 / 10) := by
  have hns : ComputeDvh.rounded.numSamples fl self true maxDoseGy
      = ⌈fl (fl (maxDoseGy - self.StartValue) / self.StepSize)⌉ + 1 := by
    simp [ComputeDvh.rounded.numSamples]
  obtain ⟨samples, hok, hlen, hdoses⟩ := ComputeDvh_rounded_dose_ok fl self fz structureStat
    maxDoseGy hne (GetMin_nonneg structureStat hdose) hstep (by rw [hns]; exact hn) hstart
  rw [hns] at hlen hdoses
  refine ⟨⟨_, hok, ?_, rfl, ?_⟩, rfl, rfl⟩
  · rw [List.length_cons, hlen]
    push_cast
    rw [Int.toNat_of_nonneg hn]
  · intro k hk
    rw [doseAt_cons_succ, hdoses k (by omega)]

/-- Witness of the amended C9: double arithmetic, one masked voxel of dose 1,
maximum dose 1.1 of the dose volume, binning of the constructor; the rounded
quotient is 5, so that six samples follow the origin anchor. -/
theorem ComputeDvh_rounded_dose_abscissae_witness :
    ([1] : List ℚ) ≠ [] ∧ (∀ v ∈ ([1] : List ℚ), 0 ≤ v)
    ∧ 0 ≤ (Logic.New.rounded roundDouble).StartValue
    ∧ (Logic.New.rounded roundDouble).StepSize ≠ 0
    ∧ ⌈roundDouble (roundDouble (doubleOf11 - (Logic.New.rounded roundDouble).StartValue)
        / (Logic.New.rounded roundDouble).StepSize)⌉ + 1 = 6
    ∧ ((∃ curve, ComputeDvh.rounded roundDouble (Logic.New.rounded roundDouble)
          leastIntOnDivisionByZero [1] true doubleOf11 = .ok curve
        ∧ (curve.length : ℤ)
            = (⌈roundDouble (roundDouble
                (doubleOf11 - (Logic.New.rounded roundDouble).StartValue)
                / (Logic.New.rounded roundDouble).StepSize)⌉ + 1) + 1
        ∧ doseAt curve 0 = 0
        ∧ ∀ k : ℕ, (k : ℤ) < ⌈roundDouble (roundDouble
              (doubleOf11 - (Logic.New.rounded roundDouble).StartValue)
              / (Logic.New.rounded roundDouble).StepSize)⌉ + 1 →
            doseAt curve (k + 1) = roundDouble ((Logic.New.rounded roundDouble).StartValue
              + roundDouble ((k : ℚ) * (Logic.New.rounded roundDouble).StepSize)))
      ∧ (Logic.New.rounded roundDouble).StartValue = roundDouble (1 / 10)
      ∧ (Logic.New.rounded roundDouble).StepSize = roundDouble (2 / 10)) :=
  have hc : ⌈roundDouble (roundDouble (doubleOf11 - (Logic.New.rounded roundDouble).StartValue)
      / (Logic.New.rounded roundDouble).StepSize)⌉ + 1 = 6 := by
    have h := rounded_numSamples_11
    simp only [ComputeDvh.rounded.numSamples, if_true] at h
    exact h
  have hstart : 0 ≤ (Logic.New.rounded roundDouble).StartValue := by
    rw [New_rounded_roundDouble]
    norm_num [doubleOf01]
  have hstep : (Logic.New.rounded roundDouble).StepSize ≠ 0 := by
    rw [New_rounded_roundDouble]
    norm_num [doubleOf02]
  ⟨by simp, by simp, hstart, hstep, hc,
    ComputeDvh_rounded_dose_abscissae roundDouble (Logic.New.rounded roundDouble)
      leastIntOnDivisionByZero [1] doubleOf11 (by simp) (by simp) hstart hstep
      (by rw [hc]; decide)⟩

/-- C29, as stated, fails in double arithmetic. With the binning of the
constructor and the maximum dose 3.7000000000000006 (the double that follows
3.7) the rounded quotient is 18, where the exact one is above 18: the function
makes 19 samples, not `ceil((maxDose - startValue)/stepSize) + 1 = 20`, and the
last abscissa is the double 3.7, which is below the maximum dose. With start
value 1, step size 1 and maximum dose `2^-60` (so that
`startValue - stepSize < maxDose`) the rounded difference is -1, the sample
count is 0 and the curve holds the origin anchor alone. -/
theorem ComputeDvh_rounded_axis_below_maximum :
    roundDouble doubleAbove37 = doubleAbove37 ∧ 0 ≤ doubleAbove37
    ∧ ⌈(doubleAbove37 - (Logic.New.rounded roundDouble).StartValue)
        / (Logic.New.rounded roundDouble).StepSize⌉ + 1 = 20
    ∧ ComputeDvh.rounded.numSamples roundDouble (Logic.New.rounded roundDouble) true
        doubleAbove37 = 19
    ∧ (∃ curve, ComputeDvh.rounded roundDouble (Logic.New.rounded roundDouble)
          leastIntOnDivisionByZero [doubleAbove37] true doubleAbove37 = .ok curve
        ∧ curve.length = 20
        ∧ doseAt curve (curve.length - 1) = doubleOf37
        ∧ doseAt curve (curve.length - 1) < doubleAbove37)
    ∧ (1 : ℚ) - 1 < 1 / 2 ^ 60
    ∧ ComputeDvh.rounded.numSamples roundDouble ⟨1, 1, 100⟩ true (1 / 2 ^ 60) = 0
    ∧ ComputeDvh.rounded roundDouble ⟨1, 1, 100⟩ leastIntOnDivisionByZero [1 / 2 ^ 60] true
        (1 / 2 ^ 60) = .ok [(0, 100)] := by
  have hstart : 0 ≤ (Logic.New.rounded roundDouble).StartValue := by
    rw [New_rounded_roundDouble]
    norm_num [doubleOf01]
  have hstep : (Logic.New.rounded roundDouble).StepSize ≠ 0 := by
    rw [New_rounded_roundDouble]
    norm_num [doubleOf02]
  have hmin : 0 ≤ GetMin [doubleAbove37] :=
    GetMin_nonneg _ (by simp [doubleAbove37]; norm_num)
  obtain ⟨samples, hok, hlen, hdoses⟩ := ComputeDvh_rounded_dose_ok roundDouble
    (Logic.New.rounded roundDouble) leastIntOnDivisionByZero [doubleAbove37] doubleAbove37
    (by simp) hmin hstep (by rw [rounded_numSamples_above37]; decide) hstart
  rw [rounded_numSamples_above37] at hlen hdoses
  have hlen19 : samples.length = 19 := by
    rw [hlen]
    rfl
  have hlast : doseAt ((0, 100) :: samples) (((0, 100) :: samples).length - 1)
      = doubleOf37 := by
    rw [List.length_cons, hlen19, show 19 + 1 - 1 = 18 + 1 by rfl, doseAt_cons_succ,
      hdoses 18 (by decide), New_rounded_roundDouble]
    have h := rounded_abscissa_18
    simpa using h
  have hnum0 : ComputeDvh.rounded.numSamples roundDouble ⟨1, 1, 100⟩ true (1 / 2 ^ 60) = 0 := by
    have h1 : roundDouble (1 / 2 ^ 60 - 1) = -1 := by
      rw [roundDouble_of_neg _ (-1) (2 ^ 53) (by norm_num) (by norm_num)
        (by norm_num [abs_lt])]
      norm_num
    have h2 : roundDouble (-1 / 1) = -1 := by
      rw [show ((-1 : ℚ) / 1) = -1 by norm_num, roundDouble_neg, roundDouble_one]
    have h3 : ⌈(-1 : ℚ)⌉ = -1 := by
      rw [Int.ceil_eq_iff]
      norm_num
    simp only [ComputeDvh.rounded.numSamples, if_true, h1, h2, h3]
    rfl
  have hmin0 : 0 ≤ GetMin [(1 : ℚ) / 2 ^ 60] :=
    GetMin_nonneg _ (by simp)
  obtain ⟨samples0, hok0, hlen0, _⟩ := ComputeDvh_rounded_dose_ok roundDouble
    ⟨1, 1, 100⟩ leastIntOnDivisionByZero [1 / 2 ^ 60] (1 / 2 ^ 60)
    (by simp) hmin0 (by norm_num) (by rw [hnum0]) (by norm_num)
  rw [hnum0] at hlen0
  have hnil : samples0 = [] := List.length_eq_zero.mp hlen0
  refine ⟨roundDouble_doubleAbove37.1, by norm_num [doubleAbove37], ?_,
    rounded_numSamples_above37, ⟨_, hok, ?_, hlast, ?_⟩, by norm_num, hnum0, ?_⟩
  · rw [New_rounded_roundDouble]
    have h19 : ⌈(doubleAbove37 - doubleOf01) / doubleOf02⌉ = 19 := by
      rw [Int.ceil_eq_iff]
      norm_num [doubleAbove37, doubleOf01, doubleOf02]
    simp only [h19]
    rfl
  · rw [List.length_cons, hlen19]
  · rw [hlast]
    norm_num [doubleOf37, doubleAbove37]
  · rw [hok0, hnil]

/-- C29, amended. Coverage of the dose axis in the arithmetic of the program:
for every rounding `fl` with relative error at most `u < 1` (double arithmetic
short of overflow and underflow: `u = 2^-53`), a dose volume whose masked doses
are not negative, a start value that is not negative and a positive step size,
when the maximum dose is at or above the start value, or is not negative with
`startValue * (1+u)^2 < stepSize` (the binning of the constructor with any
`maxDose ≥ 0` is such a case), the sample count
`n = ceil(fl (fl (maxDose - startValue) / stepSize)) + 1` is at least 1, the
curve is built with `n + 1` tuples (the origin anchor and the samples), which
is at least 2, and its last abscissa is `fl (startValue + fl ((n-1) * stepSize))`;
when the maximum dose is at or above the start value, the last abscissa is at
least `maxDose * (1-u)^4` and less than `(maxDose + stepSize) * (1+u)^4`. -/
theorem ComputeDvh_rounded_dose_axis_coverage (fl : ℚ → ℚ) (u : ℚ) (self : Logic)
    (fz : ℚ → ℤ) (structureStat : List ℚ) (maxDoseGy : ℚ)
    (hu0 : 0 ≤ u) (hu1 : u < 1) (hfl : ∀ x, |fl x - x| ≤ u * |x|)
    (hne : structureStat ≠ []) (hdose : ∀ v ∈ structureStat, 0 ≤ v)
    (hstart : 0 ≤ self.StartValue) (hstep : 0 < self.StepSize)
    (hreach : self.StartValue ≤ maxDoseGy
      ∨ (0 ≤ maxDoseGy ∧ self.StartValue * (1 + u) ^ 2 < self.StepSize)) :
    ComputeDvh.rounded.numSamples fl self true maxDoseGy
        = ⌈fl (fl (maxDoseGy - self.StartValue) / self.StepSize)⌉ + 1
    ∧ 1 ≤ ComputeDvh.rounded.numSamples fl self true maxDoseGy
    ∧ ∃ curve, ComputeDvh.rounded fl self fz structureStat true maxDoseGy = .ok curve
      ∧ 2 ≤ curve.length
      ∧ (curve.length : ℤ) = ComputeDvh.rounded.numSamples fl self true maxDoseGy + 1
      ∧ doseAt curve (curve.length - 1) = fl (self.StartValue
          + fl (((ComputeDvh.rounded.numSamples fl self true maxDoseGy : ℚ) - 1)
              * self.StepSize))
      ∧ (self.StartValue ≤ maxDoseGy →
          maxDoseGy * (1 - u) ^ 4 ≤ doseAt curve (curve.length - 1)
          ∧ doseAt curve (curve.length - 1) < (maxDoseGy + self.StepSize) * (1 + u) ^ 4) := by
  have hnum : ComputeDvh.rounded.numSamples fl self true maxDoseGy
      = ⌈fl (fl (maxDoseGy - self.StartValue) / self.StepSize)⌉ + 1 := by
    simp [ComputeDvh.rounded.numSamples]
  have hq : -1 < fl (fl (maxDoseGy - self.StartValue) / self.StepSize) := by
    rcases hreach with hsM | ⟨hM, hsmall⟩
    · have := rounded_quotient_nonneg fl u hu1 hfl self.StartValue self.StepSize maxDoseGy
        hstep hsM
      linarith
    · exact rounded_quotient_above_minus_one fl u hu0 hu1 hfl self.StartValue self.StepSize
        maxDoseGy hstart hstep hM hsmall
  have hceil : 0 ≤ ⌈fl (fl (maxDoseGy - self.StartValue) / self.StepSize)⌉ := by
    have h1 : ((-1 : ℤ) : ℚ) < fl (fl (maxDoseGy - self.StartValue) / self.StepSize) := by
      push_cast
      exact hq
    have h2 := Int.lt_ceil.mpr h1
    omega
  have hn : 1 ≤ ComputeDvh.rounded.numSamples fl self true maxDoseGy := by
    rw [hnum]
    omega
  obtain ⟨samples, hok, hlen, hdoses⟩ := ComputeDvh_rounded_dose_ok fl self fz structureStat
    maxDoseGy hne (GetMin_nonneg structureStat hdose) hstep.ne' (by omega) hstart
  obtain ⟨m, hm⟩ : ∃ m : ℕ, (ComputeDvh.rounded.numSamples fl self true maxDoseGy).toNat
      = m + 1 := ⟨(ComputeDvh.rounded.numSamples fl self true maxDoseGy).toNat - 1, by omega⟩
  have hcast : (ComputeDvh.rounded.numSamples fl self true maxDoseGy : ℚ) - 1 = (m : ℚ) := by
    have h1 : ComputeDvh.rounded.numSamples fl self true maxDoseGy = (m : ℤ) + 1 := by omega
    rw [h1]
    push_cast
    ring
  have hmceil : (m : ℚ)
      = ((⌈fl (fl (maxDoseGy - self.StartValue) / self.StepSize)⌉ : ℤ) : ℚ) := by
    have h1 : (m : ℤ) = ⌈fl (fl (maxDoseGy - self.StartValue) / self.StepSize)⌉ := by
      rw [hnum] at hm
      omega
    rw [← h1]
    push_cast
    rfl
  have hlast : doseAt ((0, 100) :: samples) (((0, 100) :: samples).length - 1)
      = fl (self.StartValue
          + fl (((ComputeDvh.rounded.numSamples fl self true maxDoseGy : ℚ) - 1)
              * self.StepSize)) := by
    rw [List.length_cons, hlen, hm, Nat.add_sub_cancel, doseAt_cons_succ,
      hdoses m (by omega), hcast]
  refine ⟨hnum, hn, _, hok, ?_, ?_, hlast, ?_⟩
  · rw [List.length_cons, hlen]
    omega
  · rw [List.length_cons, hlen]
    omega
  · intro hsM
    rw [hlast, hcast, hmceil]
    exact rounded_last_abscissa_bounds fl u hu0 hu1 hfl self.StartValue self.StepSize
      maxDoseGy hstart hstep hsM

/-- Witness of the amended C29: double arithmetic with relative error `2^-53`,
binning of the constructor, one masked voxel of dose 1.1, maximum dose 1.1. -/
theorem ComputeDvh_rounded_dose_axis_coverage_witness :
    (0 : ℚ) ≤ 1 / 2 ^ 53 ∧ (1 : ℚ) / 2 ^ 53 < 1
    ∧ (∀ x, |roundDouble x - x| ≤ 1 / 2 ^ 53 * |x|)
    ∧ ([doubleOf11] : List ℚ) ≠ [] ∧ (∀ v ∈ ([doubleOf11] : List ℚ), 0 ≤ v)
    ∧ 0 ≤ (Logic.New.rounded roundDouble).StartValue
    ∧ 0 < (Logic.New.rounded roundDouble).StepSize
    ∧ ((Logic.New.rounded roundDouble).StartValue ≤ doubleOf11
      ∨ (0 ≤ doubleOf11 ∧ (Logic.New.rounded roundDouble).StartValue * (1 + 1 / 2 ^ 53) ^ 2
          < (Logic.New.rounded roundDouble).StepSize))
    ∧ ComputeDvh.rounded.numSamples roundDouble (Logic.New.rounded roundDouble) true doubleOf11
        = ⌈roundDouble (roundDouble (doubleOf11 - (Logic.New.rounded roundDouble).StartValue)
            / (Logic.New.rounded roundDouble).StepSize)⌉ + 1
    ∧ 1 ≤ ComputeDvh.rounded.numSamples roundDouble (Logic.New.rounded roundDouble) true
        doubleOf11
    ∧ ∃ curve, ComputeDvh.rounded roundDouble (Logic.New.rounded roundDouble)
        leastIntOnDivisionByZero [doubleOf11] true doubleOf11 = .ok curve
      ∧ 2 ≤ curve.length
      ∧ (curve.length : ℤ)
          = ComputeDvh.rounded.numSamples roundDouble (Logic.New.rounded roundDouble) true
              doubleOf11 + 1
      ∧ doseAt curve (curve.length - 1)
          = roundDouble ((Logic.New.rounded roundDouble).StartValue
              + roundDouble (((ComputeDvh.rounded.numSamples roundDouble
                  (Logic.New.rounded roundDouble) true doubleOf11 : ℚ) - 1)
                * (Logic.New.rounded roundDouble).StepSize))
      ∧ ((Logic.New.rounded roundDouble).StartValue ≤ doubleOf11 →
          doubleOf11 * (1 - 1 / 2 ^ 53) ^ 4 ≤ doseAt curve (curve.length - 1)
          ∧ doseAt curve (curve.length - 1)
              < (doubleOf11 + (Logic.New.rounded roundDouble).StepSize)
                  * (1 + 1 / 2 ^ 53) ^ 4) :=
  have hstart : 0 ≤ (Logic.New.rounded roundDouble).StartValue := by
    rw [New_rounded_roundDouble]
    norm_num [doubleOf01]
  have hstep : 0 < (Logic.New.rounded roundDouble).StepSize := by
    rw [New_rounded_roundDouble]
    norm_num [doubleOf02]
  have hreach : (Logic.New.rounded roundDouble).StartValue ≤ doubleOf11
      ∨ (0 ≤ doubleOf11 ∧ (Logic.New.rounded roundDouble).StartValue * (1 + 1 / 2 ^ 53) ^ 2
          < (Logic.New.rounded roundDouble).StepSize) := by
    left
    rw [New_rounded_roundDouble]
    norm_num [doubleOf01, doubleOf11]
  have hv : ∀ v ∈ ([doubleOf11] : List ℚ), 0 ≤ v := by
    intro v hv
    simp only [List.mem_singleton] at hv
    rw [hv]
    norm_num [doubleOf11]
  ⟨by norm_num, by norm_num, roundDouble_relative_error, by simp, hv, hstart, hstep, hreach,
    ComputeDvh_rounded_dose_axis_coverage roundDouble (1 / 2 ^ 53)
      (Logic.New.rounded roundDouble) leastIntOnDivisionByZero [doubleOf11] doubleOf11
      (by norm_num) (by norm_num) roundDouble_relative_error (by simp) hv hstart hstep hreach⟩

/-! ## Lemmas on the numerals of a metric string (C30) -/

theorem digitsValue_append (front back : Text) :
    digitsValue (front ++ back) = digitsValue front * 10 ^ back.length + digitsValue back := by
  induction back using List.reverseRecOn with
  | nil => simp [digitsValue]
  | append_singleton back c ih =>
    have h1 : digitsValue (front ++ (back ++ [c]))
        = digitsValue (front ++ back) * 10 + digitValue c := by
      unfold digitsValue
      rw [← List.append_assoc, List.foldl_append]
      rfl
    have h2 : digitsValue (back ++ [c]) = digitsValue back * 10 + digitValue c := by
      unfold digitsValue
      rw [List.foldl_append]
      rfl
    rw [h1, h2, ih, List.length_append, List.length_singleton, pow_succ]
    ring

/-- Extraction from digits that are not followed by anything. -/
theorem extractDouble_digits (integerDigits : Text) (hne : integerDigits ≠ [])
    (hi : ∀ c ∈ integerDigits, isDigit c = true) :
    extractDouble integerDigits = some ((digitsValue integerDigits : ℕ) : ℚ) := by
  obtain ⟨c, tail, rfl⟩ := List.exists_cons_of_ne_nil hne
  have hc : isDigit c = true := hi c (List.mem_cons_self _ _)
  have hsp : (c :: tail).dropWhile isSpace = c :: tail := by
    rw [List.dropWhile_cons, isSpace_of_isDigit c hc]
    simp
  have hsign : extractDouble.signed (c :: tail) = (false, c :: tail) := by
    rw [extractDouble.signed, if_neg (ne_minus_of_isDigit c hc),
      if_neg (ne_plus_of_isDigit c hc)]
  have htake : (c :: tail).takeWhile isDigit = c :: tail := by
    have := takeWhile_isDigit_append (c :: tail) [] hi (by simp)
    simpa using this
  have hdrop : (c :: tail).dropWhile isDigit = [] := by
    have := dropWhile_isDigit_append (c :: tail) [] hi (by simp)
    simpa using this
  unfold extractDouble extractDouble.scan
  simp only [hsp, hsign, htake, hdrop, extractDouble.fraction, extractDouble.exponent]
  simp [extractDouble.value]

/-- Extraction from a minus sign and digits that are not followed by anything. -/
theorem extractDouble_minus_digits (integerDigits : Text) (hne : integerDigits ≠ [])
    (hi : ∀ c ∈ integerDigits, isDigit c = true) :
    extractDouble ('-' :: integerDigits) = some (-((digitsValue integerDigits : ℕ) : ℚ)) := by
  have hsp : ('-' :: integerDigits).dropWhile isSpace = '-' :: integerDigits := by
    rw [List.dropWhile_cons]
    rfl
  have hsign : extractDouble.signed ('-' :: integerDigits) = (true, integerDigits) := by
    rw [extractDouble.signed, if_pos rfl]
  have htake : integerDigits.takeWhile isDigit = integerDigits := by
    have := takeWhile_isDigit_append integerDigits [] hi (by simp)
    simpa using this
  have hdrop : integerDigits.dropWhile isDigit = [] := by
    have := dropWhile_isDigit_append integerDigits [] hi (by simp)
    simpa using this
  unfold extractDouble extractDouble.scan
  simp only [hsp, hsign, htake, hdrop, extractDouble.fraction, extractDouble.exponent]
  simp [hne, extractDouble.value]

/-- The value of the digits of a numeral with `k` decimals. -/
theorem digitsValue_decimals (integer fraction : Text) :
    ((digitsValue (integer ++ fraction) : ℕ) : ℚ) / 10 ^ fraction.length
      = (digitsValue integer : ℚ) + (digitsValue fraction : ℚ) / 10 ^ fraction.length := by
  rw [digitsValue_append]
  push_cast
  field_simp

/-- The stream extraction takes from a decimal numeral the number that it
denotes. -/
theorem extractDouble_of_numeral (token : Text) (number : ℚ) (h : IsDecimalNumeral token number) :
    extractDouble token = some number := by
  obtain ⟨negative, integer, fraction, hne, hi, hf, hform, hnumber⟩ := h
  cases negative with
  | false =>
    simp only [Bool.false_eq_true, if_false, List.nil_append, one_mul] at hform hnumber
    rcases hform with ⟨htoken, hfrac⟩ | htoken
    · rw [htoken, hnumber, hfrac, extractDouble_digits integer hne hi]
      simp [digitsValue]
    · rw [htoken, hnumber, extractDouble_unsigned integer fraction hne hi hf,
        digitsValue_decimals]
  | true =>
    simp only [if_true, List.singleton_append, List.cons_append, List.nil_append] at hform hnumber
    rcases hform with ⟨htoken, hfrac⟩ | htoken
    · rw [htoken, hnumber, hfrac, extractDouble_minus_digits integer hne hi]
      simp [digitsValue]
    · rw [htoken, hnumber, extractDouble_negative integer fraction hne hi hf,
        digitsValue_decimals]
      congr 1
      ring

theorem ne_comma_of_isDigit (c : Char) (h : isDigit c = true) : c ≠ ',' := by
  rintro rfl
  exact absurd h (by decide)

/-- A decimal numeral holds no comma. -/
theorem not_mem_comma_of_numeral (token : Text) (number : ℚ)
    (h : IsDecimalNumeral token number) : ',' ∉ token := by
  obtain ⟨negative, integer, fraction, _, hi, hf, hform, _⟩ := h
  have hsign : ',' ∉ (if negative = true then ['-'] else ([] : Text)) := by
    cases negative <;> simp
  have hint : ',' ∉ integer := fun hmem => ne_comma_of_isDigit _ (hi _ hmem) rfl
  have hfrac : ',' ∉ fraction := fun hmem => ne_comma_of_isDigit _ (hf _ hmem) rfl
  rcases hform with ⟨htoken, _⟩ | htoken
  · rw [htoken, List.mem_append]
    exact fun hmem => hmem.elim hsign hint
  · rw [htoken, List.mem_append, List.mem_append, List.mem_cons]
    rintro ((hmem | hmem) | hmem | hmem)
    · exact hsign hmem
    · exact hint hmem
    · exact absurd hmem (by decide)
    · exact hfrac hmem

/-- Every token that stands for something holds no comma. -/
theorem not_mem_comma_of_yields (tokens : List Text) (results : List (Option ℚ))
    (h : List.Forall₂ TokenYields tokens results) : ∀ token ∈ tokens, ',' ∉ token := by
  induction h with
  | nil => intro token hmem; exact absurd hmem (List.not_mem_nil _)
  | @cons token result tokens results hhead _ ih =>
    intro t hmem
    rw [List.mem_cons] at hmem
    rcases hmem with rfl | hmem
    · cases result with
      | none => exact hhead.1
      | some number => exact not_mem_comma_of_numeral _ number hhead.1
    · exact ih t hmem

/-- The numbers that the checked extraction takes from tokens are the numbers
for which the tokens stand. -/
theorem filterMap_of_yields (tokens : List Text) (results : List (Option ℚ))
    (h : List.Forall₂ TokenYields tokens results) :
    tokens.filterMap extractDouble.checked = results.reduceOption := by
  induction h with
  | nil => rfl
  | @cons token result tokens results hhead _ ih =>
    cases result with
    | none =>
      rw [List.filterMap_cons, hhead.2, ih, List.reduceOption_cons_of_none]
    | some number =>
      rw [List.filterMap_cons, extractDouble_checked_of_lt token number
        (extractDouble_of_numeral token number hhead.1) hhead.2.1, ih,
        List.reduceOption_cons_of_some]

/-- The numbers of tokens joined by commas, with a comma behind the last token
or without. -/
theorem GetNumbersFromMetricString_commaJoined (tokens : List Text) (trailingComma : Bool)
    (previous : List ℚ) (hcomma : ∀ token ∈ tokens, ',' ∉ token) :
    GetNumbersFromMetricString (commaJoined tokens trailingComma) previous
      = tokens.filterMap extractDouble.checked := by
  cases trailingComma with
  | true =>
    have h := GetNumbersFromMetricString_terminated tokens [] previous hcomma
      (List.not_mem_nil _)
    rw [List.append_nil, List.filterMap_append] at h
    simp only [commaJoined, if_true]
    rw [h]
    simp [List.filterMap_cons, extractDouble_checked_nil]
  | false =>
    simp only [commaJoined, Bool.false_eq_true, if_false]
    rcases List.eq_nil_or_concat tokens with hnil | ⟨front, last, hconcat⟩
    · rw [hnil]
      have h := GetNumbersFromMetricString_terminated [] [] previous
        (fun _ h => absurd h (List.not_mem_nil _)) (List.not_mem_nil _)
      simp only [List.map_nil, List.flatten_nil, List.append_nil, List.nil_append] at h
      rw [show ([','] : Text).intercalate [] = [] from rfl, h]
      simp [List.filterMap_cons, extractDouble_checked_nil]
    · rw [hconcat, List.concat_eq_append, intercalate_append_singleton]
      rw [hconcat, List.concat_eq_append] at hcomma
      exact GetNumbersFromMetricString_terminated front last previous
        (fun token h => hcomma token (List.mem_append_left _ h))
        (hcomma last (List.mem_append_right _ (List.mem_singleton_self _)))

/-- No number can be extracted from a token whose first character is neither
white space nor a digit, a sign or a decimal point. -/
theorem extractDouble_checked_of_other_start (c : Char) (rest : Text)
    (hspace : isSpace c = false) (hdigit : isDigit c = false) (hminus : c ≠ '-')
    (hplus : c ≠ '+') (hpoint : c ≠ '.') :
    extractDouble.checked (c :: rest) = none := by
  have hsp : (c :: rest).dropWhile isSpace = c :: rest := by
    rw [List.dropWhile_cons, hspace]
    simp
  have hsign : extractDouble.signed (c :: rest) = (false, c :: rest) := by
    rw [extractDouble.signed, if_neg hminus, if_neg hplus]
  have htake : (c :: rest).takeWhile isDigit = [] := by
    rw [List.takeWhile_cons, hdigit]
    simp
  have hdrop : (c :: rest).dropWhile isDigit = c :: rest := by
    rw [List.dropWhile_cons, hdigit]
    simp
  have hscan : extractDouble.scan (c :: rest) = none := by
    unfold extractDouble.scan
    simp only [hsp, hsign, htake, hdrop, extractDouble.fraction, if_neg hpoint]
    simp
  unfold extractDouble.checked extractDouble
  rw [hscan]
  rfl

/-! ## Theorem on the numbers of a metric string (C30) -/

/-- C30. `GetNumbersFromMetricString` on tokens joined by commas, with a comma
behind the last token or without, where every token is either the decimal
numeral of a number within the range of `double` (zero or a normal double) or a
token without a comma from which no number can be extracted (the empty token is
one): the output
vector holds exactly the numbers of the numerals, in their order, whatever it
held before; the other tokens are left out without effect on the numbers of the
numerals, so the output is never longer than the list of tokens; in particular,
when every token is a numeral the output is the list of the numbers. Among the
tokens from which no number can be extracted are the empty token and every
token without a comma whose first character is neither white space nor a
digit, a sign or a decimal point. -/
theorem GetNumbersFromMetricString_numerals (tokens : List Text) (results : List (Option ℚ))
    (trailingComma : Bool) (previous : List ℚ)
    (hresults : List.Forall₂ TokenYields tokens results) :
    GetNumbersFromMetricString (commaJoined tokens trailingComma) previous
        = results.reduceOption
    ∧ (GetNumbersFromMetricString (commaJoined tokens trailingComma) previous).length
        ≤ tokens.length
    ∧ ((∀ result ∈ results, result ≠ none) →
        (GetNumbersFromMetricString (commaJoined tokens trailingComma) previous).map some
          = results)
    ∧ TokenYields [] none
    ∧ (∀ (c : Char) (rest : Text), ',' ∉ c :: rest → isSpace c = false → isDigit c = false →
        c ≠ '-' → c ≠ '+' → c ≠ '.' → TokenYields (c :: rest) none) := by
  have hmain : GetNumbersFromMetricString (commaJoined tokens trailingComma) previous
      = results.reduceOption := by
    rw [GetNumbersFromMetricString_commaJoined tokens trailingComma previous
      (not_mem_comma_of_yields tokens results hresults)]
    exact filterMap_of_yields tokens results hresults
  refine ⟨hmain, ?_, ?_, ⟨List.not_mem_nil _, extractDouble_checked_nil⟩,
    fun c rest hcomma hspace hdigit hminus hplus hpoint =>
      ⟨hcomma, extractDouble_checked_of_other_start c rest hspace hdigit hminus hplus hpoint⟩⟩
  · rw [hmain, List.Forall₂.length_eq hresults]
    exact List.reduceOption_length_le results
  · intro hall
    rw [hmain]
    clear hmain hresults
    induction results with
    | nil => rfl
    | cons result results ih =>
      cases result with
      | none => exact absurd rfl (hall none (List.mem_cons_self _ _))
      | some number =>
        rw [List.reduceOption_cons_of_some, List.map_cons,
          ih (fun r hr => hall r (List.mem_cons_of_mem _ hr))]

/-- The decimal numeral `5`. -/
theorem isDecimalNumeral_five : IsDecimalNumeral "5".toList 5 := by
  refine ⟨false, "5".toList, [], by decide, by decide, by simp, Or.inl ⟨rfl, rfl⟩, ?_⟩
  have h : digitsValue "5".toList = 5 := by decide
  rw [h]
  norm_num [digitsValue]

/-- The decimal numeral `10.5`. -/
theorem isDecimalNumeral_ten_and_a_half : IsDecimalNumeral "10.5".toList (21 / 2) := by
  refine ⟨false, "10".toList, "5".toList, by decide, by decide, by decide, Or.inr rfl, ?_⟩
  have h1 : digitsValue "10".toList = 10 := by decide
  have h2 : digitsValue "5".toList = 5 := by decide
  have h3 : "5".toList.length = 1 := rfl
  rw [h1, h2, h3]
  norm_num

/-- The decimal numeral `-0.25`. -/
theorem isDecimalNumeral_minus_quarter : IsDecimalNumeral "-0.25".toList (-(1 / 4)) := by
  refine ⟨true, "0".toList, "25".toList, by decide, by decide, by decide, Or.inr rfl, ?_⟩
  have h1 : digitsValue "0".toList = 0 := by decide
  have h2 : digitsValue "25".toList = 25 := by decide
  have h3 : "25".toList.length = 2 := rfl
  rw [h1, h2, h3]
  norm_num

/-- No number can be extracted from the token `x`. -/
theorem extractDouble_checked_letter : extractDouble.checked "x".toList = none := by
  have h : extractDouble.scan "x".toList = none := by decide
  unfold extractDouble.checked extractDouble
  rw [h]
  rfl

/-- The numeral `1e400` is beyond the range of `double`: the extraction fails. -/
theorem extractDouble_checked_overflow : extractDouble.checked "1e400".toList = none := by
  have h : extractDouble "1e400".toList = some (10 ^ 400) := by
    rw [extractDouble_of_scan _ (false, 1, 0, 400) (by decide)]
    norm_num [extractDouble.value]
  unfold extractDouble.checked
  rw [h]
  exact if_pos (by norm_num [doubleOverflowThreshold])

/-- Witness of C30: the tokens `5`, the empty token, `x`, `10.5`, `1e400` and
`-0.25`, joined without a comma at the end, with an output vector that held the
number 7: the output holds 5, 10.5 and -0.25. -/
theorem GetNumbersFromMetricString_numerals_witness :
    List.Forall₂ TokenYields
        ["5".toList, [], "x".toList, "10.5".toList, "1e400".toList, "-0.25".toList]
        [some 5, none, none, some (21 / 2), none, some (-(1 / 4))]
    ∧ commaJoined ["5".toList, [], "x".toList, "10.5".toList, "1e400".toList, "-0.25".toList]
        false = "5,,x,10.5,1e400,-0.25".toList
    ∧ ([some 5, none, none, some (21 / 2), none, some (-(1 / 4))] : List (Option ℚ)).reduceOption
        = [5, 21 / 2, -(1 / 4)]
    ∧ (GetNumbersFromMetricString
          (commaJoined
            ["5".toList, [], "x".toList, "10.5".toList, "1e400".toList, "-0.25".toList] false)
          [7]
        = ([some 5, none, none, some (21 / 2), none, some (-(1 / 4))] :
            List (Option ℚ)).reduceOption
      ∧ (GetNumbersFromMetricString
          (commaJoined
            ["5".toList, [], "x".toList, "10.5".toList, "1e400".toList, "-0.25".toList] false)
          [7]).length
          ≤ ["5".toList, [], "x".toList, "10.5".toList, "1e400".toList, "-0.25".toList].length
      ∧ ((∀ result ∈ ([some 5, none, none, some (21 / 2), none, some (-(1 / 4))] :
            List (Option ℚ)), result ≠ none) →
          (GetNumbersFromMetricString
            (commaJoined
              ["5".toList, [], "x".toList, "10.5".toList, "1e400".toList, "-0.25".toList] false)
            [7]).map some
            = [some 5, none, none, some (21 / 2), none, some (-(1 / 4))])
      ∧ TokenYields [] none
      ∧ (∀ (c : Char) (rest : Text), ',' ∉ c :: rest → isSpace c = false →
          isDigit c = false → c ≠ '-' → c ≠ '+' → c ≠ '.' → TokenYields (c :: rest) none)) :=
  have hresults : List.Forall₂ TokenYields
      ["5".toList, [], "x".toList, "10.5".toList, "1e400".toList, "-0.25".toList]
      [some 5, none, none, some (21 / 2), none, some (-(1 / 4))] :=
    List.Forall₂.cons ⟨isDecimalNumeral_five, by norm_num [doubleOverflowThreshold, abs_lt],
      Or.inr (by norm_num [abs_of_pos])⟩
      (List.Forall₂.cons ⟨List.not_mem_nil _, extractDouble_checked_nil⟩
        (List.Forall₂.cons ⟨by decide, extractDouble_checked_letter⟩
          (List.Forall₂.cons
            ⟨isDecimalNumeral_ten_and_a_half, by norm_num [doubleOverflowThreshold, abs_lt],
              Or.inr (by norm_num [abs_of_pos])⟩
            (List.Forall₂.cons ⟨by decide, extractDouble_checked_overflow⟩
              (List.Forall₂.cons
                ⟨isDecimalNumeral_minus_quarter, by norm_num [doubleOverflowThreshold, abs_lt],
                  Or.inr (by norm_num [abs_of_pos])⟩
                List.Forall₂.nil)))))
  ⟨hresults, by decide, rfl,
    GetNumbersFromMetricString_numerals
      ["5".toList, [], "x".toList, "10.5".toList, "1e400".toList, "-0.25".toList]
      [some 5, none, none, some (21 / 2), none, some (-(1 / 4))] false [7] hresults⟩

/-! ## Lemmas on the total volume attribute (C21) -/

theorem volumeFields_length : ∀ (fields : List Text) (fieldCount : ℕ),
    (ReadCsvToDoubleArrayNode.volumeFields fieldCount fields).length
      = (fields.length + fieldCount % 2) / 2 := by
  intro fields
  induction fields with
  | nil =>
    intro fieldCount
    simp only [ReadCsvToDoubleArrayNode.volumeFields, List.length_nil]
    omega
  | cons field rest ih =>
    intro fieldCount
    unfold ReadCsvToDoubleArrayNode.volumeFields
    split_ifs with h
    · rw [List.length_cons, ih, List.length_cons]
      omega
    · rw [ih, List.length_cons]
      omega

theorem mem_of_mem_volumeFields : ∀ (fields : List Text) (fieldCount : ℕ) (field : Text),
    field ∈ ReadCsvToDoubleArrayNode.volumeFields fieldCount fields → field ∈ fields := by
  intro fields
  induction fields with
  | nil =>
    intro fieldCount field h
    simp [ReadCsvToDoubleArrayNode.volumeFields] at h
  | cons first rest ih =>
    intro fieldCount field h
    unfold ReadCsvToDoubleArrayNode.volumeFields at h
    split_ifs at h with hodd
    · rcases List.mem_cons.mp h with rfl | h
      · exact List.mem_cons_self _ _
      · exact List.mem_cons_of_mem _ (ih _ _ h)
    · exact List.mem_cons_of_mem _ (ih _ _ h)

/-- The name and the volume taken from a header field in which the marker is
found, or which has 12 characters or more. -/
theorem volumeField_entryOf (failedExtraction : ℚ) (field : Text) (hlen : field.length < 16384)
    (h : find field DVH_CSV_HEADER_VOLUME_FIELD_MIDDLE ≠ npos ∨ 12 ≤ field.length) :
    ReadCsvToDoubleArrayNode.volumeField failedExtraction field
        (find field DVH_CSV_HEADER_VOLUME_FIELD_MIDDLE)
      = .ok (ReadCsvToDoubleArrayNode.entryOf failedExtraction field) := by
  by_cases hfind : find field DVH_CSV_HEADER_VOLUME_FIELD_MIDDLE = npos
  · have hlong : 12 ≤ field.length := h.resolve_left (fun hne => hne hfind)
    have h9 : sizeSub npos DVH_ARRAY_NODE_NAME_POSTFIX.length = 2 ^ 64 - 10 := by decide
    have h13 : sizeAdd npos DVH_CSV_HEADER_VOLUME_FIELD_MIDDLE.length = 12 := by decide
    have hm : DVH_CSV_HEADER_VOLUME_FIELD_MIDDLE.length = 13 := rfl
    have hsub : sizeSub (sizeSub field.length npos) 13 = field.length - 12 := by
      have h1 : sizeSub field.length npos = field.length + 1 := by
        unfold sizeSub npos
        norm_num
        omega
      rw [h1, sizeSub_of_le _ _ (by omega) (by omega)]
      omega
    have htake : field.take (2 ^ 64 - 10) = field := List.take_of_length_le (by omega)
    unfold ReadCsvToDoubleArrayNode.entryOf
    rw [hfind, (volumeField_without_marker failedExtraction field hlen).2 hlong, h9, h13, hm,
      hsub, htake]
    rfl
  · rw [volumeField_of_valid failedExtraction field _ (find_valid_of_ne_npos field _ hfind)]
    rfl

/-- The whole field is the name taken from a field without the marker. -/
theorem entryOf_without_marker (failedExtraction : ℚ) (field : Text)
    (hlen : field.length < 16384)
    (hfind : find field DVH_CSV_HEADER_VOLUME_FIELD_MIDDLE = npos) :
    (ReadCsvToDoubleArrayNode.entryOf failedExtraction field).1 = field := by
  have h9 : sizeSub npos DVH_ARRAY_NODE_NAME_POSTFIX.length = 2 ^ 64 - 10 := by decide
  unfold ReadCsvToDoubleArrayNode.entryOf
  simp only [hfind, h9]
  exact List.take_of_length_le (by omega)

/-- The header loop on fields of any form, when no volume field makes `substr`
throw. -/
theorem headerLoop_of_readable (failedExtraction : ℚ) :
    ∀ (fields : List Text) (state : HeaderState),
      (∀ field ∈ fields, field.length < 16384) →
      (∀ field ∈ ReadCsvToDoubleArrayNode.volumeFields state.fieldCount fields,
        find field DVH_CSV_HEADER_VOLUME_FIELD_MIDDLE ≠ npos ∨ 12 ≤ field.length) →
      ReadCsvToDoubleArrayNode.headerLoop failedExtraction fields state
        = .ok { fieldCount := state.fieldCount + fields.length,
                structureNames := state.structureNames
                  ++ (ReadCsvToDoubleArrayNode.volumeFields state.fieldCount fields).map
                      (fun field => (ReadCsvToDoubleArrayNode.entryOf failedExtraction field).1),
                structureVolumeCCs := state.structureVolumeCCs
                  ++ (ReadCsvToDoubleArrayNode.volumeFields state.fieldCount fields).map
                      (fun field =>
                        (ReadCsvToDoubleArrayNode.entryOf failedExtraction field).2) } := by
  intro fields
  induction fields with
  | nil =>
    intro state _ _
    simp [ReadCsvToDoubleArrayNode.headerLoop, ReadCsvToDoubleArrayNode.volumeFields]
    rfl
  | cons field rest ih =>
    intro state hshort hreadable
    have hrest : ∀ f ∈ rest, f.length < 16384 := fun f hf => hshort f (List.mem_cons_of_mem _ hf)
    by_cases hodd : state.fieldCount % 2 = 1
    · have hvf : ReadCsvToDoubleArrayNode.volumeFields state.fieldCount (field :: rest)
          = field :: ReadCsvToDoubleArrayNode.volumeFields (state.fieldCount + 1) rest := by
        rw [ReadCsvToDoubleArrayNode.volumeFields, if_pos hodd]
      rw [hvf] at hreadable ⊢
      have hentry := volumeField_entryOf failedExtraction field
        (hshort field (List.mem_cons_self _ _)) (hreadable field (List.mem_cons_self _ _))
      rw [ReadCsvToDoubleArrayNode.headerLoop, if_pos hodd]
      simp only [hentry, bind, Except.bind]
      rw [ih _ hrest (fun f hf => hreadable f (List.mem_cons_of_mem _ hf))]
      simp only [List.length_cons, List.map_cons, List.append_assoc, List.singleton_append]
      congr 2
      ring
    · have hvf : ReadCsvToDoubleArrayNode.volumeFields state.fieldCount (field :: rest)
          = ReadCsvToDoubleArrayNode.volumeFields (state.fieldCount + 1) rest := by
        rw [ReadCsvToDoubleArrayNode.volumeFields, if_neg hodd]
      rw [hvf] at hreadable ⊢
      rw [ReadCsvToDoubleArrayNode.headerLoop, if_neg hodd,
        ih { state with fieldCount := state.fieldCount + 1 } hrest hreadable]
      simp only [List.length_cons]
      congr 2
      ring

/-- The header loop on fields of any form, when a volume field without the
marker has fewer than 12 characters: `substr` throws. -/
theorem headerLoop_of_short (failedExtraction : ℚ) :
    ∀ (fields : List Text) (state : HeaderState),
      (∀ field ∈ fields, field.length < 16384) →
      (∃ field ∈ ReadCsvToDoubleArrayNode.volumeFields state.fieldCount fields,
        find field DVH_CSV_HEADER_VOLUME_FIELD_MIDDLE = npos ∧ field.length < 12) →
      ReadCsvToDoubleArrayNode.headerLoop failedExtraction fields state
        = .error .out_of_range := by
  intro fields
  induction fields with
  | nil =>
    intro state _ h
    obtain ⟨field, hmem, _⟩ := h
    simp [ReadCsvToDoubleArrayNode.volumeFields] at hmem
  | cons field rest ih =>
    intro state hshort hbad
    have hrest : ∀ f ∈ rest, f.length < 16384 := fun f hf => hshort f (List.mem_cons_of_mem _ hf)
    obtain ⟨bad, hmem, hfind, hlen⟩ := hbad
    by_cases hodd : state.fieldCount % 2 = 1
    · rw [ReadCsvToDoubleArrayNode.volumeFields, if_pos hodd] at hmem
      rw [ReadCsvToDoubleArrayNode.headerLoop, if_pos hodd]
      by_cases hthis : find field DVH_CSV_HEADER_VOLUME_FIELD_MIDDLE = npos ∧ field.length < 12
      · have herror : ReadCsvToDoubleArrayNode.volumeField failedExtraction field
            (find field DVH_CSV_HEADER_VOLUME_FIELD_MIDDLE) = .error .out_of_range := by
          rw [hthis.1]
          exact (volumeField_without_marker failedExtraction field
            (hshort field (List.mem_cons_self _ _))).1 hthis.2
        simp only [herror, bind, Except.bind]
      · have hreadable : find field DVH_CSV_HEADER_VOLUME_FIELD_MIDDLE ≠ npos
            ∨ 12 ≤ field.length := by
          by_cases h1 : find field DVH_CSV_HEADER_VOLUME_FIELD_MIDDLE = npos
          · right
            by_contra h2
            exact hthis ⟨h1, by omega⟩
          · left
            exact h1
        have hentry := volumeField_entryOf failedExtraction field
          (hshort field (List.mem_cons_self _ _)) hreadable
        have hmem2 : bad ∈ ReadCsvToDoubleArrayNode.volumeFields (state.fieldCount + 1) rest := by
          rcases List.mem_cons.mp hmem with rfl | h
          · exact absurd ⟨hfind, hlen⟩ hthis
          · exact h
        simp only [hentry, bind, Except.bind]
        exact ih _ hrest ⟨bad, hmem2, hfind, hlen⟩
    · rw [ReadCsvToDoubleArrayNode.volumeFields, if_neg hodd] at hmem
      rw [ReadCsvToDoubleArrayNode.headerLoop, if_neg hodd]
      exact ih { state with fieldCount := state.fieldCount + 1 } hrest ⟨bad, hmem, hfind, hlen⟩

/-- A field of a line is no longer than the line. -/
theorem length_le_of_mem_fields (sep : Char) (last : Text) :
    ∀ (fields : List Text), ∀ field ∈ fields,
      field.length ≤ ((fields.map (fun f => f ++ [sep])).flatten ++ last).length := by
  intro fields
  induction fields with
  | nil =>
    intro field h
    simp at h
  | cons first rest ih =>
    intro field h
    simp only [List.map_cons, List.flatten_cons, List.length_append, List.length_singleton]
    rcases List.mem_cons.mp h with rfl | hmem
    · omega
    · have := ih field hmem
      simp only [List.length_append] at this
      omega

/-- A character that is in no field and not the separator is not in the line. -/
theorem not_mem_fields_line (c sep : Char) (last : Text) (hsep : c ≠ sep) (hlast : c ∉ last) :
    ∀ (fields : List Text), (∀ field ∈ fields, c ∉ field) →
      c ∉ (fields.map (fun f => f ++ [sep])).flatten ++ last := by
  intro fields
  induction fields with
  | nil =>
    intro _
    simpa using hlast
  | cons first rest ih =>
    intro h
    simp only [List.map_cons, List.flatten_cons, List.append_assoc, List.mem_append,
      List.mem_singleton, not_or]
    refine ⟨h first (List.mem_cons_self _ _), hsep, ?_⟩
    have := ih (fun f hf => h f (List.mem_cons_of_mem _ hf))
    simpa [List.mem_append, not_or] using this

/-- The handling of a first line of fields of any form, with a last field that
is empty or lacks the marker. -/
theorem header_of_fields (failedExtraction : ℚ) (fields : List Text) (last : Text)
    (hfields : ∀ field ∈ fields, ',' ∉ field)
    (hlast : ',' ∉ last)
    (hcounted : last = [] ∨ find last DVH_CSV_HEADER_VOLUME_FIELD_MIDDLE = npos) :
    ReadCsvToDoubleArrayNode.header failedExtraction
        ((fields.map (fun field => field ++ [','])).flatten ++ last)
      = ReadCsvToDoubleArrayNode.headerLoop failedExtraction fields
          { fieldCount := 0, structureNames := [], structureVolumeCCs := [] } := by
  have hskip : ¬ (last ≠ [] ∧ find last DVH_CSV_HEADER_VOLUME_FIELD_MIDDLE ≠ npos) := by
    rintro ⟨h1, h2⟩
    rcases hcounted with h | h
    · exact h1 h
    · exact h2 h
  unfold ReadCsvToDoubleArrayNode.header
  rw [splitLine_terminated_append ',' last hlast fields hfields]
  simp only [if_neg hskip]
  cases ReadCsvToDoubleArrayNode.headerLoop failedExtraction fields
      { fieldCount := 0, structureNames := [], structureVolumeCCs := [] } with
  | error e => rfl
  | ok state => rfl

/-- The loop that wraps arrays into nodes, for names and volumes given by a list
of entries. -/
theorem nodes_of_entries (state : HeaderState) :
    ∀ (arrays : List DvhArray) (entries before : List (Text × ℚ)),
      arrays.length = entries.length →
      state.structureNames = (before ++ entries).map Prod.fst →
      state.structureVolumeCCs = (before ++ entries).map Prod.snd →
      ReadCsvToDoubleArrayNode.nodes state arrays before.length
        = .ok (List.zipWith (fun (doubleArray : DvhArray) (entry : Text × ℚ) =>
            ({ doubleArray := doubleArray, structureVolumeCC := entry.2, segmentID := entry.1,
               Name := entry.1 ++ DVH_ARRAY_NODE_NAME_POSTFIX } : ImportedNode))
            arrays entries) := by
  intro arrays
  induction arrays with
  | nil =>
    intro entries before _ _ _
    rfl
  | cons doubleArray arrays ih =>
    intro entries before hlen hnames hvolumes
    cases entries with
    | nil => simp at hlen
    | cons entry entries =>
      have h1 : state.structureNames.get? before.length = some entry.1 := by
        rw [hnames, List.get?_eq_getElem?, List.map_append,
          List.getElem?_append_right (by simp)]
        simp
      have h2 : state.structureVolumeCCs.get? before.length = some entry.2 := by
        rw [hvolumes, List.get?_eq_getElem?, List.map_append,
          List.getElem?_append_right (by simp)]
        simp
      have h3 := ih entries (before ++ [entry]) (by simpa using hlen) (by simpa using hnames)
        (by simpa using hvolumes)
      rw [List.length_append, List.length_singleton] at h3
      rw [ReadCsvToDoubleArrayNode.nodes]
      simp only [h1, h2, vectorAt, bind, Except.bind, h3, pure, Except.pure, List.zipWith_cons_cons]

/-- Two relations on the two lists from which a list is zipped. -/
theorem forall₂_zipWith {α β γ : Type} (R : α → γ → Prop) (S : β → γ → Prop) (g : α → β → γ) :
    ∀ (as : List α) (bs : List β), as.length = bs.length →
      (∀ a ∈ as, ∀ b, R a (g a b)) → (∀ b ∈ bs, ∀ a, S b (g a b)) →
      List.Forall₂ R as (List.zipWith g as bs) ∧ List.Forall₂ S bs (List.zipWith g as bs) := by
  intro as
  induction as with
  | nil =>
    intro bs hlen _ _
    cases bs with
    | nil => exact ⟨List.Forall₂.nil, List.Forall₂.nil⟩
    | cons b bs => simp at hlen
  | cons a as ih =>
    intro bs hlen hR hS
    cases bs with
    | nil => simp at hlen
    | cons b bs =>
      obtain ⟨h1, h2⟩ := ih bs (by simpa using hlen)
        (fun x hx => hR x (List.mem_cons_of_mem _ hx))
        (fun x hx => hS x (List.mem_cons_of_mem _ hx))
      rw [List.zipWith_cons_cons]
      exact ⟨List.Forall₂.cons (hR a (List.mem_cons_self _ _) b) h1,
        List.Forall₂.cons (hS b (List.mem_cons_self _ _) a) h2⟩

/-- The table of `ExportDvhToCsv` is the table with its own header. -/
theorem ExportDvhToCsv_withHeader (doseUnitName : Text) (nodes : List ExportedStructure) :
    ExportDvhToCsv (some doseUnitName) nodes true
      = some (ExportDvhToCsv.withHeader (ExportDvhToCsv.header doseUnitName nodes true) nodes) :=
  ExportDvhToCsv_lines doseUnitName nodes true

/-- The lines that the reader gets from a table with another first line. -/
theorem getlines_withHeader (headerLine : Text) (nodes : List ExportedStructure)
    (hline : '\n' ∉ headerLine) (hheader : headerLine.length < 16384)
    (hlines : ∀ row, (ExportDvhToCsv.valueLine nodes true row).length < 16384) :
    getlines (ExportDvhToCsv.withHeader headerLine nodes)
      = headerLine :: (List.range' 0 (ExportDvhToCsv.maxNumberOfValues nodes).toNat).map
          (fun (row : ℕ) => ExportDvhToCsv.valueLine nodes true row) := by
  unfold ExportDvhToCsv.withHeader
  apply getlines_terminated
  · intro line hmem
    rcases List.mem_cons.mp hmem with rfl | hmem
    · exact hline
    · rw [List.mem_map] at hmem
      obtain ⟨row, _, rfl⟩ := hmem
      exact not_mem_valueLine_true _ _ _ (by decide) (by decide)
  · intro line hmem
    rcases List.mem_cons.mp hmem with rfl | hmem
    · exact hheader
    · rw [List.mem_map] at hmem
      obtain ⟨row, _, rfl⟩ := hmem
      exact hlines row

/-- The lines of values of an exported table, read into as many empty arrays as
the table has structures. -/
theorem valueLines_of_table (failedExtraction : ℚ) (nodes : List ExportedStructure)
    (count : ℕ) (hcount : count = nodes.length)
    (hins : ∀ node ∈ nodes, ∀ tuple ∈ node.doubleArray,
      ReadCsvToDoubleArrayNode.inserts tuple = true) :
    ReadCsvToDoubleArrayNode.valueLines failedExtraction
        ((List.range' 0 (ExportDvhToCsv.maxNumberOfValues nodes).toNat).map
          (fun (row : ℕ) => ExportDvhToCsv.valueLine nodes true row))
        0 (List.replicate count [])
      = .ok (nodes.map (fun node => node.doubleArray.map roundTuple)) := by
  have hinit : List.replicate count ([] : DvhArray)
      = nodes.map (fun node =>
        ((node.doubleArray.take 0).filter ReadCsvToDoubleArrayNode.inserts).map
          roundTuple) := by
    rw [hcount]
    simp only [List.take_zero, List.filter_nil, List.map_nil]
    symm
    rw [List.eq_replicate_iff]
    simp
  rw [hinit, valueLines_exported failedExtraction nodes
    (fun node hnode => noGap_of_inserts _ (hins node hnode))]
  simp only [Nat.zero_add]
  congr 1
  apply List.map_congr_left
  intro node hnode
  rw [List.take_of_length_le (length_le_maxNumberOfValues nodes node hnode),
    List.filter_eq_self.mpr (hins node hnode)]

/-- A relation that holds for all pairs may be replaced by one that follows from
it for the members of the first list. -/
theorem forall₂_imp_of_mem_left {α β : Type} (R S : α → β → Prop) :
    ∀ (as : List α) (bs : List β), (∀ a ∈ as, ∀ b, R a b → S a b) →
      List.Forall₂ R as bs → List.Forall₂ S as bs := by
  intro as bs himp h
  induction h with
  | nil => exact List.Forall₂.nil
  | cons hhead _ ih =>
    exact List.Forall₂.cons (himp _ (List.mem_cons_self _ _) _ hhead)
      (ih (fun a ha b hab => himp a (List.mem_cons_of_mem _ ha) b hab))

/-- The import of a table whose first line is made of fields of any form, when
no volume field makes `substr` throw: one node for every structure of the
table, with the tuples of the table and the name and the volume cut out of the
volume field of its place. -/
theorem readCsv_of_readable_header (failedExtraction : ℚ) (fields : List Text) (last : Text)
    (nodes : List ExportedStructure)
    (hfields : ∀ field ∈ fields, ',' ∉ field ∧ '\n' ∉ field)
    (hlast : ',' ∉ last ∧ '\n' ∉ last)
    (hcounted : last = [] ∨ find last DVH_CSV_HEADER_VOLUME_FIELD_MIDDLE = npos)
    (hcount : fields.length / 2 = nodes.length)
    (hheader : ((fields.map (fun field => field ++ [','])).flatten ++ last).length < 16384)
    (hlines : ∀ row, (ExportDvhToCsv.valueLine nodes true row).length < 16384)
    (hins : ∀ node ∈ nodes, ∀ tuple ∈ node.doubleArray,
      ReadCsvToDoubleArrayNode.inserts tuple = true)
    (hreadable : ∀ field ∈ ReadCsvToDoubleArrayNode.volumeFields 0 fields,
      find field DVH_CSV_HEADER_VOLUME_FIELD_MIDDLE ≠ npos ∨ 12 ≤ field.length) :
    ReadCsvToDoubleArrayNode failedExtraction
        (ExportDvhToCsv.withHeader ((fields.map (fun field => field ++ [','])).flatten ++ last)
          nodes)
      = .ok (List.zipWith (fun (doubleArray : DvhArray) (entry : Text × ℚ) =>
          ({ doubleArray := doubleArray, structureVolumeCC := entry.2, segmentID := entry.1,
             Name := entry.1 ++ DVH_ARRAY_NODE_NAME_POSTFIX } : ImportedNode))
          (nodes.map (fun node => node.doubleArray.map roundTuple))
          ((ReadCsvToDoubleArrayNode.volumeFields 0 fields).map
            (ReadCsvToDoubleArrayNode.entryOf failedExtraction))) := by
  have hshort : ∀ field ∈ fields, field.length < 16384 := fun field hmem =>
    lt_of_le_of_lt (length_le_of_mem_fields ',' last fields field hmem) hheader
  have hline : '\n' ∉ (fields.map (fun field => field ++ [','])).flatten ++ last :=
    not_mem_fields_line '\n' ',' last (by decide) hlast.2 fields
      (fun field hmem => (hfields field hmem).2)
  have hstate := headerLoop_of_readable failedExtraction fields
    { fieldCount := 0, structureNames := [], structureVolumeCCs := [] } hshort hreadable
  simp only [Nat.zero_add, List.nil_append] at hstate
  unfold ReadCsvToDoubleArrayNode
  rw [getlines_withHeader _ nodes hline hheader hlines]
  simp only
  rw [header_of_fields failedExtraction fields last (fun field hmem => (hfields field hmem).1)
    hlast.1 hcounted, hstate]
  simp only [bind, Except.bind]
  rw [valueLines_of_table failedExtraction nodes (fields.length / 2) hcount hins]
  simp only
  have hlen : (nodes.map (fun node => node.doubleArray.map roundTuple)).length
      = ((ReadCsvToDoubleArrayNode.volumeFields 0 fields).map
          (ReadCsvToDoubleArrayNode.entryOf failedExtraction)).length := by
    rw [List.length_map, List.length_map, volumeFields_length, ← hcount]
    omega
  have hnames : (ReadCsvToDoubleArrayNode.volumeFields 0 fields).map
      (fun field => (ReadCsvToDoubleArrayNode.entryOf failedExtraction field).1)
      = (([] : List (Text × ℚ)) ++ (ReadCsvToDoubleArrayNode.volumeFields 0 fields).map
          (ReadCsvToDoubleArrayNode.entryOf failedExtraction)).map Prod.fst := by
    rw [List.nil_append, List.map_map]
    rfl
  have hvolumes : (ReadCsvToDoubleArrayNode.volumeFields 0 fields).map
      (fun field => (ReadCsvToDoubleArrayNode.entryOf failedExtraction field).2)
      = (([] : List (Text × ℚ)) ++ (ReadCsvToDoubleArrayNode.volumeFields 0 fields).map
          (ReadCsvToDoubleArrayNode.entryOf failedExtraction)).map Prod.snd := by
    rw [List.nil_append, List.map_map]
    rfl
  exact nodes_of_entries _ _ _ [] hlen hnames hvolumes

/-- The import of a table whose first line is made of fields of any form, when
a volume field without the marker has fewer than 12 characters: the exception
of `substr` ends the import. -/
theorem readCsv_of_short_header (failedExtraction : ℚ) (fields : List Text) (last : Text)
    (nodes : List ExportedStructure)
    (hfields : ∀ field ∈ fields, ',' ∉ field ∧ '\n' ∉ field)
    (hlast : ',' ∉ last ∧ '\n' ∉ last)
    (hcounted : last = [] ∨ find last DVH_CSV_HEADER_VOLUME_FIELD_MIDDLE = npos)
    (hheader : ((fields.map (fun field => field ++ [','])).flatten ++ last).length < 16384)
    (hlines : ∀ row, (ExportDvhToCsv.valueLine nodes true row).length < 16384)
    (hbad : ∃ field ∈ ReadCsvToDoubleArrayNode.volumeFields 0 fields,
      find field DVH_CSV_HEADER_VOLUME_FIELD_MIDDLE = npos ∧ field.length < 12) :
    ReadCsvToDoubleArrayNode failedExtraction
        (ExportDvhToCsv.withHeader ((fields.map (fun field => field ++ [','])).flatten ++ last)
          nodes)
      = .error .out_of_range := by
  have hshort : ∀ field ∈ fields, field.length < 16384 := fun field hmem =>
    lt_of_le_of_lt (length_le_of_mem_fields ',' last fields field hmem) hheader
  have hline : '\n' ∉ (fields.map (fun field => field ++ [','])).flatten ++ last :=
    not_mem_fields_line '\n' ',' last (by decide) hlast.2 fields
      (fun field hmem => (hfields field hmem).2)
  have hstate := headerLoop_of_short failedExtraction fields
    { fieldCount := 0, structureNames := [], structureVolumeCCs := [] } hshort hbad
  unfold ReadCsvToDoubleArrayNode
  rw [getlines_withHeader _ nodes hline hheader hlines]
  simp only
  rw [header_of_fields failedExtraction fields last (fun field hmem => (hfields field hmem).1)
    hlast.1 hcounted, hstate]
  rfl

/-! ## Theorems on the check of the header by the reader (C23) -/

/-- Counterexample to C23. The table with the header `Dose,Structure volume,`
whose second field holds neither the marker nor the end of a volume field, and
the data line `1.000000,100.000000,`, is not rejected: the reader returns a
curve that carries the whole field as the name of its structure and the value
left by the failed extraction as its volume. -/
theorem ReadCsv_accepts_header_without_marker :
    find "Structure volume".toList DVH_CSV_HEADER_VOLUME_FIELD_MIDDLE = npos
    ∧ ReadCsvToDoubleArrayNode 0 ("Dose,Structure volume,\n" ++ "1.000000,100.000000,\n").toList
      = .ok [{ doubleArray := [(1, 100)], structureVolumeCC := 0,
               segmentID := "Structure volume".toList,
               Name := "Structure volume_DvhArray".toList }] :=
  ⟨by decide, readCsv_header_without_marker 0⟩

/-- C23, amended. The reader does not check the form of the header and rejects
no file. Take the table that `ExportDvhToCsv` writes with the comma delimiter
for structures whose tuples the reader does not take for empty, and put in the
place of its first line any line of fields without a comma and a line end, each
followed by a comma, and behind them a text without a comma and a line end that
is empty or lacks the marker (the reader leaves such a last field out), such
that half of the number of fields followed by a comma, rounded down, is the
number of structures, all lines fitting the line buffer. The volume fields are
every second field followed by a comma, from the second on. When one of them
lacks the marker and has fewer than 12 characters, `substr` throws
`std::out_of_range`, which is not caught. In every other case the import
returns one curve for every structure of the table, in order, with the tuples
of the table (read back from six decimals), and the curve of each place
carries the name and the volume cut out of the volume field of that place at
the position found for the marker; for a field without the marker the name is
the whole field, and the node name is the name followed by `_DvhArray`. -/
theorem ReadCsv_header_not_checked (failedExtraction : ℚ) (fields : List Text) (last : Text)
    (nodes : List ExportedStructure)
    (hfields : ∀ field ∈ fields, ',' ∉ field ∧ '\n' ∉ field)
    (hlast : ',' ∉ last ∧ '\n' ∉ last)
    (hcounted : last = [] ∨ find last DVH_CSV_HEADER_VOLUME_FIELD_MIDDLE = npos)
    (hcount : fields.length / 2 = nodes.length)
    (hheader : ((fields.map (fun field => field ++ [','])).flatten ++ last).length < 16384)
    (hlines : ∀ row, (ExportDvhToCsv.valueLine nodes true row).length < 16384)
    (hnonzero : ∀ node ∈ nodes, ∀ tuple ∈ node.doubleArray,
      roundTo 6 tuple.1 ≠ 0 ∨ roundTo 6 tuple.2 ≠ 0) :
    (∀ doseUnitName, ExportDvhToCsv (some doseUnitName) nodes true
      = some (ExportDvhToCsv.withHeader (ExportDvhToCsv.header doseUnitName nodes true) nodes))
    ∧ ((∃ field ∈ ReadCsvToDoubleArrayNode.volumeFields 0 fields,
          find field DVH_CSV_HEADER_VOLUME_FIELD_MIDDLE = npos ∧ field.length < 12) →
        ReadCsvToDoubleArrayNode failedExtraction
            (ExportDvhToCsv.withHeader
              ((fields.map (fun field => field ++ [','])).flatten ++ last) nodes)
          = .error .out_of_range)
    ∧ ((∀ field ∈ ReadCsvToDoubleArrayNode.volumeFields 0 fields,
          find field DVH_CSV_HEADER_VOLUME_FIELD_MIDDLE ≠ npos ∨ 12 ≤ field.length) →
        ∃ imported, ReadCsvToDoubleArrayNode failedExtraction
            (ExportDvhToCsv.withHeader
              ((fields.map (fun field => field ++ [','])).flatten ++ last) nodes)
          = .ok imported
        ∧ imported.length = nodes.length
        ∧ List.Forall₂ (fun node importedNode =>
            importedNode.doubleArray = node.doubleArray.map roundTuple
            ∧ SameWithin (1 / 1000000) node.doubleArray importedNode.doubleArray)
          nodes imported
        ∧ List.Forall₂ (fun field importedNode =>
            importedNode.segmentID
              = (ReadCsvToDoubleArrayNode.entryOf failedExtraction field).1
            ∧ importedNode.structureVolumeCC
              = (ReadCsvToDoubleArrayNode.entryOf failedExtraction field).2
            ∧ importedNode.Name = importedNode.segmentID ++ DVH_ARRAY_NODE_NAME_POSTFIX
            ∧ (find field DVH_CSV_HEADER_VOLUME_FIELD_MIDDLE = npos →
                importedNode.segmentID = field))
          (ReadCsvToDoubleArrayNode.volumeFields 0 fields) imported) := by
  have hins : ∀ node ∈ nodes, ∀ tuple ∈ node.doubleArray,
      ReadCsvToDoubleArrayNode.inserts tuple = true := by
    intro node hnode tuple htuple
    simpa [ReadCsvToDoubleArrayNode.inserts] using hnonzero node hnode tuple htuple
  have hshort : ∀ field ∈ fields, field.length < 16384 := fun field hmem =>
    lt_of_le_of_lt (length_le_of_mem_fields ',' last fields field hmem) hheader
  refine ⟨fun doseUnitName => ExportDvhToCsv_withHeader doseUnitName nodes, ?_, ?_⟩
  · intro hbad
    exact readCsv_of_short_header failedExtraction fields last nodes hfields hlast hcounted
      hheader hlines hbad
  · intro hreadable
    have hlen : (nodes.map (fun node => node.doubleArray.map roundTuple)).length
        = ((ReadCsvToDoubleArrayNode.volumeFields 0 fields).map
            (ReadCsvToDoubleArrayNode.entryOf failedExtraction)).length := by
      rw [List.length_map, List.length_map, volumeFields_length, ← hcount]
      omega
    obtain ⟨harrays, hentries⟩ := forall₂_zipWith
      (fun (doubleArray : DvhArray) (importedNode : ImportedNode) =>
        importedNode.doubleArray = doubleArray)
      (fun (entry : Text × ℚ) (importedNode : ImportedNode) =>
        importedNode.segmentID = entry.1 ∧ importedNode.structureVolumeCC = entry.2
          ∧ importedNode.Name = importedNode.segmentID ++ DVH_ARRAY_NODE_NAME_POSTFIX)
      (fun (doubleArray : DvhArray) (entry : Text × ℚ) =>
        ({ doubleArray := doubleArray, structureVolumeCC := entry.2, segmentID := entry.1,
           Name := entry.1 ++ DVH_ARRAY_NODE_NAME_POSTFIX } : ImportedNode))
      (nodes.map (fun node => node.doubleArray.map roundTuple))
      ((ReadCsvToDoubleArrayNode.volumeFields 0 fields).map
        (ReadCsvToDoubleArrayNode.entryOf failedExtraction)) hlen
      (fun _ _ _ => rfl) (fun _ _ _ => ⟨rfl, rfl, rfl⟩)
    refine ⟨_, readCsv_of_readable_header failedExtraction fields last nodes hfields hlast
      hcounted hcount hheader hlines hins hreadable, ?_, ?_, ?_⟩
    · rw [List.length_zipWith, ← hlen, min_self, List.length_map]
    · rw [List.forall₂_map_left_iff] at harrays
      refine List.Forall₂.imp ?_ harrays
      intro node importedNode h
      refine ⟨h, ?_⟩
      rw [h]
      exact sameWithin_map_roundTuple node.doubleArray
    · rw [List.forall₂_map_left_iff] at hentries
      refine forall₂_imp_of_mem_left _ _ _ _ ?_ hentries
      intro field hfield importedNode h
      refine ⟨h.1, h.2.1, h.2.2, ?_⟩
      intro hfind
      rw [h.1]
      exact entryOf_without_marker failedExtraction field
        (hshort field (mem_of_mem_volumeFields fields 0 field hfield)) hfind

/-- Witness of C23, amended: the table of the structure PTV with the first line
`Dose,Structure volume,Third field,More` in the place of its header: three
fields followed by a comma, the second one without the marker, and a last field
that the reader leaves out. -/
theorem ReadCsv_header_not_checked_witness :
    (∀ field ∈ ["Dose".toList, "Structure volume".toList, "Third field".toList],
      ',' ∉ field ∧ '\n' ∉ field)
    ∧ (',' ∉ "More".toList ∧ '\n' ∉ "More".toList)
    ∧ ("More".toList = [] ∨ find "More".toList DVH_CSV_HEADER_VOLUME_FIELD_MIDDLE = npos)
    ∧ ["Dose".toList, "Structure volume".toList, "Third field".toList].length / 2
        = [exportedPTV].length
    ∧ ((["Dose".toList, "Structure volume".toList, "Third field".toList].map
          (fun field => field ++ [','])).flatten ++ "More".toList).length < 16384
    ∧ (∀ row, (ExportDvhToCsv.valueLine [exportedPTV] true row).length < 16384)
    ∧ (∀ node ∈ [exportedPTV], ∀ tuple ∈ node.doubleArray,
        roundTo 6 tuple.1 ≠ 0 ∨ roundTo 6 tuple.2 ≠ 0)
    ∧ (["Dose".toList, "Structure volume".toList, "Third field".toList].map
          (fun field => field ++ [','])).flatten ++ "More".toList
        = "Dose,Structure volume,Third field,More".toList
    ∧ ReadCsvToDoubleArrayNode.volumeFields 0
          ["Dose".toList, "Structure volume".toList, "Third field".toList]
        = ["Structure volume".toList]
    ∧ ((∀ doseUnitName, ExportDvhToCsv (some doseUnitName) [exportedPTV] true
        = some (ExportDvhToCsv.withHeader
            (ExportDvhToCsv.header doseUnitName [exportedPTV] true) [exportedPTV]))
      ∧ ((∃ field ∈ ReadCsvToDoubleArrayNode.volumeFields 0
              ["Dose".toList, "Structure volume".toList, "Third field".toList],
            find field DVH_CSV_HEADER_VOLUME_FIELD_MIDDLE = npos ∧ field.length < 12) →
          ReadCsvToDoubleArrayNode 0
              (ExportDvhToCsv.withHeader
                ((["Dose".toList, "Structure volume".toList, "Third field".toList].map
                  (fun field => field ++ [','])).flatten ++ "More".toList) [exportedPTV])
            = .error .out_of_range)
      ∧ ((∀ field ∈ ReadCsvToDoubleArrayNode.volumeFields 0
              ["Dose".toList, "Structure volume".toList, "Third field".toList],
            find field DVH_CSV_HEADER_VOLUME_FIELD_MIDDLE ≠ npos ∨ 12 ≤ field.length) →
          ∃ imported, ReadCsvToDoubleArrayNode 0
              (ExportDvhToCsv.withHeader
                ((["Dose".toList, "Structure volume".toList, "Third field".toList].map
                  (fun field => field ++ [','])).flatten ++ "More".toList) [exportedPTV])
            = .ok imported
          ∧ imported.length = [exportedPTV].length
          ∧ List.Forall₂ (fun node importedNode =>
              importedNode.doubleArray = node.doubleArray.map roundTuple
              ∧ SameWithin (1 / 1000000) node.doubleArray importedNode.doubleArray)
            [exportedPTV] imported
          ∧ List.Forall₂ (fun field importedNode =>
              importedNode.segmentID = (ReadCsvToDoubleArrayNode.entryOf 0 field).1
              ∧ importedNode.structureVolumeCC = (ReadCsvToDoubleArrayNode.entryOf 0 field).2
              ∧ importedNode.Name = importedNode.segmentID ++ DVH_ARRAY_NODE_NAME_POSTFIX
              ∧ (find field DVH_CSV_HEADER_VOLUME_FIELD_MIDDLE = npos →
                  importedNode.segmentID = field))
            (ReadCsvToDoubleArrayNode.volumeFields 0
              ["Dose".toList, "Structure volume".toList, "Third field".toList]) imported)) :=
  ⟨by decide, by decide, Or.inr (by decide), by decide, by decide, exportedPTV_lines,
    exportedPTV_nonzero, by decide, by decide,
    ReadCsv_header_not_checked 0
      ["Dose".toList, "Structure volume".toList, "Third field".toList] "More".toList
      [exportedPTV] (by decide) (by decide) (Or.inr (by decide)) (by decide) (by decide)
      exportedPTV_lines exportedPTV_nonzero⟩

end SlicerRT
